import Mathlib

/-!
The jlog / jbuff package: a shallow embedding of the byte buffer and its binary codec,
of the log file with its four streams, their rotation and their file names, and of the
logger: the rendering of a record, the submission of a record and the worker.

Go values are embedded as follows.

* `byte` and the unsigned integer types are natural numbers; every place where the
  Go code truncates (a conversion `byte(x)`, arithmetic on `uint64`) carries an
  explicit `% 2 ^ w`.
* `int` parameters that the caller controls are integers (`Int`).
* A run-time panic is a value of `Panic`; a function that can panic returns
  `Except Panic _`.
* What the operating system answers (the clock, `os.OpenFile`, the writes of `bufio`,
  the walk of a directory) is a parameter (`Env`, `StartEnv`); what a call does to the
  streams and to the files is returned as a list of `Event`s.
* Channels are embedded by their content: the intake queue is the list of its records,
  a closed channel is a flag; the case that a `select` takes is a parameter, and a run of
  the pipeline is a list of `Action`s of the worker and of its callers.
* A slice is a window on a backing array.  `JBuffer.buf` is always resliced from
  index `0`, so the buffer is the backing array `arr` (its length is `cap(buf)`),
  the length `len` of `buf`, the read offset `off`, and the flag `isNil`
  (`buf == nil`).
-/

namespace Jbuff

/-! ## Run-time panics -/

/-- The panics of the Go run time and of the package that the embedding tells apart. -/
inductive Panic where
  | indexOutOfRange
  | sliceBounds
  | errTooLarge
  | negativeCount
  | truncateOutOfRange
  | nilDereference
  deriving DecidableEq, Repr

/-! ## byteconv.go -/

/-- Loop of `Bytes2Var` from index `i` with accumulator `v` over the bytes not yet
visited.  `v` is a `uint64`: both `v += val << (i*7)` and `v -= 0x80 << (i*7)` wrap
modulo `2 ^ 64`, and so do the two shifts. -/
def Bytes2VarLoop : List Nat → Nat → Nat → Nat × Int
  | [], _, _ => (0, -1)
  | val :: rest, i, v =>
    let v1 := (v + (val <<< (i * 7)) % 2 ^ 64) % 2 ^ 64
    if (i ≠ 9 ∧ val < 0x80) ∨ (i = 9 ∧ val < 2) then (v1, (i : Int) + 1)
    else Bytes2VarLoop rest (i + 1) ((v1 + 2 ^ 64 - (0x80 <<< (i * 7)) % 2 ^ 64) % 2 ^ 64)

/-- Go `func Bytes2Var(b []byte) (v uint64, n int)`. -/
def Bytes2Var (b : List Nat) : Nat × Int := Bytes2VarLoop b 0 0

/-- First loop of `VarToBytes`: the first `cnt` in `1..9` with `v < 1<<(7*cnt)`
(a `uint64` shift), and `10` when the loop runs to its end. -/
def varCnt (v : Nat) : Nat :=
  ((List.range' 1 9).find? (fun cnt => decide (v < (1 <<< (7 * cnt)) % 2 ^ 64))).getD 10

/-- The byte that the second loop of `VarToBytes` stores at index `i`. -/
def varByte (v cnt i : Nat) : Nat :=
  if i ≠ cnt - 1 then (((v >>> (7 * i)) &&& 0x7f) ||| 0x80) % 256
  else if i ≠ 9 then (v >>> (7 * i)) % 256
  else 1

/-- Go `func VarToBytes(v uint64, b []byte)`: the stores `b[i] = ...` for `i < cnt`; a
store past `len(b)` panics. -/
def VarToBytes (v : Nat) (b : List Nat) : Except Panic (List Nat) :=
  (List.range (varCnt v)).foldlM
    (fun b i => if i < b.length then pure (b.set i (varByte v (varCnt v) i))
      else throw Panic.indexOutOfRange) b

/-- The bytes that `VarToBytes` stores for `v`, in order. -/
def varBytes (v : Nat) : List Nat := (List.range (varCnt v)).map (varByte v (varCnt v))

/-- Loop computing the bit length: the result of `bits.Len64` on a value below
`2 ^ fuel`. -/
def bitLen : Nat → Nat → Nat
  | 0, _ => 0
  | fuel + 1, x => if x = 0 then 0 else bitLen fuel (x / 2) + 1

/-- Go `bits.Len64` of the Go standard library: the minimum number of bits needed to
represent `x`, and `0` for `x = 0`. -/
def Len64 (x : Nat) : Nat := bitLen 64 x

/-- Go `func Size(v uint64) int`: `int(9*uint32(bits.Len64(v))+64) / 64`. -/
def Size (v : Nat) : Nat := ((9 * (Len64 v % 2 ^ 32) + 64) % 2 ^ 32) / 64

/-- The table of the test `Varints convert` (buffer_test.go): a value and the byte
count expected for it. -/
def varintCases : List (Nat × Nat) :=
  [(0, 1), (2 ^ 7 - 1, 1), (2 ^ 7, 2), (2 ^ 8 - 1, 2), (2 ^ 8, 2), (2 ^ 14 - 1, 2),
   (2 ^ 14, 3), (2 ^ 16 - 1, 3), (2 ^ 16, 3), (2 ^ 21 - 1, 3), (2 ^ 21, 4),
   (2 ^ 28 - 1, 4), (2 ^ 28, 5), (2 ^ 32 - 1, 5), (2 ^ 32, 5), (2 ^ 35 - 1, 5),
   (2 ^ 35, 6), (2 ^ 42 - 1, 6), (2 ^ 42, 7), (2 ^ 49 - 1, 7), (2 ^ 49, 8),
   (2 ^ 56 - 1, 8), (2 ^ 56, 9), (2 ^ 63 - 1, 9), (2 ^ 63, 10), (2 ^ 64 - 1, 10)]

/-! ## encoding/binary (little endian), as used by byteconv.go -/

/-- Go `binary.LittleEndian.PutUint16(b, v)`: bounds check `_ = b[1]`, then the two
stores; the result is the slice after the stores. -/
def PutUint16 (b : List Nat) (v : Nat) : Except Panic (List Nat) :=
  if b.length < 2 then throw Panic.indexOutOfRange
  else pure ([v % 256, (v >>> 8) % 256] ++ b.drop 2)

/-- Go `binary.LittleEndian.PutUint32(b, v)`. -/
def PutUint32 (b : List Nat) (v : Nat) : Except Panic (List Nat) :=
  if b.length < 4 then throw Panic.indexOutOfRange
  else pure ([v % 256, (v >>> 8) % 256, (v >>> 16) % 256, (v >>> 24) % 256] ++ b.drop 4)

/-- Go `binary.LittleEndian.PutUint64(b, v)`. -/
def PutUint64 (b : List Nat) (v : Nat) : Except Panic (List Nat) :=
  if b.length < 8 then throw Panic.indexOutOfRange
  else pure ([v % 256, (v >>> 8) % 256, (v >>> 16) % 256, (v >>> 24) % 256,
    (v >>> 32) % 256, (v >>> 40) % 256, (v >>> 48) % 256, (v >>> 56) % 256] ++ b.drop 8)

/-- Go `binary.LittleEndian.Uint16(b)`: bounds check `_ = b[1]`, then
`uint16(b[0]) | uint16(b[1])<<8`. -/
def GetUint16 (b : List Nat) : Except Panic Nat :=
  if b.length < 2 then throw Panic.indexOutOfRange
  else pure (b.getD 0 0 ||| (b.getD 1 0 <<< 8) % 2 ^ 16)

/-- Go `binary.LittleEndian.Uint32(b)`. -/
def GetUint32 (b : List Nat) : Except Panic Nat :=
  if b.length < 4 then throw Panic.indexOutOfRange
  else pure (b.getD 0 0 ||| (b.getD 1 0 <<< 8) % 2 ^ 32 ||| (b.getD 2 0 <<< 16) % 2 ^ 32
    ||| (b.getD 3 0 <<< 24) % 2 ^ 32)

/-- Go `binary.LittleEndian.Uint64(b)`. -/
def GetUint64 (b : List Nat) : Except Panic Nat :=
  if b.length < 8 then throw Panic.indexOutOfRange
  else pure (b.getD 0 0 ||| (b.getD 1 0 <<< 8) % 2 ^ 64 ||| (b.getD 2 0 <<< 16) % 2 ^ 64
    ||| (b.getD 3 0 <<< 24) % 2 ^ 64 ||| (b.getD 4 0 <<< 32) % 2 ^ 64
    ||| (b.getD 5 0 <<< 40) % 2 ^ 64 ||| (b.getD 6 0 <<< 48) % 2 ^ 64
    ||| (b.getD 7 0 <<< 56) % 2 ^ 64)

/-- Conversion `uintW(i)` of a signed integer: its two's-complement bit pattern. -/
def toUint (w : Nat) (i : Int) : Nat := (i % 2 ^ w).toNat

/-- Conversion `intW(v)` of an unsigned `w`-bit value. -/
def toInt (w : Nat) (v : Nat) : Int := if v < 2 ^ (w - 1) then (v : Int) else (v : Int) - 2 ^ w

def Uint16ToBytes (i : Nat) (b : List Nat) : Except Panic (List Nat) := PutUint16 b i
def Uint32ToBytes (i : Nat) (b : List Nat) : Except Panic (List Nat) := PutUint32 b i
def Uint64ToBytes (i : Nat) (b : List Nat) : Except Panic (List Nat) := PutUint64 b i
def Int16ToBytes (i : Int) (b : List Nat) : Except Panic (List Nat) :=
  Uint16ToBytes (toUint 16 i) b
def Int32ToBytes (i : Int) (b : List Nat) : Except Panic (List Nat) :=
  Uint32ToBytes (toUint 32 i) b
def Int64ToBytes (i : Int) (b : List Nat) : Except Panic (List Nat) :=
  Uint64ToBytes (toUint 64 i) b
def Int8ToByte (i : Int) : Nat := toUint 8 i
def Byte2Int8 (b : Nat) : Int := toInt 8 b
def Bytes2Uint16 (b : List Nat) : Except Panic Nat := GetUint16 b
def Bytes2Uint32 (b : List Nat) : Except Panic Nat := GetUint32 b
def Bytes2Uint64 (b : List Nat) : Except Panic Nat := GetUint64 b
def Bytes2Int16 (b : List Nat) : Except Panic Int := do return toInt 16 (← Bytes2Uint16 b)
def Bytes2Int32 (b : List Nat) : Except Panic Int := do return toInt 32 (← Bytes2Uint32 b)
def Bytes2Int64 (b : List Nat) : Except Panic Int := do return toInt 64 (← Bytes2Uint64 b)

/-! ## jbuffer.go -/

/-- The `error` values that the buffer returns. -/
inductive GoError where
  | EOF
  | dataTruncated
  | typeSizeUnsupported
  | fillTypeSize
  | writeAtIndex
  | writeAtTypeSize
  | writeAtRange
  | writeAtType
  | copyParam
  | syntaxError
  | rangeError
  | writeFailed
  deriving DecidableEq, Repr

/-- Go `const smallBufferSize = 64`. -/
def smallBufferSize : Nat := 64

def BSize : Nat := 1
def WSize : Nat := 2
def DSize : Nat := 4
def QSize : Nat := 8

/-- Go `const maxInt = int(^uint(0) >> 1)` on a 64-bit platform. -/
def maxInt : Int := 2 ^ 63 - 1

/-- The built-in `copy(dst, src)`: the contents of `dst` afterwards.  The number of
bytes copied is `min (len dst) (len src)`. -/
def copyInto (dst src : List Nat) : List Nat := src.take dst.length ++ dst.drop src.length

/-- Go `type JBuffer struct { buf []byte; off int }`.  `buf` holds the bytes
`buf[0:len(buf)]`, `spare` the bytes of the backing array from `len(buf)` up to
`cap(buf)`; `nilPtr` tells whether a buffer of capacity `0` is the nil slice. -/
structure JBuffer where
  buf : List Nat
  spare : List Nat
  off : Nat
  nilPtr : Bool
  deriving DecidableEq, Repr

namespace JBuffer

/-- The zero value `JBuffer{}`. -/
def zero : JBuffer := { buf := [], spare := [], off := 0, nilPtr := true }

/-- Go `len(j.buf)`. -/
def len (j : JBuffer) : Nat := j.buf.length

/-- Go `func (j *JBuffer) Cap() int`. -/
def Cap (j : JBuffer) : Nat := j.buf.length + j.spare.length

/-- Go `j.buf == nil`. -/
def isNil (j : JBuffer) : Bool := j.nilPtr && j.buf.isEmpty && j.spare.isEmpty

/-- The backing array of `j.buf` resliced to length `k ≤ cap`. -/
def reslice (j : JBuffer) (k : Nat) : JBuffer :=
  { j with buf := (j.buf ++ j.spare).take k, spare := (j.buf ++ j.spare).drop k }

/-- The slice expression `j.buf = j.buf[:k]`. -/
def sliceTo (j : JBuffer) (k : Int) : Except Panic JBuffer :=
  if 0 ≤ k ∧ k ≤ (j.Cap : Int) then pure (j.reslice k.toNat) else throw Panic.sliceBounds

/-- The slice expression `j.buf[k:]`. -/
def sliceFrom (j : JBuffer) (k : Int) : Except Panic (List Nat) :=
  if 0 ≤ k ∧ k ≤ (j.len : Int) then pure (j.buf.drop k.toNat) else throw Panic.sliceBounds

/-- Stores through a slice `j.buf[m:]` that was changed to `w` (of the same length). -/
def setView (j : JBuffer) (m : Nat) (w : List Nat) : JBuffer :=
  { j with buf := j.buf.take m ++ w }

/-- Go `func (j *JBuffer) Bytes() []byte { return j.buf[j.off:] }`. -/
def Bytes (j : JBuffer) : Except Panic (List Nat) := j.sliceFrom j.off

/-- Go `func (j *JBuffer) empty() bool`. -/
def empty (j : JBuffer) : Bool := decide (j.len ≤ j.off)

/-- Go `func (j *JBuffer) Len() int`. -/
def Len (j : JBuffer) : Int := (j.len : Int) - (j.off : Int)

/-- Go `func (j *JBuffer) Reset()`. -/
def Reset (j : JBuffer) : JBuffer := { j.reslice 0 with off := 0 }

/-- Go `func (j *JBuffer) Truncate(n int)`. -/
def Truncate (j : JBuffer) (n : Int) : Except Panic JBuffer :=
  if n = 0 then pure j.Reset
  else if n < 0 ∨ n > j.Len then throw Panic.truncateOutOfRange
  else j.sliceTo ((j.off : Int) + n)

/-- Go `func (j *JBuffer) TrimNewline()`; `'\n'` is the byte `10`. -/
def TrimNewline (j : JBuffer) : JBuffer :=
  if 1 ≤ j.len then
    if j.buf.getD (j.len - 1) 0 = 10 then j.reslice (j.len - 1) else j
  else j

/-- Go `func (j *JBuffer) tryGrowByReslice(n int) (int, bool)`. -/
def tryGrowByReslice (j : JBuffer) (n : Int) : Except Panic (JBuffer × Int × Bool) :=
  if n ≤ (j.Cap : Int) - (j.len : Int) then do
    let j1 ← j.sliceTo ((j.len : Int) + n)
    pure (j1, (j.len : Int), true)
  else pure (j, 0, false)

/-- Go `func (j *JBuffer) grow(n int) int`.  `makeSlice` is taken to succeed whenever
the requested size is not negative. -/
def grow (j : JBuffer) (n : Int) : Except Panic (JBuffer × Int) := do
  let m := j.Len
  let j0 := if m = 0 ∧ j.off ≠ 0 then j.Reset else j
  let (j1, i, ok) ← j0.tryGrowByReslice n
  if ok then pure (j1, i)
  else if j1.isNil ∧ n ≤ (smallBufferSize : Int) then
    if n < 0 then throw Panic.sliceBounds
    else pure ({ j1 with buf := List.replicate n.toNat 0,
                         spare := List.replicate (smallBufferSize - n.toNat) 0,
                         nilPtr := false }, 0)
  else
    let c : Int := (j1.Cap : Int)
    if n ≤ c / 2 - m then do
      let src ← j1.sliceFrom j1.off
      let j2 := { j1 with buf := copyInto j1.buf src, off := 0 }
      let j3 ← j2.sliceTo (m + n)
      pure (j3, m)
    else if c > maxInt - c - n then throw Panic.errTooLarge
    else if 2 * c + n < 0 then throw Panic.errTooLarge
    else do
      let src ← j1.sliceFrom j1.off
      let j2 := { j1 with buf := copyInto (List.replicate (2 * c + n).toNat 0) src,
                          spare := [], off := 0, nilPtr := false }
      let j3 ← j2.sliceTo (m + n)
      pure (j3, m)

/-- Go `func (j *JBuffer) Grow(n int)`. -/
def Grow (j : JBuffer) (n : Int) : Except Panic JBuffer :=
  if n < 0 then throw Panic.negativeCount
  else do
    let (j1, m) ← j.grow n
    j1.sliceTo m

/-- Go `func (j *JBuffer) tryGrow(n int) int`. -/
def tryGrow (j : JBuffer) (n : Int) : Except Panic (JBuffer × Int) := do
  let (j1, m, ok) ← j.tryGrowByReslice n
  if ok then pure (j1, m) else j.grow n

/-- Go `func (j *JBuffer) Alloc(n int) []byte`: the buffer afterwards and the index `m`
of the returned slice `j.buf[m:]`. -/
def Alloc (j : JBuffer) (n : Int) : Except Panic (JBuffer × Nat) := do
  let (j1, m) ← j.tryGrow n
  let _ ← j1.sliceFrom m
  pure (j1, m.toNat)

/-- Go `func (j *JBuffer) Write(p []byte) (n int, err error)`. -/
def Write (j : JBuffer) (p : List Nat) : Except Panic (JBuffer × Int × Option GoError) := do
  let (j1, m) ← j.Alloc p.length
  let dst := j1.buf.drop m
  pure (j1.setView m (copyInto dst p), ((min dst.length p.length : Nat) : Int), none)

/-- Go `func (j *JBuffer) WriteString(s string) (n int, err error)`, on the bytes of
`s`. -/
def WriteString (j : JBuffer) (s : List Nat) :
    Except Panic (JBuffer × Int × Option GoError) := do
  let (j1, m) ← j.Alloc s.length
  let dst := j1.buf.drop m
  pure (j1.setView m (copyInto dst s), ((min dst.length s.length : Nat) : Int), none)

/-- Go `func (j *JBuffer) WriteUint64(i uint64)`. -/
def WriteUint64 (j : JBuffer) (i : Nat) : Except Panic JBuffer := do
  let (j1, m) ← j.Alloc QSize
  let w ← Uint64ToBytes i (j1.buf.drop m)
  pure (j1.setView m w)

/-- Go `func (j *JBuffer) WriteInt64(i int64)`. -/
def WriteInt64 (j : JBuffer) (i : Int) : Except Panic JBuffer := j.WriteUint64 (toUint 64 i)

/-- Go `func (j *JBuffer) WriteVar(i uint64)`. -/
def WriteVar (j : JBuffer) (i : Nat) : Except Panic JBuffer := do
  let (j1, m) ← j.Alloc (Size i)
  let w ← VarToBytes i (j1.buf.drop m)
  pure (j1.setView m w)

/-- Go `func (j *JBuffer) WriteUint32(i uint32)`. -/
def WriteUint32 (j : JBuffer) (i : Nat) : Except Panic JBuffer := do
  let (j1, m) ← j.Alloc DSize
  let w ← Uint32ToBytes i (j1.buf.drop m)
  pure (j1.setView m w)

/-- Go `func (j *JBuffer) WriteInt32(i int32)`. -/
def WriteInt32 (j : JBuffer) (i : Int) : Except Panic JBuffer := j.WriteUint32 (toUint 32 i)

/-- Go `func (j *JBuffer) WriteUint16(i uint16)`. -/
def WriteUint16 (j : JBuffer) (i : Nat) : Except Panic JBuffer := do
  let (j1, m) ← j.Alloc WSize
  let w ← Uint16ToBytes i (j1.buf.drop m)
  pure (j1.setView m w)

/-- Go `func (j *JBuffer) WriteInt16(i int16)`. -/
def WriteInt16 (j : JBuffer) (i : Int) : Except Panic JBuffer := j.WriteUint16 (toUint 16 i)

/-- Go `func (j *JBuffer) WriteByte(c byte) error`: `m := j.Alloc(BSize); m[0] = c`. -/
def WriteByte (j : JBuffer) (c : Nat) : Except Panic (JBuffer × Option GoError) := do
  let (j1, m) ← j.Alloc BSize
  let view := j1.buf.drop m
  if view.length = 0 then throw Panic.indexOutOfRange
  else pure (j1.setView m (view.set 0 c), none)

/-- Go `func (j *JBuffer) WriteInt8(i int8)`. -/
def WriteInt8 (j : JBuffer) (i : Int) : Except Panic JBuffer := do
  let (j1, _) ← j.WriteByte (Int8ToByte i)
  pure j1

/-- Go `func (j *JBuffer) Read(p []byte) (n int, err error)`: the buffer and `p`
afterwards, and the two results. -/
def Read (j : JBuffer) (p : List Nat) :
    Except Panic (JBuffer × List Nat × Int × Option GoError) :=
  if j.empty then
    if p.length = 0 then pure (j.Reset, p, 0, none)
    else pure (j.Reset, p, 0, some GoError.EOF)
  else do
    let src ← j.sliceFrom j.off
    let n := min p.length src.length
    pure ({ j with off := j.off + n }, copyInto p src, (n : Int), none)

/-- Go `func (j *JBuffer) Next(n int) []byte`. -/
def Next (j : JBuffer) (n : Int) : Except Panic (JBuffer × List Nat) :=
  let m := j.Len
  let n1 := if n > m then m else n
  if n1 < 0 ∨ (j.off : Int) + n1 > (j.Cap : Int) then throw Panic.sliceBounds
  else pure ({ j with off := j.off + n1.toNat },
    ((j.buf ++ j.spare).take (j.off + n1.toNat)).drop j.off)

/-- Go `func (j *JBuffer) ReadByte() (byte, error)`. -/
def ReadByte (j : JBuffer) : Except Panic (JBuffer × Nat × Option GoError) :=
  if j.empty then pure (j.Reset, 0, some GoError.EOF)
  else
    match j.buf.get? j.off with
    | some c => pure ({ j with off := j.off + 1 }, c, none)
    | none => throw Panic.indexOutOfRange

/-- Go `func (j *JBuffer) ReadInt8() (int8, error)`. -/
def ReadInt8 (j : JBuffer) : Except Panic (JBuffer × Int × Option GoError) := do
  let (j1, v, err) ← j.ReadByte
  pure (j1, Byte2Int8 v, err)

/-- Go `func (j *JBuffer) ReadUint64() (uint64, error)`. -/
def ReadUint64 (j : JBuffer) : Except Panic (JBuffer × Nat × Option GoError) :=
  if j.empty then pure (j.Reset, 0, some GoError.EOF)
  else do
    let v ← Bytes2Uint64 (← j.sliceFrom j.off)
    pure ({ j with off := j.off + QSize }, v, none)

/-- Go `func (j *JBuffer) ReadInt64() (int64, error)`. -/
def ReadInt64 (j : JBuffer) : Except Panic (JBuffer × Int × Option GoError) := do
  let (j1, v, err) ← j.ReadUint64
  pure (j1, toInt 64 v, err)

/-- Go `func (j *JBuffer) ReadVarint() (uint64, error)`. -/
def ReadVarint (j : JBuffer) : Except Panic (JBuffer × Nat × Option GoError) :=
  if j.empty then pure (j.Reset, 0, some GoError.EOF)
  else do
    let b ← j.sliceFrom j.off
    let (v, n) := Bytes2Var b
    if n = -1 then pure (j, 0, some GoError.dataTruncated)
    else pure ({ j with off := j.off + n.toNat }, v, none)

/-- Go `func (j *JBuffer) ReadUint32() (uint32, error)`. -/
def ReadUint32 (j : JBuffer) : Except Panic (JBuffer × Nat × Option GoError) :=
  if j.empty then pure (j.Reset, 0, some GoError.EOF)
  else do
    let v ← Bytes2Uint32 (← j.sliceFrom j.off)
    pure ({ j with off := j.off + DSize }, v, none)

/-- Go `func (j *JBuffer) ReadInt32() (int32, error)`. -/
def ReadInt32 (j : JBuffer) : Except Panic (JBuffer × Int × Option GoError) := do
  let (j1, v, err) ← j.ReadUint32
  pure (j1, toInt 32 v, err)

/-- Go `func (j *JBuffer) ReadUint16() (uint16, error)`. -/
def ReadUint16 (j : JBuffer) : Except Panic (JBuffer × Nat × Option GoError) :=
  if j.empty then pure (j.Reset, 0, some GoError.EOF)
  else do
    let v ← Bytes2Uint16 (← j.sliceFrom j.off)
    pure ({ j with off := j.off + WSize }, v, none)

/-- Go `func (j *JBuffer) ReadInt16() (int16, error)`. -/
def ReadInt16 (j : JBuffer) : Except Panic (JBuffer × Int × Option GoError) := do
  let (j1, v, err) ← j.ReadUint16
  pure (j1, toInt 16 v, err)

end JBuffer

/-! ## Predicates used to state what the writers guarantee -/

namespace JBuffer

/-- What `Alloc(n)` guarantees when it returns the slice `j1.buf[m:]`: the read offset
is at most `m`, the slice has length `n`, the unread bytes before `m` are those of `j`,
and the capacity is unchanged, is `smallBufferSize`, or is `2*cap + n`. -/
def AllocPost (j j1 : JBuffer) (m n : Nat) : Prop :=
  j1.off ≤ m ∧ j1.buf.length = m + n ∧ (j1.buf.take m).drop j1.off = j.buf.drop j.off ∧
  m ≤ j.len ∧ j.Cap ≤ j1.Cap ∧
  (j1.Cap = j.Cap ∨ j1.Cap = 64 ∨ (j1.Cap = 2 * j.Cap + n ∧ j.Cap < j.len + n))

/-- The buffer `j2` holds the unread bytes of `j` followed by `bs`. -/
def Appended (j j2 : JBuffer) (bs : List Nat) : Prop :=
  j2.off ≤ j2.len ∧ j2.buf.drop j2.off = j.buf.drop j.off ++ bs ∧ j.Cap ≤ j2.Cap ∧
  j2.len ≤ j.len + bs.length ∧
  (j2.Cap = j.Cap ∨ j2.Cap = 64 ∨
    (j2.Cap = 2 * j.Cap + bs.length ∧ j.Cap < j.len + bs.length))

end JBuffer

/-- The little-endian bytes of a `w`-byte value: byte `k` is `(x >> 8k) mod 256`. -/
def leBytes (w x : Nat) : List Nat := (List.range w).map (fun k => (x >>> (8 * k)) % 256)

/-- The little-endian bytes of a signed value, by arithmetic shift of the integer:
byte `k` is `(x >> 8k) mod 256`. -/
def leBytesInt (w : Nat) (x : Int) : List Nat :=
  (List.range w).map (fun (k : Nat) => ((x >>> (8 * k)) % 256).toNat)

/-! ## Write/Read sequences and the FIFO byte queue they are compared with -/

/-- A call of `Write(p)` or of `Read(p)`. -/
inductive Op where
  | write (p : List Nat)
  | read (p : List Nat)
  deriving DecidableEq, Repr

/-- What a call returned: `(n, err)` of `Write`; the `n` bytes that `Read` stored in
`p` and `(n, err)`. -/
inductive Ret where
  | write (n : Int) (err : Option GoError)
  | read (data : List Nat) (n : Int) (err : Option GoError)
  deriving DecidableEq, Repr

/-- One call on the buffer. -/
def stepBuf (j : JBuffer) : Op → Except Panic (JBuffer × Ret)
  | Op.write p => do
    let (j1, n, err) ← j.Write p
    pure (j1, Ret.write n err)
  | Op.read p => do
    let (j1, p1, n, err) ← j.Read p
    pure (j1, Ret.read (p1.take n.toNat) n err)

/-- A sequence of calls on the buffer, with everything they returned. -/
def runBuf : JBuffer → List Op → Except Panic (JBuffer × List Ret)
  | j, [] => pure (j, [])
  | j, op :: ops => do
    let (j1, r) ← stepBuf j op
    let (j2, rs) ← runBuf j1 ops
    pure (j2, r :: rs)

/-- FIFO byte queue, `Write`: the bytes are added at the end; the result is
`(len(p), nil)`. -/
def queueWrite (q p : List Nat) : List Nat × Ret := (q ++ p, Ret.write p.length none)

/-- FIFO byte queue, `Read`: `min(len(p), Len())` bytes are taken from the front;
`io.EOF` exactly when the queue is empty and `len(p) > 0`. -/
def queueRead (q p : List Nat) : List Nat × Ret :=
  let n := min p.length q.length
  (q.drop n, Ret.read (q.take n) n (if q = [] ∧ 0 < p.length then some GoError.EOF else none))

/-- One call on the queue. -/
def stepQueue (q : List Nat) : Op → List Nat × Ret
  | Op.write p => queueWrite q p
  | Op.read p => queueRead q p

/-- A sequence of calls on the queue. -/
def runQueue : List Nat → List Op → List Nat × List Ret
  | q, [] => (q, [])
  | q, op :: ops =>
    let (q1, r) := stepQueue q op
    let (q2, rs) := runQueue q1 ops
    (q2, r :: rs)

/-- All bytes written by a sequence of calls, in order. -/
def written : List Op → List Nat
  | [] => []
  | Op.write p :: ops => p ++ written ops
  | Op.read _ :: ops => written ops

/-- All bytes returned by the reads, in order. -/
def readBack : List Ret → List Nat
  | [] => []
  | Ret.write _ _ :: rs => readBack rs
  | Ret.read data _ _ :: rs => data ++ readBack rs

/-! ## Fixed-width values -/

/-- A value of one of the fixed-width integer types. -/
inductive Fixed where
  | int8 (x : Int)
  | uint8 (x : Nat)
  | int16 (x : Int)
  | uint16 (x : Nat)
  | int32 (x : Int)
  | uint32 (x : Nat)
  | int64 (x : Int)
  | uint64 (x : Nat)
  deriving DecidableEq, Repr

namespace Fixed

/-- The value lies in the range of its Go type. -/
def valid : Fixed → Prop
  | int8 x => -2 ^ 7 ≤ x ∧ x < 2 ^ 7
  | uint8 x => x < 2 ^ 8
  | int16 x => -2 ^ 15 ≤ x ∧ x < 2 ^ 15
  | uint16 x => x < 2 ^ 16
  | int32 x => -2 ^ 31 ≤ x ∧ x < 2 ^ 31
  | uint32 x => x < 2 ^ 32
  | int64 x => -2 ^ 63 ≤ x ∧ x < 2 ^ 63
  | uint64 x => x < 2 ^ 64

instance (v : Fixed) : Decidable v.valid := by
  cases v <;> unfold valid <;> infer_instance

/-- Size in bytes (`BSize`, `WSize`, `DSize`, `QSize`). -/
def size : Fixed → Nat
  | int8 _ => BSize
  | uint8 _ => BSize
  | int16 _ => WSize
  | uint16 _ => WSize
  | int32 _ => DSize
  | uint32 _ => DSize
  | int64 _ => QSize
  | uint64 _ => QSize

end Fixed

/-- The `Write<T>` method matching the type of the value. -/
def writeFixed (j : JBuffer) : Fixed → Except Panic JBuffer
  | Fixed.int8 x => j.WriteInt8 x
  | Fixed.uint8 x => do
    let (j1, _) ← j.WriteByte x
    pure j1
  | Fixed.int16 x => j.WriteInt16 x
  | Fixed.uint16 x => j.WriteUint16 x
  | Fixed.int32 x => j.WriteInt32 x
  | Fixed.uint32 x => j.WriteUint32 x
  | Fixed.int64 x => j.WriteInt64 x
  | Fixed.uint64 x => j.WriteUint64 x

/-- The `Read<T>` method matching the type of the value `t` (whose payload is not
used): the value read and the error. -/
def readFixed (j : JBuffer) (t : Fixed) : Except Panic (JBuffer × Fixed × Option GoError) :=
  match t with
  | Fixed.int8 _ => do
    let (j1, v, err) ← j.ReadInt8
    pure (j1, Fixed.int8 v, err)
  | Fixed.uint8 _ => do
    let (j1, v, err) ← j.ReadByte
    pure (j1, Fixed.uint8 v, err)
  | Fixed.int16 _ => do
    let (j1, v, err) ← j.ReadInt16
    pure (j1, Fixed.int16 v, err)
  | Fixed.uint16 _ => do
    let (j1, v, err) ← j.ReadUint16
    pure (j1, Fixed.uint16 v, err)
  | Fixed.int32 _ => do
    let (j1, v, err) ← j.ReadInt32
    pure (j1, Fixed.int32 v, err)
  | Fixed.uint32 _ => do
    let (j1, v, err) ← j.ReadUint32
    pure (j1, Fixed.uint32 v, err)
  | Fixed.int64 _ => do
    let (j1, v, err) ← j.ReadInt64
    pure (j1, Fixed.int64 v, err)
  | Fixed.uint64 _ => do
    let (j1, v, err) ← j.ReadUint64
    pure (j1, Fixed.uint64 v, err)

/-- The values written one after the other. -/
def writeAll : JBuffer → List Fixed → Except Panic JBuffer
  | j, [] => pure j
  | j, v :: vs => do
    let j1 ← writeFixed j v
    writeAll j1 vs

/-- The values read one after the other with the methods matching `ts`. -/
def readAll : JBuffer → List Fixed → Except Panic (JBuffer × List (Fixed × Option GoError))
  | j, [] => pure (j, [])
  | j, t :: ts => do
    let (j1, v, err) ← readFixed j t
    let (j2, rs) ← readAll j1 ts
    pure (j2, (v, err) :: rs)

/-- Total number of bytes of a list of fixed-width values. -/
def totalSize (vs : List Fixed) : Nat := (vs.map Fixed.size).sum

namespace Fixed

/-- The bytes that the matching `Write<T>` method appends for a value. -/
def bytes : Fixed → List Nat
  | int8 x => [toUint 8 x]
  | uint8 x => [x]
  | int16 x => leBytes 2 (toUint 16 x)
  | uint16 x => leBytes 2 x
  | int32 x => leBytes 4 (toUint 32 x)
  | uint32 x => leBytes 4 x
  | int64 x => leBytes 8 (toUint 64 x)
  | uint64 x => leBytes 8 x

end Fixed

/-- The bytes of a list of values, one after the other. -/
def allBytes : List Fixed → List Nat
  | [] => []
  | v :: vs => v.bytes ++ allBytes vs

/-- Size bookkeeping along a sequence of writes, `W` being the number of bytes written
so far: the length is at most `W` and the capacity at most `64 + 3 * W`. -/
def Fits (j : JBuffer) (W : Nat) : Prop :=
  j.off ≤ j.len ∧ j.len ≤ W ∧ j.Cap ≤ 64 + 3 * W

/-- The outcome `r` of a writer called on `j` either is a buffer holding the unread
bytes of `j` followed by `bs`, or is the panic `ErrTooLarge` of `grow`, which needs
`2*cap + len(bs) > maxInt`. -/
def AppendsBytes (j : JBuffer) (r : Except Panic JBuffer) (bs : List Nat) : Prop :=
  (∃ (j2 : JBuffer) (old : List Nat), r = .ok j2 ∧ j.Bytes = .ok old ∧
    j2.Bytes = .ok (old ++ bs) ∧ j2.off ≤ j2.len) ∨
  (r = .error Panic.errTooLarge ∧ maxInt < 2 * (j.Cap : Int) + bs.length)

/-! ## size.go: TypeSize, WriteAt; FillTypeSize, CopyR, Copy, the text appends -/

/-- The dynamic values that the type switches of `TypeSize`, `WriteAt` and `write`
tell apart.  `val v` is a value of one of the types `int8 .. uint64`, `ptr v` a non-nil
pointer to such a value, `nilPtr t` the nil pointer of the pointer type of `t` (the
payload of `t` is not used); `other` stands for every other type. -/
inductive Arg where
  | bool (b : Bool)
  | ptrBool (b : Bool)
  | nilBool
  | sliceBool (l : List Bool)
  | val (v : Fixed)
  | ptr (v : Fixed)
  | nilPtr (t : Fixed)
  | sliceInt8 (l : List Int)
  | sliceUint8 (l : List Nat)
  | sliceInt16 (l : List Int)
  | sliceUint16 (l : List Nat)
  | sliceInt32 (l : List Int)
  | sliceUint32 (l : List Nat)
  | sliceInt64 (l : List Int)
  | sliceUint64 (l : List Nat)
  | string (s : List Nat)
  | other
  deriving DecidableEq, Repr

/-- Go `func TypeSize(data interface{}) (int, error)`. -/
def TypeSize : Arg → Nat × Option GoError
  | Arg.bool _ => (BSize, none)
  | Arg.ptrBool _ => (BSize, none)
  | Arg.nilBool => (BSize, none)
  | Arg.sliceBool l => (l.length, none)
  | Arg.val v => (v.size, none)
  | Arg.ptr v => (v.size, none)
  | Arg.nilPtr t => (t.size, none)
  | Arg.sliceInt8 l => (l.length, none)
  | Arg.sliceUint8 l => (l.length, none)
  | Arg.sliceInt16 l => (WSize * l.length, none)
  | Arg.sliceUint16 l => (WSize * l.length, none)
  | Arg.sliceInt32 l => (DSize * l.length, none)
  | Arg.sliceUint32 l => (DSize * l.length, none)
  | Arg.sliceInt64 l => (QSize * l.length, none)
  | Arg.sliceUint64 l => (QSize * l.length, none)
  | Arg.string s => (s.length, none)
  | Arg.other => (0, some GoError.typeSizeUnsupported)

/-- The store of one case of the type switch of `WriteAt` through the slice
`j.buf[m:]`: `j.buf[m] = uint8(d)` for the one-byte types, `binaryOrder.PutUintN` for
the others. -/
def putFixed (view : List Nat) : Fixed → Except Panic (List Nat)
  | Fixed.int8 x =>
    if view.length = 0 then throw Panic.indexOutOfRange else pure (view.set 0 (toUint 8 x))
  | Fixed.uint8 x =>
    if view.length = 0 then throw Panic.indexOutOfRange else pure (view.set 0 x)
  | Fixed.int16 x => PutUint16 view (toUint 16 x)
  | Fixed.uint16 x => PutUint16 view x
  | Fixed.int32 x => PutUint32 view (toUint 32 x)
  | Fixed.uint32 x => PutUint32 view x
  | Fixed.int64 x => PutUint64 view (toUint 64 x)
  | Fixed.uint64 x => PutUint64 view x

/-- Loop of `CopyR`: `for i := ...; i >= d; i-- { j.buf[i] = j.buf[i-step] }`, entered
at index `i` with `n` iterations left; an index outside `buf` panics. -/
def copyRLoop (step : Int) : Nat → Int → List Nat → Except Panic (List Nat)
  | 0, _, buf => pure buf
  | n + 1, i, buf =>
    if i < 0 ∨ (buf.length : Int) ≤ i ∨ i - step < 0 ∨ (buf.length : Int) ≤ i - step then
      throw Panic.indexOutOfRange
    else copyRLoop step n (i - 1) (buf.set i.toNat (buf.getD (i - step).toNat 0))

/-- The loop `formatBits` of `strconv` for base 10: the decimal digits of `u` (ASCII)
in front of `acc`; `fuel` bounds the number of digits. -/
def formatBits : Nat → Nat → List Nat → List Nat
  | 0, u, acc => (48 + u % 10) :: acc
  | fuel + 1, u, acc =>
    if 10 ≤ u then formatBits fuel (u / 10) ((48 + u % 10) :: acc) else (48 + u) :: acc

/-- The bytes of `strconv.FormatUint(u, 10)` for a `uint64`. -/
def formatUint (u : Nat) : List Nat := formatBits 20 u []

/-- The bytes of `strconv.FormatInt(i, 10)` for an `int64`: a minus sign (`45`) in
front of the digits of `-i` when `i` is negative. -/
def formatInt (i : Int) : List Nat :=
  if i < 0 then 45 :: formatUint (-i).toNat else formatUint i.toNat

/-- The bytes of `strconv.FormatBool(v)`: `"true"` or `"false"`. -/
def formatBool (v : Bool) : List Nat :=
  if v then [116, 114, 117, 101] else [102, 97, 108, 115, 101]

/-- The value of a string of decimal digits (ASCII), read from the left. -/
def decimalValue (ds : List Nat) : Nat := ds.foldl (fun a d => 10 * a + (d - 48)) 0

namespace JBuffer

/-- Go `func (j *JBuffer) WriteAt(a interface{}, m int) error`. -/
def WriteAt (j : JBuffer) (a : Arg) (m : Int) : Except Panic (JBuffer × Option GoError) :=
  if m < (j.off : Int) then pure (j, some GoError.writeAtIndex)
  else
    match TypeSize a with
    | (_, some _) => pure (j, some GoError.writeAtTypeSize)
    | (size, none) =>
      if m ≥ (j.len : Int) ∨ m + (size : Int) > (j.len : Int) then
        pure (j, some GoError.writeAtRange)
      else
        match a with
        | Arg.val v => do
          let w ← putFixed (j.buf.drop m.toNat) v
          pure (j.setView m.toNat w, none)
        | Arg.ptr v => do
          let w ← putFixed (j.buf.drop m.toNat) v
          pure (j.setView m.toNat w, none)
        | Arg.nilPtr _ => throw Panic.nilDereference
        | _ => pure (j, some GoError.writeAtType)

/-- Go `func (j *JBuffer) FillTypeSize(a interface{}) (int, error)`. -/
def FillTypeSize (j : JBuffer) (a : Arg) : Except Panic (JBuffer × Int × Option GoError) :=
  match TypeSize a with
  | (_, some _) => pure (j, 0, some GoError.fillTypeSize)
  | (size, none) => do
    let (j1, m) ← j.tryGrow size
    pure (j1, m, none)

/-- Go `func (j *JBuffer) CopyR(d, s int) error`. -/
def CopyR (j : JBuffer) (d s : Int) : Except Panic (JBuffer × Option GoError) :=
  if s ≥ d ∨ s > j.Len ∨ d < (j.off : Int) then pure (j, some GoError.copyParam)
  else do
    let step := d - s
    let (j1, _) ← j.Alloc step
    let hi := j1.Len - 1
    let buf ← copyRLoop step (hi - d + 1).toNat hi j1.buf
    pure ({ j1 with buf := buf }, none)

/-- Go `func (j *JBuffer) Copy(d, s int) error`: `copy(j.buf[d:], j.buf[s:])`. -/
def Copy (j : JBuffer) (d s : Int) : Except Panic (JBuffer × Option GoError) :=
  if d ≥ s ∨ d > j.Len ∨ s < (j.off : Int) then pure (j, some GoError.copyParam)
  else do
    let dst ← j.sliceFrom d
    let src ← j.sliceFrom s
    pure (j.setView d.toNat (copyInto dst src), none)

/-- The built-in `append(j.buf, bs...)` assigned to `j.buf`: in place when the capacity
suffices; otherwise the run time allocates a new array, whose unused capacity `extra`
is not fixed by the language. -/
def appendBytes (j : JBuffer) (bs : List Nat) (extra : Nat) : JBuffer :=
  if bs.length ≤ j.spare.length then
    { j with buf := j.buf ++ bs, spare := j.spare.drop bs.length }
  else { j with buf := j.buf ++ bs, spare := List.replicate extra 0, nilPtr := false }

/-- Go `func (j *JBuffer) AppendInt(i int64)`:
`j.buf = strconv.AppendInt(j.buf, i, 10)`. -/
def AppendInt (j : JBuffer) (i : Int) (extra : Nat) : JBuffer :=
  j.appendBytes (formatInt i) extra

/-- Go `func (j *JBuffer) AppendUint(i uint64)`. -/
def AppendUint (j : JBuffer) (i : Nat) (extra : Nat) : JBuffer :=
  j.appendBytes (formatUint i) extra

/-- Go `func (j *JBuffer) AppendBool(v bool)`. -/
def AppendBool (j : JBuffer) (v : Bool) (extra : Nat) : JBuffer :=
  j.appendBytes (formatBool v) extra

end JBuffer


/-- The calls of the test `writeAt` (buffer_test.go) for any bytes `p` written first and
any string `s` written after the reserved field: `Write(p)`,
`m, e1 := FillTypeSize(int32(y))`, `WriteString(s)`, `e2 := WriteAt(int32(v), m)`; the
result is `(m, e1, e2, Bytes())`. -/
def reserveThenPatch (j : JBuffer) (p : List Nat) (y : Int) (s : List Nat) (v : Int) :
    Except Panic (Int × Option GoError × Option GoError × List Nat) := do
  let (j1, _, _) ← j.Write p
  let (j2, m, e1) ← j1.FillTypeSize (Arg.val (Fixed.int32 y))
  let (j3, _, _) ← j2.WriteString s
  let (j4, e2) ← j3.WriteAt (Arg.val (Fixed.int32 v)) m
  let bs ← j4.Bytes
  pure (m, e1, e2, bs)

/-- The test `writeAt` (buffer_test.go) on the zero-value buffer after `Reset()`:
the value of `buffer.Bytes()` at its end. -/
def writeAtTest : Except Panic (List Nat) := do
  let j0 := JBuffer.zero.Reset
  let j1 ← j0.WriteInt32 (-12345)
  let (j2, m, _) ← j1.FillTypeSize (Arg.val (Fixed.int32 12))
  let (j3, _, _) ← j2.WriteString [72, 101, 108, 108, 111, 33]
  let (j4, _) ← j3.WriteAt (Arg.val (Fixed.int32 256)) m
  j4.Bytes

/-- The two calls `CopyR(s+2, s)` and `WriteAt(v, s)` of the test `CopyR`
(buffer_test.go), for any offset `s` and value `v`: the two errors returned and
`Bytes()` afterwards. -/
def insertAt (j : JBuffer) (s : Int) (v : Fixed) :
    Except Panic (Option GoError × Option GoError × List Nat) := do
  let (j1, e1) ← j.CopyR (s + 2) s
  let (j2, e2) ← j1.WriteAt (Arg.val v) s
  let bs ← j2.Bytes
  pure (e1, e2, bs)

/-- The calls `WriteUint16(uint16(i))` for `i` from `lo` up to `lo + n - 1`. -/
def writeUint16s : Nat → Nat → JBuffer → Except Panic JBuffer
  | 0, _, j => pure j
  | n + 1, lo, j => do
    let j1 ← j.WriteUint16 lo
    writeUint16s n (lo + 1) j1

/-- The test `CopyR` (buffer_test.go) on the zero-value buffer after `Reset()`: the
values of `buffer.Bytes()` at its two expectations. -/
def copyRTest : Except Panic (List Nat × List Nat) := do
  let j0 ← writeUint16s 10 0 JBuffer.zero.Reset
  let (j1, _) ← j0.CopyR 10 8
  let (j2, _) ← j1.WriteAt (Arg.val (Fixed.uint16 9)) 8
  let b1 ← j2.Bytes
  let (j3, _) ← j2.CopyR 2 0
  let (j4, _) ← j3.WriteAt (Arg.val (Fixed.uint16 3)) 0
  let b2 ← j4.Bytes
  pure (b1, b2)

/-- The values `0, 1, 2, 3` written as 16-bit values into the zero-value buffer, then
`CopyR(s+2, s)`, then `WriteAt(uint16(9), s)`: the two errors and `Bytes()`. -/
def shiftPatchFour (s : Int) : Except Panic (Option GoError × Option GoError × List Nat) := do
  let j0 ← writeUint16s 4 0 JBuffer.zero
  insertAt j0 s (Fixed.uint16 9)

/-- The integer that a fixed-width value denotes. -/
def Fixed.value : Fixed → Int
  | Fixed.int8 x => x
  | Fixed.uint8 x => (x : Int)
  | Fixed.int16 x => x
  | Fixed.uint16 x => (x : Int)
  | Fixed.int32 x => x
  | Fixed.uint32 x => (x : Int)
  | Fixed.int64 x => x
  | Fixed.uint64 x => (x : Int)

/-- The test `show number in human style` (buffer_test.go) up to its second
expectation, on the zero-value buffer after `Reset()`: `AppendInt(12345)`, then
`AppendBool(true)`; the values of `Bytes()` after each call.  The run time gives the
arrays of 5 and 9 bytes the capacities 8 and 16. -/
def humanStyleTest : Except Panic (List Nat × List Nat) := do
  let j1 := JBuffer.zero.Reset.AppendInt 12345 3
  let b1 ← j1.Bytes
  let j2 := j1.AppendBool true 7
  let b2 ← j2.Bytes
  pure (b1, b2)

/-- The test `show mix number` (buffer_test.go) on the zero-value buffer after
`Reset()`, without its call of `AppendFloat`: `WriteInt32(-12345)`, `AppendInt(12345)`,
`AppendBool(true)`, `WriteUint64(9876543210)`; the values of `Bytes()` after each
call. -/
def mixTest : Except Panic (List Nat × List Nat × List Nat × List Nat) := do
  let j1 ← JBuffer.zero.Reset.WriteInt32 (-12345)
  let b1 ← j1.Bytes
  let j2 := j1.AppendInt 12345 0
  let b2 ← j2.Bytes
  let j3 := j2.AppendBool true 0
  let b3 ← j3.Bytes
  let j4 ← j3.WriteUint64 9876543210
  let b4 ← j4.Bytes
  pure (b1, b2, b3, b4)

/-! ## buffer.go: the pool of buffers -/

/-- Go `const _size = 1024` (buffer.go). -/
def _size : Nat := 1024

/-- Go `func NewBuffer() *Buffer`: `b := &Buffer{}; b.Grow(_size)`.  A `Buffer` is a
`JBuffer` together with the pool it goes back to; that field is left out. -/
def NewBuffer : Except Panic JBuffer := JBuffer.zero.Grow _size

/-- Go `type Pool struct { p *sync.Pool }`: the buffers that were put and that the
`sync.Pool` still holds. -/
structure Pool where
  items : List JBuffer
  deriving DecidableEq, Repr

namespace Pool

/-- Go `func (p Pool) put(buf *Buffer) { p.p.Put(buf) }`. -/
def put (p : Pool) (buf : JBuffer) : Pool := { items := buf :: p.items }

/-- Go `func (p Pool) Get() *Buffer`: `buf := p.p.Get().(*Buffer); buf.Reset()`.
`sync.Pool.Get` hands out one of the buffers it holds or calls `New`, which is
`NewBuffer`; `pick` is that choice: `some k` for the buffer at position `k`, anything
else for `New`. -/
def Get (p : Pool) (pick : Option Nat) : Except Panic (JBuffer × Pool) :=
  match pick.bind (fun k => (p.items[k]?).map (fun b => (b, k))) with
  | some (b, k) => pure (b.Reset, { items := p.items.eraseIdx k })
  | none => do
    let b ← NewBuffer
    pure (b.Reset, p)

end Pool

/-! ## define.go: levels -/

/-- Go `type Level int8`. -/
abbrev Level := Int

def DEBUG : Level := 0
def INFO : Level := 1
def WARN : Level := 2
def ERROR : Level := 3
def MinLevel : Level := DEBUG
def MaxLevel : Level := ERROR + 1

/-- Go `var LevelExtNames = [MaxLevel]string{"dbg", "inf", "wrn", "err"}`, as bytes. -/
def LevelExtNames : List (List Nat) :=
  [[100, 98, 103], [105, 110, 102], [119, 114, 110], [101, 114, 114]]

/-- The index expression `LevelExtNames[lv]`: an index outside the array panics. -/
def extName (lv : Level) : Except Panic (List Nat) :=
  if 0 ≤ lv ∧ lv < MaxLevel then pure (LevelExtNames.getD lv.toNat [])
  else throw Panic.indexOutOfRange

/-- The loop of `ExtentLevel` over the names from index `i` on. -/
def ExtentLevelLoop : List (List Nat) → Nat → List Nat → Level
  | [], _, _ => -1
  | n :: rest, i, extName => if n = extName then (i : Int) else ExtentLevelLoop rest (i + 1) extName

/-- Go `func ExtentLevel(extName string) Level`. -/
def ExtentLevel (extName : List Nat) : Level := ExtentLevelLoop LevelExtNames 0 extName

/-! ## Library functions on strings (package `strings`, `strconv`) -/

/-- Go `strings.HasPrefix(s, sub)`, on bytes. -/
def startsWith : List Nat → List Nat → Bool
  | _, [] => true
  | [], _ :: _ => false
  | c :: s, d :: sub => c = d && startsWith s sub

/-- Go `strings.Contains(s, substr)`, on bytes. -/
def Contains : List Nat → List Nat → Bool
  | [], sub => sub.isEmpty
  | c :: s, sub => startsWith (c :: s) sub || Contains s sub

/-- Go `strings.LastIndexByte(s, c)`: the index of the last `c` in `s`, or `-1`. -/
def LastIndexByte : List Nat → Nat → Int
  | [], _ => -1
  | x :: s, c =>
    if LastIndexByte s c ≠ -1 then LastIndexByte s c + 1 else if x = c then 0 else -1

/-- Go `strconv.ParseUint(s, 10, 64)`: a non-empty string of decimal digits; a value
above `2^64 - 1` gives the range error with the largest value. -/
def ParseUint (s : List Nat) : Nat × Option GoError :=
  if s = [] then (0, some GoError.syntaxError)
  else if !s.all (fun c => decide (48 ≤ c ∧ c ≤ 57)) then (0, some GoError.syntaxError)
  else if 2 ^ 64 ≤ decimalValue s then (2 ^ 64 - 1, some GoError.rangeError)
  else (decimalValue s, none)

/-- Go `strconv.ParseInt(s, 10, 64)`: an optional sign, then `ParseUint`; values outside
`int64` give the range error with the nearest bound. -/
def ParseInt (s : List Nat) : Int × Option GoError :=
  if s = [] then (0, some GoError.syntaxError)
  else
    let neg := decide (s.head? = some 45)
    let s1 := if s.head? = some 43 ∨ s.head? = some 45 then s.tail else s
    match ParseUint s1 with
    | (_, some GoError.syntaxError) => (0, some GoError.syntaxError)
    | (un, _) =>
      if !neg ∧ 2 ^ 63 ≤ un then (2 ^ 63 - 1, some GoError.rangeError)
      else if neg ∧ 2 ^ 63 < un then (-2 ^ 63, some GoError.rangeError)
      else (if neg then -(un : Int) else (un : Int), none)

/-- Go `func Str2Int(s string) (int, error)` (utils/strconv.go). -/
def Str2Int (s : List Nat) : Int × Option GoError :=
  if s = [] then (0, none) else ParseInt s

/-- The loop of `WithoutExt` from index `i - 1` down; `'/'` is the path separator. -/
def WithoutExtLoop (path : List Nat) : Nat → List Nat
  | 0 => path
  | i + 1 =>
    if path.getD i 0 = 47 then path
    else if path.getD i 0 = 46 then path.take i
    else WithoutExtLoop path i

/-- Go `func WithoutExt(path string) string` (util.go). -/
def WithoutExt (path : List Nat) : List Nat := WithoutExtLoop path path.length

/-! ## file_stream.go -/

/-- The file behind a stream: one of the two standard streams or a file opened by name. -/
inductive RawFile where
  | stdout
  | stderr
  | file (name : List Nat)
  deriving DecidableEq, Repr

/-- Go `type FileStream struct`.  The fields `rawFile` and `writer` are set together by
`_Init` and cleared together by `Close`; `raw` is `none` when they are nil. -/
structure FileStream where
  raw : Option RawFile
  writeSize : Int
  createTime : Int
  idx : Int
  deriving DecidableEq, Repr

/-- Go `const MaxSize = 1e9 // 1GB` (file_stream.go). -/
def MaxSize : Int := 1000000000

/-- Go `int64(time.Hour)`: the nanoseconds of an hour. -/
def Hour : Int := 3600 * 1000000000

/-- The result of an arithmetic operation on `int` (64 bits), with wrap-around. -/
def wrapInt (x : Int) : Int := (x + 2 ^ 63) % 2 ^ 64 - 2 ^ 63

namespace FileStream

/-- The zero value of `FileStream`. -/
def zero : FileStream := { raw := none, writeSize := 0, createTime := 0, idx := 0 }

/-- Go `func (f *FileStream) IsWriter() bool`. -/
def IsWriter (f : FileStream) : Bool := f.raw.isSome

/-- Go `func (f *FileStream) OverflowMaxSize() bool { return f.writeSize >= MaxSize }`. -/
def OverflowMaxSize (f : FileStream) : Bool := decide (f.writeSize ≥ MaxSize)

/-- Go `func (f *FileStream) RotateByTime() bool`, `nowNano` being the value of
`time.Now().UnixNano()`; the division of `int64` values truncates towards zero. -/
def RotateByTime (f : FileStream) (nowNano : Int) : FileStream × Bool :=
  if f.createTime.tdiv Hour ≥ nowNano.tdiv Hour then (f, false)
  else if f.createTime ≠ 0 then ({ f with idx := 0, createTime := nowNano }, true)
  else ({ f with createTime := nowNano }, true)

/-- Go `func (f *FileStream) _Init(raw *os.File)`. -/
def _Init (f : FileStream) (raw : RawFile) : FileStream := { f with raw := some raw }

/-- Go `func (f *FileStream) Write(p []byte) error`; `res` is what `f.writer.Write(p)`
returns: the number of bytes accepted and the error. -/
def Write (f : FileStream) (res : Nat × Option GoError) : FileStream × Option GoError :=
  if !f.IsWriter then (f, none)
  else ({ f with writeSize := wrapInt (f.writeSize + res.1) }, res.2)

/-- Go `func (f *FileStream) Close()`; the errors of `Flush` and of `rawFile.Close`
are only reported to the standard logger. -/
def Close (f : FileStream) : FileStream :=
  if !f.IsWriter then f
  else { f with raw := none, writeSize := 0, idx := wrapInt (f.idx + 1) }

end FileStream

/-! ## file.go -/

/-- Go `const DefaultLoggerLevel = INFO`. -/
def DefaultLoggerLevel : Level := INFO

/-- Go `streams [MaxLevel]FileStream`: an array of four streams. -/
structure Streams where
  dbg : FileStream
  inf : FileStream
  wrn : FileStream
  err : FileStream
  deriving DecidableEq, Repr

namespace Streams

def get (s : Streams) : Nat → FileStream
  | 0 => s.dbg
  | 1 => s.inf
  | 2 => s.wrn
  | _ => s.err

def set (s : Streams) (k : Nat) (f : FileStream) : Streams :=
  match k with
  | 0 => { s with dbg := f }
  | 1 => { s with inf := f }
  | 2 => { s with wrn := f }
  | _ => { s with err := f }

end Streams

/-- Go `type logFile struct`. -/
structure logFile where
  streams : Streams
  level : Level
  path : List Nat
  logName : List Nat
  debug : Bool
  deriving DecidableEq, Repr

/-- What a call of `logFile.Write` does to its streams and to the file system, in
order.  `write lv raw data` is the call `l.streams[lv].Write(data)`, `raw` being the
file that receives the bytes (`none` when the stream has no writer); `close` is the
`Flush` and `Close` of the file of an open stream; `create` is the call of
`os.OpenFile` with the name of the new file and whether it succeeded; `symlink` is the
call of `SymLink`. -/
inductive Event where
  | close (lv : Level) (raw : RawFile)
  | create (lv : Level) (name : List Nat) (ok : Bool)
  | symlink (lv : Level) (dst : List Nat)
  | write (lv : Level) (raw : Option RawFile) (data : List Nat)
  deriving DecidableEq, Repr

/-- What the operating system answers during one call of `logFile.Write`, for the stream
of each level (each stream is visited at most once): the clock read by `RotateByTime`,
the hour string `time.Now().Format(timeFormat)` read by `_DirFileName`, whether
`os.OpenFile` succeeds, and the result of `writer.Write`. -/
structure Env where
  now : Level → Int
  timeStr : Level → List Nat
  openOk : Level → Bool
  writeRes : Level → Nat × Option GoError

namespace logFile

/-- The zero value of `logFile`. -/
def zero : logFile :=
  { streams := ⟨FileStream.zero, FileStream.zero, FileStream.zero, FileStream.zero⟩,
    level := 0, path := [], logName := [], debug := false }

/-- The index expression `l.streams[lv]`: an index outside the array panics. -/
def stream (l : logFile) (lv : Level) : Except Panic FileStream :=
  if 0 ≤ lv ∧ lv < MaxLevel then pure (l.streams.get lv.toNat)
  else throw Panic.indexOutOfRange

/-- An assignment to `l.streams[lv]`. -/
def setStream (l : logFile) (lv : Level) (f : FileStream) : Except Panic logFile :=
  if 0 ≤ lv ∧ lv < MaxLevel then pure { l with streams := l.streams.set lv.toNat f }
  else throw Panic.indexOutOfRange

/-- Go `func (l *logFile) SetDefaultLevel()`. -/
def SetDefaultLevel (l : logFile) : logFile :=
  if l.level < DefaultLoggerLevel then { l with level := DefaultLoggerLevel } else l

/-- Go `func (l *logFile) _Check(lv Level) bool`. -/
def _Check (l : logFile) (lv : Level) : Bool :=
  (decide (lv = DEBUG) && l.debug) || (decide (lv ≠ DEBUG) && decide (lv ≤ l.level))

/-- Go `func (l *logFile) _DirFileName(lv Level) string`: the name of the file inside
the directory, which `filepath.Join(l.path, ...)` puts the directory in front of;
`timeStr` is `time.Now().Format(timeFormat)`. -/
def _DirFileName (l : logFile) (timeStr : List Nat) (lv : Level) : Except Panic (List Nat) := do
  let ext ← extName lv
  let f ← l.stream lv
  pure (l.logName ++ [46] ++ timeStr ++ [46] ++ formatInt f.idx ++ [46] ++ ext ++
    [46, 108, 111, 103])

/-- Go `func (l *logFile) _RedirectFile(lv Level) string`, without the directory. -/
def _RedirectFile (l : logFile) (lv : Level) : Except Panic (List Nat) := do
  let ext ← extName lv
  pure (l.logName ++ [46] ++ ext)

/-- Go `func (l *logFile) _NewCreateFile(lv Level)`. -/
def _NewCreateFile (l : logFile) (env : Env) (lv : Level) :
    Except Panic (logFile × List Event) := do
  let f ← l.stream lv
  let closed := match f.raw with
    | some r => [Event.close lv r]
    | none => []
  let l1 ← l.setStream lv f.Close
  let name ← l1._DirFileName (env.timeStr lv) lv
  if !env.openOk lv then pure (l1, closed ++ [Event.create lv name false])
  else do
    let l2 ← l1.setStream lv (f.Close._Init (RawFile.file name))
    let dst ← l2._RedirectFile lv
    pure (l2, closed ++ [Event.create lv name true, Event.symlink lv dst])

/-- The body of the loop of `logFile.Write` for a stream `lv` that passed the two
`continue` tests: the rotation test with `_NewCreateFile`, then
`l.streams[lv].Write(data)`. -/
def writeStream (l : logFile) (env : Env) (lv : Level) (data : List Nat)
    (notCreateFile : Bool) : Except Panic (logFile × List Event × Option GoError) := do
  let f ← l.stream lv
  let (l1, evs) ←
    if notCreateFile then pure (l, [])
    else if f.OverflowMaxSize then l._NewCreateFile env lv
    else do
      let (f1, rotate) := f.RotateByTime (env.now lv)
      let l0 ← l.setStream lv f1
      if rotate then l0._NewCreateFile env lv else pure (l0, [])
  let g ← l1.stream lv
  let (g1, err) := g.Write (env.writeRes lv)
  let l2 ← l1.setStream lv g1
  pure (l2, evs ++ [Event.write lv g.raw data], err)

/-- The loop `for lv := DEBUG; lv <= level; lv++` of `logFile.Write` from `lv` on; the
increment of the `int8` value `127` gives `-128`.  The first argument bounds the
number of iterations; `none` says that the bound was reached. -/
def WriteLoop (env : Env) (level : Level) (data : List Nat) (notCreateFile : Bool) :
    Nat → Level → logFile → Option (Except Panic (logFile × List Event × Option GoError))
  | 0, _, _ => none
  | fuel + 1, lv, l =>
    if ¬ lv ≤ level then some (pure (l, [], none))
    else
      let next : Level := if lv = 127 then -128 else lv + 1
      if (notCreateFile ∧ lv ≠ level) ∨ l._Check lv = false then
        WriteLoop env level data notCreateFile fuel next l
      else
        match l.writeStream env lv data notCreateFile with
        | .error p => some (.error p)
        | .ok (l1, evs, some e) => some (pure (l1, evs, some e))
        | .ok (l1, evs, none) =>
          match WriteLoop env level data notCreateFile fuel next l1 with
          | none => none
          | some (.error p) => some (.error p)
          | some (.ok (l2, evs2, err)) => some (pure (l2, evs ++ evs2, err))

/-- Go `func (l *logFile) Write(level Level, data []byte, notCreateFile bool) (err error)`:
the state of the streams afterwards, what was done, and the error returned. -/
def Write (l : logFile) (env : Env) (level : Level) (data : List Nat) (notCreateFile : Bool) :
    Option (Except Panic (logFile × List Event × Option GoError)) :=
  WriteLoop env level data notCreateFile 512 DEBUG l

end logFile

/-- The streams that received a `Write` call, in order, with the bytes handed over. -/
def writesOf (evs : List Event) : List (Level × List Nat) :=
  evs.filterMap (fun e => match e with
    | Event.write lv _ data => some (lv, data)
    | _ => none)

/-- The files that `os.OpenFile` was called for. -/
def createsOf (evs : List Event) : List (Level × List Nat) :=
  evs.filterMap (fun e => match e with
    | Event.create lv name _ => some (lv, name)
    | _ => none)

/-- Go `func parseIdxAndLv(timeStr, fname string) (int, Level)`; `'.'` is the byte
`46`. -/
def parseIdxAndLv (timeStr fname : List Nat) : Int × Level :=
  if Contains fname timeStr = false then (-1, -1)
  else if LastIndexByte fname 46 = -1 then (-1, -1)
  else
    let fname1 := fname.take (LastIndexByte fname 46).toNat
    if LastIndexByte fname1 46 = -1 then (-1, -1)
    else
      let l := ExtentLevel (fname1.drop ((LastIndexByte fname1 46).toNat + 1))
      let fname2 := fname1.take (LastIndexByte fname1 46).toNat
      if LastIndexByte fname2 46 = -1 then (-1, -1)
      else
        match Str2Int (fname2.drop ((LastIndexByte fname2 46).toNat + 1)) with
        | (_, some _) => (-1, -1)
        | (idx, none) => (idx, l)

/-- An entry that `filepath.WalkDir` passes to its function: the name `d.Name()`,
`d.IsDir()`, and the size `info.Size()` of `d.Info()` (`none` when `Info` fails). -/
structure DirEntry where
  name : List Nat
  isDir : Bool
  size : Option Int
  deriving DecidableEq, Repr

/-- What the operating system answers while a logger is set up: `filepath.Base` of
`os.Args[0]`, the hour string `time.Now().Format(timeFormat)`, and for a directory
the entries that `filepath.WalkDir` passes to its function, in order (`none` for a
nil entry). -/
structure StartEnv where
  arg0 : List Nat
  timeStr : List Nat
  walk : List Nat → List (Option DirEntry)

namespace logFile

/-- The function that `_CheckFileIndex` passes to `filepath.WalkDir`, called on one
entry. -/
def checkEntry (l : logFile) (timeStr : List Nat) (d : Option DirEntry) :
    Except Panic logFile :=
  match d with
  | none => pure l
  | some d =>
    if d.isDir then pure l
    else if (parseIdxAndLv timeStr d.name).2 = -1 then pure l
    else do
      let f ← l.stream (parseIdxAndLv timeStr d.name).2
      if f.idx ≥ (parseIdxAndLv timeStr d.name).1 then pure l
      else
        match d.size with
        | some n =>
          l.setStream (parseIdxAndLv timeStr d.name).2
            { f with idx := (parseIdxAndLv timeStr d.name).1, writeSize := n }
        | none =>
          l.setStream (parseIdxAndLv timeStr d.name).2
            { f with idx := (parseIdxAndLv timeStr d.name).1 }

/-- Go `func (l *logFile) _CheckFileIndex()`, for the hour string and the entries of
the walk of `l.path`. -/
def _CheckFileIndex (l : logFile) (timeStr : List Nat) (entries : List (Option DirEntry)) :
    Except Panic logFile :=
  entries.foldlM (fun l d => l.checkEntry timeStr d) l

/-- Go `func (l *logFile) _InitLogPath(path string)`. -/
def _InitLogPath (l : logFile) (env : StartEnv) (path : List Nat) : Except Panic logFile :=
  _CheckFileIndex { l with path := path, logName := WithoutExt env.arg0 } env.timeStr
    (env.walk path)

/-- The body of the loop of `_InitStdLog` for the level `lv`. -/
def initStdStream (l : logFile) (lv : Nat) : logFile :=
  if l._Check (lv : Int) = false then l
  else
    let rawFile := if (lv : Int) = ERROR then RawFile.stderr else RawFile.stdout
    let s := l.streams.set lv ((l.streams.get lv)._Init rawFile)
    { l with streams := s }

/-- Go `func (l *logFile) _InitStdLog()`: the streams of the enabled levels get
`os.Stdout`, the one of `ERROR` gets `os.Stderr`. -/
def _InitStdLog (l : logFile) : logFile := [0, 1, 2, 3].foldl initStdStream l

end logFile

/-! ## jlog.go, option.go: the configuration of a logger -/

/-- Go `type logger struct`: the fields that the configuration sets. -/
structure logger where
  file : logFile
  std : Bool
  deriving DecidableEq, Repr

/-- Go `type Option func(l *logger)`: the four options of option.go. -/
inductive Opt where
  | LogLevel (lv : Level)
  | LogDir (path : List Nat)
  | _LogDebug (debug : Bool)
  | _LogStd (std : Bool)
  deriving DecidableEq, Repr

/-- The call `opt(l)` of an option. -/
def Opt.apply (env : StartEnv) (l : logger) : Opt → Except Panic logger
  | Opt.LogLevel lv => pure { l with file := { l.file with level := lv } }
  | Opt.LogDir path => do
    let f ← l.file._InitLogPath env path
    pure { l with file := f }
  | Opt._LogDebug debug => pure { l with file := { l.file with debug := debug } }
  | Opt._LogStd std => pure { l with std := std }

namespace logger

/-- Go `func (l *logger) IsNotCreateFile() bool { return l.std && l.file.path == "" }`. -/
def IsNotCreateFile (l : logger) : Bool := l.std && decide (l.file.path = [])

end logger

/-- Go `func NewLogger(opts ...Option) *logger`, up to the start of the worker. -/
def NewLogger (env : StartEnv) (opts : List Opt) : Except Panic logger := do
  let l0 : logger := { file := logFile.zero.SetDefaultLevel, std := false }
  let l1 ← opts.foldlM (fun l opt => opt.apply env l) l0
  if l1.IsNotCreateFile then pure { l1 with file := l1.file._InitStdLog } else pure l1

namespace logFile

/-- The name of the file that `_NewCreateFile(lv)` opens: the one of `_DirFileName` for
the index that the stream has after `Close`. -/
def rotatedName (l : logFile) (env : Env) (lv : Level) : List Nat :=
  l.logName ++ [46] ++ env.timeStr lv ++ [46] ++
    formatInt (l.streams.get lv.toNat).Close.idx ++ [46] ++
    LevelExtNames.getD lv.toNat [] ++ [46, 108, 111, 103]

/-- The stream of `lv` after `_NewCreateFile(lv)`: closed, and opened on the new file
when `os.OpenFile` succeeds. -/
def rotated (l : logFile) (env : Env) (lv : Level) : FileStream :=
  if env.openOk lv then (l.streams.get lv.toNat).Close._Init (RawFile.file (l.rotatedName env lv))
  else (l.streams.get lv.toNat).Close

/-- What `_NewCreateFile(lv)` does, in order. -/
def rotateEvents (l : logFile) (env : Env) (lv : Level) : List Event :=
  (match (l.streams.get lv.toNat).raw with
    | some r => [Event.close lv r]
    | none => []) ++
  (if env.openOk lv then
    [Event.create lv (l.rotatedName env lv) true,
      Event.symlink lv (l.logName ++ [46] ++ LevelExtNames.getD lv.toNat [])]
  else [Event.create lv (l.rotatedName env lv) false])

end logFile

/-- The indices that `parseIdxAndLv` reads from the names of the files (not
directories) of a walk whose level tag is the one of `lv`, in the order of the walk. -/
def matchingIdx (timeStr : List Nat) (lv : Nat) (entries : List (Option DirEntry)) : List Int :=
  entries.filterMap (fun d => match d with
    | some d =>
      if d.isDir = false ∧ (parseIdxAndLv timeStr d.name).2 = (lv : Int) then
        some (parseIdxAndLv timeStr d.name).1
      else none
    | none => none)

/-! ## The calls on a buffer, for the capacity invariant -/

/-- The calls on a buffer whose effect on the capacity is followed: the writers, the
text appends (with the capacity `extra` that the run time gives a new array), `Alloc`,
`Grow`, `FillTypeSize`, the readers, `Truncate`, `Reset`, `TrimNewline`, `WriteAt`,
`CopyR` and `Copy`, each with its arguments. -/
inductive Call where
  | Write (p : List Nat)
  | WriteString (s : List Nat)
  | WriteByte (c : Nat)
  | WriteInt8 (i : Int)
  | WriteUint16 (i : Nat)
  | WriteInt16 (i : Int)
  | WriteUint32 (i : Nat)
  | WriteInt32 (i : Int)
  | WriteUint64 (i : Nat)
  | WriteInt64 (i : Int)
  | WriteVar (i : Nat)
  | AppendInt (i : Int) (extra : Nat)
  | AppendUint (i : Nat) (extra : Nat)
  | AppendBool (v : Bool) (extra : Nat)
  | Alloc (n : Int)
  | Grow (n : Int)
  | FillTypeSize (a : Arg)
  | Read (p : List Nat)
  | Next (n : Int)
  | ReadByte
  | ReadInt8
  | ReadUint16
  | ReadInt16
  | ReadUint32
  | ReadInt32
  | ReadUint64
  | ReadInt64
  | ReadVarint
  | Truncate (n : Int)
  | Reset
  | TrimNewline
  | WriteAt (a : Arg) (m : Int)
  | CopyR (d s : Int)
  | Copy (d s : Int)
  deriving DecidableEq, Repr

/-- The buffer after one call (the results of the call are dropped); a panic of the
call is passed on. -/
def JBuffer.after (j : JBuffer) : Call → Except Panic JBuffer
  | Call.Write p => Prod.fst <$> j.Write p
  | Call.WriteString s => Prod.fst <$> j.WriteString s
  | Call.WriteByte c => Prod.fst <$> j.WriteByte c
  | Call.WriteInt8 i => j.WriteInt8 i
  | Call.WriteUint16 i => j.WriteUint16 i
  | Call.WriteInt16 i => j.WriteInt16 i
  | Call.WriteUint32 i => j.WriteUint32 i
  | Call.WriteInt32 i => j.WriteInt32 i
  | Call.WriteUint64 i => j.WriteUint64 i
  | Call.WriteInt64 i => j.WriteInt64 i
  | Call.WriteVar i => j.WriteVar i
  | Call.AppendInt i extra => pure (j.AppendInt i extra)
  | Call.AppendUint i extra => pure (j.AppendUint i extra)
  | Call.AppendBool v extra => pure (j.AppendBool v extra)
  | Call.Alloc n => Prod.fst <$> j.Alloc n
  | Call.Grow n => j.Grow n
  | Call.FillTypeSize a => Prod.fst <$> j.FillTypeSize a
  | Call.Read p => Prod.fst <$> j.Read p
  | Call.Next n => Prod.fst <$> j.Next n
  | Call.ReadByte => Prod.fst <$> j.ReadByte
  | Call.ReadInt8 => Prod.fst <$> j.ReadInt8
  | Call.ReadUint16 => Prod.fst <$> j.ReadUint16
  | Call.ReadInt16 => Prod.fst <$> j.ReadInt16
  | Call.ReadUint32 => Prod.fst <$> j.ReadUint32
  | Call.ReadInt32 => Prod.fst <$> j.ReadInt32
  | Call.ReadUint64 => Prod.fst <$> j.ReadUint64
  | Call.ReadInt64 => Prod.fst <$> j.ReadInt64
  | Call.ReadVarint => Prod.fst <$> j.ReadVarint
  | Call.Truncate n => j.Truncate n
  | Call.Reset => pure j.Reset
  | Call.TrimNewline => pure j.TrimNewline
  | Call.WriteAt a m => Prod.fst <$> j.WriteAt a m
  | Call.CopyR d s => Prod.fst <$> j.CopyR d s
  | Call.Copy d s => Prod.fst <$> j.Copy d s

/-- The guard `c > maxInt-c-n` of `grow` as the machine evaluates it: each of the two
subtractions on `int` wraps modulo `2 ^ 64`. -/
def growGuard (c n : Int) : Bool := decide (c > wrapInt (wrapInt (maxInt - c) - n))

/-- The buffer that the reallocation branch of `grow(n)` leaves: a new array of
`2*cap + n` bytes that starts with the unread bytes, resliced to their number plus
`n`. -/
def JBuffer.reallocated (j : JBuffer) (n : Nat) : JBuffer :=
  JBuffer.reslice (JBuffer.mk (copyInto (List.replicate (2 * j.Cap + n) 0)
    (j.buf.drop j.off)) [] 0 false) (j.len - j.off + n)

/-! ## util.go: the digit helpers of the record header -/

/-- Go `const digits = "0123456789"`: the index expression `digits[k]`. -/
def digitAt (k : Int) : Except Panic Nat :=
  if 0 ≤ k ∧ k < 10 then pure (48 + k.toNat) else throw Panic.indexOutOfRange

/-- The store `tmp[i] = v`; an index outside `tmp` panics. -/
def storeAt (tmp : List Nat) (i : Int) (v : Nat) : Except Panic (List Nat) :=
  if 0 ≤ i ∧ i < (tmp.length : Int) then pure (tmp.set i.toNat v)
  else throw Panic.indexOutOfRange

/-- Go `func twoDigits(tmp []byte, i, d int)`; `%` and `/` on `int` truncate towards
zero. -/
def twoDigits (tmp : List Nat) (i d : Int) : Except Panic (List Nat) := do
  let c ← digitAt (d.tmod 10)
  let tmp ← storeAt tmp (i + 1) c
  let d := d.tdiv 10
  let c ← digitAt (d.tmod 10)
  storeAt tmp i c

/-- First loop of `nDigits`: `for ; j >= 0 && d > 0; j-- { tmp[i+j] = digits[d%10];
d /= 10 }`, entered with `j + 1 = k`; it returns the `j + 1` it stops at. -/
def nDigitsDigits (i : Int) : Nat → Int → List Nat → Except Panic (Nat × List Nat)
  | 0, _, tmp => pure (0, tmp)
  | k + 1, d, tmp =>
    if d > 0 then do
      let c ← digitAt (d.tmod 10)
      let tmp ← storeAt tmp (i + (k : Int)) c
      nDigitsDigits i k (d.tdiv 10) tmp
    else pure (k + 1, tmp)

/-- Second loop of `nDigits`: `for ; j >= 0; j-- { tmp[i+j] = pad }`, entered with
`j + 1 = k`. -/
def nDigitsPad (i : Int) (pad : Nat) : Nat → List Nat → Except Panic (List Nat)
  | 0, tmp => pure tmp
  | k + 1, tmp => do
    let tmp ← storeAt tmp (i + (k : Int)) pad
    nDigitsPad i pad k tmp

/-- Go `func nDigits(tmp []byte, n, i, d int, pad byte)`. -/
def nDigits (tmp : List Nat) (n i d : Int) (pad : Nat) : Except Panic (List Nat) := do
  let (k, tmp) ← nDigitsDigits i n.toNat d tmp
  nDigitsPad i pad k tmp

/-- Loop of `someDigits`: `for { j--; tmp[j] = digits[d%10]; d /= 10; if d == 0 { break } }`,
entered with the value of `j` before the decrement; from `j = 0` the store `tmp[-1]`
panics.  It returns the final `j`. -/
def someDigitsLoop : Nat → Int → List Nat → Except Panic (Nat × List Nat)
  | 0, _, _ => throw Panic.indexOutOfRange
  | j + 1, d, tmp => do
    let c ← digitAt (d.tmod 10)
    let tmp ← storeAt tmp (j : Int) c
    let d := d.tdiv 10
    if d = 0 then pure (j, tmp) else someDigitsLoop j d tmp

/-- Go `func someDigits(tmp []byte, i, d int) int`: the loop from `j := len(tmp)`, then
`return copy(tmp[i:], tmp[j:])`; the result and `tmp` afterwards. -/
def someDigits (tmp : List Nat) (i d : Int) : Except Panic (Int × List Nat) := do
  let (j, tmp) ← someDigitsLoop tmp.length d tmp
  if 0 ≤ i ∧ i ≤ (tmp.length : Int) then
    let dst := tmp.drop i.toNat
    let src := tmp.drop j
    pure (((min dst.length src.length : Nat) : Int), tmp.take i.toNat ++ copyInto dst src)
  else throw Panic.sliceBounds

/-! ## jlog.go: the record header -/

/-- Go `var LevelFlags = [MaxLevel]byte{'D', 'I', 'W', 'E'}`. -/
def LevelFlags : List Nat := [68, 73, 87, 69]

/-- The index expression `LevelFlags[lv]`: an index outside the array panics. -/
def levelFlag (lv : Level) : Except Panic Nat :=
  if 0 ≤ lv ∧ lv < MaxLevel then pure (LevelFlags.getD lv.toNat 0)
  else throw Panic.indexOutOfRange

/-- The fields of `time.Now()` that the header uses: `now.Date()`, `now.Clock()` and
`now.Nanosecond()`. -/
structure Clock where
  year : Int
  month : Int
  day : Int
  hour : Int
  minute : Int
  second : Int
  nanosecond : Int
  deriving DecidableEq, Repr

/-- The slice expression `tmp[:k]` of the array `tmp`. -/
def sliceArr (tmp : List Nat) (k : Int) : Except Panic (List Nat) :=
  if 0 ≤ k ∧ k ≤ (tmp.length : Int) then pure (tmp.take k.toNat) else throw Panic.sliceBounds

/-- Go `func (l *logger) formatHeaderWithBodyFunction(lv Level, file string, line int,
bodyFn func(buf *Buffer), dev bool) *Buffer`.  `p` is the pool of the logger and `pick`
the choice of its `sync.Pool`, `now` the value of `time.Now()`; the result is the buffer
returned and the pool afterwards. -/
def formatHeaderWithBodyFunction (p : Pool) (pick : Option Nat) (now : Clock) (lv : Level)
    (file : List Nat) (line : Int) (bodyFn : JBuffer → Except Panic JBuffer) (dev : Bool) :
    Except Panic (JBuffer × Pool) := do
  let tmp : List Nat := List.replicate 64 0
  let line := if line < 0 then 0 else line
  let lv := if lv > MaxLevel then INFO else lv
  let (buf, p) ← p.Get pick
  let tmp ← nDigits tmp 4 0 now.year 48
  let tmp ← twoDigits tmp 4 now.month
  let tmp ← twoDigits tmp 6 now.day
  let tmp ← storeAt tmp 8 32
  let tmp ← twoDigits tmp 9 now.hour
  let tmp ← storeAt tmp 11 58
  let tmp ← twoDigits tmp 12 now.minute
  let tmp ← storeAt tmp 14 58
  let tmp ← twoDigits tmp 15 now.second
  let tmp ← storeAt tmp 17 46
  let tmp ← nDigits tmp 6 18 (now.nanosecond.tdiv 1000) 48
  let tmp ← storeAt tmp 24 32
  let tmp ← storeAt tmp 25 91
  let flag ← levelFlag lv
  let tmp ← storeAt tmp 26 flag
  let tmp ← storeAt tmp 27 93
  let tmp ← storeAt tmp 28 58
  let (buf, _, _) ← buf.Write (← sliceArr tmp 29)
  let buf ← bodyFn buf
  if dev then do
    let (buf, _, _) ← buf.WriteString [32, 91]
    let (buf, _, _) ← buf.WriteString file
    let tmp ← storeAt tmp 0 58
    let (n, tmp) ← someDigits tmp 1 line
    let tmp ← storeAt tmp (n + 1) 93
    let tmp ← storeAt tmp (n + 2) 10
    let (buf, _, _) ← buf.Write (← sliceArr tmp (n + 3))
    pure (buf, p)
  else do
    let (buf, _) ← buf.WriteByte 10
    pure (buf, p)

/-- The decimal digits of `d` (ASCII) in a field of width `w`, zero-padded on the left:
the digit at position `k` is that of `10 ^ (w - 1 - k)`. -/
def zeroPadded (w d : Nat) : List Nat :=
  (List.range w).map (fun k => 48 + d / 10 ^ (w - 1 - k) % 10)

/-- The header `YYYYMMDD hh:mm:ss.uuuuuu [F]:` for the time fields given and the flag
character `F`. -/
def headerText (year month day hour minute second micro flag : Nat) : List Nat :=
  zeroPadded 4 year ++ zeroPadded 2 month ++ zeroPadded 2 day ++ [32] ++ zeroPadded 2 hour
    ++ [58] ++ zeroPadded 2 minute ++ [58] ++ zeroPadded 2 second ++ [46]
    ++ zeroPadded 6 micro ++ [32, 91, flag, 93, 58]

/-- The tail of a record: a newline, or with location capture ` [file:line]` and a
newline, a negative line rendered as `0`. -/
def tailText (file : List Nat) (line : Int) (dev : Bool) : List Nat :=
  if dev then [32, 91] ++ file ++ [58] ++ formatInt (if line < 0 then 0 else line) ++ [93, 10]
  else [10]

/-- The array after `nDigits(tmp, k, i, d, '0')` for `d ≥ 0`: the stores
`tmp[i+k-1] = '0' + d%10`, `tmp[i+k-2] = '0' + d/10%10`, ... down to `tmp[i]`. -/
def setDigits : List Nat → Nat → Nat → Nat → List Nat
  | tmp, _, 0, _ => tmp
  | tmp, i, k + 1, d => setDigits (tmp.set (i + k) (48 + d % 10)) i k (d / 10)

/-- The array `tmp` of `formatHeaderWithBodyFunction` after the stores of the header, for
time fields that are not negative. -/
def headerArr (y mo d h mi s us flag : Nat) : List Nat :=
  let t := setDigits (List.replicate 64 0) 0 4 y
  let t := (t.set 5 (48 + mo % 10)).set 4 (48 + mo / 10 % 10)
  let t := (t.set 7 (48 + d % 10)).set 6 (48 + d / 10 % 10)
  let t := t.set 8 32
  let t := (t.set 10 (48 + h % 10)).set 9 (48 + h / 10 % 10)
  let t := t.set 11 58
  let t := (t.set 13 (48 + mi % 10)).set 12 (48 + mi / 10 % 10)
  let t := t.set 14 58
  let t := (t.set 16 (48 + s % 10)).set 15 (48 + s / 10 % 10)
  let t := t.set 17 46
  let t := setDigits t 18 6 us
  let t := t.set 24 32
  let t := t.set 25 91
  let t := t.set 26 flag
  let t := t.set 27 93
  t.set 28 58

/-! ## jlog.go: rendering one argument of a record -/

/-- The dynamic types that the type switch of `appendArg2Buffer` tells apart, each with
its value (`[]byte`, `string` and the text of an `error` as bytes).  The cases `float32`
and `float64` (`AppendFloat`) and `default` (reflection, JSON encoding) are left out. -/
inductive LogArg where
  | bool (v : Bool)
  | int (v : Int)
  | int8 (v : Int)
  | int16 (v : Int)
  | int32 (v : Int)
  | int64 (v : Int)
  | uint (v : Nat)
  | uint8 (v : Nat)
  | uint16 (v : Nat)
  | uint32 (v : Nat)
  | uint64 (v : Nat)
  | bytes (v : List Nat)
  | string (v : List Nat)
  | error (msg : List Nat)
  deriving DecidableEq, Repr

/-- Go `func appendArg2Buffer(buf *Buffer, arg interface{})`, for the cases of `LogArg`;
the conversions `int64(val)` and `uint64(val)` keep the value.  `extra` is the capacity
that the run time gives a new array in the text appends. -/
def appendArg2Buffer (buf : JBuffer) (extra : Nat) : LogArg → Except Panic JBuffer
  | LogArg.bool v => pure (buf.AppendBool v extra)
  | LogArg.int v => pure (buf.AppendInt v extra)
  | LogArg.int8 v => pure (buf.AppendInt v extra)
  | LogArg.int16 v => pure (buf.AppendInt v extra)
  | LogArg.int32 v => pure (buf.AppendInt v extra)
  | LogArg.int64 v => pure (buf.AppendInt v extra)
  | LogArg.uint v => pure (buf.AppendUint v extra)
  | LogArg.uint8 v => Prod.fst <$> buf.WriteByte v
  | LogArg.uint16 v => pure (buf.AppendUint v extra)
  | LogArg.uint32 v => pure (buf.AppendUint v extra)
  | LogArg.uint64 v => pure (buf.AppendUint v extra)
  | LogArg.bytes v => Prod.fst <$> buf.Write v
  | LogArg.string v => Prod.fst <$> buf.WriteString v
  | LogArg.error msg => Prod.fst <$> buf.WriteString msg

/-- Go `func DebugBufferAppend(buf *Buffer, arg interface{})`. -/
def DebugBufferAppend (buf : JBuffer) (extra : Nat) (arg : LogArg) : Except Panic JBuffer :=
  appendArg2Buffer buf extra arg

/-- The direct text form of an argument: `true`/`false`, the base-10 text of an
integer (`strconv.FormatInt`, `strconv.FormatUint`), the bytes of a string, of a byte
slice or of the message of an error. -/
def directText : LogArg → List Nat
  | LogArg.bool v => formatBool v
  | LogArg.int v => formatInt v
  | LogArg.int8 v => formatInt v
  | LogArg.int16 v => formatInt v
  | LogArg.int32 v => formatInt v
  | LogArg.int64 v => formatInt v
  | LogArg.uint v => formatUint v
  | LogArg.uint8 v => formatUint v
  | LogArg.uint16 v => formatUint v
  | LogArg.uint32 v => formatUint v
  | LogArg.uint64 v => formatUint v
  | LogArg.bytes v => v
  | LogArg.string v => v
  | LogArg.error msg => msg

/-! ## jlog.go: submitting a record -/

/-- Go `type logData struct`. -/
structure logData where
  lv : Level
  file : List Nat
  line : Int
  debug : Bool
  format : JBuffer → Except Panic JBuffer

/-- The body function `formatFunc` of `Output`: the prefix in brackets when it is not
empty, then every argument followed by a blank. -/
def outputFormat (extra : Nat) (pfx : List Nat) (args : List LogArg) (buf : JBuffer) :
    Except Panic JBuffer := do
  let buf ←
    if pfx ≠ [] then do
      let (b, _) ← buf.WriteByte 91
      let (b, _, _) ← b.WriteString pfx
      let (b, _) ← b.WriteByte 93
      pure b
    else pure buf
  args.foldlM (fun b arg => do
    let b ← appendArg2Buffer b extra arg
    let (b, _) ← b.WriteByte 32
    pure b) buf

/-- The body function `formatFunc` of `Outputf`: the prefix in brackets when it is not
empty, then `fmt.Fprintf(buf, format, args...)`, which hands the formatted text `text`
to `buf.Write` in one call. -/
def outputfFormat (pfx text : List Nat) (buf : JBuffer) : Except Panic JBuffer := do
  let buf ←
    if pfx ≠ [] then do
      let (b, _) ← buf.WriteByte 91
      let (b, _, _) ← b.WriteString pfx
      let (b, _) ← b.WriteByte 93
      pure b
    else pure buf
  let (b, _, _) ← buf.Write text
  pure b

/-- What a call of `Output` or `Outputf` finds outside its arguments: the number of
records in `l.logCh` (capacity `1 << 6`), whether `l.closed` has been closed, the choice
of `select` when both cases are ready (`true` for the receive from `l.closed`), the
result of `formatMsg(depth)`, and what the renderer needs (pool, choice of the pool,
`time.Now()`, capacity given by the run time to a new array). -/
structure CallEnv where
  queued : Nat
  closed : Bool
  pick : Bool
  file : List Nat
  line : Int
  debug : Bool
  pool : Pool
  poolPick : Option Nat
  now : Clock
  extra : Nat

/-- The case that the `select` statement of `Output` and `Outputf` takes. -/
inductive Ready where
  | send
  | closed
  | blocked
  deriving DecidableEq, Repr

/-- The `select` of `Output` and `Outputf`: the send on `l.logCh` is ready while the
queue has room, the receive from `l.closed` once that channel is closed; with no case
ready the call blocks. -/
def selectCase (env : CallEnv) : Ready :=
  if env.queued < 64 then (if env.closed ∧ env.pick then Ready.closed else Ready.send)
  else if env.closed then Ready.closed else Ready.blocked

/-- The sinks of a discarded record: `os.Stderr` and the logger `_StdLog()`. -/
inductive Sink where
  | stderr
  | stdLog
  deriving DecidableEq, Repr

/-- What a call of `Output` or `Outputf` does: it returns before the `select`, queues the
record, returns from the closed case without any output, hands the text to a sink, or
blocks. -/
inductive Outcome where
  | ignored
  | queued (d : logData)
  | dropped
  | discard (sink : Sink) (text : List Nat)
  | blocked

/-- The bytes of `"logger discard: "`. -/
def discardLabel : List Nat :=
  [108, 111, 103, 103, 101, 114, 32, 100, 105, 115, 99, 97, 114, 100, 58, 32]

namespace logger

/-- Go `func (l *logger) Output(lv Level, prefix string, depth int, args ...interface{})`
for a logger that is not nil. -/
def Output (l : logger) (env : CallEnv) (lv : Level) (pfx : List Nat) (args : List LogArg) :
    Except Panic Outcome :=
  if l.file._Check lv = false ∨ args.length = 0 then pure Outcome.ignored
  else
    let formatFunc := outputFormat env.extra pfx args
    match selectCase env with
    | Ready.send => pure (Outcome.queued ⟨lv, env.file, env.line, env.debug, formatFunc⟩)
    | Ready.closed =>
      if l.std then pure Outcome.dropped
      else do
        let (buf, _) ← formatHeaderWithBodyFunction env.pool env.poolPick env.now lv env.file
          env.line formatFunc env.debug
        let s ← buf.Bytes
        if l.std then pure (Outcome.discard Sink.stderr (discardLabel ++ s))
        else pure (Outcome.discard Sink.stdLog (discardLabel ++ s))
    | Ready.blocked => pure Outcome.blocked

/-- Go `func (l *logger) Outputf(lv Level, prefix string, depth int, format string,
args ...interface{})` for a logger that is not nil; `text` is the text that `fmt` makes
of `format` and `args`. -/
def Outputf (l : logger) (env : CallEnv) (lv : Level) (pfx : List Nat) (text : List Nat) :
    Except Panic Outcome :=
  if l.file._Check lv = false then pure Outcome.ignored
  else
    let formatFunc := outputfFormat pfx text
    match selectCase env with
    | Ready.send => pure (Outcome.queued ⟨lv, env.file, env.line, env.debug, formatFunc⟩)
    | Ready.closed => do
      let (buf, _) ← formatHeaderWithBodyFunction env.pool env.poolPick env.now lv env.file
        env.line formatFunc env.debug
      let s ← buf.Bytes
      if l.std then pure (Outcome.discard Sink.stderr (discardLabel ++ s))
      else pure (Outcome.discard Sink.stdLog (discardLabel ++ s))
    | Ready.blocked => pure Outcome.blocked

end logger

/-! ## jlog.go: the worker -/

/-- What the goroutine of `NewLogger` does, in order: a record taken from the queue,
rendered and handed to `l.file.Write`, with the error of the stream write if it failed;
`l.file.Flush()`; a call of `_StdLog().Errorf` about a failed write that returned
(`report`) and one that never returns because the queue of the standard logger is full
(`reportBlocked`); `close(l.closed)`; `l.file.Close()`; and `close(l.waitClose)`, which
releases `Close`.  Of the operations on a stream only `Write` has a result here: `Flush`
and `Close` of a stream are taken to succeed, so that `l.file.Flush()` and
`l.file.Close()` have nothing to report and return. -/
inductive WorkerEvent where
  | write (d : logData) (err : Option GoError)
  | flush
  | report (err : GoError)
  | reportBlocked (err : GoError)
  | closed
  | closeFiles
  | waitClose

/-- The case that the `select` statement of `_GoLogger` takes. -/
inductive Select where
  | data
  | tick
  | close
  deriving DecidableEq, Repr

/-- The state of the pipeline: whether the worker has set `l.closeWrite = nil`
(shutdown signal received), whether `Close` has closed the channel `closeWrite`, the
records in `l.logCh` (oldest first), every record that a send has put into the queue so
far, the number of calls of `l.file.Write`, what the goroutine did, and how the loop of
`_GoLogger` ended: `none` while it runs, `some none` after the normal return,
`some (some err)` after the write error `err`. -/
structure Pipeline where
  closeWriteNil : Bool
  closeCalled : Bool
  logCh : List logData
  accepted : List logData
  writes : Nat
  events : List WorkerEvent
  ret : Option (Option GoError)

/-- The actions that make up a run: one pass of the worker's loop with the case its
`select` takes, a send of a caller on `l.logCh`, and the call of `Close` (a second call
of `Close` panics in its caller and is not followed here). -/
inductive Action where
  | worker (c : Select)
  | send (d : logData)
  | Close

namespace Pipeline

/-- The pipeline right after `NewLogger`. -/
def start : Pipeline :=
  { closeWriteNil := false, closeCalled := false, logCh := [], accepted := [], writes := 0,
    events := [], ret := none }

/-- One pass of the `for` loop of `_GoLogger`; `res k` is the result of the stream write
in the call number `k` of `l.file.Write`.  A case of the `select` that is not ready
leaves the worker waiting.  A failed write is reported inside `l.file.Write` by
`_StdLog().Errorf("logFile Write Error: %v", err)`, a send on the queue of the standard
logger, which returns at once when that logger has not been created or has been closed,
and otherwise waits for room in the queue: `rep 0` tells whether that call returns; when
it does not, the goroutine stays blocked in it.  The record that a report leaves in the
queue of the standard logger is not followed, so that after a write error the pipeline
is that of a logger other than the standard logger. -/
def _GoLogger (res : Nat → Option GoError) (rep : Nat → Bool) (s : Pipeline) (c : Select) :
    Pipeline :=
  if s.closeWriteNil = true ∧ s.logCh.length = 0 then
    { s with logCh := [], events := s.events ++ [WorkerEvent.flush], ret := some none }
  else
    match c with
    | Select.data =>
      match s.logCh with
      | [] => s
      | d :: rest =>
        match res s.writes with
        | some err =>
          { s with logCh := rest, writes := s.writes + 1,
                   events := s.events ++ [WorkerEvent.write d (some err)]
                     ++ [if rep 0 then WorkerEvent.report err
                         else WorkerEvent.reportBlocked err],
                   ret := some (some err) }
        | none =>
          { s with logCh := rest, writes := s.writes + 1,
                   events := s.events ++ [WorkerEvent.write d none] }
    | Select.tick => { s with events := s.events ++ [WorkerEvent.flush] }
    | Select.close =>
      if s.closeCalled = true ∧ s.closeWriteNil = false then { s with closeWriteNil := true }
      else s

/-- The goroutine of `NewLogger` after the loop of `_GoLogger`: `_CloseWithErr(err)`,
`close(l.closed)`, `l.file.Close()` unless `l.std`, `close(l.waitClose)`.  After a write
error, `_CloseWithErr` calls `_StdLog().Errorf("logger Error:%v", err)`: `rep 1` tells
whether that call returns.  While a report does not return (`rep 0` or `rep 1` false)
the goroutine is blocked in it, and neither `l.closed` nor `l.waitClose` is closed. -/
def finish (std : Bool) (rep : Nat → Bool) (s : Pipeline) : Pipeline :=
  match s.ret with
  | none => s
  | some none =>
    { s with events := s.events ++ [WorkerEvent.closed]
        ++ (if std then [] else [WorkerEvent.closeFiles]) ++ [WorkerEvent.waitClose] }
  | some (some e) =>
    if rep 0 = true then
      if rep 1 = true then
        { s with events := s.events ++ [WorkerEvent.report e] ++ [WorkerEvent.closed]
            ++ (if std then [] else [WorkerEvent.closeFiles]) ++ [WorkerEvent.waitClose] }
      else { s with events := s.events ++ [WorkerEvent.reportBlocked e] }
    else s

/-- One action of a run.  A send is taken while the queue has room and `l.logCh` has not
been set to nil by the normal return of the worker. -/
def step (std : Bool) (res : Nat → Option GoError) (rep : Nat → Bool) (s : Pipeline) :
    Action → Pipeline
  | Action.worker c =>
    match s.ret with
    | some _ => s
    | none => (s._GoLogger res rep c).finish std rep
  | Action.send d =>
    match s.ret with
    | some none => s
    | _ =>
      if s.logCh.length < 64 then
        { s with logCh := s.logCh ++ [d], accepted := s.accepted ++ [d] }
      else s
  | Action.Close => { s with closeCalled := true }

/-- A run of the pipeline. -/
def run (std : Bool) (res : Nat → Option GoError) (rep : Nat → Bool) (s : Pipeline)
    (acts : List Action) : Pipeline :=
  acts.foldl (step std res rep) s

end Pipeline

/-- The records that the worker handed to `l.file.Write` without an error, in order. -/
def writtenOf : List WorkerEvent → List logData
  | [] => []
  | WorkerEvent.write d none :: rest => d :: writtenOf rest
  | _ :: rest => writtenOf rest

/-! ## jbuffer.go: `grow` with the allocation of `makeSlice` as a parameter -/

/-- Go `func makeSlice(n int) []byte`: `make([]byte, n)`, whose panic (a negative size,
or a size that the run time refuses to allocate) is recovered and raised again as
`ErrTooLarge`.  `alloc k` tells whether the run time allocates an array of `k` bytes. -/
def makeSlice (alloc : Nat → Bool) (n : Int) : Except Panic (List Nat) :=
  if n < 0 ∨ alloc n.toNat = false then throw Panic.errTooLarge
  else pure (List.replicate n.toNat 0)

/-- Go `func (j *JBuffer) grow(n int) int`, as `JBuffer.grow`, with the call
`makeSlice(2*c + n)` of the reallocation branch given by `makeSlice alloc`. -/
def JBuffer.growAlloc (alloc : Nat → Bool) (j : JBuffer) (n : Int) :
    Except Panic (JBuffer × Int) := do
  let m := j.Len
  let j0 := if m = 0 ∧ j.off ≠ 0 then j.Reset else j
  let (j1, i, ok) ← j0.tryGrowByReslice n
  if ok then pure (j1, i)
  else if j1.isNil ∧ n ≤ (smallBufferSize : Int) then
    if n < 0 then throw Panic.sliceBounds
    else pure ({ j1 with buf := List.replicate n.toNat 0,
                         spare := List.replicate (smallBufferSize - n.toNat) 0,
                         nilPtr := false }, 0)
  else
    let c : Int := (j1.Cap : Int)
    if n ≤ c / 2 - m then do
      let src ← j1.sliceFrom j1.off
      let j2 := { j1 with buf := copyInto j1.buf src, off := 0 }
      let j3 ← j2.sliceTo (m + n)
      pure (j3, m)
    else if c > maxInt - c - n then throw Panic.errTooLarge
    else do
      let arr ← makeSlice alloc (2 * c + n)
      let src ← j1.sliceFrom j1.off
      let j2 := { j1 with buf := copyInto arr src, spare := [], off := 0, nilPtr := false }
      let j3 ← j2.sliceTo (m + n)
      pure (j3, m)

/-! ## Varint codec: size and byte count -/

theorem bitLen_le_iff : ∀ (f x n : Nat), x < 2 ^ f → (bitLen f x ≤ n ↔ x < 2 ^ n) := by
  intro f
  induction f with
  | zero =>
    intro x n hx
    have hx0 : x = 0 := by simpa using hx
    subst hx0
    simp [bitLen]
  | succ f ih =>
    intro x n hx
    by_cases h0 : x = 0
    · subst h0
      simp [bitLen]
    · have hdiv : x / 2 < 2 ^ f := by
        rw [pow_succ] at hx
        omega
      cases n with
      | zero =>
        simp only [bitLen, h0, if_false, pow_zero]
        omega
      | succ n =>
        simp only [bitLen, h0, if_false, Nat.add_le_add_iff_right]
        rw [ih (x / 2) n hdiv, pow_succ]
        omega

theorem Len64_le_iff (v n : Nat) (h : v < 2 ^ 64) : Len64 v ≤ n ↔ v < 2 ^ n :=
  bitLen_le_iff 64 v n h

theorem varCnt_eq (v : Nat) :
    varCnt v = if v < 2 ^ 7 then 1 else if v < 2 ^ 14 then 2 else if v < 2 ^ 21 then 3
      else if v < 2 ^ 28 then 4 else if v < 2 ^ 35 then 5 else if v < 2 ^ 42 then 6
      else if v < 2 ^ 49 then 7 else if v < 2 ^ 56 then 8 else if v < 2 ^ 63 then 9
      else 10 := by
  simp only [varCnt, List.range', List.find?, Nat.reduceShiftLeft, Nat.reduceMul,
    Nat.reducePow, Nat.reduceMod, Nat.reduceAdd]
  split_ifs <;> simp only [*, decide_True, decide_False, Option.getD_some, Option.getD_none]

theorem Len64_le (v : Nat) (h : v < 2 ^ 64) : Len64 v ≤ 64 :=
  (Len64_le_iff v 64 h).2 h

theorem Size_eq_div (v : Nat) (h : v < 2 ^ 64) : Size v = (9 * Len64 v + 64) / 64 := by
  have h64 := Len64_le v h
  have e1 : Len64 v % 2 ^ 32 = Len64 v := Nat.mod_eq_of_lt (by omega)
  have e2 : (9 * Len64 v + 64) % 2 ^ 32 = 9 * Len64 v + 64 := Nat.mod_eq_of_lt (by omega)
  simp only [Size, e1, e2]

theorem Size_eq_varCnt (v : Nat) (h : v < 2 ^ 64) : Size v = varCnt v := by
  have h7 := Len64_le_iff v 7 h
  have h14 := Len64_le_iff v 14 h
  have h21 := Len64_le_iff v 21 h
  have h28 := Len64_le_iff v 28 h
  have h35 := Len64_le_iff v 35 h
  have h42 := Len64_le_iff v 42 h
  have h49 := Len64_le_iff v 49 h
  have h56 := Len64_le_iff v 56 h
  have h63 := Len64_le_iff v 63 h
  have h64 := (Len64_le_iff v 64 h).2 h
  have e1 : Len64 v % 2 ^ 32 = Len64 v := Nat.mod_eq_of_lt (by omega)
  have e2 : (9 * Len64 v + 64) % 2 ^ 32 = 9 * Len64 v + 64 := Nat.mod_eq_of_lt (by omega)
  rw [varCnt_eq]
  simp only [Size, e1, e2]
  norm_num at h7 h14 h21 h28 h35 h42 h49 h56 h63 h ⊢
  split_ifs <;> omega

theorem varCnt_pos (v : Nat) : 1 ≤ varCnt v := by
  rw [varCnt_eq]; split_ifs <;> omega

theorem varCnt_le (v : Nat) : varCnt v ≤ 10 := by
  rw [varCnt_eq]; split_ifs <;> omega

/-- The stores of `VarToBytes` on a slice that is long enough: the first `n` bytes are
replaced, the others are kept. -/
theorem foldlM_store_ok (f : Nat → Nat) : ∀ (n : Nat) (b : List Nat), n ≤ b.length →
    (List.range n).foldlM
      (fun b i => if i < b.length then pure (b.set i (f i))
        else throw Panic.indexOutOfRange) b
      = (Except.ok ((List.range n).map f ++ b.drop n) : Except Panic (List Nat)) := by
  intro n
  induction n with
  | zero => intro b _; simp [pure, Except.pure]
  | succ n ih =>
    intro b hb
    rw [List.range_succ, List.foldlM_append, ih b (by omega)]
    have hlen : ((List.range n).map f ++ b.drop n).length = b.length := by
      simp; omega
    have hn : n < ((List.range n).map f ++ b.drop n).length := by omega
    simp only [List.foldlM, bind, Except.bind, hn, if_true, pure, Except.pure]
    congr 1
    have hd : b.drop n = b.get ⟨n, by omega⟩ :: b.drop (n + 1) := by
      simp
    rw [List.set_append_right _ _ (by simp)]
    simp only [List.length_map, List.length_range, Nat.sub_self]
    rw [hd, List.set_cons_zero, List.map_append]
    simp

/-- A slice that is too short makes a store of `VarToBytes` panic. -/
theorem foldlM_store_short (f : Nat → Nat) : ∀ (n : Nat) (b : List Nat), b.length < n →
    (List.range n).foldlM
      (fun b i => if i < b.length then pure (b.set i (f i))
        else throw Panic.indexOutOfRange) b
      = (Except.error Panic.indexOutOfRange : Except Panic (List Nat)) := by
  intro n
  induction n with
  | zero => intro b hb; omega
  | succ n ih =>
    intro b hb
    rw [List.range_succ, List.foldlM_append]
    by_cases hbn : b.length < n
    · rw [ih b hbn]; rfl
    · rw [foldlM_store_ok f n b (by omega)]
      have hlen : ((List.range n).map f ++ b.drop n).length = b.length := by
        simp; omega
      have hn : ¬ n < ((List.range n).map f ++ b.drop n).length := by omega
      simp only [List.foldlM, bind, Except.bind, hn, if_false, throw, throwThe,
        MonadExceptOf.throw]

theorem VarToBytes_ok (v : Nat) (b : List Nat) (hb : varCnt v ≤ b.length) :
    VarToBytes v b
      = .ok ((List.range (varCnt v)).map (varByte v (varCnt v)) ++ b.drop (varCnt v)) :=
  foldlM_store_ok _ _ b hb

theorem VarToBytes_short (v : Nat) (b : List Nat) (hb : b.length < varCnt v) :
    VarToBytes v b = .error Panic.indexOutOfRange :=
  foldlM_store_short _ _ b hb

/-! ## Varint codec: the bytes written and the decoding loop -/

theorem or_0x80 : ∀ y, y < 128 → y ||| 0x80 = y + 128 := by decide

theorem varByte_cont (v cnt i : Nat) (h : i ≠ cnt - 1) :
    varByte v cnt i = v / 2 ^ (7 * i) % 128 + 128 := by
  have hm : (v >>> (7 * i)) &&& 0x7f = v / 2 ^ (7 * i) % 128 := by
    rw [Nat.shiftRight_eq_div_pow]
    exact Nat.and_pow_two_sub_one_eq_mod _ 7
  have hlt : v / 2 ^ (7 * i) % 128 < 128 := Nat.mod_lt _ (by norm_num)
  simp only [varByte, h, ne_eq, not_false_eq_true, if_true, hm, or_0x80 _ hlt]
  omega

theorem varByte_last (v cnt i : Nat) (h : i = cnt - 1) (h9 : i ≠ 9)
    (hv : v / 2 ^ (7 * i) < 128) : varByte v cnt i = v / 2 ^ (7 * i) := by
  simp only [varByte, h, ne_eq, not_true_eq_false, if_false]
  rw [← h, if_pos h9, Nat.shiftRight_eq_div_pow]
  exact Nat.mod_eq_of_lt (lt_trans hv (by norm_num))

theorem varByte_last9 (v : Nat) : varByte v 10 9 = 1 := by
  simp [varByte]

/-- One iteration of the decoding loop on a continuation byte. -/
theorem Bytes2VarLoop_cont (i acc g : Nat) (rest : List Nat) (hi : i ≤ 8)
    (hacc : acc < 2 ^ (7 * i)) (hg : g < 128) :
    Bytes2VarLoop ((g + 128) :: rest) i acc
      = Bytes2VarLoop rest (i + 1) (acc + g * 2 ^ (7 * i)) := by
  have hc : ¬ ((i ≠ 9 ∧ g + 128 < 0x80) ∨ (i = 9 ∧ g + 128 < 2)) := by omega
  rw [Bytes2VarLoop]
  simp only [hc, if_false, Nat.shiftLeft_eq]
  congr 1
  interval_cases i <;> norm_num at hacc ⊢ <;> omega

/-- The iteration of the decoding loop on a terminating byte at an index below 9. -/
theorem Bytes2VarLoop_last (i acc g : Nat) (rest : List Nat) (hi : i ≤ 8)
    (hacc : acc < 2 ^ (7 * i)) (hg : g < 128) :
    Bytes2VarLoop (g :: rest) i acc = (acc + g * 2 ^ (7 * i), (i : Int) + 1) := by
  have hc : (i ≠ 9 ∧ g < 0x80) ∨ (i = 9 ∧ g < 2) := by omega
  rw [Bytes2VarLoop]
  simp only [hc, if_true, Nat.shiftLeft_eq]
  congr 1
  interval_cases i <;> norm_num at hacc ⊢ <;> omega

/-- The iteration of the decoding loop on the tenth byte of a ten-byte encoding. -/
theorem Bytes2VarLoop_last9 (acc : Nat) (rest : List Nat) (hacc : acc < 2 ^ 63) :
    Bytes2VarLoop (1 :: rest) 9 acc = (acc + 2 ^ 63, 10) := by
  rw [Bytes2VarLoop]
  norm_num at hacc ⊢
  omega

/-- Decoding the bytes stored at indices `i .. cnt-1`, entered with the low `7*i` bits
of `v` in the accumulator, ends with `v` and the count `cnt`. -/
theorem Bytes2VarLoop_enc (v cnt : Nat) (t : List Nat) (hcnt : cnt ≤ 10)
    (hlo : cnt ≤ 9 → v < 2 ^ (7 * cnt)) (h10 : cnt = 10 → 2 ^ 63 ≤ v ∧ v < 2 ^ 64) :
    ∀ k i, i + k + 1 = cnt →
      Bytes2VarLoop ((List.range' i (k + 1)).map (varByte v cnt) ++ t) i (v % 2 ^ (7 * i))
        = (v, (cnt : Int)) := by
  intro k
  induction k with
  | zero =>
    intro i hi
    have hic : i = cnt - 1 := by omega
    simp only [zero_add, List.range'_one, List.map_cons, List.map_nil, List.singleton_append]
    by_cases h9 : i = 9
    · have hc10 : cnt = 10 := by omega
      obtain ⟨hv1, hv2⟩ := h10 hc10
      subst h9
      rw [hc10, varByte_last9, Bytes2VarLoop_last9 _ _ (Nat.mod_lt _ (by norm_num))]
      norm_num at hv1 hv2 ⊢
      omega
    · have hi8 : i ≤ 8 := by omega
      have hv : v < 2 ^ (7 * (i + 1)) := by
        have := hlo (by omega)
        rwa [← hi] at this
      have hdiv : v / 2 ^ (7 * i) < 128 := by
        rw [Nat.div_lt_iff_lt_mul (by positivity)]
        calc v < 2 ^ (7 * (i + 1)) := hv
          _ = 128 * 2 ^ (7 * i) := by rw [Nat.mul_add, pow_add]; norm_num; ring
      rw [varByte_last v cnt i hic h9 hdiv,
        Bytes2VarLoop_last _ _ _ _ hi8 (Nat.mod_lt _ (by positivity)) hdiv]
      have e1 : v % 2 ^ (7 * i) + v / 2 ^ (7 * i) * 2 ^ (7 * i) = v := by
        rw [Nat.mul_comm (v / 2 ^ (7 * i))]; exact Nat.mod_add_div _ _
      have e2 : ((i : Int) + 1) = (cnt : Int) := by omega
      rw [e1, e2]
  | succ k ih =>
    intro i hi
    have hi8 : i ≤ 8 := by omega
    have hne : i ≠ cnt - 1 := by omega
    have hr : List.range' i (k + 1 + 1) = i :: List.range' (i + 1) (k + 1) := by
      simp [List.range']
    rw [hr, List.map_cons, List.cons_append, varByte_cont v cnt i hne,
      Bytes2VarLoop_cont _ _ _ _ hi8 (Nat.mod_lt _ (by positivity))
        (Nat.mod_lt _ (by norm_num))]
    have e : v % 2 ^ (7 * i) + v / 2 ^ (7 * i) % 128 * 2 ^ (7 * i) = v % 2 ^ (7 * (i + 1)) := by
      interval_cases i <;> norm_num <;> omega
    rw [e]
    exact ih (i + 1) (by omega)

theorem varCnt_bounds (v : Nat) (h : v < 2 ^ 64) :
    (varCnt v ≤ 9 → v < 2 ^ (7 * varCnt v)) ∧ (varCnt v = 10 → 2 ^ 63 ≤ v ∧ v < 2 ^ 64) := by
  rw [varCnt_eq]
  split_ifs <;> norm_num at * <;> omega

theorem Bytes2Var_varBytes (v : Nat) (t : List Nat) (h : v < 2 ^ 64) :
    Bytes2Var (varBytes v ++ t) = (v, (varCnt v : Int)) := by
  have hb := varCnt_bounds v h
  have hp := varCnt_pos v
  have := Bytes2VarLoop_enc v (varCnt v) t (varCnt_le v) hb.1 hb.2 (varCnt v - 1) 0 (by omega)
  have hk : varCnt v - 1 + 1 = varCnt v := by omega
  rw [hk] at this
  simpa [Bytes2Var, varBytes, List.range_eq_range', Nat.mod_one] using this

theorem VarToBytes_exact (v : Nat) (b : List Nat) (hv : v < 2 ^ 64)
    (hb : b.length = Size v) : VarToBytes v b = .ok (varBytes v) := by
  rw [Size_eq_varCnt v hv] at hb
  rw [VarToBytes_ok v b (by omega), List.drop_of_length_le (by omega), List.append_nil]
  rfl

theorem varBytes_length (v : Nat) : (varBytes v).length = varCnt v := by
  simp [varBytes]

theorem varBytes_getD (v i : Nat) (hi : i < varCnt v) :
    (varBytes v).getD i 0 = varByte v (varCnt v) i := by
  simp [varBytes, List.getD_eq_getElem?_getD, List.getElem?_map, List.getElem?_range hi]

/-- The low `n` seven-bit groups of `v`, each weighted by its position, add up to the
low `7 * n` bits of `v`. -/
theorem sum_groups (v : Nat) : ∀ n : Nat,
    ∑ i in Finset.range n, (v / 2 ^ (7 * i) % 128) * 2 ^ (7 * i) = v % 2 ^ (7 * n) := by
  intro n
  induction n with
  | zero => simp [Nat.mod_one]
  | succ n ih =>
    rw [Finset.sum_range_succ, ih]
    have e1 : (2 : Nat) ^ (7 * n) = 128 ^ n := by rw [pow_mul]; norm_num
    have e2 : (2 : Nat) ^ (7 * (n + 1)) = 128 ^ (n + 1) := by rw [pow_mul]; norm_num
    rw [e1, e2, Nat.mod_pow_succ, Nat.mul_comm (128 ^ n)]

/-- The last byte that `VarToBytes` stores, as a number. -/
theorem varByte_final (v : Nat) (hv : v < 2 ^ 64) :
    (varCnt v = 10 ∧ varByte v (varCnt v) (varCnt v - 1) = 1) ∨
    (varCnt v ≤ 9 ∧ v / 2 ^ (7 * (varCnt v - 1)) < 128 ∧
      varByte v (varCnt v) (varCnt v - 1) = v / 2 ^ (7 * (varCnt v - 1))) := by
  have hb := varCnt_bounds v hv
  have hp := varCnt_pos v
  have hl := varCnt_le v
  by_cases h10 : varCnt v = 10
  · left
    refine ⟨h10, ?_⟩
    rw [h10]
    exact varByte_last9 v
  · right
    have h9 : varCnt v ≤ 9 := by omega
    have hlt := hb.1 h9
    have hdiv : v / 2 ^ (7 * (varCnt v - 1)) < 128 := by
      rw [Nat.div_lt_iff_lt_mul (by positivity)]
      calc v < 2 ^ (7 * varCnt v) := hlt
        _ = 2 ^ (7 * (varCnt v - 1) + 7) := by congr 1; omega
        _ = 128 * 2 ^ (7 * (varCnt v - 1)) := by rw [pow_add]; norm_num; ring
    exact ⟨h9, hdiv, varByte_last v _ _ rfl (by omega) hdiv⟩

theorem varint_roundtrip_aux (v : Nat) (hv : v < 2 ^ 64) (b t : List Nat)
    (hb : b.length = Size v) :
    ∃ e, VarToBytes v b = .ok e ∧ e.length = Size v ∧
      Bytes2Var (e ++ t) = (v, (Size v : Int)) := by
  refine ⟨varBytes v, VarToBytes_exact v b hv hb, ?_, ?_⟩
  · rw [varBytes_length, Size_eq_varCnt v hv]
  · rw [Bytes2Var_varBytes v t hv, Size_eq_varCnt v hv]

/-! ## Claims on the varint codec -/

/-- C1: for every 64-bit `v`, every slice `b` of `Size v` bytes and every byte
sequence `t`, `VarToBytes` fills `b` with `Size v` bytes `e` and `Bytes2Var` applied to
`e` followed by `t` returns `(v, Size v)`; on every row `(x, n)` of the table of the
test `Varints convert`, `Size x = n` and decoding the encoding of `x` written into an
`n`-byte slice returns `(x, n)`. -/
theorem Bytes2Var_VarToBytes_roundtrip (v : Nat) (hv : v < 2 ^ 64) (b t : List Nat)
    (hb : b.length = Size v) :
    (∃ e, VarToBytes v b = .ok e ∧ e.length = Size v ∧
      Bytes2Var (e ++ t) = (v, (Size v : Int))) ∧
    (∀ c ∈ varintCases, Size c.1 = c.2 ∧
      ∃ e, VarToBytes c.1 (List.replicate c.2 0) = .ok e ∧
        Bytes2Var e = (c.1, (c.2 : Int))) := by
  refine ⟨varint_roundtrip_aux v hv b t hb, ?_⟩
  intro c hc
  have hsz : c.1 < 2 ^ 64 ∧ Size c.1 = c.2 := by
    revert c
    decide
  refine ⟨hsz.2, ?_⟩
  obtain ⟨e, he, _, hd⟩ :=
    varint_roundtrip_aux c.1 hsz.1 (List.replicate c.2 0) [] (by simp [hsz.2])
  refine ⟨e, he, ?_⟩
  rw [List.append_nil, hsz.2] at hd
  exact hd

/-- Witness of C1 at `v = 300` with one trailing byte. -/
theorem Bytes2Var_VarToBytes_roundtrip_witness :
    (300 < 2 ^ 64 ∧ [0, 0].length = Size 300) ∧
    ((∃ e, VarToBytes 300 [0, 0] = .ok e ∧ e.length = Size 300 ∧
      Bytes2Var (e ++ [7]) = (300, (Size 300 : Int))) ∧
    (∀ c ∈ varintCases, Size c.1 = c.2 ∧
      ∃ e, VarToBytes c.1 (List.replicate c.2 0) = .ok e ∧
        Bytes2Var e = (c.1, (c.2 : Int)))) :=
  ⟨⟨by decide, by decide⟩,
    Bytes2Var_VarToBytes_roundtrip 300 (by decide) [0, 0] [7] (by decide)⟩

/-- C2: for every `v` below `2 ^ 64`, `Size v` is the number of bytes `VarToBytes`
stores for `v`: it is the loop count `varCnt v`, a slice of at least `Size v` bytes
gets exactly its first `Size v` bytes replaced, a shorter slice makes the stores
panic; `Size v` is the least `k` in `1..9` with `v < 2 ^ (7 * k)`, it is `10` exactly
when `v ≥ 2 ^ 63`, and `1 ≤ Size v ≤ 10`. -/
theorem Size_eq_bytes_written (v : Nat) (hv : v < 2 ^ 64) :
    Size v = varCnt v ∧ 1 ≤ Size v ∧ Size v ≤ 10 ∧
    (∀ k, 1 ≤ k → k ≤ 9 → (Size v ≤ k ↔ v < 2 ^ (7 * k))) ∧
    (Size v = 10 ↔ 2 ^ 63 ≤ v) ∧
    (∀ b : List Nat, Size v ≤ b.length →
      ∃ e, e.length = Size v ∧ VarToBytes v b = .ok (e ++ b.drop (Size v))) ∧
    (∀ b : List Nat, b.length < Size v → VarToBytes v b = .error Panic.indexOutOfRange) := by
  have hs := Size_eq_varCnt v hv
  refine ⟨hs, ?_, ?_, ?_, ?_, ?_, ?_⟩
  · rw [hs]; exact varCnt_pos v
  · rw [hs]; exact varCnt_le v
  · intro k hk1 hk9
    rw [← Len64_le_iff v (7 * k) hv, Size_eq_div v hv]
    have := Len64_le v hv
    omega
  · have h63 := Len64_le_iff v 63 hv
    have := Len64_le v hv
    rw [Size_eq_div v hv]
    omega
  · intro b hb
    rw [hs] at hb ⊢
    exact ⟨varBytes v, varBytes_length v, VarToBytes_ok v b hb⟩
  · intro b hb
    rw [hs] at hb
    exact VarToBytes_short v b hb

/-- Witness of C2 at `v = 300`. -/
theorem Size_eq_bytes_written_witness :
    300 < 2 ^ 64 ∧ Size 300 = varCnt 300 ∧ 1 ≤ Size 300 ∧ Size 300 ≤ 10 ∧
    (∀ k, 1 ≤ k → k ≤ 9 → (Size 300 ≤ k ↔ 300 < 2 ^ (7 * k))) ∧
    (Size 300 = 10 ↔ 2 ^ 63 ≤ 300) ∧
    (∀ b : List Nat, Size 300 ≤ b.length →
      ∃ e, e.length = Size 300 ∧ VarToBytes 300 b = .ok (e ++ b.drop (Size 300))) ∧
    (∀ b : List Nat, b.length < Size 300 →
      VarToBytes 300 b = .error Panic.indexOutOfRange) :=
  ⟨by decide, Size_eq_bytes_written 300 (by decide)⟩

/-- C3: for every `v` below `2 ^ 64` the `n = Size v` bytes `e` that `VarToBytes`
stores into an `n`-byte slice follow the LEB128 format: every byte but the last has
its high bit set, the last has it clear, `v` is the sum of the seven-bit groups
`e[i] % 128` weighted by `2 ^ (7 * i)`, the last byte is nonzero unless `v = 0`, and a
tenth byte equals `1`. -/
theorem VarToBytes_wire_format (v : Nat) (hv : v < 2 ^ 64) (b : List Nat)
    (hb : b.length = Size v) :
    ∃ e, VarToBytes v b = .ok e ∧ e.length = Size v ∧
      (∀ i, i + 1 < Size v → 128 ≤ e.getD i 0 ∧ e.getD i 0 < 256) ∧
      e.getD (Size v - 1) 0 < 128 ∧
      v = ∑ i in Finset.range (Size v), (e.getD i 0 % 128) * 2 ^ (7 * i) ∧
      (v ≠ 0 → e.getD (Size v - 1) 0 ≠ 0) ∧
      (Size v = 10 → e.getD 9 0 = 1) := by
  have hs := Size_eq_varCnt v hv
  have hp := varCnt_pos v
  have hl := varCnt_le v
  have hfin := varByte_final v hv
  have hlast : (varBytes v).getD (varCnt v - 1) 0 = varByte v (varCnt v) (varCnt v - 1) :=
    varBytes_getD v _ (by omega)
  refine ⟨varBytes v, VarToBytes_exact v b hv hb, ?_, ?_, ?_, ?_, ?_, ?_⟩
  · rw [varBytes_length, hs]
  · intro i hi
    rw [hs] at hi
    rw [varBytes_getD v i (by omega), varByte_cont v _ i (by omega)]
    omega
  · rw [hs, hlast]
    rcases hfin with ⟨_, h1⟩ | ⟨_, h1, h2⟩
    · rw [h1]; norm_num
    · rw [h2]; exact h1
  · rw [hs]
    have hsplit : varCnt v = (varCnt v - 1) + 1 := by omega
    rw [hsplit, Finset.sum_range_succ]
    have hsum : ∑ i in Finset.range (varCnt v - 1),
        ((varBytes v).getD i 0 % 128) * 2 ^ (7 * i) = v % 2 ^ (7 * (varCnt v - 1)) := by
      rw [← sum_groups v (varCnt v - 1)]
      apply Finset.sum_congr rfl
      intro i hi
      rw [Finset.mem_range] at hi
      rw [varBytes_getD v i (by omega), varByte_cont v _ i (by omega)]
      congr 1
      omega
    rw [hsum, hlast]
    rcases hfin with ⟨h10, h1⟩ | ⟨_, h1, h2⟩
    · have hb10 := (varCnt_bounds v hv).2 h10
      rw [h1, h10]
      norm_num at hb10 ⊢
      omega
    · rw [h2, Nat.mod_eq_of_lt h1, Nat.mul_comm (v / 2 ^ (7 * (varCnt v - 1)))]
      exact (Nat.mod_add_div _ _).symm
  · intro hv0
    rw [hs, hlast]
    rcases hfin with ⟨_, h1⟩ | ⟨_, _, h2⟩
    · rw [h1]; norm_num
    · rw [h2]
      have hge : 2 ^ (7 * (varCnt v - 1)) ≤ v := by
        have := varCnt_eq v
        split_ifs at this <;> rw [this] <;> norm_num <;> omega
      exact Nat.ne_of_gt (Nat.div_pos hge (by positivity))
  · intro h10
    rw [hs] at h10
    have h9 : (9 : Nat) = varCnt v - 1 := by omega
    rw [h9, hlast]
    rcases hfin with ⟨_, h1⟩ | ⟨h, _, _⟩
    · exact h1
    · omega

/-- Witness of C3 at `v = 300`. -/
theorem VarToBytes_wire_format_witness :
    (300 < 2 ^ 64 ∧ [0, 0].length = Size 300) ∧
    ∃ e, VarToBytes 300 [0, 0] = .ok e ∧ e.length = Size 300 ∧
      (∀ i, i + 1 < Size 300 → 128 ≤ e.getD i 0 ∧ e.getD i 0 < 256) ∧
      e.getD (Size 300 - 1) 0 < 128 ∧
      300 = ∑ i in Finset.range (Size 300), (e.getD i 0 % 128) * 2 ^ (7 * i) ∧
      (300 ≠ 0 → e.getD (Size 300 - 1) 0 ≠ 0) ∧
      (Size 300 = 10 → e.getD 9 0 = 1) :=
  ⟨⟨by decide, by decide⟩, VarToBytes_wire_format 300 (by decide) [0, 0] (by decide)⟩

/-- C4 (the code at the failing inputs): on ten continuation bytes followed by a byte
below `0x80`, and on nine continuation bytes, a tenth byte `2` and one more byte,
`Bytes2Var` does not report failure: it returns with the count `11`. -/
theorem Bytes2Var_eleven_bytes :
    Bytes2Var [0x80, 0x80, 0x80, 0x80, 0x80, 0x80, 0x80, 0x80, 0x80, 0x80, 0x00] = (0, 11) ∧
    Bytes2Var [0x80, 0x80, 0x80, 0x80, 0x80, 0x80, 0x80, 0x80, 0x80, 0x02, 0x00] = (0, 11) ∧
    Bytes2Var [0xff, 0xff, 0xff, 0xff, 0xff, 0xff, 0xff, 0xff, 0xff, 0x7f, 0x05, 0x09]
      = (2 ^ 64 - 1, 11) := by
  decide

/-! ## The buffer: slicing and growth -/

namespace JBuffer


theorem sliceTo_ok (j : JBuffer) (k : Nat) (h : k ≤ j.Cap) :
    j.sliceTo (k : Int) = .ok (j.reslice k) := by
  have h1 : (0 : Int) ≤ (k : Int) ∧ (k : Int) ≤ (j.Cap : Int) := by omega
  simp only [sliceTo, h1, and_self, if_true, Int.toNat_ofNat, pure, Except.pure]

theorem sliceFrom_ok (j : JBuffer) (k : Nat) (h : k ≤ j.len) :
    j.sliceFrom (k : Int) = .ok (j.buf.drop k) := by
  have h1 : (0 : Int) ≤ (k : Int) ∧ (k : Int) ≤ (j.len : Int) := by omega
  simp only [sliceFrom, h1, and_self, if_true, Int.toNat_ofNat, pure, Except.pure]

theorem tryGrowByReslice_fit (j : JBuffer) (n : Nat) (h : n ≤ j.spare.length) :
    j.tryGrowByReslice (n : Int) = .ok (j.reslice (j.len + n), (j.len : Int), true) := by
  have h1 : (n : Int) ≤ (j.Cap : Int) - (j.len : Int) := by
    simp only [Cap, len]; omega
  have h2 : j.len + n ≤ j.Cap := by simp only [Cap, len]; omega
  have h3 := sliceTo_ok j (j.len + n) h2
  rw [Nat.cast_add] at h3
  simp only [tryGrowByReslice, h1, if_true, h3, bind, Except.bind, pure, Except.pure]

theorem tryGrowByReslice_nofit (j : JBuffer) (n : Nat) (h : j.spare.length < n) :
    j.tryGrowByReslice (n : Int) = .ok (j, 0, false) := by
  have h1 : ¬ (n : Int) ≤ (j.Cap : Int) - (j.len : Int) := by
    simp only [Cap, len]; omega
  simp only [tryGrowByReslice, h1, if_false, pure, Except.pure]


end JBuffer
namespace JBuffer

@[simp]
theorem Reset_buf (j : JBuffer) : j.Reset.buf = [] := by simp [Reset, reslice]
@[simp]
theorem Reset_spare (j : JBuffer) : j.Reset.spare = j.buf ++ j.spare := by
  simp [Reset, reslice]
@[simp]
theorem Reset_off (j : JBuffer) : j.Reset.off = 0 := rfl
@[simp]
theorem Reset_nilPtr (j : JBuffer) : j.Reset.nilPtr = j.nilPtr := rfl
@[simp]
theorem Reset_Cap (j : JBuffer) : j.Reset.Cap = j.Cap := by simp [Cap]
@[simp]
theorem Reset_len (j : JBuffer) : j.Reset.len = 0 := by simp [len]
@[simp]
theorem reslice_off (j : JBuffer) (k : Nat) : (j.reslice k).off = j.off := rfl
@[simp]
theorem reslice_nilPtr (j : JBuffer) (k : Nat) : (j.reslice k).nilPtr = j.nilPtr := rfl
@[simp]
theorem reslice_Cap (j : JBuffer) (k : Nat) : (j.reslice k).Cap = j.Cap := by
  simp only [Cap, reslice, List.length_take, List.length_drop, List.length_append]
  omega
theorem reslice_buf_length (j : JBuffer) (k : Nat) (h : k ≤ j.Cap) :
    (j.reslice k).buf.length = k := by
  simp only [Cap] at h
  simp only [reslice, List.length_take, List.length_append]
  omega


theorem Reset_Len (j : JBuffer) : j.Reset.Len = 0 := by simp [Len]

theorem grow_reset (j : JBuffer) (n : Int) (hr : j.Len = 0 ∧ j.off ≠ 0) :
    j.grow n = j.Reset.grow n := by
  have hj0 : (if j.Len = 0 ∧ j.off ≠ 0 then j.Reset else j) = j.Reset := if_pos hr
  have hj1 : (if j.Reset.Len = 0 ∧ j.Reset.off ≠ 0 then j.Reset.Reset else j.Reset) = j.Reset :=
    if_neg (by simp)
  simp only [grow, hr.1, hr.2, Reset_Len, Reset_off, ne_eq, not_false_eq_true,
    not_true_eq_false, and_self, and_false, if_true, if_false]

theorem copyInto_nil (dst : List Nat) : copyInto dst [] = dst := by simp [copyInto]

theorem copyInto_length (dst src : List Nat) : (copyInto dst src).length = dst.length := by
  simp only [copyInto, List.length_append, List.length_take, List.length_drop]
  omega

theorem copyInto_of_le (dst src : List Nat) (h : src.length ≤ dst.length) :
    copyInto dst src = src ++ dst.drop src.length := by
  simp only [copyInto, List.take_of_length_le h]

theorem take_add_take (a b : List Nat) (n : Nat) :
    ((a ++ b).take (a.length + n)).take a.length = a := by
  rw [List.take_take, Nat.min_eq_left (Nat.le_add_right _ _), List.take_left']
  rfl

/-- The function `grow` when no reset is pending and the reslice does not fit. -/
theorem grow_noreset (j : JBuffer) (n : Nat) (hinv : j.off ≤ j.len)
    (hr : ¬ (j.Len = 0 ∧ j.off ≠ 0)) (hnf : j.spare.length < n) :
    (∃ (j1 : JBuffer) (m : Nat), j.grow (n : Int) = .ok (j1, (m : Int)) ∧ AllocPost j j1 m n) ∨
    (j.grow (n : Int) = .error Panic.errTooLarge ∧ maxInt < 2 * (j.Cap : Int) + n) := by
  have hsrc := sliceFrom_ok j j.off hinv
  have hCap : j.Cap = j.buf.length + j.spare.length := rfl
  have hlen : j.len = j.buf.length := rfl
  have hlc : j.len ≤ j.Cap := by omega
  have hmn : ((j.len - j.off : Nat) : Int) + (n : Int) = ((j.len - j.off + n : Nat) : Int) := by
    omega
  have hm : j.Len = ((j.len - j.off : Nat) : Int) := by simp only [Len]; omega
  have hsl : (j.buf.drop j.off).length = j.len - j.off := by simp [len]
  simp only [grow, hr, if_false, tryGrowByReslice_nofit _ _ hnf, bind, Except.bind, pure,
    Except.pure, Bool.false_eq_true]
  simp only [hsrc, hm, hmn]
  by_cases hnil : j.isNil = true ∧ (n : Int) ≤ (smallBufferSize : Int)
  · left
    have hn64 : n ≤ 64 := by have := hnil.2; simp only [smallBufferSize] at this; omega
    have hb : j.buf = [] := by
      have := hnil.1
      simp only [isNil, Bool.and_eq_true, List.isEmpty_iff] at this
      exact this.1.2
    have hs : j.spare = [] := by
      have := hnil.1
      simp only [isNil, Bool.and_eq_true, List.isEmpty_iff] at this
      exact this.2
    have hoff : j.off = 0 := by simp only [len, hb, List.length_nil] at hinv; omega
    have hneg : ¬ ((n : Int) < 0) := by omega
    refine ⟨JBuffer.mk (List.replicate n 0) (List.replicate (smallBufferSize - n) 0)
      j.off false, 0, ?_, ?_⟩
    · simp only [hnil, and_self, if_true, hneg, if_false, Int.toNat_ofNat, Nat.cast_zero]
    · simp only [AllocPost, hoff, List.length_replicate, zero_add, hb, Cap, hs,
        smallBufferSize, len, List.length_nil]
      refine ⟨le_refl _, trivial, by simp, le_refl _, by omega, Or.inr (Or.inl (by omega))⟩
  · simp only [hnil, if_false]
    by_cases hcomp : (n : Int) ≤ (j.Cap : Int) / 2 - ((j.len - j.off : Nat) : Int)
    · left
      have hfit : j.len - j.off + n ≤
          (JBuffer.mk (copyInto j.buf (j.buf.drop j.off)) j.spare 0 j.nilPtr).Cap := by
        simp only [Cap, copyInto_length]
        simp only [Cap] at hcomp
        omega
      refine ⟨JBuffer.reslice (JBuffer.mk (copyInto j.buf (j.buf.drop j.off)) j.spare 0
        j.nilPtr) (j.len - j.off + n), j.len - j.off, ?_, ?_⟩
      · simp only [hcomp, if_true, sliceTo_ok _ _ hfit]
      · refine ⟨Nat.zero_le _, reslice_buf_length _ _ hfit, ?_, Nat.sub_le _ _, ?_, Or.inl ?_⟩
        · simp only [reslice, List.drop_zero]
          rw [copyInto_of_le _ _ (by simp), List.append_assoc, ← hsl]
          exact take_add_take _ _ _
        · rw [reslice_Cap]; simp [Cap, copyInto_length]
        · rw [reslice_Cap]; simp [Cap, copyInto_length]
    · simp only [hcomp, if_false]
      by_cases hbig : (j.Cap : Int) > maxInt - (j.Cap : Int) - (n : Int)
      · right
        simp only [hbig, if_true, throw, throwThe, MonadExceptOf.throw, true_and]
        omega
      · left
        have hN : (2 * (j.Cap : Int) + (n : Int)).toNat = 2 * j.Cap + n := by omega
        have hneg : ¬ (2 * (j.Cap : Int) + (n : Int) < 0) := by omega
        have hfit : j.len - j.off + n ≤ (JBuffer.mk (copyInto (List.replicate (2 * j.Cap + n) 0)
            (j.buf.drop j.off)) [] 0 false).Cap := by
          simp only [Cap, copyInto_length, List.length_replicate, List.length_nil]
          omega
        refine ⟨JBuffer.reslice (JBuffer.mk (copyInto (List.replicate (2 * j.Cap + n) 0)
          (j.buf.drop j.off)) [] 0 false) (j.len - j.off + n), j.len - j.off, ?_, ?_⟩
        · simp only [hbig, if_false, hneg, hN, sliceTo_ok _ _ hfit]
        · have hcapeq : (JBuffer.reslice (JBuffer.mk (copyInto (List.replicate (2 * j.Cap + n) 0)
              (j.buf.drop j.off)) [] 0 false) (j.len - j.off + n)).Cap = 2 * j.Cap + n := by
            rw [reslice_Cap]; simp [Cap, copyInto_length]
          refine ⟨Nat.zero_le _, reslice_buf_length _ _ hfit, ?_, Nat.sub_le _ _, ?_, ?_⟩
          · simp only [reslice, List.drop_zero]
            rw [copyInto_of_le _ _ (by simp; omega), List.append_assoc, ← hsl]
            exact take_add_take _ _ _
          · rw [hcapeq]; omega
          · right; right
            refine ⟨hcapeq, ?_⟩
            simp only [Cap, len]; omega

end JBuffer
namespace JBuffer

theorem AllocPost_fit (j : JBuffer) (n : Nat) (hinv : j.off ≤ j.len)
    (hfit : n ≤ j.spare.length) : AllocPost j (j.reslice (j.len + n)) j.len n := by
  have hCap : j.Cap = j.buf.length + j.spare.length := rfl
  have hlen : j.len = j.buf.length := rfl
  refine ⟨hinv, reslice_buf_length _ _ (by omega), ?_, le_refl _, by simp, Or.inl (by simp)⟩
  simp only [reslice]
  rw [hlen, take_add_take]

theorem grow_fit_noreset (j : JBuffer) (n : Nat) (hr : ¬ (j.Len = 0 ∧ j.off ≠ 0))
    (hfit : n ≤ j.spare.length) :
    j.grow (n : Int) = .ok (j.reslice (j.len + n), (j.len : Int)) := by
  simp only [grow, hr, if_false, tryGrowByReslice_fit _ _ hfit, bind, Except.bind, pure,
    Except.pure, if_true]

theorem AllocPost_of_Reset (j j1 : JBuffer) (m n : Nat)
    (hr : j.Len = 0 ∧ j.off ≠ 0) (h : AllocPost j.Reset j1 m n) : AllocPost j j1 m n := by
  have hlen : j.len = j.off := by have := hr.1; simp only [Len] at this; omega
  obtain ⟨h1, h2, h3, h4, h5, h6⟩ := h
  simp only [Reset_buf, Reset_off, Reset_Cap, Reset_len, List.drop_zero] at h3 h4 h5 h6
  refine ⟨h1, h2, ?_, by omega, h5, ?_⟩
  · rw [h3, List.drop_of_length_le]
    simp only [len] at hlen; omega
  · rcases h6 with h | h | ⟨h, h'⟩
    · exact Or.inl h
    · exact Or.inr (Or.inl h)
    · exact Or.inr (Or.inr ⟨h, by omega⟩)

/-- The call `grow(n)` on a buffer whose read offset does not exceed its length either returns
with the guarantees of `AllocPost` or panics with `ErrTooLarge`, the latter only when
`2*cap + n` exceeds `maxInt`. -/
theorem grow_spec (j : JBuffer) (n : Nat) (hinv : j.off ≤ j.len) :
    (∃ (j1 : JBuffer) (m : Nat), j.grow (n : Int) = .ok (j1, (m : Int)) ∧ AllocPost j j1 m n) ∨
    (j.grow (n : Int) = .error Panic.errTooLarge ∧ maxInt < 2 * (j.Cap : Int) + n) := by
  have base : ∀ j0 : JBuffer, j0.off ≤ j0.len → ¬ (j0.Len = 0 ∧ j0.off ≠ 0) →
      (∃ (j1 : JBuffer) (m : Nat), j0.grow (n : Int) = .ok (j1, (m : Int)) ∧
        AllocPost j0 j1 m n) ∨
      (j0.grow (n : Int) = .error Panic.errTooLarge ∧ maxInt < 2 * (j0.Cap : Int) + n) := by
    intro j0 h0 hr0
    by_cases hfit : n ≤ j0.spare.length
    · exact Or.inl ⟨_, _, grow_fit_noreset j0 n hr0 hfit, AllocPost_fit j0 n h0 hfit⟩
    · exact grow_noreset j0 n h0 hr0 (by omega)
  by_cases hr : j.Len = 0 ∧ j.off ≠ 0
  · rw [grow_reset j n hr]
    rcases base j.Reset (by simp) (by simp) with ⟨j1, m, h1, h2⟩ | ⟨h1, h2⟩
    · exact Or.inl ⟨j1, m, h1, AllocPost_of_Reset j j1 m n hr h2⟩
    · exact Or.inr ⟨h1, by simpa using h2⟩
  · exact base j hinv hr

/-- The call `Alloc(n)`: as `grow_spec`, for the slice `j1.buf[m:]` that `Alloc` returns. -/
theorem Alloc_spec (j : JBuffer) (n : Nat) (hinv : j.off ≤ j.len) :
    (∃ (j1 : JBuffer) (m : Nat), j.Alloc (n : Int) = .ok (j1, m) ∧ AllocPost j j1 m n) ∨
    (j.Alloc (n : Int) = .error Panic.errTooLarge ∧ maxInt < 2 * (j.Cap : Int) + n) := by
  by_cases hfit : n ≤ j.spare.length
  · left
    have hp := AllocPost_fit j n hinv hfit
    have hs := sliceFrom_ok (j.reslice (j.len + n)) j.len (by
      have := hp.2.1
      show j.len ≤ (j.reslice (j.len + n)).buf.length
      omega)
    refine ⟨_, _, ?_, hp⟩
    simp only [Alloc, tryGrow, tryGrowByReslice_fit _ _ hfit, bind, Except.bind, pure,
      Except.pure, if_true, hs, Int.toNat_ofNat]
  · have hnf : j.spare.length < n := by omega
    rcases grow_spec j n hinv with ⟨j1, m, h1, h2⟩ | ⟨h1, h2⟩
    · left
      have hs := sliceFrom_ok j1 m (by
        have := h2.2.1
        show m ≤ j1.buf.length
        omega)
      refine ⟨j1, m, ?_, h2⟩
      simp only [Alloc, tryGrow, tryGrowByReslice_nofit _ _ hnf, bind, Except.bind, pure,
        Except.pure, Bool.false_eq_true, if_false, h1, hs, Int.toNat_ofNat]
    · right
      refine ⟨?_, h2⟩
      simp only [Alloc, tryGrow, tryGrowByReslice_nofit _ _ hnf, bind, Except.bind, pure,
        Except.pure, Bool.false_eq_true, if_false, h1]

end JBuffer
namespace JBuffer

theorem setView_Appended (j j1 : JBuffer) (m n : Nat) (w : List Nat)
    (h : AllocPost j j1 m n) (hw : w.length = n) : Appended j (j1.setView m w) w := by
  obtain ⟨h1, h2, h3, h4, h5, h6⟩ := h
  have hCap : (j1.setView m w).Cap = j1.Cap := by
    simp only [setView, Cap, List.length_append, List.length_take]
    omega
  have hlen : (j1.setView m w).len = m + n := by
    simp only [setView, len, List.length_append, List.length_take]
    omega
  refine ⟨?_, ?_, by omega, by omega, ?_⟩
  · rw [hlen]; exact Nat.le_trans h1 (Nat.le_add_right _ _)
  · simp only [setView]
    rw [List.drop_append_of_le_length (by simp; omega), h3]
  · rw [hCap, hw]; exact h6

theorem copyInto_same_length (dst src : List Nat) (h : dst.length = src.length) :
    copyInto dst src = src := by
  simp [copyInto, h]

/-- The call `Write(p)` either returns `(len(p), nil)` with the unread bytes followed by `p` in
the buffer, or panics with `ErrTooLarge`. -/
theorem Write_spec (j : JBuffer) (p : List Nat) (hinv : j.off ≤ j.len) :
    (∃ j2 : JBuffer, j.Write p = .ok (j2, (p.length : Int), none) ∧ Appended j j2 p) ∨
    (j.Write p = .error Panic.errTooLarge ∧ maxInt < 2 * (j.Cap : Int) + p.length) := by
  rcases Alloc_spec j p.length hinv with ⟨j1, m, h1, h2⟩ | ⟨h1, h2⟩
  · left
    have hd : (j1.buf.drop m).length = p.length := by
      rw [List.length_drop, h2.2.1]; omega
    refine ⟨j1.setView m p, ?_, setView_Appended j j1 m p.length p h2 rfl⟩
    simp only [Write, h1, bind, Except.bind, pure, Except.pure, hd, min_self,
      copyInto_same_length _ _ hd]
  · right
    refine ⟨?_, h2⟩
    simp only [Write, h1, bind, Except.bind]

end JBuffer

theorem leBytes_length (w x : Nat) : (leBytes w x).length = w := by simp [leBytes]

theorem PutUint16_exact (b : List Nat) (v : Nat) (hb : b.length = 2) :
    PutUint16 b v = .ok (leBytes 2 v) := by
  have hd : b.drop 2 = [] := List.drop_eq_nil_of_le (by omega)
  simp [PutUint16, hb, hd, leBytes, List.range_succ, pure, Except.pure]

theorem PutUint32_exact (b : List Nat) (v : Nat) (hb : b.length = 4) :
    PutUint32 b v = .ok (leBytes 4 v) := by
  have hd : b.drop 4 = [] := List.drop_eq_nil_of_le (by omega)
  simp [PutUint32, hb, hd, leBytes, List.range_succ, pure, Except.pure]

theorem PutUint64_exact (b : List Nat) (v : Nat) (hb : b.length = 8) :
    PutUint64 b v = .ok (leBytes 8 v) := by
  have hd : b.drop 8 = [] := List.drop_eq_nil_of_le (by omega)
  simp [PutUint64, hb, hd, leBytes, List.range_succ, pure, Except.pure]

namespace JBuffer

theorem WriteUint16_spec (j : JBuffer) (x : Nat) (hinv : j.off ≤ j.len) :
    (∃ j2 : JBuffer, j.WriteUint16 x = .ok j2 ∧ Appended j j2 (leBytes 2 x)) ∨
    (j.WriteUint16 x = .error Panic.errTooLarge ∧ maxInt < 2 * (j.Cap : Int) + 2) := by
  rcases Alloc_spec j 2 hinv with ⟨j1, m, h1, h2⟩ | ⟨h1, h2⟩
  · left
    have hd : (j1.buf.drop m).length = 2 := by rw [List.length_drop, h2.2.1]; omega
    refine ⟨j1.setView m (leBytes 2 x), ?_, setView_Appended j j1 m 2 _ h2 (leBytes_length 2 x)⟩
    simp only [WriteUint16, WSize, h1, bind, Except.bind, pure, Except.pure, Uint16ToBytes,
      PutUint16_exact _ x hd]
  · right
    refine ⟨?_, h2⟩
    simp only [WriteUint16, WSize, h1, bind, Except.bind]

theorem WriteUint32_spec (j : JBuffer) (x : Nat) (hinv : j.off ≤ j.len) :
    (∃ j2 : JBuffer, j.WriteUint32 x = .ok j2 ∧ Appended j j2 (leBytes 4 x)) ∨
    (j.WriteUint32 x = .error Panic.errTooLarge ∧ maxInt < 2 * (j.Cap : Int) + 4) := by
  rcases Alloc_spec j 4 hinv with ⟨j1, m, h1, h2⟩ | ⟨h1, h2⟩
  · left
    have hd : (j1.buf.drop m).length = 4 := by rw [List.length_drop, h2.2.1]; omega
    refine ⟨j1.setView m (leBytes 4 x), ?_, setView_Appended j j1 m 4 _ h2 (leBytes_length 4 x)⟩
    simp only [WriteUint32, DSize, h1, bind, Except.bind, pure, Except.pure, Uint32ToBytes,
      PutUint32_exact _ x hd]
  · right
    refine ⟨?_, h2⟩
    simp only [WriteUint32, DSize, h1, bind, Except.bind]

theorem WriteUint64_spec (j : JBuffer) (x : Nat) (hinv : j.off ≤ j.len) :
    (∃ j2 : JBuffer, j.WriteUint64 x = .ok j2 ∧ Appended j j2 (leBytes 8 x)) ∨
    (j.WriteUint64 x = .error Panic.errTooLarge ∧ maxInt < 2 * (j.Cap : Int) + 8) := by
  rcases Alloc_spec j 8 hinv with ⟨j1, m, h1, h2⟩ | ⟨h1, h2⟩
  · left
    have hd : (j1.buf.drop m).length = 8 := by rw [List.length_drop, h2.2.1]; omega
    refine ⟨j1.setView m (leBytes 8 x), ?_, setView_Appended j j1 m 8 _ h2 (leBytes_length 8 x)⟩
    simp only [WriteUint64, QSize, h1, bind, Except.bind, pure, Except.pure, Uint64ToBytes,
      PutUint64_exact _ x hd]
  · right
    refine ⟨?_, h2⟩
    simp only [WriteUint64, QSize, h1, bind, Except.bind]

theorem WriteByte_spec (j : JBuffer) (c : Nat) (hinv : j.off ≤ j.len) :
    (∃ j2 : JBuffer, j.WriteByte c = .ok (j2, none) ∧ Appended j j2 [c]) ∨
    (j.WriteByte c = .error Panic.errTooLarge ∧ maxInt < 2 * (j.Cap : Int) + 1) := by
  rcases Alloc_spec j 1 hinv with ⟨j1, m, h1, h2⟩ | ⟨h1, h2⟩
  · left
    have hd : (j1.buf.drop m).length = 1 := by rw [List.length_drop, h2.2.1]; omega
    obtain ⟨a, ha⟩ : ∃ a, j1.buf.drop m = [a] := List.length_eq_one.mp hd
    refine ⟨j1.setView m [c], ?_, setView_Appended j j1 m 1 _ h2 rfl⟩
    simp only [WriteByte, BSize, h1, bind, Except.bind, pure, Except.pure, ha,
      List.length_singleton, one_ne_zero, if_false, List.set_cons_zero]
  · right
    refine ⟨?_, h2⟩
    simp only [WriteByte, BSize, h1, bind, Except.bind]

end JBuffer

/-- The bytes of the two's-complement pattern are the bytes of the arithmetic shifts. -/
theorem leBytes_toUint16 (x : Int) (h : -2 ^ 15 ≤ x ∧ x < 2 ^ 15) :
    leBytes 2 (toUint 16 x) = leBytesInt 2 x := by
  simp only [leBytes, leBytesInt, toUint, List.range_succ, List.range_zero, List.nil_append,
    List.map_cons, List.map_nil, List.cons_append, Nat.shiftRight_eq_div_pow,
    Int.shiftRight_eq_div_pow]
  norm_num at h ⊢
  omega

theorem leBytes_toUint32 (x : Int) (h : -2 ^ 31 ≤ x ∧ x < 2 ^ 31) :
    leBytes 4 (toUint 32 x) = leBytesInt 4 x := by
  simp only [leBytes, leBytesInt, toUint, List.range_succ, List.range_zero, List.nil_append,
    List.map_cons, List.map_nil, List.cons_append, Nat.shiftRight_eq_div_pow,
    Int.shiftRight_eq_div_pow]
  norm_num at h ⊢
  omega

theorem leBytes_toUint64 (x : Int) (h : -2 ^ 63 ≤ x ∧ x < 2 ^ 63) :
    leBytes 8 (toUint 64 x) = leBytesInt 8 x := by
  simp only [leBytes, leBytesInt, toUint, List.range_succ, List.range_zero, List.nil_append,
    List.map_cons, List.map_nil, List.cons_append, Nat.shiftRight_eq_div_pow,
    Int.shiftRight_eq_div_pow]
  norm_num at h ⊢
  omega

theorem or_shift (a b i : Nat) (ha : a < 2 ^ i) : a ||| (b <<< i) = a + b * 2 ^ i := by
  rw [Nat.shiftLeft_eq, Nat.or_comm, Nat.mul_comm, ← Nat.mul_add_lt_is_or ha]
  omega

theorem GetUint16_bytes (b0 b1 : Nat) (rest : List Nat) (h0 : b0 < 256) (h1 : b1 < 256) :
    GetUint16 (b0 :: b1 :: rest) = .ok (b0 + b1 * 2 ^ 8) := by
  have e1 : (b1 <<< 8) % 2 ^ 16 = b1 <<< 8 :=
    Nat.mod_eq_of_lt (by rw [Nat.shiftLeft_eq]; omega)
  simp only [GetUint16, List.length_cons, pure, Except.pure, List.getD_cons_zero,
    List.getD_cons_succ, e1]
  rw [if_neg (by omega), or_shift _ _ _ (by omega)]

theorem GetUint32_bytes (b0 b1 b2 b3 : Nat) (rest : List Nat) (h0 : b0 < 256) (h1 : b1 < 256)
    (h2 : b2 < 256) (h3 : b3 < 256) :
    GetUint32 (b0 :: b1 :: b2 :: b3 :: rest)
      = .ok (b0 + b1 * 2 ^ 8 + b2 * 2 ^ 16 + b3 * 2 ^ 24) := by
  have e1 : (b1 <<< 8) % 2 ^ 32 = b1 <<< 8 :=
    Nat.mod_eq_of_lt (by rw [Nat.shiftLeft_eq]; omega)
  have e2 : (b2 <<< 16) % 2 ^ 32 = b2 <<< 16 :=
    Nat.mod_eq_of_lt (by rw [Nat.shiftLeft_eq]; omega)
  have e3 : (b3 <<< 24) % 2 ^ 32 = b3 <<< 24 :=
    Nat.mod_eq_of_lt (by rw [Nat.shiftLeft_eq]; omega)
  simp only [GetUint32, List.length_cons, pure, Except.pure, List.getD_cons_zero,
    List.getD_cons_succ, e1, e2, e3]
  rw [if_neg (by omega), or_shift b0 b1 8 (by omega), or_shift _ b2 16 (by omega),
    or_shift _ b3 24 (by omega)]

theorem GetUint64_bytes (b0 b1 b2 b3 b4 b5 b6 b7 : Nat) (rest : List Nat) (h0 : b0 < 256)
    (h1 : b1 < 256) (h2 : b2 < 256) (h3 : b3 < 256) (h4 : b4 < 256) (h5 : b5 < 256)
    (h6 : b6 < 256) (h7 : b7 < 256) :
    GetUint64 (b0 :: b1 :: b2 :: b3 :: b4 :: b5 :: b6 :: b7 :: rest)
      = .ok (b0 + b1 * 2 ^ 8 + b2 * 2 ^ 16 + b3 * 2 ^ 24 + b4 * 2 ^ 32 + b5 * 2 ^ 40
          + b6 * 2 ^ 48 + b7 * 2 ^ 56) := by
  have e1 : (b1 <<< 8) % 2 ^ 64 = b1 <<< 8 :=
    Nat.mod_eq_of_lt (by rw [Nat.shiftLeft_eq]; omega)
  have e2 : (b2 <<< 16) % 2 ^ 64 = b2 <<< 16 :=
    Nat.mod_eq_of_lt (by rw [Nat.shiftLeft_eq]; omega)
  have e3 : (b3 <<< 24) % 2 ^ 64 = b3 <<< 24 :=
    Nat.mod_eq_of_lt (by rw [Nat.shiftLeft_eq]; omega)
  have e4 : (b4 <<< 32) % 2 ^ 64 = b4 <<< 32 :=
    Nat.mod_eq_of_lt (by rw [Nat.shiftLeft_eq]; omega)
  have e5 : (b5 <<< 40) % 2 ^ 64 = b5 <<< 40 :=
    Nat.mod_eq_of_lt (by rw [Nat.shiftLeft_eq]; omega)
  have e6 : (b6 <<< 48) % 2 ^ 64 = b6 <<< 48 :=
    Nat.mod_eq_of_lt (by rw [Nat.shiftLeft_eq]; omega)
  have e7 : (b7 <<< 56) % 2 ^ 64 = b7 <<< 56 :=
    Nat.mod_eq_of_lt (by rw [Nat.shiftLeft_eq]; omega)
  simp only [GetUint64, List.length_cons, pure, Except.pure, List.getD_cons_zero,
    List.getD_cons_succ, e1, e2, e3, e4, e5, e6, e7]
  rw [if_neg (by omega), or_shift b0 b1 8 (by omega), or_shift _ b2 16 (by omega),
    or_shift _ b3 24 (by omega), or_shift _ b4 32 (by omega), or_shift _ b5 40 (by omega),
    or_shift _ b6 48 (by omega), or_shift _ b7 56 (by omega)]

theorem leBytes_two (x : Nat) : leBytes 2 x = [x % 256, x / 2 ^ 8 % 256] := by
  simp [leBytes, List.range_succ, Nat.shiftRight_eq_div_pow]

theorem leBytes_four (x : Nat) :
    leBytes 4 x = [x % 256, x / 2 ^ 8 % 256, x / 2 ^ 16 % 256, x / 2 ^ 24 % 256] := by
  simp [leBytes, List.range_succ, Nat.shiftRight_eq_div_pow]

theorem leBytes_eight (x : Nat) :
    leBytes 8 x = [x % 256, x / 2 ^ 8 % 256, x / 2 ^ 16 % 256, x / 2 ^ 24 % 256,
      x / 2 ^ 32 % 256, x / 2 ^ 40 % 256, x / 2 ^ 48 % 256, x / 2 ^ 56 % 256] := by
  simp [leBytes, List.range_succ, Nat.shiftRight_eq_div_pow]

theorem GetUint16_leBytes (x : Nat) (rest : List Nat) (hx : x < 2 ^ 16) :
    GetUint16 (leBytes 2 x ++ rest) = .ok x := by
  rw [leBytes_two]
  simp only [List.cons_append, List.nil_append]
  rw [GetUint16_bytes _ _ _ (Nat.mod_lt _ (by norm_num)) (Nat.mod_lt _ (by norm_num))]
  congr 1
  norm_num at hx ⊢
  omega

theorem GetUint32_leBytes (x : Nat) (rest : List Nat) (hx : x < 2 ^ 32) :
    GetUint32 (leBytes 4 x ++ rest) = .ok x := by
  rw [leBytes_four]
  simp only [List.cons_append, List.nil_append]
  rw [GetUint32_bytes _ _ _ _ _ (Nat.mod_lt _ (by norm_num)) (Nat.mod_lt _ (by norm_num))
    (Nat.mod_lt _ (by norm_num)) (Nat.mod_lt _ (by norm_num))]
  congr 1
  norm_num at hx ⊢
  omega

theorem GetUint64_leBytes (x : Nat) (rest : List Nat) (hx : x < 2 ^ 64) :
    GetUint64 (leBytes 8 x ++ rest) = .ok x := by
  rw [leBytes_eight]
  simp only [List.cons_append, List.nil_append]
  rw [GetUint64_bytes _ _ _ _ _ _ _ _ _ (Nat.mod_lt _ (by norm_num))
    (Nat.mod_lt _ (by norm_num)) (Nat.mod_lt _ (by norm_num)) (Nat.mod_lt _ (by norm_num))
    (Nat.mod_lt _ (by norm_num)) (Nat.mod_lt _ (by norm_num)) (Nat.mod_lt _ (by norm_num))
    (Nat.mod_lt _ (by norm_num))]
  congr 1
  norm_num at hx ⊢
  omega

theorem drop_split (buf : List Nat) (off : Nat) (bs rest : List Nat) (hinv : off ≤ buf.length)
    (h : buf.drop off = bs ++ rest) :
    off + bs.length ≤ buf.length ∧ buf.drop (off + bs.length) = rest := by
  have hl : (buf.drop off).length = bs.length + rest.length := by rw [h]; simp
  rw [List.length_drop] at hl
  refine ⟨by omega, ?_⟩
  rw [← List.drop_drop, h, List.drop_left]

theorem toInt_toUint8 (x : Int) (h : -2 ^ 7 ≤ x ∧ x < 2 ^ 7) : toInt 8 (toUint 8 x) = x := by
  simp only [toInt, toUint]
  norm_num at h ⊢
  split_ifs <;> omega

theorem toInt_toUint16 (x : Int) (h : -2 ^ 15 ≤ x ∧ x < 2 ^ 15) :
    toInt 16 (toUint 16 x) = x := by
  simp only [toInt, toUint]
  norm_num at h ⊢
  split_ifs <;> omega

theorem toInt_toUint32 (x : Int) (h : -2 ^ 31 ≤ x ∧ x < 2 ^ 31) :
    toInt 32 (toUint 32 x) = x := by
  simp only [toInt, toUint]
  norm_num at h ⊢
  split_ifs <;> omega

theorem toInt_toUint64 (x : Int) (h : -2 ^ 63 ≤ x ∧ x < 2 ^ 63) :
    toInt 64 (toUint 64 x) = x := by
  simp only [toInt, toUint]
  norm_num at h ⊢
  split_ifs <;> omega

theorem toUint_lt (w : Nat) (x : Int) : toUint w x < 2 ^ w := by
  have h2 : (0 : Int) < 2 ^ w := by positivity
  have h1 := Int.emod_lt_of_pos x h2
  have h0 := Int.emod_nonneg x (ne_of_gt h2)
  simp only [toUint]
  zify
  rw [Int.toNat_of_nonneg h0]
  exact_mod_cast h1

namespace JBuffer

theorem not_empty_of_drop (j : JBuffer) (bs rest : List Nat) (hinv : j.off ≤ j.len)
    (hb : 0 < bs.length) (h : j.buf.drop j.off = bs ++ rest) : j.empty = false := by
  have := (drop_split j.buf j.off bs rest hinv h).1
  simp only [empty, len, decide_eq_false_iff_not]
  omega

theorem ReadUint16_spec (j : JBuffer) (x : Nat) (rest : List Nat) (hinv : j.off ≤ j.len)
    (hx : x < 2 ^ 16) (h : j.buf.drop j.off = leBytes 2 x ++ rest) :
    j.ReadUint16 = .ok ({ j with off := j.off + 2 }, x, none) ∧
      j.off + 2 ≤ j.len ∧ j.buf.drop (j.off + 2) = rest := by
  have hd := drop_split j.buf j.off _ rest hinv h
  rw [leBytes_length] at hd
  have he := not_empty_of_drop j _ rest hinv (by rw [leBytes_length]; omega) h
  refine ⟨?_, hd.1, hd.2⟩
  simp only [ReadUint16, he, Bool.false_eq_true, if_false, sliceFrom_ok j j.off hinv, h,
    Bytes2Uint16, GetUint16_leBytes x rest hx, bind, Except.bind, pure, Except.pure, WSize]

theorem ReadUint32_spec (j : JBuffer) (x : Nat) (rest : List Nat) (hinv : j.off ≤ j.len)
    (hx : x < 2 ^ 32) (h : j.buf.drop j.off = leBytes 4 x ++ rest) :
    j.ReadUint32 = .ok ({ j with off := j.off + 4 }, x, none) ∧
      j.off + 4 ≤ j.len ∧ j.buf.drop (j.off + 4) = rest := by
  have hd := drop_split j.buf j.off _ rest hinv h
  rw [leBytes_length] at hd
  have he := not_empty_of_drop j _ rest hinv (by rw [leBytes_length]; omega) h
  refine ⟨?_, hd.1, hd.2⟩
  simp only [ReadUint32, he, Bool.false_eq_true, if_false, sliceFrom_ok j j.off hinv, h,
    Bytes2Uint32, GetUint32_leBytes x rest hx, bind, Except.bind, pure, Except.pure, DSize]

theorem ReadUint64_spec (j : JBuffer) (x : Nat) (rest : List Nat) (hinv : j.off ≤ j.len)
    (hx : x < 2 ^ 64) (h : j.buf.drop j.off = leBytes 8 x ++ rest) :
    j.ReadUint64 = .ok ({ j with off := j.off + 8 }, x, none) ∧
      j.off + 8 ≤ j.len ∧ j.buf.drop (j.off + 8) = rest := by
  have hd := drop_split j.buf j.off _ rest hinv h
  rw [leBytes_length] at hd
  have he := not_empty_of_drop j _ rest hinv (by rw [leBytes_length]; omega) h
  refine ⟨?_, hd.1, hd.2⟩
  simp only [ReadUint64, he, Bool.false_eq_true, if_false, sliceFrom_ok j j.off hinv, h,
    Bytes2Uint64, GetUint64_leBytes x rest hx, bind, Except.bind, pure, Except.pure, QSize]

theorem ReadByte_spec (j : JBuffer) (c : Nat) (rest : List Nat) (hinv : j.off ≤ j.len)
    (h : j.buf.drop j.off = [c] ++ rest) :
    j.ReadByte = .ok ({ j with off := j.off + 1 }, c, none) ∧
      j.off + 1 ≤ j.len ∧ j.buf.drop (j.off + 1) = rest := by
  have hd := drop_split j.buf j.off _ rest hinv h
  have he := not_empty_of_drop j _ rest hinv (by simp) h
  have hg : j.buf.get? j.off = some c := by
    have := congrArg (fun l => l.get? 0) h
    simpa using this
  refine ⟨?_, hd.1, hd.2⟩
  simp only [ReadByte, he, Bool.false_eq_true, if_false, hg, pure, Except.pure]

end JBuffer

theorem Fixed.bytes_length (v : Fixed) : v.bytes.length = v.size := by
  cases v <;> simp [Fixed.bytes, Fixed.size, leBytes_length, BSize, WSize, DSize, QSize]

theorem Fixed.size_pos (v : Fixed) : 0 < v.size := by
  cases v <;> simp [Fixed.size, BSize, WSize, DSize, QSize]

/-- Each `Write<T>` method appends the bytes of its value, or panics with
`ErrTooLarge`. -/
theorem writeFixed_spec (j : JBuffer) (v : Fixed) (hinv : j.off ≤ j.len) :
    (∃ j2 : JBuffer, writeFixed j v = .ok j2 ∧ JBuffer.Appended j j2 v.bytes) ∨
    (writeFixed j v = .error Panic.errTooLarge ∧ maxInt < 2 * (j.Cap : Int) + v.size) := by
  cases v with
  | int8 x =>
    rcases JBuffer.WriteByte_spec j (toUint 8 x) hinv with ⟨j2, h1, h2⟩ | ⟨h1, h2⟩
    · exact Or.inl ⟨j2, by
        simp only [writeFixed, JBuffer.WriteInt8, Int8ToByte, h1, bind, Except.bind, pure,
          Except.pure], h2⟩
    · exact Or.inr ⟨by
        simp only [writeFixed, JBuffer.WriteInt8, Int8ToByte, h1, bind, Except.bind], h2⟩
  | uint8 x =>
    rcases JBuffer.WriteByte_spec j x hinv with ⟨j2, h1, h2⟩ | ⟨h1, h2⟩
    · exact Or.inl ⟨j2, by
        simp only [writeFixed, h1, bind, Except.bind, pure, Except.pure], h2⟩
    · exact Or.inr ⟨by simp only [writeFixed, h1, bind, Except.bind], h2⟩
  | int16 x => exact JBuffer.WriteUint16_spec j (toUint 16 x) hinv
  | uint16 x => exact JBuffer.WriteUint16_spec j x hinv
  | int32 x => exact JBuffer.WriteUint32_spec j (toUint 32 x) hinv
  | uint32 x => exact JBuffer.WriteUint32_spec j x hinv
  | int64 x => exact JBuffer.WriteUint64_spec j (toUint 64 x) hinv
  | uint64 x => exact JBuffer.WriteUint64_spec j x hinv

/-- The `Read<T>` method matching a valid value returns it from a buffer whose unread
bytes start with the bytes of the value, and consumes exactly those bytes. -/
theorem readFixed_spec (j : JBuffer) (v : Fixed) (rest : List Nat) (hinv : j.off ≤ j.len)
    (hv : v.valid) (h : j.buf.drop j.off = v.bytes ++ rest) :
    ∃ j1 : JBuffer, readFixed j v = .ok (j1, v, none) ∧ j1.off ≤ j1.len ∧
      j1.buf.drop j1.off = rest ∧ j1.len = j.len ∧ j1.Cap = j.Cap := by
  cases v with
  | int8 x =>
    obtain ⟨h1, h2, h3⟩ := JBuffer.ReadByte_spec j (toUint 8 x) rest hinv h
    refine ⟨{ j with off := j.off + 1 }, ?_, h2, h3, rfl, rfl⟩
    simp only [readFixed, JBuffer.ReadInt8, h1, bind, Except.bind, pure, Except.pure,
      Byte2Int8, toInt_toUint8 x hv]
  | uint8 x =>
    obtain ⟨h1, h2, h3⟩ := JBuffer.ReadByte_spec j x rest hinv h
    refine ⟨{ j with off := j.off + 1 }, ?_, h2, h3, rfl, rfl⟩
    simp only [readFixed, h1, bind, Except.bind, pure, Except.pure]
  | int16 x =>
    obtain ⟨h1, h2, h3⟩ := JBuffer.ReadUint16_spec j (toUint 16 x) rest hinv (toUint_lt 16 x) h
    refine ⟨{ j with off := j.off + 2 }, ?_, h2, h3, rfl, rfl⟩
    simp only [readFixed, JBuffer.ReadInt16, h1, bind, Except.bind, pure, Except.pure,
      toInt_toUint16 x hv]
  | uint16 x =>
    obtain ⟨h1, h2, h3⟩ := JBuffer.ReadUint16_spec j x rest hinv hv h
    refine ⟨{ j with off := j.off + 2 }, ?_, h2, h3, rfl, rfl⟩
    simp only [readFixed, h1, bind, Except.bind, pure, Except.pure]
  | int32 x =>
    obtain ⟨h1, h2, h3⟩ := JBuffer.ReadUint32_spec j (toUint 32 x) rest hinv (toUint_lt 32 x) h
    refine ⟨{ j with off := j.off + 4 }, ?_, h2, h3, rfl, rfl⟩
    simp only [readFixed, JBuffer.ReadInt32, h1, bind, Except.bind, pure, Except.pure,
      toInt_toUint32 x hv]
  | uint32 x =>
    obtain ⟨h1, h2, h3⟩ := JBuffer.ReadUint32_spec j x rest hinv hv h
    refine ⟨{ j with off := j.off + 4 }, ?_, h2, h3, rfl, rfl⟩
    simp only [readFixed, h1, bind, Except.bind, pure, Except.pure]
  | int64 x =>
    obtain ⟨h1, h2, h3⟩ := JBuffer.ReadUint64_spec j (toUint 64 x) rest hinv (toUint_lt 64 x) h
    refine ⟨{ j with off := j.off + 8 }, ?_, h2, h3, rfl, rfl⟩
    simp only [readFixed, JBuffer.ReadInt64, h1, bind, Except.bind, pure, Except.pure,
      toInt_toUint64 x hv]
  | uint64 x =>
    obtain ⟨h1, h2, h3⟩ := JBuffer.ReadUint64_spec j x rest hinv hv h
    refine ⟨{ j with off := j.off + 8 }, ?_, h2, h3, rfl, rfl⟩
    simp only [readFixed, h1, bind, Except.bind, pure, Except.pure]

theorem Fits_zero : Fits JBuffer.zero 0 := by
  simp [Fits, JBuffer.zero, JBuffer.len, JBuffer.Cap]

theorem Fits_Appended (j j2 : JBuffer) (W : Nat) (bs : List Nat) (hf : Fits j W)
    (ha : JBuffer.Appended j j2 bs) : Fits j2 (W + bs.length) := by
  obtain ⟨f1, f2, f3⟩ := hf
  obtain ⟨a1, _, _, a4, a5⟩ := ha
  refine ⟨a1, by omega, ?_⟩
  rcases a5 with h | h | ⟨h, h'⟩ <;> omega

theorem Fits_tooLarge (j : JBuffer) (W n R : Nat) (hf : Fits j W) (hn : n ≤ R)
    (h : maxInt < 2 * (j.Cap : Int) + n) : maxInt < 7 * ((W + R : Nat) : Int) + 128 := by
  obtain ⟨_, _, f3⟩ := hf
  omega

theorem allBytes_length (vs : List Fixed) : (allBytes vs).length = totalSize vs := by
  induction vs with
  | nil => rfl
  | cons v vs ih =>
    simp only [allBytes, totalSize, List.length_append, List.map_cons, List.sum_cons,
      Fixed.bytes_length] at ih ⊢
    rw [ih]

theorem writeAll_spec : ∀ (vs : List Fixed) (j : JBuffer) (W : Nat), Fits j W →
    (∃ j2 : JBuffer, writeAll j vs = .ok j2 ∧ Fits j2 (W + totalSize vs) ∧
      j2.buf.drop j2.off = j.buf.drop j.off ++ allBytes vs) ∨
    (writeAll j vs = .error Panic.errTooLarge ∧
      maxInt < 7 * ((W + totalSize vs : Nat) : Int) + 128) := by
  intro vs
  induction vs with
  | nil =>
    intro j W hf
    exact Or.inl ⟨j, rfl, by simpa [totalSize] using hf, by simp [allBytes]⟩
  | cons v vs ih =>
    intro j W hf
    have hts : totalSize (v :: vs) = v.size + totalSize vs := by simp [totalSize]
    rcases writeFixed_spec j v hf.1 with ⟨j1, h1, h2⟩ | ⟨h1, h2⟩
    · have hf1 := Fits_Appended j j1 W _ hf h2
      rw [Fixed.bytes_length] at hf1
      rcases ih j1 (W + v.size) hf1 with ⟨j2, g1, g2, g3⟩ | ⟨g1, g2⟩
      · left
        refine ⟨j2, ?_, ?_, ?_⟩
        · simp only [writeAll, h1, bind, Except.bind, g1]
        · rw [hts, ← Nat.add_assoc]; exact g2
        · rw [g3, h2.2.1, allBytes, List.append_assoc]
      · right
        refine ⟨?_, ?_⟩
        · simp only [writeAll, h1, bind, Except.bind, g1]
        · rw [hts, ← Nat.add_assoc]; exact g2
    · right
      refine ⟨?_, ?_⟩
      · simp only [writeAll, h1, bind, Except.bind]
      · exact Fits_tooLarge j W v.size _ hf (by rw [hts]; omega) h2

theorem readAll_spec : ∀ (vs : List Fixed) (j : JBuffer) (rest : List Nat), j.off ≤ j.len →
    (∀ v ∈ vs, v.valid) → j.buf.drop j.off = allBytes vs ++ rest →
    ∃ j1 : JBuffer, readAll j vs = .ok (j1, vs.map (fun v => (v, none))) ∧ j1.off ≤ j1.len ∧
      j1.buf.drop j1.off = rest := by
  intro vs
  induction vs with
  | nil =>
    intro j rest hinv _ h
    exact ⟨j, rfl, hinv, by simpa [allBytes] using h⟩
  | cons v vs ih =>
    intro j rest hinv hv h
    rw [allBytes, List.append_assoc] at h
    obtain ⟨j1, h1, h2, h3, _, _⟩ :=
      readFixed_spec j v (allBytes vs ++ rest) hinv (hv v (List.mem_cons_self _ _)) h
    obtain ⟨j2, g1, g2, g3⟩ :=
      ih j1 rest h2 (fun w hw => hv w (List.mem_cons_of_mem _ hw)) h3
    refine ⟨j2, ?_, g2, g3⟩
    simp only [readAll, h1, bind, Except.bind, g1, pure, Except.pure, List.map_cons]

/-! ## Read and the FIFO queue -/

theorem take_copyInto (p q : List Nat) :
    (copyInto p q).take (min p.length q.length) = q.take (min p.length q.length) := by
  simp only [copyInto]
  rw [List.take_append_of_le_length (by simp), List.take_take]
  congr 1
  omega

/-- The call `Read(p)` does on the buffer what `queueRead` does on the unread bytes. -/
theorem stepBuf_read (j : JBuffer) (p : List Nat) (hinv : j.off ≤ j.len) :
    ∃ j1 : JBuffer, stepBuf j (Op.read p) = .ok (j1, (queueRead (j.buf.drop j.off) p).2) ∧
      j1.buf.drop j1.off = (queueRead (j.buf.drop j.off) p).1 ∧ j1.off ≤ j1.len ∧
      j1.len ≤ j.len ∧ j1.Cap = j.Cap := by
  by_cases he : j.len ≤ j.off
  · have hq : j.buf.drop j.off = [] := List.drop_eq_nil_of_le he
    have hemp : j.empty = true := by simp [JBuffer.empty, he]
    refine ⟨j.Reset, ?_, by simp [queueRead, hq], by simp, by simp, by simp⟩
    by_cases hp : p.length = 0
    · simp [stepBuf, JBuffer.Read, hemp, hp, queueRead, hq, bind, Except.bind, pure,
        Except.pure]
    · have hp' : 0 < p.length := by omega
      simp [stepBuf, JBuffer.Read, hemp, hp, hp', queueRead, hq, bind, Except.bind, pure,
        Except.pure]
  · have hemp : j.empty = false := by simp [JBuffer.empty, he]
    have hqne : j.buf.drop j.off ≠ [] := by
      intro h
      have := congrArg List.length h
      simp only [List.length_drop, List.length_nil, JBuffer.len] at this he
      omega
    have hmin : min p.length (j.buf.drop j.off).length ≤ j.len - j.off := by
      simp only [List.length_drop, JBuffer.len]; omega
    refine ⟨{ j with off := j.off + min p.length (j.buf.drop j.off).length }, ?_, ?_, ?_,
      le_refl _, rfl⟩
    · simp only [stepBuf, JBuffer.Read, hemp, Bool.false_eq_true, if_false,
        JBuffer.sliceFrom_ok j j.off hinv, bind, Except.bind, pure, Except.pure, queueRead,
        Int.toNat_ofNat, take_copyInto, hqne, false_and]
    · simp only [queueRead, List.drop_drop]
    · show j.off + min p.length (j.buf.drop j.off).length ≤ j.len
      omega

theorem written_length_cons_write (p : List Nat) (ops : List Op) :
    (written (Op.write p :: ops)).length = p.length + (written ops).length := by
  simp [written]

/-- A sequence of `Write` and `Read` calls does on the buffer what it does on the queue
of the unread bytes, unless a `Write` panics with `ErrTooLarge`. -/
theorem runBuf_spec : ∀ (ops : List Op) (j : JBuffer) (W : Nat), Fits j W →
    (∃ j2 : JBuffer, runBuf j ops = .ok (j2, (runQueue (j.buf.drop j.off) ops).2) ∧
      j2.off ≤ j2.len ∧ j2.buf.drop j2.off = (runQueue (j.buf.drop j.off) ops).1) ∨
    (runBuf j ops = .error Panic.errTooLarge ∧
      maxInt < 7 * ((W + (written ops).length : Nat) : Int) + 128) := by
  intro ops
  induction ops with
  | nil =>
    intro j W hf
    exact Or.inl ⟨j, rfl, hf.1, rfl⟩
  | cons op ops ih =>
    intro j W hf
    cases op with
    | write p =>
      rcases JBuffer.Write_spec j p hf.1 with ⟨j1, h1, h2⟩ | ⟨h1, h2⟩
      · have hf1 := Fits_Appended j j1 W p hf h2
        rcases ih j1 (W + p.length) hf1 with ⟨j2, g1, g2, g3⟩ | ⟨g1, g2⟩
        · left
          refine ⟨j2, ?_, g2, ?_⟩
          · simp only [runBuf, stepBuf, h1, bind, Except.bind, pure, Except.pure, g1, runQueue,
              stepQueue, queueWrite, h2.2.1]
          · simp only [runQueue, stepQueue, queueWrite]
            rw [g3, h2.2.1]
        · right
          refine ⟨?_, ?_⟩
          · simp only [runBuf, stepBuf, h1, bind, Except.bind, pure, Except.pure, g1]
          · rw [written_length_cons_write, ← Nat.add_assoc]; exact g2
      · right
        refine ⟨?_, ?_⟩
        · simp only [runBuf, stepBuf, h1, bind, Except.bind]
        · exact Fits_tooLarge j W p.length _ hf
            (by rw [written_length_cons_write]; omega) h2
    | read p =>
      obtain ⟨j1, h1, h2, h3, h4, h5⟩ := stepBuf_read j p hf.1
      have hf1 : Fits j1 W := ⟨h3, by have := hf.2.1; omega, by rw [h5]; exact hf.2.2⟩
      rcases ih j1 W hf1 with ⟨j2, g1, g2, g3⟩ | ⟨g1, g2⟩
      · left
        refine ⟨j2, ?_, g2, ?_⟩
        · simp only [runBuf, h1, bind, Except.bind, pure, Except.pure, g1, runQueue, stepQueue,
            h2]
        · simp only [runQueue, stepQueue]
          rw [g3, h2]
      · right
        refine ⟨?_, ?_⟩
        · simp only [runBuf, h1, bind, Except.bind, g1]
        · simpa [written] using g2

/-- On the queue, the bytes read back followed by the bytes left are the bytes that
were in the queue followed by the bytes written. -/
theorem runQueue_fifo : ∀ (ops : List Op) (q : List Nat),
    readBack (runQueue q ops).2 ++ (runQueue q ops).1 = q ++ written ops := by
  intro ops
  induction ops with
  | nil => intro q; simp [runQueue, readBack, written]
  | cons op ops ih =>
    intro q
    cases op with
    | write p =>
      simp only [runQueue, stepQueue, queueWrite, readBack, written]
      rw [ih (q ++ p), List.append_assoc]
    | read p =>
      simp only [runQueue, stepQueue, queueRead, readBack, written, List.append_assoc]
      rw [ih, ← List.append_assoc, List.take_append_drop]

/-! ## Claims on the buffer -/

theorem Bytes_ok (j : JBuffer) (h : j.off ≤ j.len) : j.Bytes = .ok (j.buf.drop j.off) :=
  JBuffer.sliceFrom_ok j j.off h

theorem AppendsBytes_of_Appended (j : JBuffer) (r : Except Panic JBuffer) (bs : List Nat)
    (n : Nat) (hn : bs.length = n) (hinv : j.off ≤ j.len)
    (h : (∃ j2 : JBuffer, r = .ok j2 ∧ JBuffer.Appended j j2 bs) ∨
      (r = .error Panic.errTooLarge ∧ maxInt < 2 * (j.Cap : Int) + n)) :
    AppendsBytes j r bs := by
  rcases h with ⟨j2, h1, h2⟩ | ⟨h1, h2⟩
  · refine Or.inl ⟨j2, j.buf.drop j.off, h1, Bytes_ok j hinv, ?_, h2.1⟩
    rw [Bytes_ok j2 h2.1, h2.2.1]
  · exact Or.inr ⟨h1, by rw [hn]; exact h2⟩

/-- C5: for every buffer state with `off ≤ len(buf)` and every byte slice `p`,
`Write(p)` returns `(len(p), nil)` and afterwards `Bytes()` is the previous `Bytes()`
followed by `p`, on each of the four growth paths of `grow`; the only other outcome is
the panic `ErrTooLarge` of `grow`, raised when `2*cap + len(p)` exceeds `maxInt`. -/
theorem Write_appends (j : JBuffer) (p : List Nat) (h : j.off ≤ j.len) :
    (∃ (j2 : JBuffer) (old : List Nat), j.Bytes = .ok old ∧
      j.Write p = .ok (j2, (p.length : Int), none) ∧ j2.Bytes = .ok (old ++ p) ∧
      j2.off ≤ j2.len) ∨
    (j.Write p = .error Panic.errTooLarge ∧ maxInt < 2 * (j.Cap : Int) + p.length) := by
  rcases JBuffer.Write_spec j p h with ⟨j2, h1, h2⟩ | ⟨h1, h2⟩
  · refine Or.inl ⟨j2, j.buf.drop j.off, Bytes_ok j h, h1, ?_, h2.1⟩
    rw [Bytes_ok j2 h2.1, h2.2.1]
  · exact Or.inr ⟨h1, h2⟩

/-- Witness of C5: a write that compacts the consumed prefix of a full 8-byte array. -/
theorem Write_appends_witness :
    (JBuffer.mk [1, 2, 3, 4, 5, 6, 7, 8] [] 6 false).off
        ≤ (JBuffer.mk [1, 2, 3, 4, 5, 6, 7, 8] [] 6 false).len ∧
    ((∃ (j2 : JBuffer) (old : List Nat),
      (JBuffer.mk [1, 2, 3, 4, 5, 6, 7, 8] [] 6 false).Bytes = .ok old ∧
      (JBuffer.mk [1, 2, 3, 4, 5, 6, 7, 8] [] 6 false).Write [9, 10]
        = .ok (j2, (([9, 10] : List Nat).length : Int), none) ∧
      j2.Bytes = .ok (old ++ [9, 10]) ∧ j2.off ≤ j2.len) ∨
    ((JBuffer.mk [1, 2, 3, 4, 5, 6, 7, 8] [] 6 false).Write [9, 10]
        = .error Panic.errTooLarge ∧
      maxInt < 2 * ((JBuffer.mk [1, 2, 3, 4, 5, 6, 7, 8] [] 6 false).Cap : Int)
        + ([9, 10] : List Nat).length)) :=
  ⟨by decide, Write_appends (JBuffer.mk [1, 2, 3, 4, 5, 6, 7, 8] [] 6 false) [9, 10]
    (by decide)⟩

/-- The four growth paths of `grow` on concrete writes: reslice in place, the small
first allocation, compaction of the consumed prefix, and reallocation. -/
theorem Write_growth_paths :
    (JBuffer.mk [1, 2] [0, 0] 1 false).Write [9]
      = .ok (JBuffer.mk [1, 2, 9] [0] 1 false, 1, none) ∧
    JBuffer.zero.Write [9]
      = .ok (JBuffer.mk [9] (List.replicate 63 0) 0 false, 1, none) ∧
    (JBuffer.mk [1, 2, 3, 4, 5, 6, 7, 8] [] 6 false).Write [9, 10]
      = .ok (JBuffer.mk [7, 8, 9, 10] [5, 6, 7, 8] 0 false, 2, none) ∧
    (JBuffer.mk [1, 2, 3, 4] [] 1 false).Write [9, 10]
      = .ok (JBuffer.mk [2, 3, 4, 9, 10] [0, 0, 0, 0, 0] 0 false, 2, none) := by
  refine ⟨rfl, rfl, rfl, rfl⟩

/-- C6: the buffer refines a FIFO byte queue.  For every sequence of `Write` and `Read`
calls on the zero-value buffer, the calls return on the buffer exactly what they return
on the queue (`Read(p)` takes `min(len(p), Len())` bytes from the front and returns
`io.EOF` exactly when the queue is empty and `len(p) > 0`) and `Bytes()` is the content
of the queue, unless a `Write` panics with `ErrTooLarge`, which needs more than
`(maxInt - 128) / 7` bytes written; on the queue, the bytes read back followed by the
bytes left are the bytes written. -/
theorem buffer_refines_fifo_queue (ops : List Op) :
    ((∃ j : JBuffer, runBuf JBuffer.zero ops = .ok (j, (runQueue [] ops).2) ∧
        j.Bytes = .ok (runQueue [] ops).1) ∨
      (runBuf JBuffer.zero ops = .error Panic.errTooLarge ∧
        maxInt < 7 * ((written ops).length : Int) + 128)) ∧
    readBack (runQueue [] ops).2 ++ (runQueue [] ops).1 = written ops ∧
    (∀ q p : List Nat, queueRead q p =
      (q.drop (min p.length q.length),
       Ret.read (q.take (min p.length q.length)) (min p.length q.length : Nat)
        (if q = [] ∧ 0 < p.length then some GoError.EOF else none))) := by
  refine ⟨?_, ?_, fun _ _ => rfl⟩
  · rcases runBuf_spec ops JBuffer.zero 0 Fits_zero with ⟨j, h1, h2, h3⟩ | ⟨h1, h2⟩
    · left
      refine ⟨j, h1, ?_⟩
      rw [Bytes_ok j h2, h3]
      rfl
    · right
      refine ⟨h1, ?_⟩
      simpa using h2
  · simpa using runQueue_fifo ops []

/-- C7 (the code at the failing input): after `WriteByte('\n')` and `ReadByte()` the
buffer satisfies `off ≤ len(buf)`; `TrimNewline()` then cuts the consumed byte off and
leaves `off = 1 > len(buf) = 0`, so that `Len()` is `-1` and `Bytes()` panics. -/
theorem TrimNewline_breaks_cursor_invariant :
    JBuffer.zero.WriteByte 10 = .ok (JBuffer.mk [10] (List.replicate 63 0) 0 false, none) ∧
    (JBuffer.mk [10] (List.replicate 63 0) 0 false).ReadByte
      = .ok (JBuffer.mk [10] (List.replicate 63 0) 1 false, 10, none) ∧
    (JBuffer.mk [10] (List.replicate 63 0) 1 false).off
      ≤ (JBuffer.mk [10] (List.replicate 63 0) 1 false).len ∧
    (JBuffer.mk [10] (List.replicate 63 0) 1 false).TrimNewline
      = JBuffer.mk [] (List.replicate 64 0 |>.set 0 10) 1 false ∧
    ¬ ((JBuffer.mk [10] (List.replicate 63 0) 1 false).TrimNewline.off
      ≤ (JBuffer.mk [10] (List.replicate 63 0) 1 false).TrimNewline.len) ∧
    (JBuffer.mk [10] (List.replicate 63 0) 1 false).TrimNewline.Len = -1 ∧
    (JBuffer.mk [10] (List.replicate 63 0) 1 false).TrimNewline.Bytes
      = .error Panic.sliceBounds := by
  refine ⟨rfl, rfl, by decide, rfl, by decide, by decide, rfl⟩

/-- C8: for every buffer with `off ≤ len(buf)`, `WriteUint16/32/64` and
`WriteInt16/32/64` append exactly 2/4/8 bytes to the end of the buffer, byte `k` being
`(x >> 8k) mod 256` (for a signed value, of the arithmetic shift), unless `grow` panics
with `ErrTooLarge`; `WriteInt32(-12345)` on the zero-value buffer appends `c7 cf ff ff`
and `WriteUint64(9876543210)` then appends `ea 16 b0 4c 02 00 00 00`. -/
theorem fixed_width_writes_little_endian (j : JBuffer) (h : j.off ≤ j.len)
    (u16 u32 u64 : Nat) (i16 i32 i64 : Int)
    (h16 : -2 ^ 15 ≤ i16 ∧ i16 < 2 ^ 15) (h32 : -2 ^ 31 ≤ i32 ∧ i32 < 2 ^ 31)
    (h64 : -2 ^ 63 ≤ i64 ∧ i64 < 2 ^ 63) :
    (AppendsBytes j (j.WriteUint16 u16) (leBytes 2 u16) ∧ (leBytes 2 u16).length = 2) ∧
    (AppendsBytes j (j.WriteUint32 u32) (leBytes 4 u32) ∧ (leBytes 4 u32).length = 4) ∧
    (AppendsBytes j (j.WriteUint64 u64) (leBytes 8 u64) ∧ (leBytes 8 u64).length = 8) ∧
    (AppendsBytes j (j.WriteInt16 i16) (leBytesInt 2 i16) ∧ (leBytesInt 2 i16).length = 2) ∧
    (AppendsBytes j (j.WriteInt32 i32) (leBytesInt 4 i32) ∧ (leBytesInt 4 i32).length = 4) ∧
    (AppendsBytes j (j.WriteInt64 i64) (leBytesInt 8 i64) ∧ (leBytesInt 8 i64).length = 8) ∧
    (∃ j1 j2 : JBuffer, JBuffer.zero.WriteInt32 (-12345) = .ok j1 ∧
      j1.Bytes = .ok [0xc7, 0xcf, 0xff, 0xff] ∧
      j1.WriteUint64 9876543210 = .ok j2 ∧
      j2.Bytes = .ok [0xc7, 0xcf, 0xff, 0xff, 0xea, 0x16, 0xb0, 0x4c, 0x02, 0x00, 0x00,
        0x00]) := by
  refine ⟨⟨?_, leBytes_length _ _⟩, ⟨?_, leBytes_length _ _⟩, ⟨?_, leBytes_length _ _⟩,
    ⟨?_, ?_⟩, ⟨?_, ?_⟩, ⟨?_, ?_⟩, ?_⟩
  · exact AppendsBytes_of_Appended j _ _ 2 (leBytes_length _ _) h
      (by simpa using JBuffer.WriteUint16_spec j u16 h)
  · exact AppendsBytes_of_Appended j _ _ 4 (leBytes_length _ _) h
      (by simpa using JBuffer.WriteUint32_spec j u32 h)
  · exact AppendsBytes_of_Appended j _ _ 8 (leBytes_length _ _) h
      (by simpa using JBuffer.WriteUint64_spec j u64 h)
  · rw [← leBytes_toUint16 i16 h16]
    exact AppendsBytes_of_Appended j _ _ 2 (leBytes_length _ _) h
      (by simpa using JBuffer.WriteUint16_spec j (toUint 16 i16) h)
  · rw [← leBytes_toUint16 i16 h16]; exact leBytes_length _ _
  · rw [← leBytes_toUint32 i32 h32]
    exact AppendsBytes_of_Appended j _ _ 4 (leBytes_length _ _) h
      (by simpa using JBuffer.WriteUint32_spec j (toUint 32 i32) h)
  · rw [← leBytes_toUint32 i32 h32]; exact leBytes_length _ _
  · rw [← leBytes_toUint64 i64 h64]
    exact AppendsBytes_of_Appended j _ _ 8 (leBytes_length _ _) h
      (by simpa using JBuffer.WriteUint64_spec j (toUint 64 i64) h)
  · rw [← leBytes_toUint64 i64 h64]; exact leBytes_length _ _
  · exact ⟨JBuffer.mk [199, 207, 255, 255] (List.replicate 60 0) 0 false,
      JBuffer.mk [199, 207, 255, 255, 234, 22, 176, 76, 2, 0, 0, 0] (List.replicate 52 0) 0
        false, rfl, rfl, rfl, rfl⟩

/-- Witness of C8 on a buffer with two consumed bytes. -/
theorem fixed_width_writes_little_endian_witness :
    ((JBuffer.mk [1, 2, 3] [0, 0] 2 false).off ≤ (JBuffer.mk [1, 2, 3] [0, 0] 2 false).len ∧
      (-2 ^ 15 ≤ (-2 : Int) ∧ (-2 : Int) < 2 ^ 15) ∧
      (-2 ^ 31 ≤ (-12345 : Int) ∧ (-12345 : Int) < 2 ^ 31) ∧
      (-2 ^ 63 ≤ (-1 : Int) ∧ (-1 : Int) < 2 ^ 63)) ∧
    ((AppendsBytes (JBuffer.mk [1, 2, 3] [0, 0] 2 false)
        ((JBuffer.mk [1, 2, 3] [0, 0] 2 false).WriteUint16 513) (leBytes 2 513) ∧
      (leBytes 2 513).length = 2) ∧
    (AppendsBytes (JBuffer.mk [1, 2, 3] [0, 0] 2 false)
        ((JBuffer.mk [1, 2, 3] [0, 0] 2 false).WriteUint32 67305985) (leBytes 4 67305985) ∧
      (leBytes 4 67305985).length = 4) ∧
    (AppendsBytes (JBuffer.mk [1, 2, 3] [0, 0] 2 false)
        ((JBuffer.mk [1, 2, 3] [0, 0] 2 false).WriteUint64 9876543210)
        (leBytes 8 9876543210) ∧
      (leBytes 8 9876543210).length = 8) ∧
    (AppendsBytes (JBuffer.mk [1, 2, 3] [0, 0] 2 false)
        ((JBuffer.mk [1, 2, 3] [0, 0] 2 false).WriteInt16 (-2)) (leBytesInt 2 (-2)) ∧
      (leBytesInt 2 (-2)).length = 2) ∧
    (AppendsBytes (JBuffer.mk [1, 2, 3] [0, 0] 2 false)
        ((JBuffer.mk [1, 2, 3] [0, 0] 2 false).WriteInt32 (-12345))
        (leBytesInt 4 (-12345)) ∧
      (leBytesInt 4 (-12345)).length = 4) ∧
    (AppendsBytes (JBuffer.mk [1, 2, 3] [0, 0] 2 false)
        ((JBuffer.mk [1, 2, 3] [0, 0] 2 false).WriteInt64 (-1)) (leBytesInt 8 (-1)) ∧
      (leBytesInt 8 (-1)).length = 8) ∧
    (∃ j1 j2 : JBuffer, JBuffer.zero.WriteInt32 (-12345) = .ok j1 ∧
      j1.Bytes = .ok [0xc7, 0xcf, 0xff, 0xff] ∧
      j1.WriteUint64 9876543210 = .ok j2 ∧
      j2.Bytes = .ok [0xc7, 0xcf, 0xff, 0xff, 0xea, 0x16, 0xb0, 0x4c, 0x02, 0x00, 0x00,
        0x00])) :=
  ⟨⟨by decide, by decide, by decide, by decide⟩,
    fixed_width_writes_little_endian (JBuffer.mk [1, 2, 3] [0, 0] 2 false) (by decide)
      513 67305985 9876543210 (-2) (-12345) (-1) (by decide) (by decide) (by decide)⟩

/-- C9: for every finite sequence of valid fixed-width integer values, writing them to
the zero-value buffer with the matching `Write<T>` methods and reading them back in
the same order with the matching `Read<T>` methods returns exactly the written values
with nil errors and leaves no unread bytes, unless `grow` panics with `ErrTooLarge`
during the writes, which needs more than `(maxInt - 128) / 7` bytes. -/
theorem fixed_width_roundtrip (vs : List Fixed) (hv : ∀ v ∈ vs, v.valid) :
    (∃ j1 j2 : JBuffer, writeAll JBuffer.zero vs = .ok j1 ∧
      readAll j1 vs = .ok (j2, vs.map (fun v => (v, none))) ∧
      j2.Bytes = .ok [] ∧ j2.Len = 0) ∨
    (writeAll JBuffer.zero vs = .error Panic.errTooLarge ∧
      maxInt < 7 * (totalSize vs : Int) + 128) := by
  rcases writeAll_spec vs JBuffer.zero 0 Fits_zero with ⟨j1, h1, h2, h3⟩ | ⟨h1, h2⟩
  · left
    have h3' : j1.buf.drop j1.off = allBytes vs ++ [] := by
      rw [h3]; simp [JBuffer.zero]
    obtain ⟨j2, g1, g2, g3⟩ := readAll_spec vs j1 [] h2.1 hv h3'
    refine ⟨j1, j2, h1, g1, ?_, ?_⟩
    · rw [Bytes_ok j2 g2, g3]
    · have := congrArg List.length g3
      simp only [List.length_drop, List.length_nil] at this
      simp only [JBuffer.Len]
      simp only [JBuffer.len] at g2 ⊢
      omega
  · right
    exact ⟨h1, by simpa using h2⟩

/-- Witness of C9 on a mix of widths and signs. -/
theorem fixed_width_roundtrip_witness :
    (∀ v ∈ [Fixed.int32 (-12345), Fixed.uint64 9876543210, Fixed.int8 (-1),
        Fixed.uint16 65535, Fixed.uint8 7, Fixed.int64 (-1), Fixed.uint32 0,
        Fixed.int16 (-32768)], v.valid) ∧
    ((∃ j1 j2 : JBuffer, writeAll JBuffer.zero [Fixed.int32 (-12345),
        Fixed.uint64 9876543210, Fixed.int8 (-1), Fixed.uint16 65535, Fixed.uint8 7,
        Fixed.int64 (-1), Fixed.uint32 0, Fixed.int16 (-32768)] = .ok j1 ∧
      readAll j1 [Fixed.int32 (-12345), Fixed.uint64 9876543210, Fixed.int8 (-1),
        Fixed.uint16 65535, Fixed.uint8 7, Fixed.int64 (-1), Fixed.uint32 0,
        Fixed.int16 (-32768)]
        = .ok (j2, [Fixed.int32 (-12345), Fixed.uint64 9876543210, Fixed.int8 (-1),
          Fixed.uint16 65535, Fixed.uint8 7, Fixed.int64 (-1), Fixed.uint32 0,
          Fixed.int16 (-32768)].map (fun v => (v, none))) ∧
      j2.Bytes = .ok [] ∧ j2.Len = 0) ∨
    (writeAll JBuffer.zero [Fixed.int32 (-12345), Fixed.uint64 9876543210, Fixed.int8 (-1),
        Fixed.uint16 65535, Fixed.uint8 7, Fixed.int64 (-1), Fixed.uint32 0,
        Fixed.int16 (-32768)] = .error Panic.errTooLarge ∧
      maxInt < 7 * (totalSize [Fixed.int32 (-12345), Fixed.uint64 9876543210,
        Fixed.int8 (-1), Fixed.uint16 65535, Fixed.uint8 7, Fixed.int64 (-1),
        Fixed.uint32 0, Fixed.int16 (-32768)] : Int) + 128)) :=
  ⟨by decide, fixed_width_roundtrip _ (by decide)⟩

/-- C10 (the code at the failing inputs): with one to three unread bytes `ReadUint32`
and `ReadInt32` panic in `binary.LittleEndian.Uint32` (index out of range) instead of
returning `io.EOF` or a value; so do `ReadUint16`/`ReadInt16` with one unread byte and
`ReadUint64`/`ReadInt64` with seven. -/
theorem ReadUint32_short_buffer_panics :
    JBuffer.zero.WriteByte 1 = .ok (JBuffer.mk [1] (List.replicate 63 0) 0 false, none) ∧
    (JBuffer.mk [1] (List.replicate 63 0) 0 false).ReadUint32
      = .error Panic.indexOutOfRange ∧
    (JBuffer.mk [1] (List.replicate 63 0) 0 false).ReadInt32
      = .error Panic.indexOutOfRange ∧
    (JBuffer.mk [1, 2, 3] [] 0 false).ReadUint32 = .error Panic.indexOutOfRange ∧
    (JBuffer.mk [9, 9, 1, 2, 3] [0, 0, 0] 2 false).ReadUint32
      = .error Panic.indexOutOfRange ∧
    (JBuffer.mk [1] (List.replicate 63 0) 0 false).ReadUint16
      = .error Panic.indexOutOfRange ∧
    (JBuffer.mk [1] (List.replicate 63 0) 0 false).ReadInt16
      = .error Panic.indexOutOfRange ∧
    (JBuffer.mk [1, 2, 3, 4, 5, 6, 7] [] 0 false).ReadUint64
      = .error Panic.indexOutOfRange ∧
    (JBuffer.mk [1, 2, 3, 4, 5, 6, 7] [] 0 false).ReadInt64
      = .error Panic.indexOutOfRange := by
  refine ⟨rfl, rfl, rfl, rfl, rfl, rfl, rfl, rfl, rfl⟩

/-! ## WriteAt -/

theorem putFixed_ok (view : List Nat) (v : Fixed) (h : v.size ≤ view.length) :
    putFixed view v = .ok (v.bytes ++ view.drop v.size) := by
  cases v with
  | int8 x =>
    simp only [Fixed.size, BSize] at h
    cases view with
    | nil => simp at h
    | cons a t => simp [putFixed, Fixed.bytes, Fixed.size, BSize, pure, Except.pure]
  | uint8 x =>
    simp only [Fixed.size, BSize] at h
    cases view with
    | nil => simp at h
    | cons a t => simp [putFixed, Fixed.bytes, Fixed.size, BSize, pure, Except.pure]
  | int16 x =>
    simp only [Fixed.size, WSize] at h
    simp [putFixed, PutUint16, Fixed.bytes, Fixed.size, WSize, leBytes_two, pure, Except.pure,
      Nat.shiftRight_eq_div_pow]
    omega
  | uint16 x =>
    simp only [Fixed.size, WSize] at h
    simp [putFixed, PutUint16, Fixed.bytes, Fixed.size, WSize, leBytes_two, pure, Except.pure,
      Nat.shiftRight_eq_div_pow]
    omega
  | int32 x =>
    simp only [Fixed.size, DSize] at h
    simp [putFixed, PutUint32, Fixed.bytes, Fixed.size, DSize, leBytes_four, pure, Except.pure,
      Nat.shiftRight_eq_div_pow]
    omega
  | uint32 x =>
    simp only [Fixed.size, DSize] at h
    simp [putFixed, PutUint32, Fixed.bytes, Fixed.size, DSize, leBytes_four, pure, Except.pure,
      Nat.shiftRight_eq_div_pow]
    omega
  | int64 x =>
    simp only [Fixed.size, QSize] at h
    simp [putFixed, PutUint64, Fixed.bytes, Fixed.size, QSize, leBytes_eight, pure,
      Except.pure, Nat.shiftRight_eq_div_pow]
    omega
  | uint64 x =>
    simp only [Fixed.size, QSize] at h
    simp [putFixed, PutUint64, Fixed.bytes, Fixed.size, QSize, leBytes_eight, pure,
      Except.pure, Nat.shiftRight_eq_div_pow]
    omega

namespace JBuffer

/-- The buffer after a successful `WriteAt` of `v` at index `m`. -/
theorem WriteAt_val_ok (j : JBuffer) (v : Fixed) (m : Int) (h1 : (j.off : Int) ≤ m)
    (h2 : m + (v.size : Int) ≤ (j.len : Int)) :
    j.WriteAt (Arg.val v) m
      = .ok (j.setView m.toNat (v.bytes ++ j.buf.drop (m.toNat + v.size)), none) := by
  have hp := Fixed.size_pos v
  have c1 : ¬ (m < (j.off : Int)) := by omega
  have c2 : ¬ (m ≥ (j.len : Int) ∨ m + (v.size : Int) > (j.len : Int)) := by omega
  have hv : v.size ≤ (j.buf.drop m.toNat).length := by
    simp only [List.length_drop, len] at h2 ⊢
    omega
  simp only [WriteAt, TypeSize, c1, c2, if_false, putFixed_ok _ v hv, bind, Except.bind, pure,
    Except.pure, List.drop_drop]

theorem WriteAt_ptr_ok (j : JBuffer) (v : Fixed) (m : Int) (h1 : (j.off : Int) ≤ m)
    (h2 : m + (v.size : Int) ≤ (j.len : Int)) :
    j.WriteAt (Arg.ptr v) m
      = .ok (j.setView m.toNat (v.bytes ++ j.buf.drop (m.toNat + v.size)), none) := by
  have hp := Fixed.size_pos v
  have c1 : ¬ (m < (j.off : Int)) := by omega
  have c2 : ¬ (m ≥ (j.len : Int) ∨ m + (v.size : Int) > (j.len : Int)) := by omega
  have hv : v.size ≤ (j.buf.drop m.toNat).length := by
    simp only [List.length_drop, len] at h2 ⊢
    omega
  simp only [WriteAt, TypeSize, c1, c2, if_false, putFixed_ok _ v hv, bind, Except.bind, pure,
    Except.pure, List.drop_drop]

/-- Outside its range `WriteAt` returns an error and the buffer as it was. -/
theorem WriteAt_val_err (j : JBuffer) (v : Fixed) (m : Int)
    (h : ¬ ((j.off : Int) ≤ m ∧ m + (v.size : Int) ≤ (j.len : Int))) :
    ∃ e, j.WriteAt (Arg.val v) m = .ok (j, some e) := by
  by_cases c1 : m < (j.off : Int)
  · exact ⟨GoError.writeAtIndex, by simp only [WriteAt, c1, if_true, pure, Except.pure]⟩
  · have hp := Fixed.size_pos v
    have c2 : m ≥ (j.len : Int) ∨ m + (v.size : Int) > (j.len : Int) := by omega
    exact ⟨GoError.writeAtRange, by
      simp only [WriteAt, TypeSize, c1, c2, if_true, if_false, pure, Except.pure]⟩

theorem WriteAt_ptr_err (j : JBuffer) (v : Fixed) (m : Int)
    (h : ¬ ((j.off : Int) ≤ m ∧ m + (v.size : Int) ≤ (j.len : Int))) :
    ∃ e, j.WriteAt (Arg.ptr v) m = .ok (j, some e) := by
  by_cases c1 : m < (j.off : Int)
  · exact ⟨GoError.writeAtIndex, by simp only [WriteAt, c1, if_true, pure, Except.pure]⟩
  · have hp := Fixed.size_pos v
    have c2 : m ≥ (j.len : Int) ∨ m + (v.size : Int) > (j.len : Int) := by omega
    exact ⟨GoError.writeAtRange, by
      simp only [WriteAt, TypeSize, c1, c2, if_true, if_false, pure, Except.pure]⟩

/-- Whenever `WriteAt` returns an error the buffer is the one it was called on. -/
theorem WriteAt_error_unchanged (j j1 : JBuffer) (a : Arg) (m : Int) (e : GoError)
    (h : j.WriteAt a m = .ok (j1, some e)) : j1 = j := by
  by_cases c1 : m < (j.off : Int)
  · simp only [WriteAt, c1, if_true, pure, Except.pure, Except.ok.injEq, Prod.mk.injEq] at h
    exact h.1.symm
  · by_cases c2 : m ≥ (j.len : Int) ∨ m + ((TypeSize a).1 : Int) > (j.len : Int)
    · cases a <;>
        simp only [WriteAt, TypeSize, c1, if_false, pure, Except.pure] at h c2 <;>
        simp only [c2, if_true, Except.ok.injEq, Prod.mk.injEq] at h <;>
        exact h.1.symm
    · cases a <;>
        simp only [WriteAt, TypeSize, c1, if_false, pure, Except.pure] at h c2 <;>
        simp only [c2, if_false, Except.ok.injEq, Prod.mk.injEq, bind, Except.bind] at h <;>
        first
          | exact h.1.symm
          | (split at h <;> simp at h)
          | simp at h

end JBuffer

/-! ## Reserving and shifting on a buffer with nothing consumed -/

namespace JBuffer

/-- The call `tryGrow(n)`: as `Alloc_spec`, for the index that `tryGrow` returns. -/
theorem tryGrow_spec (j : JBuffer) (n : Nat) (hinv : j.off ≤ j.len) :
    (∃ (j1 : JBuffer) (m : Nat), j.tryGrow (n : Int) = .ok (j1, (m : Int)) ∧
      AllocPost j j1 m n) ∨
    (j.tryGrow (n : Int) = .error Panic.errTooLarge ∧ maxInt < 2 * (j.Cap : Int) + n ∧
      j.spare.length < n) := by
  by_cases hfit : n ≤ j.spare.length
  · left
    refine ⟨_, _, ?_, AllocPost_fit j n hinv hfit⟩
    simp only [tryGrow, tryGrowByReslice_fit _ _ hfit, bind, Except.bind, pure, Except.pure,
      if_true]
  · have hnf : j.spare.length < n := by omega
    rcases grow_spec j n hinv with ⟨j1, m, h1, h2⟩ | ⟨h1, h2⟩
    · left
      refine ⟨j1, m, ?_, h2⟩
      simp only [tryGrow, tryGrowByReslice_nofit _ _ hnf, bind, Except.bind, pure,
        Except.pure, Bool.false_eq_true, if_false, h1]
    · right
      refine ⟨?_, h2, hnf⟩
      simp only [tryGrow, tryGrowByReslice_nofit _ _ hnf, bind, Except.bind, pure,
        Except.pure, Bool.false_eq_true, if_false, h1]

/-- With nothing consumed, the guarantees of `AllocPost` fix the index and the read
offset: the old bytes stay where they are. -/
theorem AllocPost_zero (j j1 : JBuffer) (m n : Nat) (h0 : j.off = 0)
    (h : AllocPost j j1 m n) :
    j1.off = 0 ∧ m = j.len ∧ j1.buf.length = j.len + n ∧ j1.buf.take j.len = j.buf := by
  obtain ⟨h1, h2, h3, h4, _, _⟩ := h
  rw [h0, List.drop_zero] at h3
  have hl := congrArg List.length h3
  simp only [List.length_drop, List.length_take, len] at hl h4
  have hm : m = j.buf.length := by omega
  have ho : j1.off = 0 := by omega
  rw [ho, List.drop_zero] at h3
  refine ⟨ho, hm, by simp only [len]; omega, ?_⟩
  simp only [len]
  rw [← hm]
  exact h3

/-- The call `tryGrow(n)` on a buffer with nothing consumed. -/
theorem tryGrow_zero (j : JBuffer) (n : Nat) (h0 : j.off = 0) :
    (∃ j1 : JBuffer, j.tryGrow (n : Int) = .ok (j1, (j.len : Int)) ∧ j1.off = 0 ∧
      j1.buf.length = j.len + n ∧ j1.buf.take j.len = j.buf) ∨
    (j.tryGrow (n : Int) = .error Panic.errTooLarge ∧
      maxInt < 3 * ((j.len + n : Nat) : Int)) := by
  have hCap : j.Cap = j.buf.length + j.spare.length := rfl
  have hlen : j.len = j.buf.length := rfl
  rcases tryGrow_spec j n (by omega) with ⟨j1, m, h1, h2⟩ | ⟨h1, h2, h3⟩
  · obtain ⟨z1, z2, z3, z4⟩ := AllocPost_zero j j1 m n h0 h2
    subst z2
    exact Or.inl ⟨j1, h1, z1, z3, z4⟩
  · exact Or.inr ⟨h1, by omega⟩

/-- The call `Alloc(n)` on a buffer with nothing consumed. -/
theorem Alloc_zero (j : JBuffer) (n : Nat) (h0 : j.off = 0) :
    (∃ j1 : JBuffer, j.Alloc (n : Int) = .ok (j1, j.len) ∧ j1.off = 0 ∧
      j1.buf.length = j.len + n ∧ j1.buf.take j.len = j.buf) ∨
    (j.Alloc (n : Int) = .error Panic.errTooLarge ∧
      maxInt < 3 * ((j.len + n : Nat) : Int)) := by
  rcases tryGrow_zero j n h0 with ⟨j1, h1, h2, h3, h4⟩ | ⟨h1, h2⟩
  · left
    have hs := sliceFrom_ok j1 j.len (by show j.len ≤ j1.buf.length; omega)
    refine ⟨j1, ?_, h2, h3, h4⟩
    simp only [Alloc, h1, bind, Except.bind, pure, Except.pure, hs, Int.toNat_ofNat]
  · right
    refine ⟨?_, h2⟩
    simp only [Alloc, h1, bind, Except.bind]

/-- The call `Write(p)` on a buffer with nothing consumed: the bytes are added after
the bytes present, whose indices do not change. -/
theorem Write_zero (j : JBuffer) (p : List Nat) (h0 : j.off = 0) :
    (∃ j1 : JBuffer, j.Write p = .ok (j1, (p.length : Int), none) ∧ j1.off = 0 ∧
      j1.buf = j.buf ++ p) ∨
    (j.Write p = .error Panic.errTooLarge ∧
      maxInt < 3 * ((j.len + p.length : Nat) : Int)) := by
  rcases Alloc_zero j p.length h0 with ⟨j1, h1, h2, h3, h4⟩ | ⟨h1, h2⟩
  · left
    have hd : (j1.buf.drop j.len).length = p.length := by
      rw [List.length_drop, h3]; omega
    refine ⟨j1.setView j.len p, ?_, h2, ?_⟩
    · simp only [Write, h1, bind, Except.bind, pure, Except.pure, hd, min_self,
        copyInto_same_length _ _ hd]
    · simp only [setView, h4]
  · right
    refine ⟨?_, h2⟩
    simp only [Write, h1, bind, Except.bind]

theorem WriteString_eq_Write (j : JBuffer) (s : List Nat) : j.WriteString s = j.Write s :=
  rfl

/-- The call `FillTypeSize(a)` for a value of a fixed-width type, on a buffer with
nothing consumed: `size` raw bytes are reserved at index `len(buf)`. -/
theorem FillTypeSize_zero (j : JBuffer) (v : Fixed) (h0 : j.off = 0) :
    (∃ j1 : JBuffer, j.FillTypeSize (Arg.val v) = .ok (j1, (j.len : Int), none) ∧
      j1.off = 0 ∧ j1.buf.length = j.len + v.size ∧ j1.buf.take j.len = j.buf) ∨
    (j.FillTypeSize (Arg.val v) = .error Panic.errTooLarge ∧
      maxInt < 3 * ((j.len + v.size : Nat) : Int)) := by
  rcases tryGrow_zero j v.size h0 with ⟨j1, h1, h2, h3, h4⟩ | ⟨h1, h2⟩
  · left
    refine ⟨j1, ?_, h2, h3, h4⟩
    simp only [FillTypeSize, TypeSize, h1, bind, Except.bind, pure, Except.pure]
  · right
    refine ⟨?_, h2⟩
    simp only [FillTypeSize, TypeSize, h1, bind, Except.bind]

end JBuffer

/-- The loop of `CopyR` over the indices `d + n - 1` down to `d`: it returns, and
afterwards index `k` of that range holds what index `k - step` held before, the other
indices being unchanged. -/
theorem copyRLoop_spec (step : Nat) : ∀ (n d : Nat) (buf : List Nat), step ≤ d →
    d + n ≤ buf.length →
    ∃ res, copyRLoop (step : Int) n (((d + n : Nat) : Int) - 1) buf = .ok res ∧
      res.length = buf.length ∧
      ∀ k, res[k]? = if d ≤ k ∧ k < d + n then buf[k - step]? else buf[k]? := by
  intro n
  induction n with
  | zero =>
    intro d buf _ _
    refine ⟨buf, rfl, rfl, ?_⟩
    intro k
    rw [if_neg (by omega)]
  | succ n ih =>
    intro d buf hs hl
    have hc : ¬ ((((d + (n + 1) : Nat) : Int) - 1) < 0 ∨
        (buf.length : Int) ≤ (((d + (n + 1) : Nat) : Int) - 1) ∨
        (((d + (n + 1) : Nat) : Int) - 1) - (step : Int) < 0 ∨
        (buf.length : Int) ≤ (((d + (n + 1) : Nat) : Int) - 1) - (step : Int)) := by omega
    have e1 : ((((d + (n + 1) : Nat) : Int) - 1)).toNat = d + n := by omega
    have e2 : ((((d + (n + 1) : Nat) : Int) - 1) - (step : Int)).toNat = d + n - step := by
      omega
    have e3 : (((d + (n + 1) : Nat) : Int) - 1) - 1 = ((d + n : Nat) : Int) - 1 := by omega
    obtain ⟨res, r1, r2, r3⟩ :=
      ih d (buf.set (d + n) (buf.getD (d + n - step) 0)) hs (by simp; omega)
    refine ⟨res, ?_, by simpa using r2, ?_⟩
    · rw [copyRLoop, if_neg hc, e1, e2, e3]
      exact r1
    · intro k
      rw [r3 k]
      have hget : buf[d + n - step]? = some (buf.getD (d + n - step) 0) := by
        rw [List.getD_eq_getElem?_getD, List.getElem?_eq_getElem (by omega)]
        rfl
      by_cases hk : d ≤ k ∧ k < d + n
      · rw [if_pos hk, if_pos (by omega), List.getElem?_set_ne (by omega)]
      · rw [if_neg hk]
        by_cases hk2 : k = d + n
        · subst hk2
          rw [if_pos (by omega), List.getElem?_set, if_pos rfl, if_pos (by omega), hget]
        · rw [if_neg (by omega), List.getElem?_set_ne (by omega)]

/-! ## CopyR and Copy -/

namespace JBuffer

/-- The call `CopyR(s + step, s)` on a buffer with nothing consumed, for `0 < step` and
`s ≤ len(buf)`: it returns nil, the buffer is `step` bytes longer, the bytes before `s`
are unchanged and the bytes from `s` on now start at `s + step`.  The only other
outcome is the panic `ErrTooLarge` of `grow`. -/
theorem CopyR_zero_spec (j : JBuffer) (s step : Nat) (h0 : j.off = 0) (hstep : 0 < step)
    (hs : s ≤ j.len) :
    (∃ j2 : JBuffer, j.CopyR ((s + step : Nat) : Int) (s : Int) = .ok (j2, none) ∧
      j2.off = 0 ∧ j2.buf.length = j.len + step ∧ j2.buf.take s = j.buf.take s ∧
      j2.buf.drop (s + step) = j.buf.drop s) ∨
    (j.CopyR ((s + step : Nat) : Int) (s : Int) = .error Panic.errTooLarge ∧
      maxInt < 3 * ((j.len + step : Nat) : Int)) := by
  have hlen : j.len = j.buf.length := rfl
  have c : ¬ ((s : Int) ≥ ((s + step : Nat) : Int) ∨ (s : Int) > j.Len ∨
      ((s + step : Nat) : Int) < (j.off : Int)) := by
    simp only [Len]; omega
  have e : ((s + step : Nat) : Int) - (s : Int) = (step : Int) := by omega
  rcases Alloc_zero j step h0 with ⟨j1, h1, h2, h3, h4⟩ | ⟨h1, h2⟩
  · left
    have hL : j1.Len = ((j.len + step : Nat) : Int) := by
      simp only [Len, len, h2, h3]; omega
    have en : (j1.Len - 1 - ((s + step : Nat) : Int) + 1).toNat = j.len - s := by
      rw [hL]; omega
    have ei : j1.Len - 1 = (((s + step) + (j.len - s) : Nat) : Int) - 1 := by
      rw [hL]; omega
    obtain ⟨res, r1, r2, r3⟩ :=
      copyRLoop_spec step (j.len - s) (s + step) j1.buf (by omega) (by omega)
    have hb : ∀ k, k < j.len → j1.buf[k]? = j.buf[k]? := by
      intro k hk
      have : j.buf[k]? = (j1.buf.take j.len)[k]? := by rw [h4]
      rw [this, List.getElem?_take, if_pos hk]
    refine ⟨JBuffer.mk res j1.spare j1.off j1.nilPtr, ?_, h2, by simp only [r2, h3], ?_, ?_⟩
    · simp only [CopyR, c, if_false, e, h1, bind, Except.bind, pure, Except.pure, en]
      rw [ei, r1]
    · show res.take s = j.buf.take s
      apply List.ext_getElem?
      intro k
      rw [List.getElem?_take, List.getElem?_take]
      by_cases hk : k < s
      · rw [if_pos hk, if_pos hk, r3 k, if_neg (by omega), hb k (by omega)]
      · rw [if_neg hk, if_neg hk]
    · show res.drop (s + step) = j.buf.drop s
      apply List.ext_getElem?
      intro k
      rw [List.getElem?_drop, List.getElem?_drop, r3 (s + step + k)]
      by_cases hk : s + step + k < s + step + (j.len - s)
      · have : s + step + k - step = s + k := by omega
        rw [if_pos ⟨by omega, hk⟩, this, hb (s + k) (by omega)]
      · rw [if_neg (by omega), List.getElem?_eq_none (by omega),
          List.getElem?_eq_none (by omega)]
  · right
    refine ⟨?_, h2⟩
    simp only [CopyR, c, if_false, e, h1, bind, Except.bind]

/-- The call `Copy(d, s)` within the bounds that its guard and its slice expressions
accept: it returns nil; length, capacity and read offset are unchanged; the bytes from
`s` on are copied down to start at `d`, the bytes before `d` are unchanged. -/
theorem Copy_spec (j : JBuffer) (d s : Nat) (hds : d < s) (hs : s ≤ j.len)
    (hd : (d : Int) ≤ j.Len) (ho : j.off ≤ s) :
    j.Copy (d : Int) (s : Int) = .ok (JBuffer.mk
      (j.buf.take d ++ (j.buf.drop s ++ j.buf.drop (d + (j.len - s)))) j.spare j.off
      j.nilPtr, none) := by
  have hlen : j.len = j.buf.length := rfl
  have c : ¬ ((d : Int) ≥ (s : Int) ∨ (d : Int) > j.Len ∨ (s : Int) < (j.off : Int)) := by
    omega
  have e1 : (j.buf.drop s).take (j.buf.length - d) = j.buf.drop s := by
    apply List.take_of_length_le
    simp only [List.length_drop]; omega
  simp only [Copy, c, if_false, sliceFrom_ok j d (by omega), sliceFrom_ok j s hs, bind,
    Except.bind, pure, Except.pure, Int.toNat_ofNat, setView, copyInto, List.drop_drop,
    List.length_drop, hlen]
  have : j.buf.length - s + d = d + (j.buf.length - s) := by omega
  simp only [this, e1]

/-- What `Copy_spec` says byte by byte. -/
theorem Copy_bytes (j : JBuffer) (d s : Nat) (hds : d < s) (hs : s ≤ j.len) :
    (j.buf.take d ++ (j.buf.drop s ++ j.buf.drop (d + (j.len - s)))).length = j.len ∧
    (∀ k, k < j.len - s →
      (j.buf.take d ++ (j.buf.drop s ++ j.buf.drop (d + (j.len - s))))[d + k]?
        = j.buf[s + k]?) ∧
    (∀ i, i < d →
      (j.buf.take d ++ (j.buf.drop s ++ j.buf.drop (d + (j.len - s))))[i]? = j.buf[i]?) := by
  have hlen : j.len = j.buf.length := rfl
  refine ⟨by simp only [List.length_append, List.length_take, List.length_drop]; omega, ?_, ?_⟩
  · intro k hk
    rw [List.getElem?_append_right (by simp only [List.length_take]; omega),
      List.getElem?_append_left (by simp only [List.length_take, List.length_drop]; omega),
      List.getElem?_drop]
    simp only [List.length_take]
    have : s + (d + k - min d j.buf.length) = s + k := by omega
    rw [this]
  · intro i hi
    rw [List.getElem?_append_left (by simp only [List.length_take]; omega),
      List.getElem?_take, if_pos hi]

/-- Whenever `CopyR` returns an error the buffer is the one it was called on. -/
theorem CopyR_error_unchanged (j j1 : JBuffer) (d s : Int) (e : GoError)
    (h : j.CopyR d s = .ok (j1, some e)) : j1 = j := by
  by_cases c : s ≥ d ∨ s > j.Len ∨ d < (j.off : Int)
  · simp only [CopyR, c, if_true, pure, Except.pure, Except.ok.injEq, Prod.mk.injEq] at h
    exact h.1.symm
  · simp only [CopyR, c, if_false, bind, Except.bind, pure, Except.pure] at h
    split at h
    · simp at h
    · split at h <;> simp at h

/-- Whenever `Copy` returns an error the buffer is the one it was called on. -/
theorem Copy_error_unchanged (j j1 : JBuffer) (d s : Int) (e : GoError)
    (h : j.Copy d s = .ok (j1, some e)) : j1 = j := by
  by_cases c : d ≥ s ∨ d > j.Len ∨ s < (j.off : Int)
  · simp only [Copy, c, if_true, pure, Except.pure, Except.ok.injEq, Prod.mk.injEq] at h
    exact h.1.symm
  · simp only [Copy, c, if_false, bind, Except.bind, pure, Except.pure] at h
    split at h
    · simp at h
    · split at h <;> simp at h

end JBuffer

/-! ## Reserve then patch, insert by shift and patch -/

/-- The call sequence `reserveThenPatch` on a buffer with nothing consumed: the reserved
index is the length before the field, both errors are nil and the field holds `v`
between the bytes written before and after it. -/
theorem reserveThenPatch_spec (j : JBuffer) (p s : List Nat) (y v : Int) (h0 : j.off = 0) :
    reserveThenPatch j p y s v
      = .ok (((j.len + p.length : Nat) : Int), none, none,
          j.buf ++ p ++ (Fixed.int32 v).bytes ++ s) ∨
    (reserveThenPatch j p y s v = .error Panic.errTooLarge ∧
      maxInt < 3 * ((j.len + p.length + 4 + s.length : Nat) : Int)) := by
  have hlen : j.len = j.buf.length := rfl
  rcases JBuffer.Write_zero j p h0 with ⟨j1, w1, o1, b1⟩ | ⟨w1, e1⟩
  · have l1 : j1.len = j.len + p.length := by
      simp only [JBuffer.len, b1, List.length_append]
    rcases JBuffer.FillTypeSize_zero j1 (Fixed.int32 y) o1 with ⟨j2, w2, o2, n2, t2⟩ | ⟨w2, e2⟩
    · have l2 : j2.len = j.len + p.length + 4 := by
        show j2.buf.length = _
        rw [n2, l1]; rfl
      rcases JBuffer.Write_zero j2 s o2 with ⟨j3, w3, o3, b3⟩ | ⟨w3, e3⟩
      · have l3 : j3.len = j.len + p.length + 4 + s.length := by
          show j3.buf.length = _
          rw [b3, List.length_append]
          show j2.len + _ = _
          rw [l2]
        have hsz : (Fixed.int32 v).size = 4 := rfl
        have w4 := JBuffer.WriteAt_val_ok j3 (Fixed.int32 v) ((j1.len : Nat) : Int)
          (by omega) (by rw [hsz]; omega)
        have e5 : j3.buf.take j1.len = j.buf ++ p := by
          rw [b3, List.take_append_of_le_length (by show j1.len ≤ j2.len; omega), t2, b1]
        have e6 : j3.buf.drop (j1.len + 4) = s := by
          have : j1.len + 4 = j2.buf.length := by show _ = j2.len; omega
          rw [b3, this, List.drop_left]
        rw [l1] at e5 e6
        left
        simp only [reserveThenPatch, w1, w2, JBuffer.WriteString_eq_Write, w3, w4, bind,
          Except.bind, pure, Except.pure, Int.toNat_ofNat]
        rw [Bytes_ok _ (by
          show j3.off ≤ (j3.buf.take j1.len ++ _).length
          rw [o3]; exact Nat.zero_le _)]
        simp only [JBuffer.setView, o3, List.drop_zero, e5, e6, hsz, l1, List.append_assoc]
      · right
        refine ⟨?_, by omega⟩
        simp only [reserveThenPatch, w1, w2, JBuffer.WriteString_eq_Write, w3, bind,
          Except.bind]
    · right
      have hsz : (Fixed.int32 y).size = 4 := rfl
      refine ⟨?_, by omega⟩
      simp only [reserveThenPatch, w1, w2, bind, Except.bind]
  · right
    refine ⟨?_, by omega⟩
    simp only [reserveThenPatch, w1, bind, Except.bind]

/-- The calls `CopyR(s+2, s)` and `WriteAt(v, s)` on a buffer with nothing consumed
insert the two bytes of `v` at `s`. -/
theorem insertAt_spec (j : JBuffer) (s : Nat) (v : Fixed) (h0 : j.off = 0) (hs : s ≤ j.len)
    (hv : v.size = 2) :
    insertAt j (s : Int) v = .ok (none, none, j.buf.take s ++ v.bytes ++ j.buf.drop s) ∨
    (insertAt j (s : Int) v = .error Panic.errTooLarge ∧
      maxInt < 3 * ((j.len + 2 : Nat) : Int)) := by
  have e : (s : Int) + 2 = ((s + 2 : Nat) : Int) := by omega
  rcases JBuffer.CopyR_zero_spec j s 2 h0 (by omega) hs with
    ⟨j2, c1, o2, n2, t2, d2⟩ | ⟨c1, e1⟩
  · left
    have w := JBuffer.WriteAt_val_ok j2 v (s : Int) (by omega)
      (by rw [hv]; show (s : Int) + ((2 : Nat) : Int) ≤ ((j2.buf.length : Nat) : Int)
          rw [n2]; omega)
    simp only [insertAt, e, c1, w, bind, Except.bind, pure, Except.pure, Int.toNat_ofNat]
    rw [Bytes_ok _ (by
      show j2.off ≤ (j2.buf.take s ++ _).length
      rw [o2]; exact Nat.zero_le _)]
    simp only [JBuffer.setView, o2, List.drop_zero, hv, t2, d2, List.append_assoc]
  · right
    refine ⟨?_, e1⟩
    simp only [insertAt, e, c1, bind, Except.bind]

/-! ## ReadVarint -/

namespace JBuffer

/-- On an empty buffer `ReadVarint` resets the buffer and returns `(0, io.EOF)`. -/
theorem ReadVarint_empty (j : JBuffer) (h : j.len ≤ j.off) :
    j.ReadVarint = .ok (j.Reset, 0, some GoError.EOF) := by
  simp only [ReadVarint, empty, h, decide_True, if_true, pure, Except.pure]

/-- When the unread bytes begin with the bytes that `VarToBytes` stores for `v`,
`ReadVarint` returns `v` and moves the read offset by `Size(v)`. -/
theorem ReadVarint_encoding (j : JBuffer) (v : Nat) (rest : List Nat) (hv : v < 2 ^ 64)
    (hinv : j.off ≤ j.len) (h : j.buf.drop j.off = varBytes v ++ rest) :
    j.ReadVarint = .ok (JBuffer.mk j.buf j.spare (j.off + Size v) j.nilPtr, v, none) := by
  have hpos : 0 < (varBytes v).length := by
    rw [varBytes_length]; exact varCnt_pos v
  have hne := not_empty_of_drop j _ rest hinv hpos h
  have hn : ¬ ((varCnt v : Int) = -1) := by omega
  simp only [ReadVarint, hne, Bool.false_eq_true, if_false, sliceFrom_ok j j.off hinv, bind,
    Except.bind, h, Bytes2Var_varBytes v rest hv, hn, pure, Except.pure, Int.toNat_ofNat,
    Size_eq_varCnt v hv]

/-- When `ReadVarint` returns an error on a non-empty buffer, the value is `0` and the
buffer is unchanged. -/
theorem ReadVarint_error (j j1 : JBuffer) (x : Nat) (e : GoError) (hne : j.off < j.len)
    (h : j.ReadVarint = .ok (j1, x, some e)) :
    j1 = j ∧ x = 0 ∧ e = GoError.dataTruncated := by
  have hne2 : j.empty = false := by
    simp only [empty, decide_eq_false_iff_not]; omega
  simp only [ReadVarint, hne2, Bool.false_eq_true, if_false, sliceFrom_ok j j.off (by omega),
    bind, Except.bind, pure, Except.pure] at h
  split at h <;>
    simp only [Except.ok.injEq, Prod.mk.injEq, Option.some.injEq] at h
  · exact ⟨h.1.symm, h.2.1.symm, h.2.2.symm⟩
  · exact absurd h.2.2 (by simp)

/-- On unread bytes that `Bytes2Var` rejects, `ReadVarint` returns `0` and an error
and leaves the buffer as it was. -/
theorem ReadVarint_rejected (j : JBuffer) (hne : j.off < j.len)
    (h : (Bytes2Var (j.buf.drop j.off)).2 = -1) :
    j.ReadVarint = .ok (j, 0, some GoError.dataTruncated) := by
  have hne2 : j.empty = false := by
    simp only [empty, decide_eq_false_iff_not]; omega
  simp only [ReadVarint, hne2, Bool.false_eq_true, if_false, sliceFrom_ok j j.off (by omega),
    bind, Except.bind, pure, Except.pure, h, if_true]

end JBuffer

/-! ## The text appends -/

theorem decimalValue_snoc (ds : List Nat) (d : Nat) :
    decimalValue (ds ++ [d]) = 10 * decimalValue ds + (d - 48) := by
  simp only [decimalValue, List.foldl_append, List.foldl_cons, List.foldl_nil]

/-- The loop `formatBits` puts in front of `acc` the decimal digits of `u`: a non-empty
string of ASCII digits with value `u` and without a leading zero unless `u = 0`. -/
theorem formatBits_spec : ∀ (fuel u : Nat) (acc : List Nat), u < 10 ^ (fuel + 1) →
    ∃ ds, formatBits fuel u acc = ds ++ acc ∧ decimalValue ds = u ∧ ds ≠ [] ∧
      (∀ d ∈ ds, 48 ≤ d ∧ d ≤ 57) ∧ (ds.head? = some 48 → u = 0) := by
  intro fuel
  induction fuel with
  | zero =>
    intro u acc h
    have hu : u < 10 := by simpa using h
    refine ⟨[48 + u % 10], rfl, ?_, by simp, ?_, ?_⟩
    · simp only [decimalValue, List.foldl_cons, List.foldl_nil]; omega
    · intro d hd
      simp only [List.mem_singleton] at hd
      omega
    · intro hh
      simp only [List.head?_cons, Option.some.injEq] at hh
      omega
  | succ fuel ih =>
    intro u acc h
    by_cases hu : 10 ≤ u
    · have hdiv : u / 10 < 10 ^ (fuel + 1) := by
        rw [Nat.div_lt_iff_lt_mul (by decide)]
        calc u < 10 ^ (fuel + 1 + 1) := h
          _ = 10 ^ (fuel + 1) * 10 := by rw [pow_succ]
      obtain ⟨ds, h1, h2, h3, h4, h5⟩ := ih (u / 10) ((48 + u % 10) :: acc) hdiv
      refine ⟨ds ++ [48 + u % 10], ?_, ?_, by simp, ?_, ?_⟩
      · rw [formatBits, if_pos hu, h1]; simp
      · rw [decimalValue_snoc, h2]; omega
      · intro d hd
        rcases List.mem_append.1 hd with hd | hd
        · exact h4 d hd
        · simp only [List.mem_singleton] at hd
          omega
      · intro hh
        cases ds with
        | nil => exact absurd rfl h3
        | cons a t =>
          simp only [List.cons_append, List.head?_cons, Option.some.injEq] at hh
          have := h5 (by simp only [List.head?_cons, hh])
          omega
    · refine ⟨[48 + u], ?_, ?_, by simp, ?_, ?_⟩
      · rw [formatBits, if_neg hu]; rfl
      · simp only [decimalValue, List.foldl_cons, List.foldl_nil]; omega
      · intro d hd
        simp only [List.mem_singleton] at hd
        omega
      · intro hh
        simp only [List.head?_cons, Option.some.injEq] at hh
        omega

/-- The text of a `uint64`: its decimal digits. -/
theorem formatUint_spec (u : Nat) (h : u < 2 ^ 64) :
    decimalValue (formatUint u) = u ∧ formatUint u ≠ [] ∧
    (∀ d ∈ formatUint u, 48 ≤ d ∧ d ≤ 57) ∧ ((formatUint u).head? = some 48 → u = 0) := by
  obtain ⟨ds, h1, h2, h3, h4, h5⟩ := formatBits_spec 20 u [] (by
    calc u < 2 ^ 64 := h
      _ ≤ 10 ^ (20 + 1) := by norm_num)
  have : formatUint u = ds := by rw [formatUint, h1, List.append_nil]
  rw [this]
  exact ⟨h2, h3, h4, h5⟩

namespace JBuffer

/-- The built-in `append` adds the bytes after the bytes present, whatever the capacity
of a new array is, and keeps the read offset. -/
theorem appendBytes_spec (j : JBuffer) (bs : List Nat) (extra : Nat) :
    (j.appendBytes bs extra).buf = j.buf ++ bs ∧ (j.appendBytes bs extra).off = j.off ∧
    j.len + bs.length ≤ (j.appendBytes bs extra).Cap := by
  by_cases h : bs.length ≤ j.spare.length
  · simp only [appendBytes, h, if_true, Cap, len, List.length_append, List.length_drop,
      true_and]
    omega
  · simp only [appendBytes, h, if_false, Cap, len, List.length_append, true_and]
    omega

theorem appendBytes_Bytes (j : JBuffer) (bs : List Nat) (extra : Nat) (hinv : j.off ≤ j.len) :
    (j.appendBytes bs extra).off ≤ (j.appendBytes bs extra).len ∧
    (j.appendBytes bs extra).Bytes = .ok (j.buf.drop j.off ++ bs) := by
  obtain ⟨h1, h2, _⟩ := appendBytes_spec j bs extra
  have hl : (j.appendBytes bs extra).off ≤ (j.appendBytes bs extra).len := by
    show (j.appendBytes bs extra).off ≤ (j.appendBytes bs extra).buf.length
    rw [h1, h2, List.length_append]
    have : j.len = j.buf.length := rfl
    omega
  refine ⟨hl, ?_⟩
  rw [Bytes_ok _ hl, h1, h2, List.drop_append_of_le_length hinv]

end JBuffer

/-! ## Claims on patching, shifting, varint reads and text appends -/

theorem leBytesInt_cast (w x : Nat) : leBytesInt w (x : Int) = leBytes w x := by
  simp only [leBytes, leBytesInt]
  apply List.map_congr_left
  intro k _
  rw [Int.shiftRight_eq_div_pow, Nat.shiftRight_eq_div_pow]
  have : (x : Int) / ((2 ^ (8 * k) : Nat) : Int) % 256
      = ((x / 2 ^ (8 * k) % 256 : Nat) : Int) := by
    push_cast; rfl
  rw [this, Int.toNat_ofNat]

/-- The bytes of a value in the range of its type are the little-endian bytes of the
integer it denotes: byte `k` is `(x >> 8k) mod 256`. -/
theorem Fixed.bytes_little_endian (v : Fixed) (hv : v.valid) :
    v.bytes = leBytesInt v.size v.value := by
  cases v with
  | int8 x =>
    simp only [Fixed.valid] at hv
    simp only [Fixed.bytes, Fixed.size, Fixed.value, BSize, leBytesInt, toUint,
      List.range_succ, List.range_zero, List.nil_append, List.map_cons, List.map_nil,
      Int.shiftRight_eq_div_pow]
    norm_num
  | uint8 x =>
    simp only [Fixed.valid] at hv
    simp only [Fixed.bytes, Fixed.size, Fixed.value, BSize, leBytesInt,
      List.range_succ, List.range_zero, List.nil_append, List.map_cons, List.map_nil,
      Int.shiftRight_eq_div_pow]
    norm_num
    omega
  | int16 x => exact leBytes_toUint16 x hv
  | uint16 x => exact (leBytesInt_cast 2 x).symm
  | int32 x => exact leBytes_toUint32 x hv
  | uint32 x => exact (leBytesInt_cast 4 x).symm
  | int64 x => exact leBytes_toUint64 x hv
  | uint64 x => exact (leBytesInt_cast 8 x).symm

theorem Fixed.size_cases (v : Fixed) : v.size = 1 ∨ v.size = 2 ∨ v.size = 4 ∨ v.size = 8 := by
  cases v <;> simp [Fixed.size, BSize, WSize, DSize, QSize]

/-- A `WriteAt` of a fixed-width value that returns nil was within its range. -/
theorem JBuffer.WriteAt_nil_range (j j1 : JBuffer) (a : Arg) (v : Fixed) (m : Int)
    (ha : a = Arg.val v ∨ a = Arg.ptr v) (h : j.WriteAt a m = .ok (j1, none)) :
    ((j.off : Int) ≤ m ∧ m + (v.size : Int) ≤ (j.len : Int)) ∧
    j1 = j.setView m.toNat (v.bytes ++ j.buf.drop (m.toNat + v.size)) := by
  by_cases hr : (j.off : Int) ≤ m ∧ m + (v.size : Int) ≤ (j.len : Int)
  · refine ⟨hr, ?_⟩
    rcases ha with rfl | rfl
    · rw [JBuffer.WriteAt_val_ok j v m hr.1 hr.2] at h
      simp only [Except.ok.injEq, Prod.mk.injEq, and_true] at h
      exact h.symm
    · rw [JBuffer.WriteAt_ptr_ok j v m hr.1 hr.2] at h
      simp only [Except.ok.injEq, Prod.mk.injEq, and_true] at h
      exact h.symm
  · exfalso
    rcases ha with rfl | rfl
    · obtain ⟨e, he⟩ := JBuffer.WriteAt_val_err j v m hr
      rw [he] at h
      simp at h
    · obtain ⟨e, he⟩ := JBuffer.WriteAt_ptr_err j v m hr
      rw [he] at h
      simp at h

/-- C11: for every buffer, every fixed-width integer value `v` of `k = v.size` bytes
(`k` is 1, 2, 4 or 8), passed by value or through a pointer, and every index `m`,
`WriteAt(v, m)` returns, and the error it returns is nil if and only if `off ≤ m` and
`m + k ≤ len(buf)`.  In particular a 4-byte value is patched at index 12 of 16
written bytes (the read offset being at most 12), and an index before the read offset
is refused with the buffer unchanged. -/
theorem WriteAt_nil_iff_in_range (j : JBuffer) (v : Fixed) (m : Int) :
    (v.size = 1 ∨ v.size = 2 ∨ v.size = 4 ∨ v.size = 8) ∧
    (∃ j1 err, j.WriteAt (Arg.val v) m = .ok (j1, err) ∧
      (err = none ↔ ((j.off : Int) ≤ m ∧ m + (v.size : Int) ≤ (j.len : Int)))) ∧
    (∃ j1 err, j.WriteAt (Arg.ptr v) m = .ok (j1, err) ∧
      (err = none ↔ ((j.off : Int) ≤ m ∧ m + (v.size : Int) ≤ (j.len : Int)))) ∧
    (j.len = 16 → j.off ≤ 12 → v.size = 4 →
      (∃ j1, j.WriteAt (Arg.val v) 12 = .ok (j1, none)) ∧
      (∃ j1, j.WriteAt (Arg.ptr v) 12 = .ok (j1, none))) ∧
    (m < (j.off : Int) →
      (∃ e, j.WriteAt (Arg.val v) m = .ok (j, some e)) ∧
      (∃ e, j.WriteAt (Arg.ptr v) m = .ok (j, some e))) := by
  refine ⟨Fixed.size_cases v, ?_, ?_, ?_, ?_⟩
  · by_cases hr : (j.off : Int) ≤ m ∧ m + (v.size : Int) ≤ (j.len : Int)
    · exact ⟨_, none, JBuffer.WriteAt_val_ok j v m hr.1 hr.2, by simp only [hr, and_self]⟩
    · obtain ⟨e, he⟩ := JBuffer.WriteAt_val_err j v m hr
      exact ⟨j, some e, he, by simp only [hr, iff_false]; exact fun h => nomatch h⟩
  · by_cases hr : (j.off : Int) ≤ m ∧ m + (v.size : Int) ≤ (j.len : Int)
    · exact ⟨_, none, JBuffer.WriteAt_ptr_ok j v m hr.1 hr.2, by simp only [hr, and_self]⟩
    · obtain ⟨e, he⟩ := JBuffer.WriteAt_ptr_err j v m hr
      exact ⟨j, some e, he, by simp only [hr, iff_false]; exact fun h => nomatch h⟩
  · intro hl ho hv
    exact ⟨⟨_, JBuffer.WriteAt_val_ok j v 12 (by omega) (by omega)⟩,
      ⟨_, JBuffer.WriteAt_ptr_ok j v 12 (by omega) (by omega)⟩⟩
  · intro hm
    exact ⟨JBuffer.WriteAt_val_err j v m (by omega), JBuffer.WriteAt_ptr_err j v m (by omega)⟩

/-- Witness of C11: sixteen written bytes, two of them consumed; the `int32` value 256
is patched at index 12, and index 1 is refused. -/
theorem WriteAt_nil_iff_in_range_witness :
    ((JBuffer.mk (List.replicate 16 7) [] 2 false).len = 16 ∧
      (JBuffer.mk (List.replicate 16 7) [] 2 false).off ≤ 12 ∧
      (Fixed.int32 256).size = 4 ∧
      (1 : Int) < ((JBuffer.mk (List.replicate 16 7) [] 2 false).off : Int)) ∧
    ((∃ j1, (JBuffer.mk (List.replicate 16 7) [] 2 false).WriteAt
        (Arg.val (Fixed.int32 256)) 12 = .ok (j1, none)) ∧
      (∃ j1, (JBuffer.mk (List.replicate 16 7) [] 2 false).WriteAt
        (Arg.ptr (Fixed.int32 256)) 12 = .ok (j1, none))) ∧
    ((∃ e, (JBuffer.mk (List.replicate 16 7) [] 2 false).WriteAt
        (Arg.val (Fixed.int32 256)) 1
          = .ok (JBuffer.mk (List.replicate 16 7) [] 2 false, some e)) ∧
      (∃ e, (JBuffer.mk (List.replicate 16 7) [] 2 false).WriteAt
        (Arg.ptr (Fixed.int32 256)) 1
          = .ok (JBuffer.mk (List.replicate 16 7) [] 2 false, some e))) :=
  ⟨⟨rfl, by decide, rfl, by decide⟩,
    (WriteAt_nil_iff_in_range (JBuffer.mk (List.replicate 16 7) [] 2 false)
      (Fixed.int32 256) 12).2.2.2.1 rfl (by decide) rfl,
    (WriteAt_nil_iff_in_range (JBuffer.mk (List.replicate 16 7) [] 2 false)
      (Fixed.int32 256) 1).2.2.2.2 (by decide)⟩

/-- C12: when `WriteAt(a, m)` returns nil for a fixed-width integer `v` of `k` bytes
(by value or through a pointer), the buffer holds the bytes before `m`, then the `k`
bytes of `v`, then the bytes from `m + k` on: bytes `m .. m+k-1` are the little-endian
bytes of `v` (byte `i` is `(v >> 8i) mod 256`), every other byte, the read offset, the
length and the capacity are unchanged. -/
theorem WriteAt_overwrites_exactly (j j1 : JBuffer) (a : Arg) (v : Fixed) (m : Int)
    (ha : a = Arg.val v ∨ a = Arg.ptr v) (hv : v.valid)
    (h : j.WriteAt a m = .ok (j1, none)) :
    0 ≤ m ∧ m.toNat + v.size ≤ j.len ∧
    j1.buf = j.buf.take m.toNat ++ leBytesInt v.size v.value ++
      j.buf.drop (m.toNat + v.size) ∧
    (∀ i, i < v.size →
      j1.buf[m.toNat + i]? = some (((v.value >>> (8 * i)) % 256).toNat)) ∧
    (∀ i, i < m.toNat ∨ m.toNat + v.size ≤ i → j1.buf[i]? = j.buf[i]?) ∧
    j1.off = j.off ∧ j1.len = j.len ∧ j1.Cap = j.Cap ∧ j1.spare = j.spare := by
  obtain ⟨⟨r1, r2⟩, rfl⟩ := JBuffer.WriteAt_nil_range j j1 a v m ha h
  have hlen : j.len = j.buf.length := rfl
  have hbl : (leBytesInt v.size v.value).length = v.size := by
    simp only [leBytesInt, List.length_map, List.length_range]
  have hm : m.toNat + v.size ≤ j.buf.length := by omega
  have hb : (j.setView m.toNat (v.bytes ++ j.buf.drop (m.toNat + v.size))).buf
      = j.buf.take m.toNat ++ leBytesInt v.size v.value ++ j.buf.drop (m.toNat + v.size) := by
    simp only [JBuffer.setView, Fixed.bytes_little_endian v hv, List.append_assoc]
  have hl : (j.setView m.toNat (v.bytes ++ j.buf.drop (m.toNat + v.size))).buf.length
      = j.buf.length := by
    rw [hb]
    simp only [List.length_append, List.length_take, List.length_drop, hbl]
    omega
  refine ⟨by omega, by omega, hb, ?_, ?_, rfl, hl, ?_, rfl⟩
  · intro i hi
    rw [hb, List.append_assoc,
      List.getElem?_append_right (by simp only [List.length_take]; omega),
      List.getElem?_append_left (by simp only [List.length_take, hbl]; omega)]
    have e : m.toNat + i - (j.buf.take m.toNat).length = i := by
      simp only [List.length_take]; omega
    rw [e]
    simp only [leBytesInt, List.getElem?_map, List.getElem?_range hi, Option.map_some']
  · intro i hi
    rw [hb, List.append_assoc]
    rcases hi with hi | hi
    · rw [List.getElem?_append_left (by simp only [List.length_take]; omega),
        List.getElem?_take, if_pos hi]
    · rw [List.getElem?_append_right (by simp only [List.length_take]; omega),
        List.getElem?_append_right (by simp only [List.length_take, hbl]; omega),
        List.getElem?_drop]
      have e : m.toNat + v.size + (i - (j.buf.take m.toNat).length
          - (leBytesInt v.size v.value).length) = i := by
        simp only [List.length_take, hbl]; omega
      rw [e]
  · show (j.setView m.toNat (v.bytes ++ j.buf.drop (m.toNat + v.size))).buf.length
      + j.spare.length = j.buf.length + j.spare.length
    rw [hl]

/-- Witness of C12: the `int32` value 256 patched at index 4 of an 8-byte buffer. -/
theorem WriteAt_overwrites_exactly_witness :
    (JBuffer.mk [1, 2, 3, 4, 5, 6, 7, 8] [0, 0] 1 false).WriteAt (Arg.val (Fixed.int32 256)) 4
      = .ok (JBuffer.mk [1, 2, 3, 4, 0, 1, 0, 0] [0, 0] 1 false, none) ∧
    (JBuffer.mk [1, 2, 3, 4, 0, 1, 0, 0] [0, 0] 1 false).buf
      = (JBuffer.mk [1, 2, 3, 4, 5, 6, 7, 8] [0, 0] 1 false).buf.take (4 : Int).toNat ++
        leBytesInt (Fixed.int32 256).size (Fixed.int32 256).value ++
        (JBuffer.mk [1, 2, 3, 4, 5, 6, 7, 8] [0, 0] 1 false).buf.drop
          ((4 : Int).toNat + (Fixed.int32 256).size) :=
  ⟨rfl, (WriteAt_overwrites_exactly (JBuffer.mk [1, 2, 3, 4, 5, 6, 7, 8] [0, 0] 1 false)
      (JBuffer.mk [1, 2, 3, 4, 0, 1, 0, 0] [0, 0] 1 false) (Arg.val (Fixed.int32 256))
      (Fixed.int32 256) 4 (Or.inl rfl) (by decide) rfl).2.2.1⟩

/-- C13: whenever `WriteAt`, `CopyR` or `Copy` returns an error, the buffer afterwards
is the buffer before the call (bytes, read offset, length and capacity).  They return an
error when a bound of their guard is violated, and `WriteAt` also for a value whose
type `TypeSize` or its own type switch does not support. -/
theorem error_leaves_buffer_unchanged (j j1 : JBuffer) (a : Arg) (m d s : Int)
    (e : GoError) :
    (j.WriteAt a m = .ok (j1, some e) → j1 = j) ∧
    (j.CopyR d s = .ok (j1, some e) → j1 = j) ∧
    (j.Copy d s = .ok (j1, some e) → j1 = j) ∧
    (m < (j.off : Int) → j.WriteAt a m = .ok (j, some GoError.writeAtIndex)) ∧
    ((j.off : Int) ≤ m → j.WriteAt Arg.other m = .ok (j, some GoError.writeAtTypeSize)) ∧
    ((j.off : Int) ≤ m → m < (j.len : Int) → ∀ b,
      j.WriteAt (Arg.bool b) m = .ok (j, some GoError.writeAtType)) ∧
    (s ≥ d ∨ s > j.Len ∨ d < (j.off : Int) → j.CopyR d s = .ok (j, some GoError.copyParam)) ∧
    (d ≥ s ∨ d > j.Len ∨ s < (j.off : Int) → j.Copy d s = .ok (j, some GoError.copyParam)) := by
  refine ⟨JBuffer.WriteAt_error_unchanged j j1 a m e, JBuffer.CopyR_error_unchanged j j1 d s e,
    JBuffer.Copy_error_unchanged j j1 d s e, ?_, ?_, ?_, ?_, ?_⟩
  · intro h
    simp only [JBuffer.WriteAt, h, if_true, pure, Except.pure]
  · intro h
    have c : ¬ (m < (j.off : Int)) := by omega
    simp only [JBuffer.WriteAt, c, if_false, TypeSize, pure, Except.pure]
  · intro h h2 b
    have c : ¬ (m < (j.off : Int)) := by omega
    have c2 : ¬ (m ≥ (j.len : Int) ∨ m + ((BSize : Nat) : Int) > (j.len : Int)) := by
      simp only [BSize]; omega
    simp only [JBuffer.WriteAt, c, if_false, TypeSize, c2, pure, Except.pure]
  · intro h
    simp only [JBuffer.CopyR, h, if_true, pure, Except.pure]
  · intro h
    simp only [JBuffer.Copy, h, if_true, pure, Except.pure]

/-- Witness of C13: a patch before the read offset, a shift with `s ≥ d` and a copy
with `d ≥ s` return an error and the buffer they were called on. -/
theorem error_leaves_buffer_unchanged_witness :
    ((JBuffer.mk [1, 2, 3, 4] [0, 0] 2 false).WriteAt (Arg.val (Fixed.uint16 9)) 1
        = .ok (JBuffer.mk [1, 2, 3, 4] [0, 0] 2 false, some GoError.writeAtIndex) ∧
      (JBuffer.mk [1, 2, 3, 4] [0, 0] 2 false).CopyR 2 3
        = .ok (JBuffer.mk [1, 2, 3, 4] [0, 0] 2 false, some GoError.copyParam) ∧
      (JBuffer.mk [1, 2, 3, 4] [0, 0] 2 false).Copy 3 2
        = .ok (JBuffer.mk [1, 2, 3, 4] [0, 0] 2 false, some GoError.copyParam)) ∧
    JBuffer.mk [1, 2, 3, 4] [0, 0] 2 false = JBuffer.mk [1, 2, 3, 4] [0, 0] 2 false :=
  ⟨⟨rfl, rfl, rfl⟩,
    (error_leaves_buffer_unchanged (JBuffer.mk [1, 2, 3, 4] [0, 0] 2 false)
      (JBuffer.mk [1, 2, 3, 4] [0, 0] 2 false) (Arg.val (Fixed.uint16 9)) 1 2 3
      GoError.writeAtIndex).1 rfl⟩

/-- C14: on a buffer with nothing consumed and nothing written, whatever its capacity,
the calls `Write(P)`, `m := FillTypeSize(int32(y))`, `WriteString(S)`, `WriteAt(int32(v), m)`
give `m = len(P)`, nil errors and `Bytes() = P ++ LE32(v) ++ S`, for all `P`, `S` and
every `int32` `v`; the only other outcome is the panic `ErrTooLarge` of `grow`, which
needs `3 * (len(P) + 4 + len(S)) > maxInt`.  The test `writeAt` gives
`c7 cf ff ff 00 01 00 00 "Hello!"`, also on a buffer of capacity 8, where writing
`"Hello!"` makes the buffer grow. -/
theorem reserve_then_patch (j : JBuffer) (p s : List Nat) (y v : Int) (h0 : j.off = 0)
    (hb : j.buf = []) (hv : -2 ^ 31 ≤ v ∧ v < 2 ^ 31) :
    (reserveThenPatch j p y s v
        = .ok ((p.length : Int), none, none, p ++ leBytesInt 4 v ++ s) ∨
      (reserveThenPatch j p y s v = .error Panic.errTooLarge ∧
        maxInt < 3 * ((p.length + 4 + s.length : Nat) : Int))) ∧
    writeAtTest = .ok [0xc7, 0xcf, 0xff, 0xff, 0x00, 0x01, 0x00, 0x00, 72, 101, 108, 108,
      111, 33] ∧
    reserveThenPatch (JBuffer.mk [] (List.replicate 8 0) 0 false) [0xc7, 0xcf, 0xff, 0xff] 12
        [72, 101, 108, 108, 111, 33] 256
      = .ok (4, none, none, [0xc7, 0xcf, 0xff, 0xff, 0x00, 0x01, 0x00, 0x00, 72, 101, 108,
          108, 111, 33]) := by
  refine ⟨?_, rfl, rfl⟩
  have hl : j.len = 0 := by simp only [JBuffer.len, hb, List.length_nil]
  have hbytes : (Fixed.int32 v).bytes = leBytesInt 4 v := leBytes_toUint32 v hv
  rcases reserveThenPatch_spec j p s y v h0 with h | ⟨h1, h2⟩
  · left
    rw [h, hl, hb, hbytes, Nat.zero_add, List.nil_append]
  · right
    rw [hl, Nat.zero_add] at h2
    exact ⟨h1, h2⟩

/-- Witness of C14 on the zero-value buffer. -/
theorem reserve_then_patch_witness :
    (JBuffer.zero.off = 0 ∧ JBuffer.zero.buf = [] ∧
      (-2 ^ 31 ≤ (-2 : Int) ∧ (-2 : Int) < 2 ^ 31)) ∧
    (reserveThenPatch JBuffer.zero [1, 2, 3] 12 [7, 8] (-2)
        = .ok ((([1, 2, 3] : List Nat).length : Int), none, none,
            [1, 2, 3] ++ leBytesInt 4 (-2) ++ [7, 8]) ∨
      (reserveThenPatch JBuffer.zero [1, 2, 3] 12 [7, 8] (-2) = .error Panic.errTooLarge ∧
        maxInt < 3 * ((([1, 2, 3] : List Nat).length + 4 + ([7, 8] : List Nat).length : Nat)
          : Int))) :=
  ⟨⟨rfl, rfl, by decide⟩,
    (reserve_then_patch JBuffer.zero [1, 2, 3] [7, 8] 12 (-2) rfl rfl (by decide)).1⟩

/-- C15: `CopyR` takes `Len()`, the number of unread bytes, for the length of the
buffer.  On the buffer `01 02 03 04` with one byte consumed and capacity 6,
`CopyR(2, 1)` returns nil and leaves `01 02 02 03 00`: the last byte `04` is not moved
to index 4.  With capacity 4, `CopyR(3, 2)` on the same bytes returns nil and leaves
`02 03 04 04` with nothing consumed: `Alloc` has moved the unread bytes to index 0 and
the loop copies one byte.  On `01 02 03 04` with two bytes consumed, `CopyR(4, 3)`
(with `off ≤ d` and `s ≤ len(buf)`) returns an error. -/
theorem CopyR_after_read_loses_bytes :
    (JBuffer.mk [1, 2, 3, 4] [0, 0] 1 false).CopyR 2 1
      = .ok (JBuffer.mk [1, 2, 2, 3, 0] [0] 1 false, none) ∧
    (JBuffer.mk [1, 2, 3, 4] [] 1 false).CopyR 3 2
      = .ok (JBuffer.mk [2, 3, 4, 4] [0, 0, 0, 0, 0] 0 false, none) ∧
    (JBuffer.mk [1, 2, 3, 4] [] 2 false).CopyR 4 3
      = .ok (JBuffer.mk [1, 2, 3, 4] [] 2 false, some GoError.copyParam) :=
  ⟨rfl, rfl, rfl⟩

/-- C16: on a buffer with nothing consumed holding the bytes `B`, for every offset
`s ≤ len(B)` and every 16-bit value `v`, `CopyR(s+2, s)` and `WriteAt(v, s)` return nil
and leave `Bytes() = B[0..s) ++ LE16(v) ++ B[s..)`; the only other outcome is the panic
`ErrTooLarge` of `grow`, which needs `3 * (len(B) + 2) > maxInt`.  The test `CopyR`
(ten 16-bit values, then 9 inserted at offset 8, then 3 at offset 0) gives its two
expected byte sequences. -/
theorem insert_by_shift_and_patch (j : JBuffer) (s : Nat) (v : Fixed) (h0 : j.off = 0)
    (hs : s ≤ j.len) (hsz : v.size = 2) (hv : v.valid) :
    (insertAt j (s : Int) v
        = .ok (none, none, j.buf.take s ++ leBytesInt 2 v.value ++ j.buf.drop s) ∨
      (insertAt j (s : Int) v = .error Panic.errTooLarge ∧
        maxInt < 3 * ((j.len + 2 : Nat) : Int))) ∧
    (leBytesInt 2 v.value).length = 2 ∧
    copyRTest = .ok
      ([0, 0, 1, 0, 2, 0, 3, 0, 9, 0, 4, 0, 5, 0, 6, 0, 7, 0, 8, 0, 9, 0],
       [3, 0, 0, 0, 1, 0, 2, 0, 3, 0, 9, 0, 4, 0, 5, 0, 6, 0, 7, 0, 8, 0, 9, 0]) := by
  have hbytes : v.bytes = leBytesInt 2 v.value := by
    rw [Fixed.bytes_little_endian v hv, hsz]
  refine ⟨?_, by simp only [leBytesInt, List.length_map, List.length_range], rfl⟩
  rw [← hbytes]
  exact insertAt_spec j s v h0 hs hsz

/-- Witness of C16: the `int16` value -2 inserted at offset 1 of three bytes. -/
theorem insert_by_shift_and_patch_witness :
    ((JBuffer.mk [1, 2, 3] [] 0 false).off = 0 ∧ 1 ≤ (JBuffer.mk [1, 2, 3] [] 0 false).len ∧
      (Fixed.int16 (-2)).size = 2 ∧ (Fixed.int16 (-2)).valid) ∧
    (insertAt (JBuffer.mk [1, 2, 3] [] 0 false) ((1 : Nat) : Int) (Fixed.int16 (-2))
        = .ok (none, none, (JBuffer.mk [1, 2, 3] [] 0 false).buf.take 1 ++
            leBytesInt 2 (Fixed.int16 (-2)).value ++
            (JBuffer.mk [1, 2, 3] [] 0 false).buf.drop 1) ∨
      (insertAt (JBuffer.mk [1, 2, 3] [] 0 false) ((1 : Nat) : Int) (Fixed.int16 (-2))
          = .error Panic.errTooLarge ∧
        maxInt < 3 * (((JBuffer.mk [1, 2, 3] [] 0 false).len + 2 : Nat) : Int))) :=
  ⟨⟨rfl, by decide, rfl, by decide⟩,
    (insert_by_shift_and_patch (JBuffer.mk [1, 2, 3] [] 0 false) 1 (Fixed.int16 (-2)) rfl
      (by decide) rfl (by decide)).1⟩

/-- C17, as claimed, does not hold: the values 0, 1, 2, 3 written as 16-bit values,
`CopyR(10, 8)` and `WriteAt(uint16(9), 8)` leave `00 00 01 00 02 00 03 00 09 00`, which
is not `00 00 01 00 02 00 09 00 03 00`. -/
theorem shiftPatchFour_not_as_claimed :
    shiftPatchFour 8 = .ok (none, none, [0, 0, 1, 0, 2, 0, 3, 0, 9, 0]) ∧
    ([0, 0, 1, 0, 2, 0, 3, 0, 9, 0] : List Nat) ≠ [0, 0, 1, 0, 2, 0, 9, 0, 3, 0] :=
  ⟨rfl, by decide⟩

/-- C17, amended: the values 0, 1, 2, 3 written as 16-bit values into the zero-value
buffer, `CopyR(10, 8)` and `WriteAt(uint16(9), 8)` return nil and leave `Bytes()` equal
to `00 00 01 00 02 00 03 00 09 00` (offset 8 is the end of the eight written bytes, so
the value 9 follows the value 3); the gap opened at offset 6 (`CopyR(8, 6)`,
`WriteAt(uint16(9), 6)`) gives `00 00 01 00 02 00 09 00 03 00`. -/
theorem shiftPatchFour_bytes :
    (∃ j0 : JBuffer, writeUint16s 4 0 JBuffer.zero = .ok j0 ∧
      j0.Bytes = .ok [0, 0, 1, 0, 2, 0, 3, 0] ∧ j0.len = 8 ∧ j0.off = 0) ∧
    shiftPatchFour 8 = .ok (none, none, [0, 0, 1, 0, 2, 0, 3, 0, 9, 0]) ∧
    shiftPatchFour 6 = .ok (none, none, [0, 0, 1, 0, 2, 0, 9, 0, 3, 0]) :=
  ⟨⟨JBuffer.mk [0, 0, 1, 0, 2, 0, 3, 0] (List.replicate 56 0) 0 false, rfl, rfl, rfl, rfl⟩,
    rfl, rfl⟩

/-- C18: `Copy` compares the index `d` with `Len()`, the number of unread bytes.  On
the buffer `01 02 03 04 05` with three bytes consumed, `Copy(3, 4)` (with
`off ≤ d < s ≤ len(buf)`) returns an error and copies nothing. -/
theorem Copy_after_read_rejects_valid_offsets :
    (JBuffer.mk [1, 2, 3, 4, 5] [] 3 false).Copy 3 4
      = .ok (JBuffer.mk [1, 2, 3, 4, 5] [] 3 false, some GoError.copyParam) ∧
    ((JBuffer.mk [1, 2, 3, 4, 5] [] 3 false).off ≤ 3 ∧ 3 < 4 ∧
      4 ≤ (JBuffer.mk [1, 2, 3, 4, 5] [] 3 false).len) :=
  ⟨rfl, by decide, by decide, by decide⟩

/-- C19: on the unread bytes `80 80 80 80 80 80 80 80 80 80 00`, where no byte ends a
varint within ten bytes, `Bytes2Var` returns `(0, 11)`, and `ReadVarint` returns
`(0, nil)` and moves the read offset by eleven bytes. -/
theorem ReadVarint_consumes_eleven_bytes :
    Bytes2Var [0x80, 0x80, 0x80, 0x80, 0x80, 0x80, 0x80, 0x80, 0x80, 0x80, 0x00] = (0, 11) ∧
    (JBuffer.mk [0x80, 0x80, 0x80, 0x80, 0x80, 0x80, 0x80, 0x80, 0x80, 0x80, 0x00] [] 0
        false).ReadVarint
      = .ok (JBuffer.mk [0x80, 0x80, 0x80, 0x80, 0x80, 0x80, 0x80, 0x80, 0x80, 0x80, 0x00] []
          11 false, 0, none) :=
  ⟨rfl, rfl⟩

/-- C20: for every buffer with `off ≤ len(buf)`, every `int64` `i`, `uint64` `u` and
`bool` `b`, and whatever capacity the run time gives a new array, after `AppendInt(i)`,
`AppendUint(u)`, `AppendBool(b)` the unread bytes are the unread bytes before followed
by the base-10 text of `i` (a minus sign for `i < 0`, then the digits of `|i|`), the
base-10 text of `u` (ASCII digits of value `u`, no leading zero unless `u = 0`), and
`true` or `false`; the read offset is unchanged, so that a binary write after a text
append appends to its bytes.  The tests `show number in human style` and
`show mix number` give their expected bytes. -/
theorem text_appends (j : JBuffer) (i : Int) (u : Nat) (b : Bool) (extra : Nat)
    (hinv : j.off ≤ j.len) (hi : -2 ^ 63 ≤ i ∧ i < 2 ^ 63) (hu : u < 2 ^ 64) :
    (j.AppendInt i extra).Bytes = .ok (j.buf.drop j.off ++ formatInt i) ∧
    (j.AppendUint u extra).Bytes = .ok (j.buf.drop j.off ++ formatUint u) ∧
    (j.AppendBool b extra).Bytes = .ok (j.buf.drop j.off ++ formatBool b) ∧
    (decimalValue (formatUint u) = u ∧ formatUint u ≠ [] ∧
      (∀ d ∈ formatUint u, 48 ≤ d ∧ d ≤ 57) ∧ ((formatUint u).head? = some 48 → u = 0)) ∧
    (formatInt i = (if i < 0 then [45] else []) ++ formatUint i.natAbs ∧
      decimalValue (formatUint i.natAbs) = i.natAbs) ∧
    formatBool b = (if b then [116, 114, 117, 101] else [102, 97, 108, 115, 101]) ∧
    ((j.AppendInt i extra).off = j.off ∧ (j.AppendUint u extra).off = j.off ∧
      (j.AppendBool b extra).off = j.off) ∧
    (∀ v : Fixed, AppendsBytes (j.AppendInt i extra) (writeFixed (j.AppendInt i extra) v)
      v.bytes) ∧
    humanStyleTest = .ok ([49, 50, 51, 52, 53], [49, 50, 51, 52, 53, 116, 114, 117, 101]) ∧
    mixTest = .ok ([0xc7, 0xcf, 0xff, 0xff],
      [0xc7, 0xcf, 0xff, 0xff, 49, 50, 51, 52, 53],
      [0xc7, 0xcf, 0xff, 0xff, 49, 50, 51, 52, 53, 116, 114, 117, 101],
      [0xc7, 0xcf, 0xff, 0xff, 49, 50, 51, 52, 53, 116, 114, 117, 101, 0xea, 0x16, 0xb0,
        0x4c, 0x02, 0x00, 0x00, 0x00]) := by
  have habs : i.natAbs < 2 ^ 64 := by omega
  refine ⟨(JBuffer.appendBytes_Bytes j _ extra hinv).2,
    (JBuffer.appendBytes_Bytes j _ extra hinv).2,
    (JBuffer.appendBytes_Bytes j _ extra hinv).2, formatUint_spec u hu, ⟨?_, ?_⟩, rfl,
    ⟨(JBuffer.appendBytes_spec j _ extra).2.1, (JBuffer.appendBytes_spec j _ extra).2.1,
      (JBuffer.appendBytes_spec j _ extra).2.1⟩, ?_, rfl, rfl⟩
  · by_cases h : i < 0
    · have e : (-i).toNat = i.natAbs := by omega
      simp only [formatInt, h, if_true, e, List.singleton_append]
    · have e : i.toNat = i.natAbs := by omega
      simp only [formatInt, h, if_false, e, List.nil_append]
  · exact (formatUint_spec i.natAbs habs).1
  · intro v
    have hinv2 := (JBuffer.appendBytes_Bytes j (formatInt i) extra hinv).1
    exact AppendsBytes_of_Appended _ _ _ v.size (Fixed.bytes_length v) hinv2
      (writeFixed_spec _ v hinv2)

/-- Witness of C20 on a buffer with one consumed byte and no spare capacity. -/
theorem text_appends_witness :
    ((JBuffer.mk [1, 2, 3] [] 1 false).off ≤ (JBuffer.mk [1, 2, 3] [] 1 false).len ∧
      (-2 ^ 63 ≤ (-45 : Int) ∧ (-45 : Int) < 2 ^ 63) ∧ 2024 < 2 ^ 64) ∧
    ((JBuffer.mk [1, 2, 3] [] 1 false).AppendInt (-45) 5).Bytes
      = .ok ((JBuffer.mk [1, 2, 3] [] 1 false).buf.drop
          (JBuffer.mk [1, 2, 3] [] 1 false).off ++ formatInt (-45)) ∧
    ((JBuffer.mk [1, 2, 3] [] 1 false).AppendUint 2024 5).Bytes
      = .ok ((JBuffer.mk [1, 2, 3] [] 1 false).buf.drop
          (JBuffer.mk [1, 2, 3] [] 1 false).off ++ formatUint 2024) :=
  ⟨⟨by decide, by decide, by decide⟩,
    (text_appends (JBuffer.mk [1, 2, 3] [] 1 false) (-45) 2024 false 5 (by decide)
      (by decide) (by decide)).1,
    (text_appends (JBuffer.mk [1, 2, 3] [] 1 false) (-45) 2024 false 5 (by decide)
      (by decide) (by decide)).2.1⟩

/-! ## The pool of buffers -/

/-- The call `Grow(n)` on the zero-value buffer for `n` above the small first
allocation: an array of `n` bytes, none of them in use. -/
theorem Grow_zero (n : Nat) (h1 : 64 < n) (h2 : (n : Int) ≤ maxInt) :
    JBuffer.zero.Grow (n : Int) = .ok (JBuffer.mk [] (List.replicate n 0) 0 false) := by
  have c0 : ¬ ((n : Int) < 0) := by omega
  have c1 : ¬ ((n : Int) ≤ 0) := by omega
  have c2 : ¬ ((n : Int) ≤ 64) := by omega
  have c3 : ¬ ((0 : Int) > maxInt - 0 - n) := by omega
  have c4 : ¬ (maxInt < (n : Int)) := by omega
  simp [JBuffer.Grow, JBuffer.grow, JBuffer.zero, JBuffer.Len, JBuffer.len,
    JBuffer.tryGrowByReslice, JBuffer.Cap, JBuffer.isNil, smallBufferSize, c0, c1, c2, c3, c4,
    JBuffer.sliceFrom, JBuffer.sliceTo, JBuffer.reslice, copyInto, bind, Except.bind, pure,
    Except.pure]

/-- The buffer that `NewBuffer` creates: no bytes, capacity 1024. -/
theorem NewBuffer_eq : NewBuffer = .ok (JBuffer.mk [] (List.replicate _size 0) 0 false) :=
  Grow_zero _size (by decide) (by decide)

/-- C21: `Pool.Get` returns, whichever buffer the `sync.Pool` hands out and whatever
state that buffer was released in, a buffer with read offset 0 and length 0
(`Len() = 0`, `Bytes()` empty) and with the capacity it had; when the pool calls `New`,
the buffer is the one of `NewBuffer`, which is empty and has capacity 1024.  A buffer
put into the pool in any state comes back reset with its capacity. -/
theorem Pool_Get_resets (p : Pool) (pick : Option Nat) (b0 : JBuffer) :
    (∃ b p1, p.Get pick = .ok (b, p1) ∧ b.off = 0 ∧ b.len = 0 ∧ b.Len = 0 ∧
      b.Bytes = .ok [] ∧
      ((∃ k old, pick = some k ∧ p.items[k]? = some old ∧ b.Cap = old.Cap ∧
          p1.items = p.items.eraseIdx k) ∨
        (NewBuffer = .ok (JBuffer.mk [] (List.replicate _size 0) 0 false) ∧ b.Cap = 1024 ∧
          1024 ≤ b.Cap ∧ p1 = p))) ∧
    ((p.put b0).Get (some 0) = .ok (b0.Reset, p) ∧ b0.Reset.Cap = b0.Cap ∧
      b0.Reset.Len = 0 ∧ b0.Reset.off = 0 ∧ b0.Reset.len = 0) := by
  refine ⟨?_, by simp [Pool.Get, Pool.put, pure, Except.pure], JBuffer.Reset_Cap b0,
    JBuffer.Reset_Len b0, rfl, JBuffer.Reset_len b0⟩
  have hB : ∀ b : JBuffer, b.Reset.Bytes = .ok [] := by
    intro b
    rw [Bytes_ok _ (by simp)]
    simp
  cases hp : pick.bind (fun k => (p.items[k]?).map (fun b => (b, k))) with
  | none =>
    have hc : (JBuffer.mk [] (List.replicate _size 0) 0 false).Cap = 1024 := by
      simp only [JBuffer.Cap, List.length_replicate, List.length_nil, Nat.zero_add]
      rfl
    refine ⟨(JBuffer.mk [] (List.replicate _size 0) 0 false).Reset, p, ?_, rfl,
      JBuffer.Reset_len _, JBuffer.Reset_Len _, hB _, Or.inr ⟨NewBuffer_eq, ?_, ?_, rfl⟩⟩
    · simp only [Pool.Get, hp, NewBuffer_eq, bind, Except.bind, pure, Except.pure]
    · rw [JBuffer.Reset_Cap, hc]
    · rw [JBuffer.Reset_Cap, hc]
  | some r =>
    obtain ⟨b, k⟩ := r
    cases pick with
    | none => simp at hp
    | some k0 =>
      simp only [Option.some_bind, Option.map_eq_some', Prod.mk.injEq] at hp
      obtain ⟨old, h1, h2, h3⟩ := hp
      subst h2 h3
      refine ⟨old.Reset, { items := p.items.eraseIdx k0 }, ?_, rfl, JBuffer.Reset_len _,
        JBuffer.Reset_Len _, hB _, Or.inl ⟨k0, old, rfl, h1, JBuffer.Reset_Cap _, rfl⟩⟩
      simp only [Pool.Get, Option.some_bind, h1, Option.map_some', pure, Except.pure]

/-! ## Levels and the enabled-level check -/

/-- C22, as claimed, does not hold: with the default level `INFO` the check refuses
`WARN` and `ERROR`, although both are at least `INFO`. -/
theorem Check_refuses_WARN_at_default_level :
    logFile.zero.SetDefaultLevel.level = INFO ∧
    logFile.zero.SetDefaultLevel._Check WARN = false ∧
    logFile.zero.SetDefaultLevel._Check ERROR = false ∧
    WARN ≥ logFile.zero.SetDefaultLevel.level ∧ WARN ≠ DEBUG := by
  decide

/-- C22, amended: the configured level is the highest severity that is enabled.  For
every configured level `T` and every severity `L` other than `DEBUG`, `_Check` accepts
`L` exactly when `L ≤ T`; `DEBUG` is accepted exactly when the debug flag is set.  With
the default level `INFO` only `INFO` records are enabled among `INFO`, `WARN`, `ERROR`;
with the level `ERROR` all three are. -/
theorem Check_iff_le_level (l : logFile) (L : Level) (hL : L ≠ DEBUG) :
    (l._Check L = true ↔ L ≤ l.level) ∧
    (l._Check DEBUG = true ↔ l.debug = true) ∧
    (logFile.zero.SetDefaultLevel.level = INFO ∧
      logFile.zero.SetDefaultLevel._Check INFO = true ∧
      logFile.zero.SetDefaultLevel._Check WARN = false ∧
      logFile.zero.SetDefaultLevel._Check ERROR = false) ∧
    (l.level = ERROR → l._Check INFO = true ∧ l._Check WARN = true ∧
      l._Check ERROR = true) := by
  refine ⟨?_, ?_, by decide, ?_⟩
  · simp [logFile._Check, hL]
  · simp [logFile._Check, DEBUG]
  · intro h
    simp [logFile._Check, h, INFO, WARN, ERROR, DEBUG]

/-- Witness of C22 (amended): `WARN` at the configured level `ERROR`. -/
theorem Check_iff_le_level_witness :
    WARN ≠ DEBUG ∧
    (({ logFile.zero with level := ERROR } : logFile)._Check WARN = true ↔
      WARN ≤ ({ logFile.zero with level := ERROR } : logFile).level) :=
  ⟨by decide, (Check_iff_le_level { logFile.zero with level := ERROR } WARN (by decide)).1⟩

/-! ## Rotation of a stream -/

/-- Truncated division by the length of an hour is monotone. -/
theorem tdiv_Hour_mono (a b : Int) (h : a ≤ b) : a.tdiv Hour ≤ b.tdiv Hour := by
  have hH : (0 : Int) < Hour := by decide
  have hcases : (a < 0 ∧ b < 0) ∨ (a < 0 ∧ 0 ≤ b) ∨ (0 ≤ a ∧ b < 0) ∨ (0 ≤ a ∧ 0 ≤ b) := by
    omega
  rcases hcases with ⟨ha, hb⟩ | ⟨ha, hb⟩ | ⟨ha, hb⟩ | ⟨ha, hb⟩
  · have ea : a.tdiv Hour = -((-a) / Hour) := by
      rw [← Int.tdiv_eq_ediv (by omega) (by omega), Int.neg_tdiv, Int.neg_neg]
    have eb : b.tdiv Hour = -((-b) / Hour) := by
      rw [← Int.tdiv_eq_ediv (by omega) (by omega), Int.neg_tdiv, Int.neg_neg]
    rw [ea, eb]
    have := Int.ediv_le_ediv hH (show -b ≤ -a by omega)
    omega
  · have ea : a.tdiv Hour = -((-a) / Hour) := by
      rw [← Int.tdiv_eq_ediv (by omega) (by omega), Int.neg_tdiv, Int.neg_neg]
    rw [ea, Int.tdiv_eq_ediv hb (by omega)]
    have h1 : 0 ≤ (-a) / Hour := Int.ediv_nonneg (by omega) (by omega)
    have h2 : 0 ≤ b / Hour := Int.ediv_nonneg hb (by omega)
    omega
  · omega
  · rw [Int.tdiv_eq_ediv ha (by omega), Int.tdiv_eq_ediv hb (by omega)]
    exact Int.ediv_le_ediv hH h

/-! ## The array of streams -/

namespace Streams

theorem get_set_same (s : Streams) (k : Nat) (f : FileStream) : (s.set k f).get k = f := by
  rcases k with _ | _ | _ | k <;> rfl

theorem get_set_ne (s : Streams) (k k1 : Nat) (f : FileStream) (hk : k < 4) (hk1 : k1 < 4)
    (h : k ≠ k1) : (s.set k f).get k1 = s.get k1 := by
  rcases k with _ | _ | _ | _ | k <;> rcases k1 with _ | _ | _ | _ | k1 <;>
    first | rfl | omega

theorem set_get_self (s : Streams) (k : Nat) : s.set k (s.get k) = s := by
  rcases k with _ | _ | _ | k <;> rfl

theorem set_set (s : Streams) (k : Nat) (f g : FileStream) : (s.set k f).set k g = s.set k g := by
  rcases k with _ | _ | _ | k <;> rfl

end Streams

namespace logFile

theorem stream_ok (l : logFile) (lv : Int) (h : 0 ≤ lv ∧ lv ≤ 3) :
    l.stream lv = .ok (l.streams.get lv.toNat) := by
  have c : 0 ≤ lv ∧ lv < MaxLevel := ⟨h.1, by show lv < (3 : Int) + 1; omega⟩
  simp only [stream, c, and_self, if_true, pure, Except.pure]

theorem setStream_ok (l : logFile) (lv : Int) (f : FileStream) (h : 0 ≤ lv ∧ lv ≤ 3) :
    l.setStream lv f
      = .ok (logFile.mk (l.streams.set lv.toNat f) l.level l.path l.logName l.debug) := by
  have c : 0 ≤ lv ∧ lv < MaxLevel := ⟨h.1, by show lv < (3 : Int) + 1; omega⟩
  simp only [setStream, c, and_self, if_true, pure, Except.pure]

theorem extName_ok (lv : Int) (h : 0 ≤ lv ∧ lv ≤ 3) :
    extName lv = .ok (LevelExtNames.getD lv.toNat []) := by
  have c : 0 ≤ lv ∧ lv < MaxLevel := ⟨h.1, by show lv < (3 : Int) + 1; omega⟩
  simp only [extName, c, and_self, if_true, pure, Except.pure]

/-- The name that `_DirFileName` builds for the stream of a level in `DEBUG..ERROR`. -/
theorem DirFileName_ok (l : logFile) (timeStr : List Nat) (lv : Int) (h : 0 ≤ lv ∧ lv ≤ 3) :
    l._DirFileName timeStr lv
      = .ok (l.logName ++ [46] ++ timeStr ++ [46] ++ formatInt (l.streams.get lv.toNat).idx ++
          [46] ++ LevelExtNames.getD lv.toNat [] ++ [46, 108, 111, 103]) := by
  simp only [_DirFileName, extName_ok lv h, stream_ok l lv h, bind, Except.bind, pure,
    Except.pure]

theorem writesOf_rotateEvents (l : logFile) (env : Env) (lv : Int) :
    writesOf (l.rotateEvents env lv) = [] := by
  unfold rotateEvents
  cases (l.streams.get lv.toNat).raw <;> cases env.openOk lv <;> rfl

theorem createsOf_rotateEvents (l : logFile) (env : Env) (lv : Int) :
    createsOf (l.rotateEvents env lv) = [(lv, l.rotatedName env lv)] := by
  unfold rotateEvents
  cases (l.streams.get lv.toNat).raw <;> cases env.openOk lv <;> rfl

/-- The call `_NewCreateFile(lv)` for a level in `DEBUG..ERROR`: the stream is closed
(its index goes up by one if it was open), the file named after the new index is
opened, and no stream receives bytes. -/
theorem NewCreateFile_spec (l : logFile) (env : Env) (lv : Int) (h : 0 ≤ lv ∧ lv ≤ 3) :
    l._NewCreateFile env lv
      = .ok (logFile.mk (l.streams.set lv.toNat (l.rotated env lv)) l.level l.path l.logName
          l.debug, l.rotateEvents env lv) := by
  have hd := DirFileName_ok
    (logFile.mk (l.streams.set lv.toNat (l.streams.get lv.toNat).Close) l.level l.path l.logName
      l.debug) (env.timeStr lv) lv h
  simp only [Streams.get_set_same] at hd
  by_cases ho : env.openOk lv = true
  · simp only [_NewCreateFile, stream_ok l lv h, setStream_ok _ lv _ h, hd, ho, bind,
      Except.bind, pure, Except.pure, Bool.not_true, Bool.false_eq_true, if_false,
      _RedirectFile, extName_ok lv h, Streams.set_set, rotated, rotateEvents, rotatedName,
      if_true]
  · simp only [Bool.not_eq_true] at ho
    simp only [_NewCreateFile, stream_ok l lv h, setStream_ok _ lv _ h, hd, ho, bind,
      Except.bind, pure, Except.pure, Bool.not_false, if_true, rotated, rotateEvents,
      rotatedName, Bool.false_eq_true, if_false]

end logFile

/-! ## The loop of `logFile.Write` -/

namespace logFile

theorem writesOf_append (a b : List Event) : writesOf (a ++ b) = writesOf a ++ writesOf b := by
  simp only [writesOf, List.filterMap_append]

theorem createsOf_append (a b : List Event) :
    createsOf (a ++ b) = createsOf a ++ createsOf b := by
  simp only [createsOf, List.filterMap_append]

theorem Check_congr (l l1 : logFile) (h1 : l1.level = l.level) (h2 : l1.debug = l.debug)
    (lv : Int) : l1._Check lv = l._Check lv := by
  simp only [_Check, h1, h2]

/-- Single-target mode: the stream of `lv` gets the bytes, nothing is rotated. -/
theorem writeStream_single (l : logFile) (env : Env) (lv : Int) (data : List Nat)
    (h : 0 ≤ lv ∧ lv ≤ 3) :
    l.writeStream env lv data true
      = .ok (logFile.mk
          (l.streams.set lv.toNat ((l.streams.get lv.toNat).Write (env.writeRes lv)).1)
          l.level l.path l.logName l.debug,
          [Event.write lv (l.streams.get lv.toNat).raw data],
          ((l.streams.get lv.toNat).Write (env.writeRes lv)).2) := by
  simp only [writeStream, stream_ok l lv h, setStream_ok _ lv _ h, bind, Except.bind, pure,
    Except.pure, if_true, List.nil_append]

/-- Cascade mode, no rotation: the size is below `MaxSize` and `RotateByTime` reports
none. -/
theorem writeStream_keep (l : logFile) (env : Env) (lv : Int) (data : List Nat)
    (h : 0 ≤ lv ∧ lv ≤ 3) (h1 : (l.streams.get lv.toNat).OverflowMaxSize = false)
    (h2 : ((l.streams.get lv.toNat).RotateByTime (env.now lv)).2 = false) :
    l.writeStream env lv data false
      = .ok (logFile.mk
          (l.streams.set lv.toNat ((l.streams.get lv.toNat).Write (env.writeRes lv)).1)
          l.level l.path l.logName l.debug,
          [Event.write lv (l.streams.get lv.toNat).raw data],
          ((l.streams.get lv.toNat).Write (env.writeRes lv)).2) := by
  have h3 : ((l.streams.get lv.toNat).RotateByTime (env.now lv)).1 = l.streams.get lv.toNat := by
    revert h2
    unfold FileStream.RotateByTime
    split_ifs <;> simp
  have e : (l.streams.get lv.toNat).RotateByTime (env.now lv)
      = (l.streams.get lv.toNat, false) := Prod.ext h3 h2
  simp only [writeStream, stream_ok l lv h, bind, Except.bind, pure, Except.pure, h1, e,
    Bool.false_eq_true, if_false, setStream_ok _ lv _ h, Streams.set_get_self,
    stream_ok _ lv h, Streams.set_set, List.nil_append]

/-- Cascade mode, size-triggered rotation. -/
theorem writeStream_overflow (l : logFile) (env : Env) (lv : Int) (data : List Nat)
    (h : 0 ≤ lv ∧ lv ≤ 3) (h1 : (l.streams.get lv.toNat).OverflowMaxSize = true) :
    l.writeStream env lv data false
      = .ok (logFile.mk
          (l.streams.set lv.toNat ((l.rotated env lv).Write (env.writeRes lv)).1)
          l.level l.path l.logName l.debug,
          l.rotateEvents env lv ++ [Event.write lv (l.rotated env lv).raw data],
          ((l.rotated env lv).Write (env.writeRes lv)).2) := by
  simp only [writeStream, stream_ok l lv h, bind, Except.bind, pure, Except.pure, h1,
    Bool.false_eq_true, if_false, if_true, NewCreateFile_spec l env lv h,
    setStream_ok _ lv _ h, stream_ok _ lv h, Streams.get_set_same, Streams.set_set]

/-- Cascade mode, time-triggered rotation: `RotateByTime` has changed the stream before
`_NewCreateFile` is called. -/
theorem writeStream_hour (l : logFile) (env : Env) (lv : Int) (data : List Nat)
    (h : 0 ≤ lv ∧ lv ≤ 3) (h1 : (l.streams.get lv.toNat).OverflowMaxSize = false)
    (h2 : ((l.streams.get lv.toNat).RotateByTime (env.now lv)).2 = true) :
    l.writeStream env lv data false
      = .ok (logFile.mk
          (l.streams.set lv.toNat
            (((logFile.mk (l.streams.set lv.toNat
                ((l.streams.get lv.toNat).RotateByTime (env.now lv)).1)
              l.level l.path l.logName l.debug).rotated env lv).Write (env.writeRes lv)).1)
          l.level l.path l.logName l.debug,
          (logFile.mk (l.streams.set lv.toNat
              ((l.streams.get lv.toNat).RotateByTime (env.now lv)).1)
            l.level l.path l.logName l.debug).rotateEvents env lv ++
          [Event.write lv ((logFile.mk (l.streams.set lv.toNat
              ((l.streams.get lv.toNat).RotateByTime (env.now lv)).1)
            l.level l.path l.logName l.debug).rotated env lv).raw data],
          (((logFile.mk (l.streams.set lv.toNat
                ((l.streams.get lv.toNat).RotateByTime (env.now lv)).1)
              l.level l.path l.logName l.debug).rotated env lv).Write (env.writeRes lv)).2) := by
  have e : (l.streams.get lv.toNat).RotateByTime (env.now lv)
      = (((l.streams.get lv.toNat).RotateByTime (env.now lv)).1, true) := Prod.ext rfl h2
  simp only [writeStream, stream_ok l lv h, bind, Except.bind, pure, Except.pure, h1,
    Bool.false_eq_true, if_false]
  rw [e]
  simp only [setStream_ok _ lv _ h, if_true, NewCreateFile_spec _ env lv h,
    stream_ok _ lv h, Streams.get_set_same, Streams.set_set]

theorem Write_none (f : FileStream) (res : Nat × Option GoError) (h : res.2 = none) :
    (f.Write res).2 = none := by
  unfold FileStream.Write
  split_ifs <;> simp [h]

/-- In each mode the body of the loop hands the bytes to the stream of `lv` once, after
what the rotation does, and leaves the level and the debug flag alone. -/
theorem writeStream_spec (l : logFile) (env : Env) (lv : Int) (data : List Nat) (ncf : Bool)
    (h : 0 ≤ lv ∧ lv ≤ 3) :
    ∃ l1 evs g e, l.writeStream env lv data ncf = .ok (l1, evs ++ [Event.write lv g data], e) ∧
      writesOf evs = [] ∧ l1.level = l.level ∧ l1.debug = l.debug ∧
      ((env.writeRes lv).2 = none → e = none) ∧ (ncf = true → evs = []) := by
  cases ncf with
  | true =>
    exact ⟨_, [], _, _, writeStream_single l env lv data h, rfl, rfl, rfl,
      Write_none _ _, fun _ => rfl⟩
  | false =>
    by_cases h1 : (l.streams.get lv.toNat).OverflowMaxSize = true
    · exact ⟨_, _, _, _, writeStream_overflow l env lv data h h1,
        writesOf_rotateEvents _ _ _, rfl, rfl, Write_none _ _, fun h => by simp at h⟩
    · simp only [Bool.not_eq_true] at h1
      by_cases h2 : ((l.streams.get lv.toNat).RotateByTime (env.now lv)).2 = true
      · exact ⟨_, _, _, _, writeStream_hour l env lv data h h1 h2,
          writesOf_rotateEvents _ _ _, rfl, rfl, Write_none _ _, fun h => by simp at h⟩
      · simp only [Bool.not_eq_true] at h2
        exact ⟨_, [], _, _, writeStream_keep l env lv data h h1 h2, rfl, rfl, rfl,
          Write_none _ _, fun h => by simp at h⟩

/-- The levels from `lv` up to `L` that pass the enabled-level check, in ascending
order. -/
theorem WriteLoop_cascade (env : Env) (L : Int) (data : List Nat) (hL : L ≤ 3)
    (hw : ∀ k, (env.writeRes k).2 = none) :
    ∀ (n : Nat) (lv : Int) (l : logFile) (fuel : Nat), 0 ≤ lv → lv + n = L + 1 → n < fuel →
      ∃ l1 evs, WriteLoop env L data false fuel lv l = some (.ok (l1, evs, none)) ∧
        writesOf evs = ((List.range' lv.toNat n).filter
          (fun (k : Nat) => l._Check (k : Int))).map (fun (k : Nat) => ((k : Int), data)) ∧
        l1.level = l.level ∧ l1.debug = l.debug := by
  intro n
  induction n with
  | zero =>
    intro lv l fuel h0 h1 h2
    obtain ⟨fuel, rfl⟩ : ∃ f, fuel = f + 1 := ⟨fuel - 1, by omega⟩
    have c : ¬ lv ≤ L := by omega
    exact ⟨l, [], by simp only [WriteLoop, c, not_false_eq_true, if_true, pure, Except.pure],
      rfl, rfl, rfl⟩
  | succ n ih =>
    intro lv l fuel h0 h1 h2
    obtain ⟨fuel, rfl⟩ : ∃ f, fuel = f + 1 := ⟨fuel - 1, by omega⟩
    have c : lv ≤ L := by omega
    have c127 : ¬ lv = 127 := by omega
    have hlv : ((lv.toNat : Nat) : Int) = lv := by omega
    have hnext : (lv + 1).toNat = lv.toNat + 1 := by omega
    by_cases hc : l._Check lv = true
    · obtain ⟨l1, evs, g, e, w1, w2, w3, w4, w5, _⟩ :=
        writeStream_spec l env lv data false ⟨h0, by omega⟩
      have he : e = none := w5 (hw lv)
      subst he
      obtain ⟨l2, evs2, r1, r2, r3, r4⟩ := ih (lv + 1) l1 fuel (by omega) (by omega) (by omega)
      refine ⟨l2, (evs ++ [Event.write lv g data]) ++ evs2, ?_, ?_, by rw [r3, w3],
        by rw [r4, w4]⟩
      · have c2 : ¬ ((false = true ∧ lv ≠ L) ∨ l._Check lv = false) := by simp [hc]
        simp only [WriteLoop, c, not_true_eq_false, if_false, c127, c2, w1, r1, pure,
          Except.pure]
      · have : (fun k : Nat => l1._Check (k : Int)) = (fun k : Nat => l._Check (k : Int)) := by
          funext k; exact Check_congr l l1 w3 w4 k
        rw [writesOf_append, writesOf_append, w2, r2, List.range'_succ, hnext, this]
        simp only [List.filter_cons, hlv, hc, if_true, List.map_cons, List.nil_append, writesOf,
          List.filterMap_cons, List.filterMap_nil, List.singleton_append]
    · simp only [Bool.not_eq_true] at hc
      obtain ⟨l2, evs2, r1, r2, r3, r4⟩ := ih (lv + 1) l fuel (by omega) (by omega) (by omega)
      refine ⟨l2, evs2, ?_, ?_, r3, r4⟩
      · have c2 : (false = true ∧ lv ≠ L) ∨ l._Check lv = false := Or.inr hc
        simp only [WriteLoop, c, not_true_eq_false, if_false, c127, c2, if_true, r1]
      · rw [r2, List.range'_succ, hnext]
        simp only [List.filter_cons, hlv, hc, Bool.false_eq_true, if_false]

/-- Single-target mode: the levels below `L` are passed over. -/
theorem WriteLoop_single_skip (env : Env) (L : Int) (data : List Nat) (hL : L ≤ 3) :
    ∀ (n : Nat) (lv : Int) (l : logFile) (fuel : Nat), 0 ≤ lv → lv + n = L →
      WriteLoop env L data true (fuel + n) lv l = WriteLoop env L data true fuel L l := by
  intro n
  induction n with
  | zero =>
    intro lv l fuel h0 h1
    have : lv = L := by omega
    rw [this]; rfl
  | succ n ih =>
    intro lv l fuel h0 h1
    have c : lv ≤ L := by omega
    have c127 : ¬ lv = 127 := by omega
    have c2 : (True ∧ lv ≠ L) ∨ l._Check lv = false := Or.inl ⟨trivial, by omega⟩
    rw [← Nat.add_assoc]
    simp only [WriteLoop, c, not_true_eq_false, if_false, c127, c2, if_true]
    exact ih (lv + 1) l fuel (by omega) (by omega)

/-- Single-target mode: what `Write` returns for a level in `DEBUG..ERROR`. -/
theorem Write_single (l : logFile) (env : Env) (L : Int) (data : List Nat)
    (h : 0 ≤ L ∧ L ≤ 3) :
    l.Write env L data true
      = some (.ok (
          if l._Check L = true then
            (logFile.mk
              (l.streams.set L.toNat ((l.streams.get L.toNat).Write (env.writeRes L)).1)
              l.level l.path l.logName l.debug,
             [Event.write L (l.streams.get L.toNat).raw data],
             ((l.streams.get L.toNat).Write (env.writeRes L)).2)
          else (l, [], none))) := by
  have c : L ≤ L := le_refl L
  have c127 : ¬ L = 127 := by omega
  have cx : ¬ (L + 1 ≤ L) := by omega
  obtain ⟨f, hf⟩ : ∃ f, 512 = f + 2 + L.toNat := ⟨510 - L.toNat, by omega⟩
  have hs := WriteLoop_single_skip env L data h.2 L.toNat 0 l (f + 2) (le_refl 0) (by omega)
  show WriteLoop env L data true 512 0 l = _
  rw [hf, hs]
  by_cases hc : l._Check L = true
  · have c2 : ¬ ((True ∧ L ≠ L) ∨ l._Check L = false) := by simp [hc]
    simp only [WriteLoop, c, not_true_eq_false, if_false, c127, c2,
      writeStream_single l env L data h, cx, not_false_eq_true, if_true, pure,
      Except.pure, List.append_nil]
    rw [if_pos hc]
    cases hr : ((l.streams.get L.toNat).Write (env.writeRes L)).2 <;> rfl
  · simp only [Bool.not_eq_true] at hc
    have c2 : (True ∧ L ≠ L) ∨ l._Check L = false := Or.inr hc
    simp only [WriteLoop, c, not_true_eq_false, if_false, c127, c2, if_true, cx,
      not_false_eq_true, pure, Except.pure]
    rw [if_neg (by simp [hc])]

end logFile

/-! ## Claims on the streams of a log file -/

theorem logFile.writesOf_map_le (L : Int) (data : List Nat) (P : Nat → Bool) :
    ∀ x ∈ ((List.range (L.toNat + 1)).filter P).map (fun (k : Nat) => ((k : Int), data)),
      0 ≤ x.1 ∧ x.1 ≤ max L 0 ∧ x.2 = data := by
  intro x hx
  simp only [List.mem_map, List.mem_filter, List.mem_range] at hx
  obtain ⟨k, ⟨hk, _⟩, rfl⟩ := hx
  refine ⟨by simp, ?_, rfl⟩
  show (k : Int) ≤ max L 0
  omega

/-- C23: in cascade mode (`notCreateFile = false`), for a record of a severity `L` in
`DEBUG..ERROR` whose stream writes succeed, `logFile.Write` returns nil and calls
`Write(data)` once on each stream of a level `≤ L` that passes `_Check` (the `DEBUG`
stream exactly when the debug flag is set), in ascending order of the levels, and on
no other stream.  With the level `ERROR` and the debug flag off, an `ERROR` record
goes to the streams `INFO`, `WARN`, `ERROR` and an `INFO` record to the stream `INFO`
only. -/
theorem Write_cascades (l : logFile) (env : Env) (L : Int) (data : List Nat)
    (hL : 0 ≤ L ∧ L ≤ 3) (hw : ∀ k, (env.writeRes k).2 = none) :
    ∃ l1 evs, l.Write env L data false = some (.ok (l1, evs, none)) ∧
      writesOf evs = ((List.range (L.toNat + 1)).filter
        (fun (k : Nat) => l._Check (k : Int))).map (fun (k : Nat) => ((k : Int), data)) ∧
      (∀ x ∈ writesOf evs, 0 ≤ x.1 ∧ x.1 ≤ L ∧ x.2 = data) ∧
      (writesOf evs).Pairwise (fun a b => a.1 < b.1) ∧
      (l._Check 0 = true ↔ l.debug = true) ∧
      (l.debug = false → l.level = ERROR →
        (L = ERROR → writesOf evs = [(INFO, data), (WARN, data), (ERROR, data)]) ∧
        (L = INFO → writesOf evs = [(INFO, data)])) := by
  obtain ⟨l1, evs, h1, h2, _, _⟩ :=
    logFile.WriteLoop_cascade env L data hL.2 hw (L.toNat + 1) 0 l 512 (le_refl 0)
      (by omega) (by omega)
  have h2' : writesOf evs = ((List.range (L.toNat + 1)).filter
      (fun (k : Nat) => l._Check (k : Int))).map (fun (k : Nat) => ((k : Int), data)) := by
    rw [h2, List.range_eq_range']
    rfl
  refine ⟨l1, evs, h1, h2', ?_, ?_, by simp [logFile._Check, DEBUG], ?_⟩
  · intro x hx
    rw [h2'] at hx
    have := logFile.writesOf_map_le L data _ x hx
    have hm : max L 0 = L := max_eq_left hL.1
    exact ⟨this.1, hm ▸ this.2.1, this.2.2⟩
  · rw [h2', List.pairwise_map]
    refine List.Pairwise.filter _ ?_
    refine (List.pairwise_lt_range (L.toNat + 1)).imp ?_
    intro a b hab
    show (a : Int) < (b : Int)
    omega
  intro hd hl
  constructor
  · intro hE
    rw [h2', hE]
    simp [logFile._Check, hd, hl, ERROR, INFO, WARN, DEBUG, List.range_succ, List.filter_cons]
  · intro hI
    rw [h2', hI]
    simp [logFile._Check, hd, hl, ERROR, INFO, WARN, DEBUG, List.range_succ, List.filter_cons]

/-- Witness of C23: an `ERROR` record on a log file with the level `ERROR`. -/
theorem Write_cascades_witness :
    ((0 : Int) ≤ 3 ∧ (3 : Int) ≤ 3) ∧
    ∃ l1 evs, ({ logFile.zero with level := 3 } : logFile).Write
        ⟨fun _ => 0, fun _ => [], fun _ => true, fun _ => (3, none)⟩ 3 [1, 2, 3] false
          = some (.ok (l1, evs, none)) ∧
      writesOf evs = [(1, [1, 2, 3]), (2, [1, 2, 3]), (3, [1, 2, 3])] := by
  refine ⟨by decide, ?_⟩
  obtain ⟨l1, evs, h1, _, _, _, _, h4⟩ := Write_cascades ({ logFile.zero with level := 3 } : logFile)
    ⟨fun _ => 0, fun _ => [], fun _ => true, fun _ => (3, none)⟩ 3 [1, 2, 3] (by decide)
    (fun _ => rfl)
  exact ⟨l1, evs, h1, (h4 rfl rfl).1 rfl⟩

theorem FileStream.Write_keeps (f : FileStream) (res : Nat × Option GoError) :
    (f.Write res).1.idx = f.idx ∧ (f.Write res).1.createTime = f.createTime ∧
    (f.Write res).1.raw = f.raw := by
  unfold FileStream.Write
  split_ifs <;> exact ⟨rfl, rfl, rfl⟩

/-- C24: in single-target mode (`notCreateFile = true`), for a record of a severity
`L` in `DEBUG..ERROR`, `logFile.Write` calls `Write(data)` on the stream of `L` if
`_Check(L)` holds and on no stream otherwise; no file is closed or opened, and index,
creation time and file of every stream are what they were (no rotation test is made). -/
theorem Write_single_target (l : logFile) (env : Env) (L : Int) (data : List Nat)
    (hL : 0 ≤ L ∧ L ≤ 3) :
    ∃ l1 evs e, l.Write env L data true = some (.ok (l1, evs, e)) ∧
      evs = (if l._Check L = true then [Event.write L (l.streams.get L.toNat).raw data]
        else []) ∧
      writesOf evs = (if l._Check L = true then [(L, data)] else []) ∧
      createsOf evs = [] ∧ evs.length ≤ 1 ∧
      (∀ k, k < 4 → (l1.streams.get k).idx = (l.streams.get k).idx ∧
        (l1.streams.get k).createTime = (l.streams.get k).createTime ∧
        (l1.streams.get k).raw = (l.streams.get k).raw) ∧
      (∀ k, k < 4 → k ≠ L.toNat → l1.streams.get k = l.streams.get k) ∧
      (l._Check L = false → l1 = l) := by
  have hk : L.toNat < 4 := by omega
  by_cases hc : l._Check L = true
  · refine ⟨_, _, _, (logFile.Write_single l env L data hL).trans (by rw [if_pos hc]), ?_, ?_,
      ?_, ?_, ?_, ?_, ?_⟩
    · rw [if_pos hc]
    · rw [if_pos hc]; rfl
    · rfl
    · simp
    · intro k hk4
      by_cases e : k = L.toNat
      · subst e
        show ((l.streams.set L.toNat _).get L.toNat).idx = _ ∧ _
        rw [Streams.get_set_same]
        exact FileStream.Write_keeps _ _
      · show ((l.streams.set L.toNat _).get k).idx = _ ∧ _
        rw [Streams.get_set_ne _ _ _ _ hk hk4 (Ne.symm e)]
        exact ⟨rfl, rfl, rfl⟩
    · intro k hk4 e
      exact Streams.get_set_ne _ _ _ _ hk hk4 (Ne.symm e)
    · intro h; rw [hc] at h; exact absurd h (by decide)
  · refine ⟨l, [], none, (logFile.Write_single l env L data hL).trans (by rw [if_neg hc]), ?_, ?_,
      rfl, by simp, fun _ _ => ⟨rfl, rfl, rfl⟩, fun _ _ _ => rfl, fun _ => rfl⟩
    · rw [if_neg hc]
    · rw [if_neg hc]; rfl

/-- Witness of C24: a `WARN` record on a log file with the level `ERROR`. -/
theorem Write_single_target_witness :
    ((0 : Int) ≤ 2 ∧ (2 : Int) ≤ 3) ∧
    ∃ l1 evs e, ({ logFile.zero with level := 3 } : logFile).Write
        ⟨fun _ => 0, fun _ => [], fun _ => true, fun _ => (3, none)⟩ 2 [1, 2, 3] true
          = some (.ok (l1, evs, e)) ∧
      writesOf evs = (if ({ logFile.zero with level := 3 } : logFile)._Check 2 = true then
        [(2, [1, 2, 3])] else []) ∧
      createsOf evs = [] := by
  refine ⟨by decide, ?_⟩
  obtain ⟨l1, evs, e, h1, _, h3, h4, _⟩ :=
    Write_single_target ({ logFile.zero with level := 3 } : logFile)
      ⟨fun _ => 0, fun _ => [], fun _ => true, fun _ => (3, none)⟩ 2 [1, 2, 3] (by decide)
  exact ⟨l1, evs, e, h1, h3, h4⟩

/-- For a record of severity `INFO` on a log file with the debug flag off and a level
of at least `INFO`, `logFile.Write` is the body of its loop for the stream `INFO`. -/
theorem logFile.Write_INFO (l : logFile) (env : Env) (data : List Nat) (ncf : Bool)
    (hd : l.debug = false) (hl : 1 ≤ l.level) :
    l.Write env INFO data ncf = some (l.writeStream env 1 data ncf) := by
  have c0 : l._Check 0 = false := by simp [logFile._Check, hd, DEBUG]
  have c1 : l._Check 1 = true := by simp [logFile._Check, DEBUG, hl]
  obtain ⟨l1, evs, g, e, w, _⟩ := logFile.writeStream_spec l env 1 data ncf (by decide)
  have k0 : ((ncf = true ∧ (0 : Int) ≠ 1) ∨ l._Check 0 = false) := Or.inr c0
  have k1 : ¬ ((ncf = true ∧ (1 : Int) ≠ 1) ∨ l._Check 1 = false) := by simp [c1]
  have gen : ∀ f : Nat, logFile.WriteLoop env 1 data ncf (f + 1 + 1 + 1) 0 l
      = some (l.writeStream env 1 data ncf) := by
    intro f
    simp only [logFile.WriteLoop, show ((0 : Int) ≤ 1) from by decide,
      show ((1 : Int) ≤ 1) from by decide, show ¬ ((1 : Int) + 1 ≤ 1) from by decide,
      show ¬ ((0 : Int) = 127) from by decide, show ¬ ((1 : Int) = 127) from by decide,
      show (0 : Int) + 1 = 1 from rfl, not_true_eq_false, not_false_eq_true, if_true, if_false,
      k0, k1, w, pure, Except.pure, List.append_nil]
    cases e <;> rfl
  exact gen 509

/-- C26, as claimed, does not hold: a stream with 1,000,000,000 bytes written reports
an overflow although that is less than 1 GiB (2^30 bytes). -/
theorem OverflowMaxSize_below_one_GiB :
    (FileStream.mk none 1000000000 0 0).OverflowMaxSize = true ∧
    (FileStream.mk none 1000000000 0 0).writeSize < 2 ^ 30 := by
  decide

/-- C26, amended: `OverflowMaxSize` reports true exactly when the size written since the
last rotation is at least `MaxSize` = 1,000,000,000 bytes (`1e9`).  A cascade-mode write
of an `INFO` record (debug flag off, level at least `INFO`) to a stream at or above
that size first rotates it (`_NewCreateFile`: the file is closed if open, the size
counter is reset, a new file is opened) and then writes; to a stream below that size
and created in the current hour bucket it only writes. -/
theorem OverflowMaxSize_iff (l : logFile) (env : Env) (data : List Nat)
    (hd : l.debug = false) (hl : 1 ≤ l.level) :
    (∀ f : FileStream, f.OverflowMaxSize = true ↔ 1000000000 ≤ f.writeSize) ∧
    (1000000000 ≤ l.streams.inf.writeSize →
      l.Write env INFO data false
        = some (.ok (logFile.mk
            (l.streams.set 1 ((l.rotated env 1).Write (env.writeRes 1)).1)
            l.level l.path l.logName l.debug,
            l.rotateEvents env 1 ++ [Event.write 1 (l.rotated env 1).raw data],
            ((l.rotated env 1).Write (env.writeRes 1)).2)) ∧
      createsOf (l.rotateEvents env 1) = [(1, l.rotatedName env 1)] ∧
      writesOf (l.rotateEvents env 1) = []) ∧
    (l.streams.inf.writeSize < 1000000000 →
      l.streams.inf.createTime.tdiv Hour = (env.now 1).tdiv Hour →
      l.Write env INFO data false
        = some (.ok (logFile.mk
            (l.streams.set 1 (l.streams.inf.Write (env.writeRes 1)).1)
            l.level l.path l.logName l.debug,
            [Event.write 1 l.streams.inf.raw data],
            (l.streams.inf.Write (env.writeRes 1)).2))) := by
  refine ⟨?_, ?_, ?_⟩
  · intro f
    simp [FileStream.OverflowMaxSize, MaxSize]
  · intro h
    refine ⟨?_, logFile.createsOf_rotateEvents l env 1, logFile.writesOf_rotateEvents l env 1⟩
    rw [logFile.Write_INFO l env data false hd hl]
    exact congrArg some (logFile.writeStream_overflow l env 1 data (by decide)
      (by show l.streams.inf.OverflowMaxSize = true
          simp [FileStream.OverflowMaxSize, MaxSize, h]))
  · intro h hb
    rw [logFile.Write_INFO l env data false hd hl]
    exact congrArg some (logFile.writeStream_keep l env 1 data (by decide)
      (by show l.streams.inf.OverflowMaxSize = false
          simp [FileStream.OverflowMaxSize, MaxSize, h])
      (by show (l.streams.inf.RotateByTime (env.now 1)).2 = false
          simp [FileStream.RotateByTime, hb]))

/-- Witness of C26 (amended): a stream at the threshold is rotated. -/
theorem OverflowMaxSize_iff_witness :
    (({ logFile.zero with level := 1 } : logFile).debug = false ∧
      1 ≤ ({ logFile.zero with level := 1 } : logFile).level) ∧
    ((FileStream.mk none 1000000000 0 0).OverflowMaxSize = true ↔
      (1000000000 : Int) ≤ (FileStream.mk none 1000000000 0 0).writeSize) :=
  ⟨⟨rfl, by decide⟩,
    (OverflowMaxSize_iff ({ logFile.zero with level := 1 } : logFile)
      ⟨fun _ => 0, fun _ => [], fun _ => true, fun _ => (3, none)⟩ [] rfl (by decide)).1
      (FileStream.mk none 1000000000 0 0)⟩

/-- C27, as claimed, does not hold: for a stream created in the hour bucket 2 and a
clock that reads a time of the hour bucket 1, the buckets differ and `RotateByTime`
reports no rotation. -/
theorem RotateByTime_clock_behind_creation :
    (FileStream.mk none 0 (2 * Hour) 0).RotateByTime Hour
      = (FileStream.mk none 0 (2 * Hour) 0, false) ∧
    (2 * Hour).tdiv Hour ≠ Hour.tdiv Hour := by
  decide

/-- C27, amended: `RotateByTime` reports a rotation exactly when the hour bucket of the
current time is later than the hour bucket of the creation time; for a clock that is
not behind the creation time, that is exactly when the two buckets differ.  When it
reports none the stream is unchanged; when it reports one the creation time becomes
the current time, the index becomes 0 if the creation time was not 0, and the other
fields are unchanged. -/
theorem RotateByTime_spec (f : FileStream) (now : Int) :
    ((f.RotateByTime now).2 = true ↔ f.createTime.tdiv Hour < now.tdiv Hour) ∧
    (f.createTime ≤ now →
      ((f.RotateByTime now).2 = true ↔ f.createTime.tdiv Hour ≠ now.tdiv Hour)) ∧
    ((f.RotateByTime now).2 = false → (f.RotateByTime now).1 = f) ∧
    ((f.RotateByTime now).2 = true →
      (f.RotateByTime now).1.createTime = now ∧
      (f.RotateByTime now).1.idx = (if f.createTime ≠ 0 then 0 else f.idx) ∧
      (f.RotateByTime now).1.raw = f.raw ∧
      (f.RotateByTime now).1.writeSize = f.writeSize) := by
  have key : (f.RotateByTime now).2 = true ↔ f.createTime.tdiv Hour < now.tdiv Hour := by
    unfold FileStream.RotateByTime
    split_ifs with h1 h2
    · simp only [Bool.false_eq_true, false_iff]; omega
    · simp only [true_iff]; omega
    · simp only [true_iff]; omega
  refine ⟨key, ?_, ?_, ?_⟩
  · intro hle
    rw [key]
    have := tdiv_Hour_mono f.createTime now hle
    omega
  · unfold FileStream.RotateByTime
    split_ifs <;> simp
  · intro hr
    have hlt := key.1 hr
    have h1 : ¬ (f.createTime.tdiv Hour ≥ now.tdiv Hour) := by omega
    by_cases h2 : f.createTime ≠ 0
    · simp only [FileStream.RotateByTime, h1, if_false, h2, if_true, ne_eq, not_false_eq_true,
        and_self]
    · simp only [FileStream.RotateByTime, h1, if_false, h2, ne_eq, not_false_eq_true,
        and_self]

/-- Witness of C27 (amended): a stream created in the hour bucket 1, at a time of the
bucket 2. -/
theorem RotateByTime_spec_witness :
    (FileStream.mk none 5 (Hour + 1) 3).createTime ≤ 2 * Hour + 1 ∧
    (((FileStream.mk none 5 (Hour + 1) 3).RotateByTime (2 * Hour + 1)).2 = true ↔
      (FileStream.mk none 5 (Hour + 1) 3).createTime.tdiv Hour ≠ (2 * Hour + 1).tdiv Hour) :=
  ⟨by decide, (RotateByTime_spec (FileStream.mk none 5 (Hour + 1) 3) (2 * Hour + 1)).2.1
    (by decide)⟩

/-! ## File names -/

theorem startsWith_append (sub b : List Nat) : startsWith (sub ++ b) sub = true := by
  induction sub with
  | nil => cases b <;> rfl
  | cons c s ih => simp [startsWith, ih]

theorem Contains_append (a sub b : List Nat) : Contains (a ++ (sub ++ b)) sub = true := by
  induction a with
  | nil =>
    cases h : sub ++ b with
    | nil =>
      have : sub = [] := (List.append_eq_nil.1 h).1
      subst this
      rfl
    | cons c s =>
      rw [List.nil_append, ← h, Contains.eq_def]
      rw [h]
      simp only [Bool.or_eq_true]
      left
      rw [← h]
      exact startsWith_append sub b
  | cons x a ih =>
    rw [List.cons_append, Contains, ih, Bool.or_true]

theorem LastIndexByte_none (t : List Nat) (c : Nat) (h : c ∉ t) : LastIndexByte t c = -1 := by
  induction t with
  | nil => rfl
  | cons x t ih =>
    have h1 : c ∉ t := fun hm => h (List.mem_cons_of_mem _ hm)
    have h2 : ¬ x = c := fun e => h (e ▸ List.mem_cons_self _ _)
    simp only [LastIndexByte, ih h1, ne_eq, not_true_eq_false, if_false, h2]

theorem LastIndexByte_nonneg (t : List Nat) (c : Nat) : -1 ≤ LastIndexByte t c := by
  induction t with
  | nil => simp [LastIndexByte]
  | cons x t ih =>
    simp only [LastIndexByte]
    split_ifs <;> omega

/-- The last occurrence: after it the byte does not occur. -/
theorem LastIndexByte_append (p t : List Nat) (c : Nat) (h : c ∉ t) :
    LastIndexByte (p ++ c :: t) c = (p.length : Int) := by
  induction p with
  | nil =>
    simp only [List.nil_append, LastIndexByte, LastIndexByte_none t c h, ne_eq,
      not_true_eq_false, if_false, if_true, List.length_nil, Nat.cast_zero]
  | cons x p ih =>
    show LastIndexByte (x :: (p ++ c :: t)) c = _
    rw [LastIndexByte, ih, if_pos (by omega)]
    simp only [List.length_cons, Nat.cast_add, Nat.cast_one]

theorem ExtentLevel_extName (k : Nat) (h : k < 4) :
    ExtentLevel (LevelExtNames.getD k []) = (k : Int) := by
  rcases k with _ | _ | _ | _ | k
  · decide
  · decide
  · decide
  · decide
  · omega

theorem extName_no_dot (k : Nat) : 46 ∉ LevelExtNames.getD k [] := by
  rcases k with _ | _ | _ | _ | k <;> simp [LevelExtNames]

theorem extName_mem (k : Nat) (h : k < 4) :
    LevelExtNames.getD k [] ∈
      [[100, 98, 103], [105, 110, 102], [119, 114, 110], [101, 114, 114]] := by
  rcases k with _ | _ | _ | _ | k
  · simp [LevelExtNames]
  · simp [LevelExtNames]
  · simp [LevelExtNames]
  · simp [LevelExtNames]
  · omega

/-- The text of an index that is not negative: its decimal digits. -/
theorem formatInt_nonneg (i : Int) (h : 0 ≤ i ∧ i < 2 ^ 63) :
    formatInt i = formatUint i.toNat ∧ decimalValue (formatInt i) = i.toNat ∧
    formatInt i ≠ [] ∧ (∀ d ∈ formatInt i, 48 ≤ d ∧ d ≤ 57) := by
  have e : formatInt i = formatUint i.toNat := by
    have : ¬ i < 0 := by omega
    simp only [formatInt, this, if_false]
  have hs := formatUint_spec i.toNat (by omega)
  rw [e]
  exact ⟨rfl, hs.1, hs.2.1, hs.2.2.1⟩

/-- `Str2Int` reads back the decimal text of an index. -/
theorem Str2Int_formatInt (i : Int) (h : 0 ≤ i ∧ i < 2 ^ 63) :
    Str2Int (formatInt i) = (i, none) := by
  obtain ⟨_, h2, h3, h4⟩ := formatInt_nonneg i h
  have hall : (formatInt i).all (fun c => decide (48 ≤ c ∧ c ≤ 57)) = true := by
    rw [List.all_eq_true]
    intro d hd
    simpa using h4 d hd
  have hhead : ¬ ((formatInt i).head? = some 43 ∨ (formatInt i).head? = some 45) := by
    cases hf : formatInt i with
    | nil => exact absurd hf h3
    | cons d t =>
      have := h4 d (by rw [hf]; exact List.mem_cons_self _ _)
      simp only [List.head?_cons, Option.some.injEq]
      omega
  have hneg : ¬ ((formatInt i).head? = some 45) := fun e => hhead (Or.inr e)
  have hpos : ¬ ((formatInt i).head? = some 43) := fun e => hhead (Or.inl e)
  have hlt : ¬ (2 ^ 64 ≤ decimalValue (formatInt i)) := by rw [h2]; omega
  have hlt2 : ¬ (2 ^ 63 ≤ decimalValue (formatInt i)) := by rw [h2]; omega
  have hu : ParseUint (formatInt i) = (decimalValue (formatInt i), none) := by
    simp only [ParseUint, h3, if_false, hall, Bool.not_true, Bool.false_eq_true, hlt]
  have hcast : ((i.toNat : Nat) : Int) = i := by omega
  have hlt3 : ¬ (2 ^ 63 ≤ i.toNat) := by omega
  simp only [Str2Int, h3, if_false, ParseInt, hpos, hneg, or_self, decide_False, hu,
    Bool.not_false, true_and, hlt3, Bool.false_eq_true, false_and, h2, hcast]

/-- C29: for every base name, every hour string `T`, every level `lv` in
`DEBUG..ERROR` and every index `i ≥ 0` of its stream, the name that `_DirFileName`
builds is `<base>.<T>.<i>.<ext>.log`, `i` in decimal digits and `ext` one of `dbg`,
`inf`, `wrn`, `err`, and `parseIdxAndLv(T, name)` returns `(i, lv)`, whatever bytes
(dots included) the base name and `T` hold. -/
theorem DirFileName_parse_roundtrip (l : logFile) (T : List Nat) (lv : Int)
    (hlv : 0 ≤ lv ∧ lv ≤ 3)
    (hi : 0 ≤ (l.streams.get lv.toNat).idx ∧ (l.streams.get lv.toNat).idx < 2 ^ 63) :
    ∃ name ext, l._DirFileName T lv = .ok name ∧
      name = l.logName ++ [46] ++ T ++ [46] ++ formatInt (l.streams.get lv.toNat).idx ++
        [46] ++ ext ++ [46, 108, 111, 103] ∧
      ext = LevelExtNames.getD lv.toNat [] ∧
      ext ∈ [[100, 98, 103], [105, 110, 102], [119, 114, 110], [101, 114, 114]] ∧
      (decimalValue (formatInt (l.streams.get lv.toNat).idx)
          = ((l.streams.get lv.toNat).idx).toNat ∧
        ∀ d ∈ formatInt (l.streams.get lv.toNat).idx, 48 ≤ d ∧ d ≤ 57) ∧
      ExtentLevel ext = lv ∧
      parseIdxAndLv T name = ((l.streams.get lv.toNat).idx, lv) := by
  have hk : lv.toNat < 4 := by omega
  have hcast : ((lv.toNat : Nat) : Int) = lv := by omega
  obtain ⟨_, f2, f3, f4⟩ := formatInt_nonneg _ hi
  have hext : ExtentLevel (LevelExtNames.getD lv.toNat []) = lv := by
    rw [ExtentLevel_extName _ hk, hcast]
  refine ⟨_, LevelExtNames.getD lv.toNat [], logFile.DirFileName_ok l T lv hlv, rfl, rfl,
    extName_mem _ hk, ⟨f2, f4⟩, hext, ?_⟩
  generalize hD : formatInt (l.streams.get lv.toNat).idx = D at *
  generalize hE : LevelExtNames.getD lv.toNat [] = E at *
  have hEdot : 46 ∉ E := hE ▸ extName_no_dot lv.toNat
  have hDdot : 46 ∉ D := fun hm => by have := f4 46 hm; omega
  have hlog : (46 : Nat) ∉ [108, 111, 103] := by decide
  -- the three cuts at the last dots
  have n1 : l.logName ++ [46] ++ T ++ [46] ++ D ++ [46] ++ E ++ [46, 108, 111, 103]
      = (l.logName ++ [46] ++ T ++ [46] ++ D ++ [46] ++ E) ++ 46 :: [108, 111, 103] := by
    simp
  have n2 : l.logName ++ [46] ++ T ++ [46] ++ D ++ [46] ++ E
      = (l.logName ++ [46] ++ T ++ [46] ++ D) ++ 46 :: E := by simp
  have n3 : l.logName ++ [46] ++ T ++ [46] ++ D = (l.logName ++ [46] ++ T) ++ 46 :: D := by
    simp
  have c0 : Contains (l.logName ++ [46] ++ T ++ [46] ++ D ++ [46] ++ E ++ [46, 108, 111, 103]) T
      = true := by
    have := Contains_append (l.logName ++ [46]) T ([46] ++ D ++ [46] ++ E ++ [46, 108, 111, 103])
    simpa using this
  have i1 := LastIndexByte_append (l.logName ++ [46] ++ T ++ [46] ++ D ++ [46] ++ E)
    [108, 111, 103] 46 hlog
  have i2 := LastIndexByte_append (l.logName ++ [46] ++ T ++ [46] ++ D) E 46 hEdot
  have i3 := LastIndexByte_append (l.logName ++ [46] ++ T) D 46 hDdot
  rw [← n1] at i1
  rw [← n2] at i2
  rw [← n3] at i3
  have t1 : (l.logName ++ [46] ++ T ++ [46] ++ D ++ [46] ++ E ++ [46, 108, 111, 103]).take
      (l.logName ++ [46] ++ T ++ [46] ++ D ++ [46] ++ E).length
      = l.logName ++ [46] ++ T ++ [46] ++ D ++ [46] ++ E := by
    rw [n1, List.take_left]
  have t2 : (l.logName ++ [46] ++ T ++ [46] ++ D ++ [46] ++ E).take
      (l.logName ++ [46] ++ T ++ [46] ++ D).length = l.logName ++ [46] ++ T ++ [46] ++ D := by
    rw [n2, List.take_left]
  have d2 : (l.logName ++ [46] ++ T ++ [46] ++ D ++ [46] ++ E).drop
      ((l.logName ++ [46] ++ T ++ [46] ++ D).length + 1) = E := by
    rw [n2, ← List.drop_drop, List.drop_left]
    rfl
  have d3 : (l.logName ++ [46] ++ T ++ [46] ++ D).drop
      ((l.logName ++ [46] ++ T).length + 1) = D := by
    rw [n3, ← List.drop_drop, List.drop_left]
    rfl
  have hS : Str2Int D = ((l.streams.get lv.toNat).idx, none) := by
    rw [← hD]; exact Str2Int_formatInt _ hi
  have ne1 : ¬ (((l.logName ++ [46] ++ T ++ [46] ++ D ++ [46] ++ E).length : Int) = -1) := by
    omega
  have ne2 : ¬ (((l.logName ++ [46] ++ T ++ [46] ++ D).length : Int) = -1) := by omega
  have ne3 : ¬ (((l.logName ++ [46] ++ T).length : Int) = -1) := by omega
  unfold parseIdxAndLv
  rw [c0]
  simp only [Bool.true_eq_false, if_false, i1, ne1, Int.toNat_ofNat, t1, i2, ne2, t2, d2, i3,
    ne3, d3, hS, hext]

/-- Witness of C29: the stream `WARN` with index 17 of the program `my.app`. -/
theorem DirFileName_parse_roundtrip_witness :
    (((0 : Int) ≤ 2 ∧ (2 : Int) ≤ 3) ∧ (0 : Int) ≤ 17 ∧ (17 : Int) < 2 ^ 63) ∧
    ∃ name ext, (logFile.mk ⟨FileStream.zero, FileStream.zero, ⟨none, 0, 0, 17⟩,
        FileStream.zero⟩ 3 [] [109, 121, 46, 97, 112, 112] false)._DirFileName
          [50, 48, 50, 52, 48, 49, 48, 49, 49, 50] 2 = .ok name ∧
      ext = [119, 114, 110] ∧
      parseIdxAndLv [50, 48, 50, 52, 48, 49, 48, 49, 49, 50] name = (17, 2) := by
  refine ⟨by decide, ?_⟩
  obtain ⟨name, ext, h1, _, h3, _, _, _, h7⟩ := DirFileName_parse_roundtrip
    (logFile.mk ⟨FileStream.zero, FileStream.zero, ⟨none, 0, 0, 17⟩, FileStream.zero⟩ 3 []
      [109, 121, 46, 97, 112, 112] false)
    [50, 48, 50, 52, 48, 49, 48, 49, 49, 50] 2 (by decide) (by decide)
  exact ⟨name, ext, h1, h3, h7⟩

/-! ## Rotation index, index recovery, standard-stream mode -/

/-- The index and the size counter after `Close`, and after a time-triggered rotation
followed by `Close` as in `_NewCreateFile`: an open stream gets the index one higher
and the size 0; an open stream with a creation time other than 0 that `RotateByTime`
rotates ends with the index 1; a stream that is not open and has the creation time 0
keeps its index. -/
theorem rotation_index (f : FileStream) (now : Int) :
    (f.raw.isSome = true → f.Close.idx = wrapInt (f.idx + 1) ∧ f.Close.writeSize = 0 ∧
      (-2 ^ 63 ≤ f.idx ∧ f.idx < 2 ^ 63 - 1 → f.Close.idx = f.idx + 1)) ∧
    (f.raw.isSome = true → f.createTime ≠ 0 → (f.RotateByTime now).2 = true →
      (f.RotateByTime now).1.Close.idx = 1) ∧
    (f.raw = none → f.createTime = 0 → (f.RotateByTime now).2 = true →
      (f.RotateByTime now).1.Close.idx = f.idx) := by
  refine ⟨?_, ?_, ?_⟩
  · intro h
    refine ⟨by simp [FileStream.Close, FileStream.IsWriter, h],
      by simp [FileStream.Close, FileStream.IsWriter, h], ?_⟩
    intro hr
    simp only [FileStream.Close, FileStream.IsWriter, h, Bool.not_true, Bool.false_eq_true,
      if_false, wrapInt]
    omega
  · intro h h0 hr
    have h1 : ¬ (f.createTime.tdiv Hour ≥ now.tdiv Hour) := by
      intro hge
      simp [FileStream.RotateByTime, hge] at hr
    simp only [FileStream.RotateByTime, h1, if_false, h0, ne_eq, not_false_eq_true, if_true,
      FileStream.Close, FileStream.IsWriter, h, Bool.not_true, Bool.false_eq_true]
    decide
  · intro h h0 hr
    have h1 : ¬ (f.createTime.tdiv Hour ≥ now.tdiv Hour) := by
      intro hge
      simp [FileStream.RotateByTime, hge] at hr
    have h2 : ¬ (f.createTime ≠ 0) := by simp [h0]
    have e : f.RotateByTime now = ({ f with createTime := now }, true) := by
      simp only [FileStream.RotateByTime, h1, if_false, h2]
    rw [e]
    simp [FileStream.Close, FileStream.IsWriter, h]

/-- C28: the `INFO` stream is open on the file with index 0 of the hour bucket 1
(creation time one hour and 5 ns); at a time of the hour bucket 2 an `INFO` record is
written in cascade mode.  `RotateByTime` sets the index to 0, then `Close` in
`_NewCreateFile` adds one: the file opened for the new hour is
`app.1970010102.1.inf.log`, with the index 1. -/
theorem hour_rotation_opens_index_one :
    ∃ l1 evs,
      (logFile.mk ⟨FileStream.zero,
          ⟨some (RawFile.file [97, 112, 112, 46, 49, 57, 55, 48, 48, 49, 48, 49, 48, 49, 46,
            48, 46, 105, 110, 102, 46, 108, 111, 103]), 100, Hour + 5, 0⟩,
          FileStream.zero, FileStream.zero⟩ 3 [] [97, 112, 112] false).Write
        ⟨fun _ => 2 * Hour + 7, fun _ => [49, 57, 55, 48, 48, 49, 48, 49, 48, 50],
          fun _ => true, fun _ => (3, none)⟩ INFO [1, 2, 3] false
        = some (.ok (l1, evs, none)) ∧
      createsOf evs = [(1, [97, 112, 112, 46, 49, 57, 55, 48, 48, 49, 48, 49, 48, 50, 46,
        49, 46, 105, 110, 102, 46, 108, 111, 103])] ∧
      l1.streams.inf.idx = 1 ∧ l1.streams.inf.createTime = 2 * Hour + 7 :=
  ⟨_, _, rfl, rfl, rfl, rfl⟩

/-- C30: the directory holds the file `app.2024010112.0.inf.log` of 500 bytes, whose
name yields the index 0 and the level `INFO`.  `_CheckFileIndex` leaves the `INFO`
stream with the size 0: the test `idx >= idx` passes over a file whose index is the
one the stream already has, so the size of the file with the index 0 is not taken
over.  For the file `app.2024010112.1.inf.log` the index 1 and the size 500 are taken
over. -/
theorem CheckFileIndex_ignores_size_at_index_zero :
    parseIdxAndLv [50, 48, 50, 52, 48, 49, 48, 49, 49, 50]
      [97, 112, 112, 46, 50, 48, 50, 52, 48, 49, 48, 49, 49, 50, 46, 48, 46, 105, 110, 102,
        46, 108, 111, 103] = (0, INFO) ∧
    logFile.zero._CheckFileIndex [50, 48, 50, 52, 48, 49, 48, 49, 49, 50]
      [some ⟨[108, 111, 103], true, some 4096⟩,
        some ⟨[97, 112, 112, 46, 50, 48, 50, 52, 48, 49, 48, 49, 49, 50, 46, 48, 46, 105, 110,
          102, 46, 108, 111, 103], false, some 500⟩]
      = .ok logFile.zero ∧
    logFile.zero.streams.inf.writeSize = 0 ∧
    logFile.zero._CheckFileIndex [50, 48, 50, 52, 48, 49, 48, 49, 49, 50]
      [some ⟨[108, 111, 103], true, some 4096⟩,
        some ⟨[97, 112, 112, 46, 50, 48, 50, 52, 48, 49, 48, 49, 49, 50, 46, 49, 46, 105, 110,
          102, 46, 108, 111, 103], false, some 500⟩]
      = .ok { logFile.zero with streams :=
          ⟨FileStream.zero, ⟨none, 500, 0, 1⟩, FileStream.zero, FileStream.zero⟩ } :=
  ⟨rfl, rfl, rfl, rfl⟩

namespace logFile

theorem initStdStream_fields (l : logFile) (k : Nat) :
    (l.initStdStream k).level = l.level ∧ (l.initStdStream k).debug = l.debug ∧
    (l.initStdStream k).path = l.path ∧ (l.initStdStream k).logName = l.logName := by
  unfold initStdStream
  split_ifs <;> exact ⟨rfl, rfl, rfl, rfl⟩

theorem initStdStream_get (l : logFile) (k j : Nat) (hk : k < 4) (hj : j < 4) :
    (l.initStdStream k).streams.get j
      = if j = k ∧ l._Check (k : Int) = true then
          (l.streams.get k)._Init (if (k : Int) = ERROR then RawFile.stderr else RawFile.stdout)
        else l.streams.get j := by
  unfold initStdStream
  by_cases hc : l._Check (k : Int) = false
  · simp [hc]
  · have hc2 : l._Check (k : Int) = true := by simpa using hc
    by_cases hjk : j = k
    · subst hjk
      simp [hc2, Streams.get_set_same]
    · simp [hc2, hjk, Streams.get_set_ne _ _ _ _ hk hj (Ne.symm hjk)]

/-- After `_InitStdLog` the stream of each enabled level writes to a standard stream:
`os.Stderr` for `ERROR`, `os.Stdout` for the others; level, debug flag, path and name
are unchanged. -/
theorem InitStdLog_spec (l : logFile) :
    (l._InitStdLog.level = l.level ∧ l._InitStdLog.debug = l.debug ∧
      l._InitStdLog.path = l.path ∧ l._InitStdLog.logName = l.logName) ∧
    ∀ j, j < 4 → l._InitStdLog.streams.get j
      = if l._Check (j : Int) = true then
          (l.streams.get j)._Init (if (j : Int) = ERROR then RawFile.stderr else RawFile.stdout)
        else l.streams.get j := by
  have f0 := initStdStream_fields l 0
  have f1 := initStdStream_fields (l.initStdStream 0) 1
  have f2 := initStdStream_fields ((l.initStdStream 0).initStdStream 1) 2
  have f3 := initStdStream_fields (((l.initStdStream 0).initStdStream 1).initStdStream 2) 3
  have c1 : ∀ lv, (l.initStdStream 0)._Check lv = l._Check lv :=
    Check_congr _ _ f0.1 f0.2.1
  have c2 : ∀ lv, ((l.initStdStream 0).initStdStream 1)._Check lv = l._Check lv := fun lv =>
    (Check_congr _ _ f1.1 f1.2.1 lv).trans (c1 lv)
  have c3 : ∀ lv, (((l.initStdStream 0).initStdStream 1).initStdStream 2)._Check lv
      = l._Check lv := fun lv => (Check_congr _ _ f2.1 f2.2.1 lv).trans (c2 lv)
  have e : l._InitStdLog
      = (((l.initStdStream 0).initStdStream 1).initStdStream 2).initStdStream 3 := rfl
  refine ⟨?_, ?_⟩
  · rw [e]
    exact ⟨by rw [f3.1, f2.1, f1.1, f0.1], by rw [f3.2.1, f2.2.1, f1.2.1, f0.2.1],
      by rw [f3.2.2.1, f2.2.2.1, f1.2.2.1, f0.2.2.1], by rw [f3.2.2.2, f2.2.2.2, f1.2.2.2, f0.2.2.2]⟩
  · intro j hj
    rw [e, initStdStream_get _ 3 j (by decide) hj, initStdStream_get _ 2 j (by decide) hj,
      initStdStream_get _ 1 j (by decide) hj, initStdStream_get _ 0 j (by decide) hj,
      initStdStream_get _ 2 3 (by decide) (by decide),
      initStdStream_get _ 1 3 (by decide) (by decide),
      initStdStream_get _ 0 3 (by decide) (by decide),
      initStdStream_get _ 1 2 (by decide) (by decide),
      initStdStream_get _ 0 2 (by decide) (by decide),
      initStdStream_get _ 0 1 (by decide) (by decide), c3, c2, c1]
    rcases j with _ | _ | _ | _ | j
    · simp
    · simp
    · simp
    · simp
    · omega

end logFile

/-- C25, as claimed, does not hold: a logger made without options has no directory
and `IsNotCreateFile()` is false, so that its records are written in cascade mode;
an `INFO` record makes `logFile.Write` open a file. -/
theorem NewLogger_without_directory_creates_files :
    ∃ l, NewLogger ⟨[97, 112, 112], [49, 57, 55, 48, 48, 49, 48, 49, 48, 50], fun _ => []⟩ []
        = .ok l ∧
      l.file.path = [] ∧ l.std = false ∧ l.IsNotCreateFile = false ∧
      ∃ l1 evs, l.file.Write
          ⟨fun _ => 2 * Hour + 7, fun _ => [49, 57, 55, 48, 48, 49, 48, 49, 48, 50],
            fun _ => true, fun _ => (3, none)⟩ INFO [1, 2, 3] l.IsNotCreateFile
          = some (.ok (l1, evs, none)) ∧
        createsOf evs = [(1, [46, 49, 57, 55, 48, 48, 49, 48, 49, 48, 50, 46, 48, 46, 105, 110,
          102, 46, 108, 111, 103])] :=
  ⟨_, rfl, rfl, rfl, rfl, _, _, rfl, rfl⟩

/-- C25, amended: `IsNotCreateFile()` is true exactly when the standard-stream flag is
set and the directory path is empty.  `NewLogger` then calls `_InitStdLog`: the stream
of each enabled level writes to `os.Stdout`, the one of `ERROR` to `os.Stderr`, and a
record of a severity `L` in `DEBUG..ERROR`, written in single-target mode as the
worker does, reaches that standard stream only and opens no file.  A logger with an
empty directory path and without the flag has `IsNotCreateFile()` false. -/
theorem IsNotCreateFile_iff (l : logger) (env : Env) (L : Int) (data : List Nat)
    (hL : 0 ≤ L ∧ L ≤ 3) :
    (l.IsNotCreateFile = true ↔ l.std = true ∧ l.file.path = []) ∧
    (l.std = false → l.file.path = [] → l.IsNotCreateFile = false) ∧
    (∀ senv opts l1, NewLogger senv opts = .ok l1 → l1.IsNotCreateFile = true →
      ∃ l0 : logger, l0.IsNotCreateFile = true ∧ l1 = { l0 with file := l0.file._InitStdLog }) ∧
    (l.IsNotCreateFile = true →
      ∃ l1 evs e, l.file._InitStdLog.Write env L data true = some (.ok (l1, evs, e)) ∧
        createsOf evs = [] ∧
        evs = (if l.file._Check L = true then
          [Event.write L (some (if L = ERROR then RawFile.stderr else RawFile.stdout)) data]
          else [])) := by
  have hiff : ∀ l : logger, l.IsNotCreateFile = true ↔ l.std = true ∧ l.file.path = [] := by
    intro l
    simp [logger.IsNotCreateFile]
  refine ⟨hiff l, ?_, ?_, ?_⟩
  · intro h1 _
    simp [logger.IsNotCreateFile, h1]
  · intro senv opts l1 h hn
    unfold NewLogger at h
    simp only [bind, Except.bind, pure, Except.pure] at h
    split at h
    · simp at h
    · rename_i l0 _
      by_cases hc : l0.IsNotCreateFile = true
      · simp only [hc, if_true, Except.ok.injEq] at h
        exact ⟨l0, hc, h.symm⟩
      · simp only [hc, Bool.false_eq_true, if_false, Except.ok.injEq] at h
        subst h
        exact absurd hn hc
  · intro _
    obtain ⟨l1, evs, e, h1, h2, _, h4, _⟩ := Write_single_target l.file._InitStdLog env L data hL
    have hs := logFile.InitStdLog_spec l.file
    have hck : l.file._InitStdLog._Check L = l.file._Check L :=
      logFile.Check_congr _ _ hs.1.1 hs.1.2.1 L
    have hcast : ((L.toNat : Nat) : Int) = L := by omega
    refine ⟨l1, evs, e, h1, h4, ?_⟩
    rw [h2, hck]
    by_cases hc : l.file._Check L = true
    · rw [if_pos hc, if_pos hc, hs.2 L.toNat (by omega), hcast, if_pos hc]
      rfl
    · rw [if_neg hc, if_neg hc]

/-- Witness of C25 (amended): the standard logger `NewLogger(LogLevel(ERROR),
_LogStd(true))`. -/
theorem IsNotCreateFile_iff_witness :
    ((0 : Int) ≤ 3 ∧ (3 : Int) ≤ 3) ∧
    ((logger.mk { logFile.zero with level := 3 } true).IsNotCreateFile = true ↔
      (logger.mk { logFile.zero with level := 3 } true).std = true ∧
      (logger.mk { logFile.zero with level := 3 } true).file.path = []) :=
  ⟨by decide, (IsNotCreateFile_iff (logger.mk { logFile.zero with level := 3 } true)
    ⟨fun _ => 0, fun _ => [], fun _ => true, fun _ => (3, none)⟩ 3 [] (by decide)).1⟩

/-! ## Index recovery -/

theorem ExtentLevel_range (e : List Nat) :
    ExtentLevel e = -1 ∨ (0 ≤ ExtentLevel e ∧ ExtentLevel e ≤ 3) := by
  simp only [ExtentLevel, ExtentLevelLoop, LevelExtNames]
  split_ifs <;> simp

theorem parseIdxAndLv_range (T fname : List Nat) :
    ∃ (pi pl : Int), parseIdxAndLv T fname = (pi, pl) ∧ (pl = -1 ∨ (0 ≤ pl ∧ pl ≤ 3)) := by
  unfold parseIdxAndLv
  by_cases h0 : Contains fname T = false
  · exact ⟨-1, -1, by rw [if_pos h0], Or.inl rfl⟩
  · rw [if_neg h0]
    by_cases h1 : LastIndexByte fname 46 = -1
    · exact ⟨-1, -1, by rw [if_pos h1], Or.inl rfl⟩
    · rw [if_neg h1]
      simp only []
      by_cases h2 : LastIndexByte (fname.take (LastIndexByte fname 46).toNat) 46 = -1
      · exact ⟨-1, -1, by rw [if_pos h2], Or.inl rfl⟩
      · rw [if_neg h2]
        split_ifs
        · exact ⟨-1, -1, rfl, Or.inl rfl⟩
        · split
          · exact ⟨-1, -1, rfl, Or.inl rfl⟩
          · exact ⟨_, _, rfl, ExtentLevel_range _⟩

namespace logFile

/-- One call of the function of `_CheckFileIndex`: it returns, and the index of each
stream becomes the larger one of its index and the index read from a file name of its
level. -/
theorem checkEntry_spec (l : logFile) (T : List Nat) (d : Option DirEntry) :
    ∃ l1, l.checkEntry T d = .ok l1 ∧
      ∀ j, j < 4 → (l1.streams.get j).idx
        = (matchingIdx T j [d]).foldl max (l.streams.get j).idx := by
  cases d with
  | none => exact ⟨l, rfl, fun j _ => rfl⟩
  | some d =>
    obtain ⟨pi, pl, hP, hp⟩ := parseIdxAndLv_range T d.name
    by_cases hdir : d.isDir = true
    · refine ⟨l, by simp only [checkEntry, hdir, if_true, pure, Except.pure], ?_⟩
      intro j _
      simp [matchingIdx, hdir]
    · have hdir2 : d.isDir = false := by simpa using hdir
      rcases hp with hp | hp
      · refine ⟨l, by simp only [checkEntry, hdir2, Bool.false_eq_true, if_false, hP, hp,
          if_true, pure, Except.pure], ?_⟩
        intro j _
        have : ¬ ((-1 : Int) = (j : Int)) := by omega
        simp [matchingIdx, hdir2, hP, hp, this]
      · have hne : ¬ (pl = -1) := by omega
        have hk : pl.toNat < 4 := by omega
        by_cases hge : (l.streams.get pl.toNat).idx ≥ pi
        · refine ⟨l, by simp only [checkEntry, hdir2, Bool.false_eq_true, if_false, hP, hne,
            stream_ok l _ hp, bind, Except.bind, hge, if_true, pure, Except.pure], ?_⟩
          intro j _
          by_cases hj : pl = (j : Int)
          · have e : pl.toNat = j := by omega
            rw [e] at hge
            simp only [matchingIdx, List.filterMap_cons, List.filterMap_nil, hdir2, hP, hj,
              and_self, if_true, List.foldl_cons, List.foldl_nil]
            exact (max_eq_left hge).symm
          · simp [matchingIdx, hdir2, hP, hj]
        · have key : ∀ (f1 : FileStream), f1.idx = pi → ∀ j, j < 4 →
              ((l.streams.set pl.toNat f1).get j).idx
                = (matchingIdx T j [some d]).foldl max (l.streams.get j).idx := by
            intro f1 hf1 j hj4
            by_cases hj : pl = (j : Int)
            · have e : pl.toNat = j := by omega
              rw [e] at hge ⊢
              rw [Streams.get_set_same, hf1]
              simp only [matchingIdx, List.filterMap_cons, List.filterMap_nil, hdir2, hP, hj,
                and_self, if_true, List.foldl_cons, List.foldl_nil]
              exact (max_eq_right (by omega)).symm
            · have e : pl.toNat ≠ j := by omega
              rw [Streams.get_set_ne _ _ _ _ hk hj4 e]
              simp [matchingIdx, hdir2, hP, hj]
          cases hs : d.size with
          | none =>
            refine ⟨logFile.mk (l.streams.set pl.toNat
              (FileStream.mk (l.streams.get pl.toNat).raw (l.streams.get pl.toNat).writeSize
                (l.streams.get pl.toNat).createTime pi)) l.level l.path l.logName l.debug,
              ?_, key _ rfl⟩
            simp only [checkEntry, hdir2, Bool.false_eq_true, if_false, hP, hne,
              stream_ok l _ hp, bind, Except.bind, hge, hs, setStream_ok _ _ _ hp]
          | some n =>
            refine ⟨logFile.mk (l.streams.set pl.toNat
              (FileStream.mk (l.streams.get pl.toNat).raw n
                (l.streams.get pl.toNat).createTime pi)) l.level l.path l.logName l.debug,
              ?_, key _ rfl⟩
            simp only [checkEntry, hdir2, Bool.false_eq_true, if_false, hP, hne,
              stream_ok l _ hp, bind, Except.bind, hge, hs, setStream_ok _ _ _ hp]

/-- The scan `_CheckFileIndex` returns for every walk, and afterwards the index of each
stream is the largest one among the index it had and the indices read from the file
names of its level. -/
theorem CheckFileIndex_idx (T : List Nat) :
    ∀ (entries : List (Option DirEntry)) (l : logFile),
      ∃ l1, l._CheckFileIndex T entries = .ok l1 ∧
        ∀ j, j < 4 → (l1.streams.get j).idx
          = (matchingIdx T j entries).foldl max (l.streams.get j).idx := by
  intro entries
  induction entries with
  | nil => intro l; exact ⟨l, rfl, fun j _ => rfl⟩
  | cons d rest ih =>
    intro l
    obtain ⟨l1, h1, h2⟩ := checkEntry_spec l T d
    obtain ⟨l2, h3, h4⟩ := ih l1
    refine ⟨l2, ?_, ?_⟩
    · simp only [_CheckFileIndex, List.foldlM_cons, h1, bind, Except.bind]
      exact h3
    · intro j hj
      rw [h4 j hj, h2 j hj]
      have : matchingIdx T j (d :: rest) = matchingIdx T j [d] ++ matchingIdx T j rest := by
        simp only [matchingIdx, ← List.filterMap_append, List.singleton_append]
      rw [this, List.foldl_append]

end logFile

/-! ## The capacity never shrinks -/

theorem bind_ok {α β : Type} (x : Except Panic α) (f : α → Except Panic β) (b : β)
    (h : x >>= f = .ok b) : ∃ a, x = .ok a ∧ f a = .ok b := by
  cases x with
  | error e => cases h
  | ok a => exact ⟨a, rfl, h⟩

theorem map_ok {α β : Type} (x : Except Panic α) (f : α → β) (b : β)
    (h : f <$> x = .ok b) : ∃ a, x = .ok a ∧ f a = b := by
  cases x with
  | error e => cases h
  | ok a =>
    refine ⟨a, rfl, ?_⟩
    simpa [Functor.map, Except.map] using h

namespace JBuffer

theorem sliceTo_Cap (j j1 : JBuffer) (k : Int) (h : j.sliceTo k = .ok j1) :
    j1.Cap = j.Cap := by
  unfold sliceTo at h
  split at h
  · simp only [pure, Except.pure, Except.ok.injEq] at h
    rw [← h, reslice_Cap]
  · cases h

theorem sliceFrom_inv (j : JBuffer) (k : Int) (l : List Nat) (h : j.sliceFrom k = .ok l) :
    0 ≤ k ∧ k ≤ (j.len : Int) ∧ l = j.buf.drop k.toNat := by
  unfold sliceFrom at h
  split at h
  · rename_i hk
    simp only [pure, Except.pure, Except.ok.injEq] at h
    exact ⟨hk.1, hk.2, h.symm⟩
  · cases h

theorem tryGrowByReslice_Cap (j j1 : JBuffer) (n i : Int) (ok : Bool)
    (h : j.tryGrowByReslice n = .ok (j1, i, ok)) : j1.Cap = j.Cap := by
  unfold tryGrowByReslice at h
  split at h
  · obtain ⟨a, h1, h2⟩ := bind_ok _ _ _ h
    simp only [pure, Except.pure, Except.ok.injEq, Prod.mk.injEq] at h2
    rw [← h2.1]
    exact sliceTo_Cap _ _ _ h1
  · simp only [pure, Except.pure, Except.ok.injEq, Prod.mk.injEq] at h
    rw [← h.1]

/-- The function `grow` never returns with a smaller capacity, whatever the state of the
buffer and the count are. -/
theorem grow_Cap_le (j j1 : JBuffer) (n m : Int) (h : j.grow n = .ok (j1, m)) :
    j.Cap ≤ j1.Cap := by
  have h0 : (if j.Len = 0 ∧ j.off ≠ 0 then j.Reset else j).Cap = j.Cap := by
    split <;> simp
  unfold grow at h
  simp only at h
  generalize (if j.Len = 0 ∧ j.off ≠ 0 then j.Reset else j) = j0 at h h0
  obtain ⟨⟨ja, i, ok⟩, h1, h2⟩ := bind_ok _ _ _ h
  have hc := tryGrowByReslice_Cap _ _ _ _ _ h1
  simp only at h2
  split at h2
  · simp only [pure, Except.pure, Except.ok.injEq, Prod.mk.injEq] at h2
    rw [← h2.1]; omega
  · split at h2
    · rename_i hnil
      split at h2
      · cases h2
      · simp only [pure, Except.pure, Except.ok.injEq, Prod.mk.injEq] at h2
        have hn := hnil.1
        simp only [isNil, Bool.and_eq_true, List.isEmpty_iff] at hn
        have hca : ja.Cap = 0 := by simp [Cap, hn.1.2, hn.2]
        omega
    · split at h2
      · obtain ⟨src, h3, h4⟩ := bind_ok _ _ _ h2
        obtain ⟨j3, h5, h6⟩ := bind_ok _ _ _ h4
        simp only [pure, Except.pure, Except.ok.injEq, Prod.mk.injEq] at h6
        have := sliceTo_Cap _ _ _ h5
        rw [← h6.1, this]
        show j.Cap ≤ (copyInto ja.buf src).length + ja.spare.length
        rw [copyInto_length]
        show j.Cap ≤ ja.Cap
        omega
      · split at h2
        · cases h2
        · split at h2
          · cases h2
          · obtain ⟨src, h3, h4⟩ := bind_ok _ _ _ h2
            obtain ⟨j3, h5, h6⟩ := bind_ok _ _ _ h4
            simp only [pure, Except.pure, Except.ok.injEq, Prod.mk.injEq] at h6
            have := sliceTo_Cap _ _ _ h5
            rw [← h6.1, this]
            show j.Cap ≤ (copyInto (List.replicate (2 * (ja.Cap : Int) + n).toNat 0) src).length
              + ([] : List Nat).length
            rw [copyInto_length, List.length_replicate, List.length_nil]
            have hL : j.Len ≤ (j.Cap : Int) := by simp only [Len, Cap, len]; omega
            omega

theorem tryGrow_Cap_le (j j1 : JBuffer) (n m : Int) (h : j.tryGrow n = .ok (j1, m)) :
    j.Cap ≤ j1.Cap := by
  unfold tryGrow at h
  obtain ⟨⟨ja, i, ok⟩, h1, h2⟩ := bind_ok _ _ _ h
  have hc := tryGrowByReslice_Cap _ _ _ _ _ h1
  simp only at h2
  split at h2
  · simp only [pure, Except.pure, Except.ok.injEq, Prod.mk.injEq] at h2
    rw [← h2.1]; omega
  · exact grow_Cap_le _ _ _ _ h2

/-- When `Alloc` returns, the capacity has not shrunk and the index of the slice
returned lies within the buffer. -/
theorem Alloc_inv (j j1 : JBuffer) (n : Int) (m : Nat) (h : j.Alloc n = .ok (j1, m)) :
    j.Cap ≤ j1.Cap ∧ m ≤ j1.len := by
  unfold Alloc at h
  obtain ⟨⟨ja, i⟩, h1, h2⟩ := bind_ok _ _ _ h
  simp only at h2
  obtain ⟨v, h3, h4⟩ := bind_ok _ _ _ h2
  simp only [pure, Except.pure, Except.ok.injEq, Prod.mk.injEq] at h4
  have h5 := sliceFrom_inv _ _ _ h3
  have h6 := tryGrow_Cap_le _ _ _ _ h1
  rw [← h4.1, ← h4.2]
  exact ⟨h6, by omega⟩

theorem Grow_Cap_le (j j1 : JBuffer) (n : Int) (h : j.Grow n = .ok j1) : j.Cap ≤ j1.Cap := by
  unfold Grow at h
  split at h
  · cases h
  · obtain ⟨⟨ja, m⟩, h1, h2⟩ := bind_ok _ _ _ h
    simp only at h2
    rw [sliceTo_Cap _ _ _ h2]
    exact grow_Cap_le _ _ _ _ h1

theorem setView_Cap (j : JBuffer) (m : Nat) (w : List Nat) (hm : m ≤ j.len)
    (hw : w.length = (j.buf.drop m).length) : (j.setView m w).Cap = j.Cap := by
  simp only [len] at hm
  simp only [setView, Cap, List.length_append, List.length_take, hw, List.length_drop]
  omega

end JBuffer

theorem PutUint16_length (b w : List Nat) (v : Nat) (h : PutUint16 b v = .ok w) :
    w.length = b.length := by
  unfold PutUint16 at h
  split at h
  · cases h
  · simp only [pure, Except.pure, Except.ok.injEq] at h
    rw [← h]; simp; omega

theorem PutUint32_length (b w : List Nat) (v : Nat) (h : PutUint32 b v = .ok w) :
    w.length = b.length := by
  unfold PutUint32 at h
  split at h
  · cases h
  · simp only [pure, Except.pure, Except.ok.injEq] at h
    rw [← h]; simp; omega

theorem PutUint64_length (b w : List Nat) (v : Nat) (h : PutUint64 b v = .ok w) :
    w.length = b.length := by
  unfold PutUint64 at h
  split at h
  · cases h
  · simp only [pure, Except.pure, Except.ok.injEq] at h
    rw [← h]; simp; omega

theorem VarToBytes_length (v : Nat) (b w : List Nat) (h : VarToBytes v b = .ok w) :
    w.length = b.length := by
  by_cases hb : varCnt v ≤ b.length
  · rw [VarToBytes_ok v b hb] at h
    simp only [Except.ok.injEq] at h
    rw [← h]; simp; omega
  · rw [VarToBytes_short v b (by omega)] at h
    cases h

theorem putFixed_length (view w : List Nat) (v : Fixed) (h : putFixed view v = .ok w) :
    w.length = view.length := by
  cases v with
  | int8 x =>
    simp only [putFixed] at h
    split at h
    · cases h
    · simp only [pure, Except.pure, Except.ok.injEq] at h
      rw [← h]; simp
  | uint8 x =>
    simp only [putFixed] at h
    split at h
    · cases h
    · simp only [pure, Except.pure, Except.ok.injEq] at h
      rw [← h]; simp
  | int16 x => exact PutUint16_length _ _ _ h
  | uint16 x => exact PutUint16_length _ _ _ h
  | int32 x => exact PutUint32_length _ _ _ h
  | uint32 x => exact PutUint32_length _ _ _ h
  | int64 x => exact PutUint64_length _ _ _ h
  | uint64 x => exact PutUint64_length _ _ _ h

theorem copyRLoop_length (step : Int) : ∀ (n : Nat) (i : Int) (buf w : List Nat),
    copyRLoop step n i buf = .ok w → w.length = buf.length := by
  intro n
  induction n with
  | zero =>
    intro i buf w h
    simp only [copyRLoop, pure, Except.pure, Except.ok.injEq] at h
    rw [h]
  | succ n ih =>
    intro i buf w h
    unfold copyRLoop at h
    split at h
    · cases h
    · rw [ih _ _ _ h]; simp

namespace JBuffer

theorem appendBytes_Cap_le (j : JBuffer) (bs : List Nat) (extra : Nat) :
    j.Cap ≤ (j.appendBytes bs extra).Cap := by
  by_cases h : bs.length ≤ j.spare.length
  · simp only [appendBytes, h, if_true, Cap, List.length_append, List.length_drop]
    omega
  · simp only [appendBytes, h, if_false, Cap, List.length_append, List.length_replicate]
    omega

/-- A store through the slice that `Alloc` returned keeps the capacity that `Alloc`
left. -/
theorem Alloc_setView_Cap (j j1 : JBuffer) (n : Int) (m : Nat) (w : List Nat)
    (h : j.Alloc n = .ok (j1, m)) (hw : w.length = (j1.buf.drop m).length) :
    j.Cap ≤ (j1.setView m w).Cap := by
  obtain ⟨h1, h2⟩ := Alloc_inv _ _ _ _ h
  rw [setView_Cap _ _ _ h2 hw]
  exact h1

theorem Write_Cap_le (j j1 : JBuffer) (p : List Nat) (r : Int × Option GoError)
    (h : j.Write p = .ok (j1, r)) : j.Cap ≤ j1.Cap := by
  unfold Write at h
  obtain ⟨⟨ja, m⟩, h1, h2⟩ := bind_ok _ _ _ h
  simp only [pure, Except.pure, Except.ok.injEq, Prod.mk.injEq] at h2
  rw [← h2.1]
  exact Alloc_setView_Cap _ _ _ _ _ h1 (copyInto_length _ _)

theorem WriteString_Cap_le (j j1 : JBuffer) (s : List Nat) (r : Int × Option GoError)
    (h : j.WriteString s = .ok (j1, r)) : j.Cap ≤ j1.Cap := by
  unfold WriteString at h
  obtain ⟨⟨ja, m⟩, h1, h2⟩ := bind_ok _ _ _ h
  simp only [pure, Except.pure, Except.ok.injEq, Prod.mk.injEq] at h2
  rw [← h2.1]
  exact Alloc_setView_Cap _ _ _ _ _ h1 (copyInto_length _ _)

theorem WriteByte_Cap_le (j j1 : JBuffer) (c : Nat) (r : Option GoError)
    (h : j.WriteByte c = .ok (j1, r)) : j.Cap ≤ j1.Cap := by
  unfold WriteByte at h
  obtain ⟨⟨ja, m⟩, h1, h2⟩ := bind_ok _ _ _ h
  simp only at h2
  split at h2
  · cases h2
  · simp only [pure, Except.pure, Except.ok.injEq, Prod.mk.injEq] at h2
    rw [← h2.1]
    exact Alloc_setView_Cap _ _ _ _ _ h1 (List.length_set _ _ _)

theorem WriteInt8_Cap_le (j j1 : JBuffer) (i : Int) (h : j.WriteInt8 i = .ok j1) :
    j.Cap ≤ j1.Cap := by
  unfold WriteInt8 at h
  obtain ⟨⟨ja, r⟩, h1, h2⟩ := bind_ok _ _ _ h
  simp only [pure, Except.pure, Except.ok.injEq] at h2
  rw [← h2]
  exact WriteByte_Cap_le _ _ _ _ h1

theorem WriteUint16_Cap_le (j j1 : JBuffer) (i : Nat) (h : j.WriteUint16 i = .ok j1) :
    j.Cap ≤ j1.Cap := by
  unfold WriteUint16 at h
  obtain ⟨⟨ja, m⟩, h1, h2⟩ := bind_ok _ _ _ h
  obtain ⟨w, h3, h4⟩ := bind_ok _ _ _ h2
  simp only [pure, Except.pure, Except.ok.injEq] at h4
  rw [← h4]
  exact Alloc_setView_Cap _ _ _ _ _ h1 (PutUint16_length _ _ _ h3)

theorem WriteUint32_Cap_le (j j1 : JBuffer) (i : Nat) (h : j.WriteUint32 i = .ok j1) :
    j.Cap ≤ j1.Cap := by
  unfold WriteUint32 at h
  obtain ⟨⟨ja, m⟩, h1, h2⟩ := bind_ok _ _ _ h
  obtain ⟨w, h3, h4⟩ := bind_ok _ _ _ h2
  simp only [pure, Except.pure, Except.ok.injEq] at h4
  rw [← h4]
  exact Alloc_setView_Cap _ _ _ _ _ h1 (PutUint32_length _ _ _ h3)

theorem WriteUint64_Cap_le (j j1 : JBuffer) (i : Nat) (h : j.WriteUint64 i = .ok j1) :
    j.Cap ≤ j1.Cap := by
  unfold WriteUint64 at h
  obtain ⟨⟨ja, m⟩, h1, h2⟩ := bind_ok _ _ _ h
  obtain ⟨w, h3, h4⟩ := bind_ok _ _ _ h2
  simp only [pure, Except.pure, Except.ok.injEq] at h4
  rw [← h4]
  exact Alloc_setView_Cap _ _ _ _ _ h1 (PutUint64_length _ _ _ h3)

theorem WriteVar_Cap_le (j j1 : JBuffer) (i : Nat) (h : j.WriteVar i = .ok j1) :
    j.Cap ≤ j1.Cap := by
  unfold WriteVar at h
  obtain ⟨⟨ja, m⟩, h1, h2⟩ := bind_ok _ _ _ h
  obtain ⟨w, h3, h4⟩ := bind_ok _ _ _ h2
  simp only [pure, Except.pure, Except.ok.injEq] at h4
  rw [← h4]
  exact Alloc_setView_Cap _ _ _ _ _ h1 (VarToBytes_length _ _ _ h3)

theorem FillTypeSize_Cap_le (j j1 : JBuffer) (a : Arg) (r : Int × Option GoError)
    (h : j.FillTypeSize a = .ok (j1, r)) : j.Cap ≤ j1.Cap := by
  unfold FillTypeSize at h
  split at h
  · simp only [pure, Except.pure, Except.ok.injEq, Prod.mk.injEq] at h
    rw [← h.1]
  · obtain ⟨⟨ja, m⟩, h1, h2⟩ := bind_ok _ _ _ h
    simp only [pure, Except.pure, Except.ok.injEq, Prod.mk.injEq] at h2
    rw [← h2.1]
    exact tryGrow_Cap_le _ _ _ _ h1

theorem Read_Cap (j j1 : JBuffer) (p : List Nat) (r : List Nat × Int × Option GoError)
    (h : j.Read p = .ok (j1, r)) : j1.Cap = j.Cap := by
  unfold Read at h
  split at h
  · split at h
    · simp only [pure, Except.pure, Except.ok.injEq, Prod.mk.injEq] at h
      rw [← h.1, Reset_Cap]
    · simp only [pure, Except.pure, Except.ok.injEq, Prod.mk.injEq] at h
      rw [← h.1, Reset_Cap]
  · obtain ⟨src, h1, h2⟩ := bind_ok _ _ _ h
    simp only [pure, Except.pure, Except.ok.injEq, Prod.mk.injEq] at h2
    rw [← h2.1]
    rfl

theorem Next_Cap (j j1 : JBuffer) (n : Int) (r : List Nat)
    (h : j.Next n = .ok (j1, r)) : j1.Cap = j.Cap := by
  unfold Next at h
  simp only at h
  generalize (if n > j.Len then j.Len else n) = n1 at h
  split at h
  · cases h
  · simp only [pure, Except.pure, Except.ok.injEq, Prod.mk.injEq] at h
    rw [← h.1]
    rfl

theorem ReadByte_Cap (j j1 : JBuffer) (r : Nat × Option GoError)
    (h : j.ReadByte = .ok (j1, r)) : j1.Cap = j.Cap := by
  unfold ReadByte at h
  split at h
  · simp only [pure, Except.pure, Except.ok.injEq, Prod.mk.injEq] at h
    rw [← h.1, Reset_Cap]
  · split at h
    · simp only [pure, Except.pure, Except.ok.injEq, Prod.mk.injEq] at h
      rw [← h.1]
      rfl
    · cases h

theorem ReadInt8_Cap (j j1 : JBuffer) (r : Int × Option GoError)
    (h : j.ReadInt8 = .ok (j1, r)) : j1.Cap = j.Cap := by
  unfold ReadInt8 at h
  obtain ⟨⟨ja, v, e⟩, h1, h2⟩ := bind_ok _ _ _ h
  simp only [pure, Except.pure, Except.ok.injEq, Prod.mk.injEq] at h2
  rw [← h2.1]
  exact ReadByte_Cap _ _ _ h1

theorem ReadUint16_Cap (j j1 : JBuffer) (r : Nat × Option GoError)
    (h : j.ReadUint16 = .ok (j1, r)) : j1.Cap = j.Cap := by
  unfold ReadUint16 at h
  split at h
  · simp only [pure, Except.pure, Except.ok.injEq, Prod.mk.injEq] at h
    rw [← h.1, Reset_Cap]
  · obtain ⟨b, h1, h2⟩ := bind_ok _ _ _ h
    obtain ⟨v, h3, h4⟩ := bind_ok _ _ _ h2
    simp only [pure, Except.pure, Except.ok.injEq, Prod.mk.injEq] at h4
    rw [← h4.1]
    rfl

theorem ReadUint32_Cap (j j1 : JBuffer) (r : Nat × Option GoError)
    (h : j.ReadUint32 = .ok (j1, r)) : j1.Cap = j.Cap := by
  unfold ReadUint32 at h
  split at h
  · simp only [pure, Except.pure, Except.ok.injEq, Prod.mk.injEq] at h
    rw [← h.1, Reset_Cap]
  · obtain ⟨b, h1, h2⟩ := bind_ok _ _ _ h
    obtain ⟨v, h3, h4⟩ := bind_ok _ _ _ h2
    simp only [pure, Except.pure, Except.ok.injEq, Prod.mk.injEq] at h4
    rw [← h4.1]
    rfl

theorem ReadUint64_Cap (j j1 : JBuffer) (r : Nat × Option GoError)
    (h : j.ReadUint64 = .ok (j1, r)) : j1.Cap = j.Cap := by
  unfold ReadUint64 at h
  split at h
  · simp only [pure, Except.pure, Except.ok.injEq, Prod.mk.injEq] at h
    rw [← h.1, Reset_Cap]
  · obtain ⟨b, h1, h2⟩ := bind_ok _ _ _ h
    obtain ⟨v, h3, h4⟩ := bind_ok _ _ _ h2
    simp only [pure, Except.pure, Except.ok.injEq, Prod.mk.injEq] at h4
    rw [← h4.1]
    rfl

theorem ReadInt16_Cap (j j1 : JBuffer) (r : Int × Option GoError)
    (h : j.ReadInt16 = .ok (j1, r)) : j1.Cap = j.Cap := by
  unfold ReadInt16 at h
  obtain ⟨⟨ja, v, e⟩, h1, h2⟩ := bind_ok _ _ _ h
  simp only [pure, Except.pure, Except.ok.injEq, Prod.mk.injEq] at h2
  rw [← h2.1]
  exact ReadUint16_Cap _ _ _ h1

theorem ReadInt32_Cap (j j1 : JBuffer) (r : Int × Option GoError)
    (h : j.ReadInt32 = .ok (j1, r)) : j1.Cap = j.Cap := by
  unfold ReadInt32 at h
  obtain ⟨⟨ja, v, e⟩, h1, h2⟩ := bind_ok _ _ _ h
  simp only [pure, Except.pure, Except.ok.injEq, Prod.mk.injEq] at h2
  rw [← h2.1]
  exact ReadUint32_Cap _ _ _ h1

theorem ReadInt64_Cap (j j1 : JBuffer) (r : Int × Option GoError)
    (h : j.ReadInt64 = .ok (j1, r)) : j1.Cap = j.Cap := by
  unfold ReadInt64 at h
  obtain ⟨⟨ja, v, e⟩, h1, h2⟩ := bind_ok _ _ _ h
  simp only [pure, Except.pure, Except.ok.injEq, Prod.mk.injEq] at h2
  rw [← h2.1]
  exact ReadUint64_Cap _ _ _ h1

theorem ReadVarint_Cap (j j1 : JBuffer) (r : Nat × Option GoError)
    (h : j.ReadVarint = .ok (j1, r)) : j1.Cap = j.Cap := by
  unfold ReadVarint at h
  split at h
  · simp only [pure, Except.pure, Except.ok.injEq, Prod.mk.injEq] at h
    rw [← h.1, Reset_Cap]
  · obtain ⟨b, h1, h2⟩ := bind_ok _ _ _ h
    simp only at h2
    split at h2
    · simp only [pure, Except.pure, Except.ok.injEq, Prod.mk.injEq] at h2
      rw [← h2.1]
    · simp only [pure, Except.pure, Except.ok.injEq, Prod.mk.injEq] at h2
      rw [← h2.1]
      rfl

theorem Truncate_Cap (j j1 : JBuffer) (n : Int) (h : j.Truncate n = .ok j1) :
    j1.Cap = j.Cap := by
  unfold Truncate at h
  split at h
  · simp only [pure, Except.pure, Except.ok.injEq] at h
    rw [← h, Reset_Cap]
  · split at h
    · cases h
    · exact sliceTo_Cap _ _ _ h

theorem TrimNewline_Cap (j : JBuffer) : j.TrimNewline.Cap = j.Cap := by
  unfold TrimNewline
  split
  · split
    · exact reslice_Cap _ _
    · rfl
  · rfl

theorem WriteAt_Cap (j j1 : JBuffer) (a : Arg) (m : Int) (r : Option GoError)
    (h : j.WriteAt a m = .ok (j1, r)) : j1.Cap = j.Cap := by
  unfold WriteAt at h
  split at h
  · simp only [pure, Except.pure, Except.ok.injEq, Prod.mk.injEq] at h
    rw [← h.1]
  · rename_i hm
    split at h
    · simp only [pure, Except.pure, Except.ok.injEq, Prod.mk.injEq] at h
      rw [← h.1]
    · split at h
      · simp only [pure, Except.pure, Except.ok.injEq, Prod.mk.injEq] at h
        rw [← h.1]
      · rename_i hr
        have hm2 : m.toNat ≤ j.len := by omega
        split at h
        · obtain ⟨w, h1, h2⟩ := bind_ok _ _ _ h
          simp only [pure, Except.pure, Except.ok.injEq, Prod.mk.injEq] at h2
          rw [← h2.1]
          exact setView_Cap _ _ _ hm2 (putFixed_length _ _ _ h1)
        · obtain ⟨w, h1, h2⟩ := bind_ok _ _ _ h
          simp only [pure, Except.pure, Except.ok.injEq, Prod.mk.injEq] at h2
          rw [← h2.1]
          exact setView_Cap _ _ _ hm2 (putFixed_length _ _ _ h1)
        · cases h
        · simp only [pure, Except.pure, Except.ok.injEq, Prod.mk.injEq] at h
          rw [← h.1]

theorem CopyR_Cap_le (j j1 : JBuffer) (d s : Int) (r : Option GoError)
    (h : j.CopyR d s = .ok (j1, r)) : j.Cap ≤ j1.Cap := by
  unfold CopyR at h
  split at h
  · simp only [pure, Except.pure, Except.ok.injEq, Prod.mk.injEq] at h
    rw [← h.1]
  · obtain ⟨⟨ja, m⟩, h1, h2⟩ := bind_ok _ _ _ h
    obtain ⟨w, h3, h4⟩ := bind_ok _ _ _ h2
    simp only [pure, Except.pure, Except.ok.injEq, Prod.mk.injEq] at h4
    have hl := copyRLoop_length _ _ _ _ _ h3
    have hc := (Alloc_inv _ _ _ _ h1).1
    rw [← h4.1]
    show j.Cap ≤ w.length + ja.spare.length
    rw [hl]
    exact hc

theorem Copy_Cap (j j1 : JBuffer) (d s : Int) (r : Option GoError)
    (h : j.Copy d s = .ok (j1, r)) : j1.Cap = j.Cap := by
  unfold Copy at h
  split at h
  · simp only [pure, Except.pure, Except.ok.injEq, Prod.mk.injEq] at h
    rw [← h.1]
  · obtain ⟨dst, h1, h2⟩ := bind_ok _ _ _ h
    obtain ⟨src, h3, h4⟩ := bind_ok _ _ _ h2
    simp only [pure, Except.pure, Except.ok.injEq, Prod.mk.injEq] at h4
    obtain ⟨e1, e2, e3⟩ := sliceFrom_inv _ _ _ h1
    rw [← h4.1]
    refine setView_Cap _ _ _ (by omega) ?_
    rw [copyInto_length, e3]

/-- After any of the calls of `Call` the capacity is at least what it was. -/
theorem after_Cap_le (j j1 : JBuffer) (c : Call) (h : j.after c = .ok j1) :
    j.Cap ≤ j1.Cap := by
  cases c with
  | Write p =>
    obtain ⟨⟨ja, r⟩, h1, h2⟩ := map_ok _ _ _ h
    subst h2; exact Write_Cap_le _ _ _ _ h1
  | WriteString s =>
    obtain ⟨⟨ja, r⟩, h1, h2⟩ := map_ok _ _ _ h
    subst h2; exact WriteString_Cap_le _ _ _ _ h1
  | WriteByte c =>
    obtain ⟨⟨ja, r⟩, h1, h2⟩ := map_ok _ _ _ h
    subst h2; exact WriteByte_Cap_le _ _ _ _ h1
  | WriteInt8 i => exact WriteInt8_Cap_le _ _ _ h
  | WriteUint16 i => exact WriteUint16_Cap_le _ _ _ h
  | WriteInt16 i => exact WriteUint16_Cap_le _ _ _ h
  | WriteUint32 i => exact WriteUint32_Cap_le _ _ _ h
  | WriteInt32 i => exact WriteUint32_Cap_le _ _ _ h
  | WriteUint64 i => exact WriteUint64_Cap_le _ _ _ h
  | WriteInt64 i => exact WriteUint64_Cap_le _ _ _ h
  | WriteVar i => exact WriteVar_Cap_le _ _ _ h
  | AppendInt i extra =>
    simp only [after, pure, Except.pure, Except.ok.injEq] at h
    rw [← h]; exact appendBytes_Cap_le _ _ _
  | AppendUint i extra =>
    simp only [after, pure, Except.pure, Except.ok.injEq] at h
    rw [← h]; exact appendBytes_Cap_le _ _ _
  | AppendBool v extra =>
    simp only [after, pure, Except.pure, Except.ok.injEq] at h
    rw [← h]; exact appendBytes_Cap_le _ _ _
  | Alloc n =>
    obtain ⟨⟨ja, r⟩, h1, h2⟩ := map_ok _ _ _ h
    subst h2; exact (Alloc_inv _ _ _ _ h1).1
  | Grow n => exact Grow_Cap_le _ _ _ h
  | FillTypeSize a =>
    obtain ⟨⟨ja, r⟩, h1, h2⟩ := map_ok _ _ _ h
    subst h2; exact FillTypeSize_Cap_le _ _ _ _ h1
  | Read p =>
    obtain ⟨⟨ja, r⟩, h1, h2⟩ := map_ok _ _ _ h
    subst h2; exact Nat.le_of_eq (Read_Cap _ _ _ _ h1).symm
  | Next n =>
    obtain ⟨⟨ja, r⟩, h1, h2⟩ := map_ok _ _ _ h
    subst h2; exact Nat.le_of_eq (Next_Cap _ _ _ _ h1).symm
  | ReadByte =>
    obtain ⟨⟨ja, r⟩, h1, h2⟩ := map_ok _ _ _ h
    subst h2; exact Nat.le_of_eq (ReadByte_Cap _ _ _ h1).symm
  | ReadInt8 =>
    obtain ⟨⟨ja, r⟩, h1, h2⟩ := map_ok _ _ _ h
    subst h2; exact Nat.le_of_eq (ReadInt8_Cap _ _ _ h1).symm
  | ReadUint16 =>
    obtain ⟨⟨ja, r⟩, h1, h2⟩ := map_ok _ _ _ h
    subst h2; exact Nat.le_of_eq (ReadUint16_Cap _ _ _ h1).symm
  | ReadInt16 =>
    obtain ⟨⟨ja, r⟩, h1, h2⟩ := map_ok _ _ _ h
    subst h2; exact Nat.le_of_eq (ReadInt16_Cap _ _ _ h1).symm
  | ReadUint32 =>
    obtain ⟨⟨ja, r⟩, h1, h2⟩ := map_ok _ _ _ h
    subst h2; exact Nat.le_of_eq (ReadUint32_Cap _ _ _ h1).symm
  | ReadInt32 =>
    obtain ⟨⟨ja, r⟩, h1, h2⟩ := map_ok _ _ _ h
    subst h2; exact Nat.le_of_eq (ReadInt32_Cap _ _ _ h1).symm
  | ReadUint64 =>
    obtain ⟨⟨ja, r⟩, h1, h2⟩ := map_ok _ _ _ h
    subst h2; exact Nat.le_of_eq (ReadUint64_Cap _ _ _ h1).symm
  | ReadInt64 =>
    obtain ⟨⟨ja, r⟩, h1, h2⟩ := map_ok _ _ _ h
    subst h2; exact Nat.le_of_eq (ReadInt64_Cap _ _ _ h1).symm
  | ReadVarint =>
    obtain ⟨⟨ja, r⟩, h1, h2⟩ := map_ok _ _ _ h
    subst h2; exact Nat.le_of_eq (ReadVarint_Cap _ _ _ h1).symm
  | Truncate n => exact Nat.le_of_eq (Truncate_Cap _ _ _ h).symm
  | Reset =>
    simp only [after, pure, Except.pure, Except.ok.injEq] at h
    rw [← h, Reset_Cap]
  | TrimNewline =>
    simp only [after, pure, Except.pure, Except.ok.injEq] at h
    rw [← h, TrimNewline_Cap]
  | WriteAt a m =>
    obtain ⟨⟨ja, r⟩, h1, h2⟩ := map_ok _ _ _ h
    subst h2; exact Nat.le_of_eq (WriteAt_Cap _ _ _ _ _ h1).symm
  | CopyR d s =>
    obtain ⟨⟨ja, r⟩, h1, h2⟩ := map_ok _ _ _ h
    subst h2; exact CopyR_Cap_le _ _ _ _ _ h1
  | Copy d s =>
    obtain ⟨⟨ja, r⟩, h1, h2⟩ := map_ok _ _ _ h
    subst h2; exact Nat.le_of_eq (Copy_Cap _ _ _ _ _ h1).symm

end JBuffer

/-- C35: whatever the state of the buffer, when one of the calls of `Call` (the writers,
the text appends, `Alloc`, `Grow`, `FillTypeSize`, the readers, `Truncate`, `Reset`,
`TrimNewline`, `WriteAt`, `CopyR`, `Copy`) returns, `Cap()` is at least what it was
before the call; `Reset` always returns and keeps `Cap()`, and a `Truncate` that
returns keeps `Cap()`. -/
theorem Cap_only_grows (j j1 : JBuffer) (c : Call) (h : j.after c = .ok j1) :
    j.Cap ≤ j1.Cap ∧ j.Reset.Cap = j.Cap ∧ j.after Call.Reset = .ok j.Reset ∧
    ((∃ n, c = Call.Truncate n) → j1.Cap = j.Cap) := by
  refine ⟨JBuffer.after_Cap_le j j1 c h, JBuffer.Reset_Cap j, rfl, ?_⟩
  rintro ⟨n, rfl⟩
  exact JBuffer.Truncate_Cap _ _ _ h

theorem Cap_only_grows_witness :
    (JBuffer.mk [1, 2] [0] 0 false).after (Call.Write [3, 4, 5])
      = .ok (JBuffer.mk [1, 2, 3, 4, 5] [0, 0, 0, 0] 0 false) ∧
    (JBuffer.mk [1, 2] [0] 0 false).Cap = 3 ∧
    (JBuffer.mk [1, 2, 3, 4, 5] [0, 0, 0, 0] 0 false).Cap = 9 ∧
    (JBuffer.mk [1, 2] [0] 0 false).Cap ≤ (JBuffer.mk [1, 2, 3, 4, 5] [0, 0, 0, 0] 0 false).Cap :=
  ⟨rfl, rfl, rfl,
    (Cap_only_grows (JBuffer.mk [1, 2] [0] 0 false)
      (JBuffer.mk [1, 2, 3, 4, 5] [0, 0, 0, 0] 0 false) (Call.Write [3, 4, 5]) rfl).1⟩

/-! ## The reallocation branch of `grow` -/

namespace JBuffer

theorem reallocated_spec (j : JBuffer) (n : Nat) (hinv : j.off ≤ j.len) :
    (j.reallocated n).Cap = 2 * j.Cap + n ∧ (j.reallocated n).off = 0 ∧
    (j.reallocated n).len = j.len - j.off + n ∧
    (j.reallocated n).buf = j.buf.drop j.off ++ List.replicate n 0 := by
  have hCap : j.Cap = j.buf.length + j.spare.length := rfl
  have hlen : j.len = j.buf.length := rfl
  have hsl : (j.buf.drop j.off).length = j.len - j.off := by simp [len]
  have hfit : j.len - j.off + n ≤ (JBuffer.mk (copyInto (List.replicate (2 * j.Cap + n) 0)
      (j.buf.drop j.off)) [] 0 false).Cap := by
    simp only [Cap, copyInto_length, List.length_replicate, List.length_nil]
    omega
  refine ⟨?_, rfl, reslice_buf_length _ _ hfit, ?_⟩
  · unfold reallocated
    rw [reslice_Cap]
    simp [Cap, copyInto_length]
  · unfold reallocated
    simp only [reslice, List.append_nil]
    rw [copyInto_of_le _ _ (by simp; omega), ← hsl, List.take_append, List.drop_replicate,
      List.take_replicate]
    congr 2
    rw [hsl]
    omega

/-- The reallocation branch of `grow` when no reset is pending. -/
theorem grow_realloc_noreset (j : JBuffer) (n : Nat) (hinv : j.off ≤ j.len)
    (hr : ¬ (j.Len = 0 ∧ j.off ≠ 0)) (hnf : j.spare.length < n)
    (hsmall : ¬ (j.isNil = true ∧ (n : Int) ≤ (smallBufferSize : Int)))
    (hcomp : ¬ ((n : Int) ≤ (j.Cap : Int) / 2 - j.Len)) :
    (maxInt < 2 * (j.Cap : Int) + n → j.grow (n : Int) = .error Panic.errTooLarge) ∧
    (2 * (j.Cap : Int) + n ≤ maxInt →
      j.grow (n : Int) = .ok (j.reallocated n, ((j.len - j.off : Nat) : Int))) := by
  have hsrc := sliceFrom_ok j j.off hinv
  have hCap : j.Cap = j.buf.length + j.spare.length := rfl
  have hlen : j.len = j.buf.length := rfl
  have hmn : ((j.len - j.off : Nat) : Int) + (n : Int) = ((j.len - j.off + n : Nat) : Int) := by
    omega
  have hm : j.Len = ((j.len - j.off : Nat) : Int) := by simp only [Len]; omega
  rw [hm] at hcomp
  constructor
  · intro hbig
    have hb : (j.Cap : Int) > maxInt - (j.Cap : Int) - (n : Int) := by omega
    simp only [grow, hr, if_false, tryGrowByReslice_nofit _ _ hnf, bind, Except.bind, pure,
      Except.pure, Bool.false_eq_true]
    simp only [hsrc, hm, hmn]
    simp only [hsmall, hcomp, hb, if_true, if_false]
    rfl
  · intro hle
    have hb : ¬ ((j.Cap : Int) > maxInt - (j.Cap : Int) - (n : Int)) := by omega
    have hN : (2 * (j.Cap : Int) + (n : Int)).toNat = 2 * j.Cap + n := by omega
    have hneg : ¬ (2 * (j.Cap : Int) + (n : Int) < 0) := by omega
    have hfit : j.len - j.off + n ≤ (JBuffer.mk (copyInto (List.replicate (2 * j.Cap + n) 0)
        (j.buf.drop j.off)) [] 0 false).Cap := by
      simp only [Cap, copyInto_length, List.length_replicate, List.length_nil]
      omega
    simp only [grow, hr, if_false, tryGrowByReslice_nofit _ _ hnf, bind, Except.bind, pure,
      Except.pure, Bool.false_eq_true]
    simp only [hsrc, hm, hmn]
    simp only [hsmall, hcomp, hb, if_false, hneg, hN, sliceTo_ok _ _ hfit]
    rfl

/-- The reallocation branch of `grow`: entered when the request can be served neither by
reslicing (after the reset of a drained buffer), nor by the small first allocation, nor
by compaction. -/
theorem grow_realloc (j : JBuffer) (n : Nat) (hinv : j.off ≤ j.len)
    (hres : (if j.Len = 0 then j.Cap else j.spare.length) < n)
    (hsmall : ¬ (j.isNil = true ∧ (n : Int) ≤ (smallBufferSize : Int)))
    (hcomp : (j.Cap : Int) / 2 - j.Len < (n : Int)) :
    (maxInt < 2 * (j.Cap : Int) + n → j.grow (n : Int) = .error Panic.errTooLarge) ∧
    (2 * (j.Cap : Int) + n ≤ maxInt →
      j.grow (n : Int) = .ok (j.reallocated n, j.Len)) := by
  have hCap : j.Cap = j.buf.length + j.spare.length := rfl
  have hlen : j.len = j.buf.length := rfl
  have hm : j.Len = ((j.len - j.off : Nat) : Int) := by simp only [Len]; omega
  by_cases hr : j.Len = 0 ∧ j.off ≠ 0
  · have hoff : j.off = j.len := by have := hr.1; simp only [Len] at this; omega
    have hbuf : j.buf ≠ [] := by
      intro hb
      have : j.len = 0 := by rw [hlen, hb]; rfl
      exact hr.2 (by omega)
    have hd : j.buf.drop j.off = [] := List.drop_eq_nil_of_le (by omega)
    rw [if_pos hr.1] at hres
    have hnil : ¬ (j.Reset.isNil = true ∧ (n : Int) ≤ (smallBufferSize : Int)) := by
      intro hh
      have := hh.1
      simp only [isNil, Bool.and_eq_true, List.isEmpty_iff, Reset_spare,
        List.append_eq_nil] at this
      exact hbuf this.2.1
    have hsp : j.Reset.spare.length < n := by
      rw [Reset_spare, List.length_append]; omega
    have hcr : ¬ ((n : Int) ≤ (j.Reset.Cap : Int) / 2 - j.Reset.Len) := by
      rw [Reset_Cap, Reset_Len]; rw [hr.1] at hcomp; omega
    have key := grow_realloc_noreset j.Reset n (by simp) (by simp) hsp hnil hcr
    have hre : j.Reset.reallocated n = j.reallocated n := by
      have hd2 : List.drop j.len j.buf = [] := by rw [← hoff]; exact hd
      simp only [reallocated, Reset_Cap, Reset_buf, Reset_off, Reset_len, List.drop_zero,
        hoff, Nat.sub_self, hd2]
    rw [grow_reset j n hr, hr.1]
    rw [Reset_Cap, hre] at key
    simpa using key
  · have hnf : j.spare.length < n := by
      by_cases h0 : j.Len = 0
      · rw [if_pos h0] at hres; omega
      · rw [if_neg h0] at hres; exact hres
    have key := grow_realloc_noreset j n hinv hr hnf hsmall (by omega)
    rw [hm]
    exact key

end JBuffer

theorem wrapInt_id (x : Int) (h1 : -(2 ^ 63) ≤ x) (h2 : x < 2 ^ 63) : wrapInt x = x := by
  unfold wrapInt
  omega

namespace JBuffer

theorem growAlloc_reset (alloc : Nat → Bool) (j : JBuffer) (n : Int)
    (hr : j.Len = 0 ∧ j.off ≠ 0) :
    j.growAlloc alloc n = j.Reset.growAlloc alloc n := by
  simp only [growAlloc, hr.1, hr.2, Reset_Len, Reset_off, ne_eq, not_false_eq_true,
    not_true_eq_false, and_self, and_false, if_true, if_false]

/-- When the run time allocates every size, `growAlloc` is `grow`. -/
theorem growAlloc_all (j : JBuffer) (n : Int) : j.growAlloc (fun _ => true) n = j.grow n := by
  have hm : ∀ k : Int, makeSlice (fun _ => true) k
      = if k < 0 then throw Panic.errTooLarge else pure (List.replicate k.toNat 0) := by
    intro k
    simp only [makeSlice, Bool.true_eq_false, or_false]
  unfold growAlloc grow
  simp only [hm]
  congr 1
  funext r
  obtain ⟨j1, i, ok⟩ := r
  simp only
  split
  · rfl
  · split
    · rfl
    · split
      · rfl
      · split
        · rfl
        · split
          · rfl
          · rfl

/-- The reallocation branch of `growAlloc` when no reset is pending. -/
theorem growAlloc_realloc_noreset (alloc : Nat → Bool) (j : JBuffer) (n : Nat)
    (hinv : j.off ≤ j.len) (hr : ¬ (j.Len = 0 ∧ j.off ≠ 0)) (hnf : j.spare.length < n)
    (hsmall : ¬ (j.isNil = true ∧ (n : Int) ≤ (smallBufferSize : Int)))
    (hcomp : ¬ ((n : Int) ≤ (j.Cap : Int) / 2 - j.Len)) :
    (maxInt < 2 * (j.Cap : Int) + n ∨ alloc (2 * j.Cap + n) = false →
      j.growAlloc alloc (n : Int) = .error Panic.errTooLarge) ∧
    (2 * (j.Cap : Int) + n ≤ maxInt → alloc (2 * j.Cap + n) = true →
      j.growAlloc alloc (n : Int) = .ok (j.reallocated n, ((j.len - j.off : Nat) : Int))) := by
  have hsrc := sliceFrom_ok j j.off hinv
  have hCap : j.Cap = j.buf.length + j.spare.length := rfl
  have hlen : j.len = j.buf.length := rfl
  have hmn : ((j.len - j.off : Nat) : Int) + (n : Int) = ((j.len - j.off + n : Nat) : Int) := by
    omega
  have hm : j.Len = ((j.len - j.off : Nat) : Int) := by simp only [Len]; omega
  have hN : (2 * (j.Cap : Int) + (n : Int)).toNat = 2 * j.Cap + n := by omega
  have hneg : ¬ (2 * (j.Cap : Int) + (n : Int) < 0) := by omega
  rw [hm] at hcomp
  constructor
  · intro hbig
    by_cases hb : (j.Cap : Int) > maxInt - (j.Cap : Int) - (n : Int)
    · simp only [growAlloc, hr, if_false, tryGrowByReslice_nofit _ _ hnf, bind, Except.bind,
        pure, Except.pure, Bool.false_eq_true]
      simp only [hsrc, hm, hmn]
      simp only [hsmall, hcomp, hb, if_true, if_false]
      rfl
    · have ha : alloc (2 * j.Cap + n) = false := by
        rcases hbig with h | h
        · exact absurd (by omega) hb
        · exact h
      have hms : makeSlice alloc (2 * (j.Cap : Int) + (n : Int))
          = .error Panic.errTooLarge := by
        simp only [makeSlice, hneg, hN, ha, false_or, if_true]
        rfl
      simp only [growAlloc, hr, if_false, tryGrowByReslice_nofit _ _ hnf, bind, Except.bind,
        pure, Except.pure, Bool.false_eq_true]
      simp only [hsrc, hm, hmn]
      simp only [hsmall, hcomp, hb, if_false, hms]
  · intro hle ha
    have hb : ¬ ((j.Cap : Int) > maxInt - (j.Cap : Int) - (n : Int)) := by omega
    have hms : makeSlice alloc (2 * (j.Cap : Int) + (n : Int))
        = .ok (List.replicate (2 * j.Cap + n) 0) := by
      simp only [makeSlice, hneg, hN, ha, Bool.true_eq_false, or_self, if_false, pure,
        Except.pure]
    have hfit : j.len - j.off + n ≤ (JBuffer.mk (copyInto (List.replicate (2 * j.Cap + n) 0)
        (j.buf.drop j.off)) [] 0 false).Cap := by
      simp only [Cap, copyInto_length, List.length_replicate, List.length_nil]
      omega
    simp only [growAlloc, hr, if_false, tryGrowByReslice_nofit _ _ hnf, bind, Except.bind,
      pure, Except.pure, Bool.false_eq_true]
    simp only [hsrc, hm, hmn]
    simp only [hsmall, hcomp, hb, if_false, hms, sliceTo_ok _ _ hfit]
    rfl

/-- The reallocation branch of `growAlloc`: entered when the request can be served
neither by reslicing (after the reset of a drained buffer), nor by the small first
allocation, nor by compaction. -/
theorem growAlloc_realloc (alloc : Nat → Bool) (j : JBuffer) (n : Nat) (hinv : j.off ≤ j.len)
    (hres : (if j.Len = 0 then j.Cap else j.spare.length) < n)
    (hsmall : ¬ (j.isNil = true ∧ (n : Int) ≤ (smallBufferSize : Int)))
    (hcomp : (j.Cap : Int) / 2 - j.Len < (n : Int)) :
    (maxInt < 2 * (j.Cap : Int) + n ∨ alloc (2 * j.Cap + n) = false →
      j.growAlloc alloc (n : Int) = .error Panic.errTooLarge) ∧
    (2 * (j.Cap : Int) + n ≤ maxInt → alloc (2 * j.Cap + n) = true →
      j.growAlloc alloc (n : Int) = .ok (j.reallocated n, j.Len)) := by
  have hCap : j.Cap = j.buf.length + j.spare.length := rfl
  have hlen : j.len = j.buf.length := rfl
  have hm : j.Len = ((j.len - j.off : Nat) : Int) := by simp only [Len]; omega
  by_cases hr : j.Len = 0 ∧ j.off ≠ 0
  · have hoff : j.off = j.len := by have := hr.1; simp only [Len] at this; omega
    have hbuf : j.buf ≠ [] := by
      intro hb
      have : j.len = 0 := by rw [hlen, hb]; rfl
      exact hr.2 (by omega)
    have hd : j.buf.drop j.off = [] := List.drop_eq_nil_of_le (by omega)
    rw [if_pos hr.1] at hres
    have hnil : ¬ (j.Reset.isNil = true ∧ (n : Int) ≤ (smallBufferSize : Int)) := by
      intro hh
      have := hh.1
      simp only [isNil, Bool.and_eq_true, List.isEmpty_iff, Reset_spare,
        List.append_eq_nil] at this
      exact hbuf this.2.1
    have hsp : j.Reset.spare.length < n := by
      rw [Reset_spare, List.length_append]; omega
    have hcr : ¬ ((n : Int) ≤ (j.Reset.Cap : Int) / 2 - j.Reset.Len) := by
      rw [Reset_Cap, Reset_Len]; rw [hr.1] at hcomp; omega
    have key := growAlloc_realloc_noreset alloc j.Reset n (by simp) (by simp) hsp hnil hcr
    have hre : j.Reset.reallocated n = j.reallocated n := by
      have hd2 : List.drop j.len j.buf = [] := by rw [← hoff]; exact hd
      simp only [reallocated, Reset_Cap, Reset_buf, Reset_off, Reset_len, List.drop_zero,
        hoff, Nat.sub_self, hd2]
    rw [growAlloc_reset alloc j n hr, hr.1]
    rw [Reset_Cap, hre] at key
    simpa using key
  · have hnf : j.spare.length < n := by
      by_cases h0 : j.Len = 0
      · rw [if_pos h0] at hres; omega
      · rw [if_neg h0] at hres; exact hres
    have key := growAlloc_realloc_noreset alloc j n hinv hr hnf hsmall (by omega)
    rw [hm]
    exact key

end JBuffer

/-- C37, counterexample: on a run time that allocates at most `2 ^ 48` bytes at once, the
zero-value buffer asked to grow by `2 ^ 62` bytes enters the reallocation branch
(`c = 0`, `m = 0`, `n > c/2 - m`, no reslice, no small allocation) and `grow` panics
with `ErrTooLarge`, raised by `makeSlice`, although `2c + n = 2 ^ 62` does not exceed
`maxInt`. -/
theorem grow_too_large_below_maxInt :
    JBuffer.zero.growAlloc (fun k => decide (k ≤ 2 ^ 48)) (2 ^ 62)
      = .error Panic.errTooLarge ∧
    ¬ (maxInt < 2 * (JBuffer.zero.Cap : Int) + 2 ^ 62) ∧
    (JBuffer.zero.Cap : Int) / 2 - JBuffer.zero.Len < 2 ^ 62 ∧
    ¬ (JBuffer.zero.isNil = true ∧ (2 ^ 62 : Int) ≤ (smallBufferSize : Int)) ∧
    JBuffer.zero.tryGrowByReslice (2 ^ 62) = .ok (JBuffer.zero, 0, false) :=
  ⟨rfl, by decide, by decide, by decide, rfl⟩

/-- C37: for a buffer with `off ≤ len(buf)`, capacity `c` and `m = Len()` unread bytes, and
a count `n ≥ 0` that cannot be served by reslicing (after the reset of a drained
buffer), by the small first allocation or by compaction (`n > c/2 - m`), `grow(n)`
panics with `ErrTooLarge` exactly when `2c + n > maxInt` or the run time does not
allocate the `2c + n` bytes that `makeSlice` asks for, and otherwise returns `m` with a
new array of capacity exactly `2c + n` that starts with the unread bytes; the guard
`c > maxInt-c-n`, evaluated with wrapping `int` subtractions, takes no wrap and is the
comparison `2c + n > maxInt`. -/
theorem grow_reallocation_arithmetic (alloc : Nat → Bool) (j : JBuffer) (n : Nat)
    (hinv : j.off ≤ j.len) (hc : (j.Cap : Int) ≤ maxInt) (hn : (n : Int) ≤ maxInt)
    (hres : (if j.Len = 0 then j.Cap else j.spare.length) < n)
    (hsmall : ¬ (j.isNil = true ∧ (n : Int) ≤ (smallBufferSize : Int)))
    (hcomp : (j.Cap : Int) / 2 - j.Len < (n : Int)) :
    (j.growAlloc alloc (n : Int) = .error Panic.errTooLarge ↔
      (maxInt < 2 * (j.Cap : Int) + n ∨ alloc (2 * j.Cap + n) = false)) ∧
    (2 * (j.Cap : Int) + n ≤ maxInt → alloc (2 * j.Cap + n) = true →
      ∃ j1 : JBuffer, j.growAlloc alloc (n : Int) = .ok (j1, j.Len) ∧
        j1.Cap = 2 * j.Cap + n ∧ j1.off = 0 ∧
        j1.buf = j.buf.drop j.off ++ List.replicate n 0) ∧
    wrapInt (maxInt - (j.Cap : Int)) = maxInt - (j.Cap : Int) ∧
    wrapInt (wrapInt (maxInt - (j.Cap : Int)) - (n : Int)) = maxInt - (j.Cap : Int) - (n : Int) ∧
    growGuard (j.Cap : Int) (n : Int) = decide (maxInt < 2 * (j.Cap : Int) + n) ∧
    j.growAlloc (fun _ => true) (n : Int) = j.grow (n : Int) := by
  obtain ⟨k1, k2⟩ := JBuffer.growAlloc_realloc alloc j n hinv hres hsmall hcomp
  obtain ⟨s1, s2, s3, s4⟩ := JBuffer.reallocated_spec j n hinv
  have hM : maxInt = 2 ^ 63 - 1 := rfl
  have w1 : wrapInt (maxInt - (j.Cap : Int)) = maxInt - (j.Cap : Int) :=
    wrapInt_id _ (by omega) (by omega)
  have w2 : wrapInt (wrapInt (maxInt - (j.Cap : Int)) - (n : Int))
      = maxInt - (j.Cap : Int) - (n : Int) := by
    rw [w1]; exact wrapInt_id _ (by omega) (by omega)
  refine ⟨⟨?_, k1⟩, ?_, w1, w2, ?_, JBuffer.growAlloc_all j _⟩
  · intro he
    by_contra hcon
    have h1 : 2 * (j.Cap : Int) + n ≤ maxInt := by
      by_contra h; exact hcon (Or.inl (by omega))
    have h2 : alloc (2 * j.Cap + n) = true := by
      cases ha : alloc (2 * j.Cap + n) with
      | true => rfl
      | false => exact absurd (Or.inr ha) hcon
    rw [k2 h1 h2] at he
    cases he
  · intro hle ha
    exact ⟨_, k2 hle ha, s1, s2, s4⟩
  · unfold growGuard
    rw [w2]
    apply decide_eq_decide.mpr
    constructor <;> intro h <;> omega

/-- Witness of C37: a full 3-byte array with 2 unread bytes asked for 3 more bytes, on a
run time that allocates every size. -/
theorem grow_reallocation_arithmetic_witness :
    (JBuffer.mk [1, 2] [0] 0 false).growAlloc (fun _ => true) 3
      = .ok (JBuffer.mk [1, 2, 0, 0, 0] [0, 0, 0, 0] 0 false, 2) ∧
    (JBuffer.mk [1, 2, 0, 0, 0] [0, 0, 0, 0] 0 false).Cap
      = 2 * (JBuffer.mk [1, 2] [0] 0 false).Cap + 3 ∧
    ((JBuffer.mk [1, 2] [0] 0 false).growAlloc (fun _ => true) ((3 : Nat) : Int)
        = .error Panic.errTooLarge ↔
      (maxInt < 2 * ((JBuffer.mk [1, 2] [0] 0 false).Cap : Int) + (3 : Nat) ∨
        (fun _ => true) (2 * (JBuffer.mk [1, 2] [0] 0 false).Cap + 3) = false)) :=
  ⟨rfl, rfl,
    (grow_reallocation_arithmetic (fun _ => true) (JBuffer.mk [1, 2] [0] 0 false) 3
      (by decide) (by decide) (by decide) (by decide) (by decide) (by decide)).1⟩

/-! ## TrimNewline and the guards of the shift primitives -/

namespace JBuffer

/-- When unread bytes remain, `TrimNewline` removes a final newline from them and
leaves them alone otherwise; the read offset is unchanged. -/
theorem TrimNewline_unread (j : JBuffer) (h : j.off < j.len) :
    j.TrimNewline.off = j.off ∧
    j.TrimNewline.Bytes = .ok
      (if (j.buf.drop j.off).getLast? = some 10 then (j.buf.drop j.off).dropLast
       else j.buf.drop j.off) := by
  have hlen : j.len = j.buf.length := rfl
  have h1 : 1 ≤ j.len := by omega
  have hlast : (j.buf.drop j.off).getLast? = some (j.buf.getD (j.len - 1) 0) := by
    rw [List.getLast?_drop, if_neg (by omega), List.getLast?_eq_getElem?,
      List.getD_eq_getElem?_getD, hlen, List.getElem?_eq_getElem (by omega)]
    rfl
  by_cases hn : j.buf.getD (j.len - 1) 0 = 10
  · have e : j.TrimNewline = j.reslice (j.len - 1) := by
      simp only [TrimNewline, h1, if_true, hn]
    have hb : (j.reslice (j.len - 1)).buf = j.buf.take (j.len - 1) := by
      simp only [reslice, List.take_append_of_le_length (show j.len - 1 ≤ j.buf.length by omega)]
    refine ⟨by rw [e]; rfl, ?_⟩
    rw [e, Bytes_ok _ (by
      show j.off ≤ (j.reslice (j.len - 1)).buf.length
      rw [hb, List.length_take]; omega)]
    rw [hlast, hn, if_pos rfl, hb]
    show Except.ok (List.drop j.off (List.take (j.len - 1) j.buf)) = _
    rw [List.dropLast_eq_take, List.length_drop, List.drop_take]
    congr 2
    omega
  · have e : j.TrimNewline = j := by
      simp only [TrimNewline, h1, if_true, hn, if_false]
    refine ⟨by rw [e], ?_⟩
    rw [e, Bytes_ok _ (by omega), hlast]
    rw [if_neg (by simpa using hn)]

end JBuffer

/-- C39: on a buffer whose only byte, a newline, has been read (`len(buf) = 1`,
`off = 1`), `Bytes()` is empty; `TrimNewline()` cuts the consumed newline off, leaving
`len(buf) = 0` below `off = 1`, and `Bytes()` then panics.  The same happens on
`01 0a` with both bytes read. -/
theorem TrimNewline_cuts_consumed_newline :
    (JBuffer.mk [10] [] 1 false).Bytes = .ok [] ∧
    (JBuffer.mk [10] [] 1 false).TrimNewline = JBuffer.mk [] [10] 1 false ∧
    (JBuffer.mk [10] [] 1 false).TrimNewline.Bytes = .error Panic.sliceBounds ∧
    (JBuffer.mk [1, 10] [] 2 false).Bytes = .ok [] ∧
    (JBuffer.mk [1, 10] [] 2 false).TrimNewline.Bytes = .error Panic.sliceBounds :=
  ⟨rfl, rfl, rfl, rfl, rfl⟩

/-- C40: on the buffer `01 02 03 04` with nothing consumed (so `off ≤ len(buf)`), the
guard of `CopyR` lets `CopyR(0, -1)` pass and the loop then indexes `buf[-1]`; the guard
of `Copy` lets `Copy(1, 10)` and `Copy(-1, 2)` pass and the slice expressions
`buf[10:]`, `buf[-1:]` are out of range.  Each call panics instead of returning an
error. -/
theorem shift_guards_let_panics_through :
    (JBuffer.mk [1, 2, 3, 4] [0, 0] 0 false).off ≤ (JBuffer.mk [1, 2, 3, 4] [0, 0] 0 false).len ∧
    (JBuffer.mk [1, 2, 3, 4] [0, 0] 0 false).CopyR 0 (-1) = .error Panic.indexOutOfRange ∧
    (JBuffer.mk [1, 2, 3, 4] [0, 0] 0 false).Copy 1 10 = .error Panic.sliceBounds ∧
    (JBuffer.mk [1, 2, 3, 4] [0, 0] 0 false).Copy (-1) 2 = .error Panic.sliceBounds :=
  ⟨by decide, rfl, rfl, rfl⟩

theorem digitAt_ok (x : Nat) (h : x < 10) : digitAt (x : Int) = .ok (48 + x) := by
  have h1 : (0 : Int) ≤ (x : Int) ∧ (x : Int) < 10 := by omega
  simp only [digitAt, h1, and_self, if_true, Int.toNat_ofNat, pure, Except.pure]

theorem storeAt_ok (tmp : List Nat) (i : Nat) (v : Nat) (h : i < tmp.length) :
    storeAt tmp (i : Int) v = .ok (tmp.set i v) := by
  have h1 : (0 : Int) ≤ (i : Int) ∧ (i : Int) < (tmp.length : Int) := by omega
  simp only [storeAt, h1, and_self, if_true, Int.toNat_ofNat, pure, Except.pure]

theorem tmod_ten (x : Nat) : ((x : Int)).tmod 10 = ((x % 10 : Nat) : Int) := by
  rw [Int.ofNat_tmod]; rfl

theorem tdiv_ten (x : Nat) : ((x : Int)).tdiv 10 = ((x / 10 : Nat) : Int) := by
  rw [Int.ofNat_tdiv]; rfl

theorem twoDigits_ok (tmp : List Nat) (i d : Nat) (h : i + 1 < tmp.length) :
    twoDigits tmp (i : Int) (d : Int)
      = .ok ((tmp.set (i + 1) (48 + d % 10)).set i (48 + d / 10 % 10)) := by
  have e1 : ((i : Int) + 1) = ((i + 1 : Nat) : Int) := by omega
  have s2 : storeAt (tmp.set (i + 1) (48 + d % 10)) (i : Int) (48 + d / 10 % 10)
      = .ok ((tmp.set (i + 1) (48 + d % 10)).set i (48 + d / 10 % 10)) :=
    storeAt_ok _ _ _ (by rw [List.length_set]; omega)
  simp only [twoDigits, tmod_ten, tdiv_ten, digitAt_ok _ (Nat.mod_lt _ (by decide : 0 < 10)),
    e1, storeAt_ok _ _ _ h, s2, bind, Except.bind]

theorem length_setDigits : ∀ (k : Nat) (tmp : List Nat) (i d : Nat),
    (setDigits tmp i k d).length = tmp.length := by
  intro k
  induction k with
  | zero => intro tmp i d; rfl
  | succ k ih =>
    intro tmp i d
    rw [setDigits, ih, List.length_set]

theorem nDigitsPad_ok (i : Nat) : ∀ (k : Nat) (tmp : List Nat), i + k ≤ tmp.length →
    nDigitsPad (i : Int) 48 k tmp = .ok (setDigits tmp i k 0) := by
  intro k
  induction k with
  | zero => intro tmp _; rfl
  | succ k ih =>
    intro tmp h
    have e1 : ((i : Int) + (k : Int)) = ((i + k : Nat) : Int) := by omega
    have s1 := storeAt_ok tmp (i + k) 48 (by omega)
    rw [nDigitsPad, e1]
    simp only [s1, bind, Except.bind]
    rw [ih _ (by rw [List.length_set]; omega)]
    rfl

theorem nDigitsDigits_ok (i : Nat) : ∀ (k d : Nat) (tmp : List Nat), i + k ≤ tmp.length →
    ∃ (k1 : Nat) (tmp1 : List Nat), nDigitsDigits (i : Int) k (d : Int) tmp = .ok (k1, tmp1) ∧
      nDigitsPad (i : Int) 48 k1 tmp1 = .ok (setDigits tmp i k d) := by
  intro k
  induction k with
  | zero =>
    intro d tmp _
    exact ⟨0, tmp, rfl, rfl⟩
  | succ k ih =>
    intro d tmp h
    by_cases hd : 0 < d
    · have hd1 : (d : Int) > 0 := by omega
      have e1 : ((i : Int) + (k : Int)) = ((i + k : Nat) : Int) := by omega
      have s1 := storeAt_ok tmp (i + k) (48 + d % 10) (by omega)
      obtain ⟨k1, tmp1, h1, h2⟩ := ih (d / 10) (tmp.set (i + k) (48 + d % 10))
        (by rw [List.length_set]; omega)
      refine ⟨k1, tmp1, ?_, ?_⟩
      · rw [nDigitsDigits, if_pos hd1, tmod_ten, tdiv_ten,
          digitAt_ok _ (Nat.mod_lt _ (by decide : 0 < 10)), e1]
        simp only [s1, bind, Except.bind]
        exact h1
      · rw [h2, setDigits]
    · have hd0 : d = 0 := by omega
      subst hd0
      refine ⟨k + 1, tmp, ?_, nDigitsPad_ok i (k + 1) tmp h⟩
      rw [nDigitsDigits, if_neg (by decide)]
      rfl

theorem nDigits_ok (tmp : List Nat) (n i d : Nat) (h : i + n ≤ tmp.length) :
    nDigits tmp (n : Int) (i : Int) (d : Int) 48 = .ok (setDigits tmp i n d) := by
  obtain ⟨k1, tmp1, h1, h2⟩ := nDigitsDigits_ok i n d tmp h
  simp only [nDigits, Int.toNat_ofNat, h1, bind, Except.bind, h2]

theorem formatBits_acc : ∀ (fuel u : Nat) (acc : List Nat),
    formatBits fuel u acc = formatBits fuel u [] ++ acc := by
  intro fuel
  induction fuel with
  | zero => intro u acc; rfl
  | succ fuel ih =>
    intro u acc
    by_cases hu : 10 ≤ u
    · rw [formatBits, if_pos hu, ih, formatBits, if_pos hu, ih (u / 10) [48 + u % 10]]
      simp
    · rw [formatBits, if_neg hu, formatBits, if_neg hu]
      rfl

theorem formatBits_length_le : ∀ (fuel u : Nat), (formatBits fuel u []).length ≤ fuel + 1 := by
  intro fuel
  induction fuel with
  | zero => intro u; simp [formatBits]
  | succ fuel ih =>
    intro u
    by_cases hu : 10 ≤ u
    · rw [formatBits, if_pos hu, formatBits_acc]
      have := ih (u / 10)
      simp only [List.length_append, List.length_singleton]
      omega
    · rw [formatBits, if_neg hu]
      simp

theorem formatBits_length_pos (fuel u : Nat) : 1 ≤ (formatBits fuel u []).length := by
  cases fuel with
  | zero => simp [formatBits]
  | succ fuel =>
    by_cases hu : 10 ≤ u
    · rw [formatBits, if_pos hu, formatBits_acc]
      simp
    · rw [formatBits, if_neg hu]
      simp

/-- The loop of `someDigits` puts the decimal digits of `x` right below index `j`. -/
theorem someDigitsLoop_ok : ∀ (fuel x j : Nat) (tmp : List Nat), x < 10 ^ (fuel + 1) →
    (formatBits fuel x []).length ≤ j → j ≤ tmp.length →
    someDigitsLoop j (x : Int) tmp
      = .ok (j - (formatBits fuel x []).length,
          tmp.take (j - (formatBits fuel x []).length) ++ formatBits fuel x [] ++ tmp.drop j) := by
  intro fuel
  induction fuel with
  | zero =>
    intro x j tmp hx hj hl
    have hx10 : x < 10 := by simpa using hx
    have hF : formatBits 0 x [] = [48 + x % 10] := rfl
    rw [hF] at hj ⊢
    simp only [List.length_singleton] at hj ⊢
    obtain ⟨j1, rfl⟩ : ∃ j1, j = j1 + 1 := ⟨j - 1, by omega⟩
    have s1 := storeAt_ok tmp j1 (48 + x % 10) (by omega)
    have hz : ((x / 10 : Nat) : Int) = 0 := by
      have : x / 10 = 0 := by omega
      rw [this]; rfl
    rw [someDigitsLoop, tmod_ten, tdiv_ten, digitAt_ok _ (Nat.mod_lt _ (by decide : 0 < 10))]
    simp only [s1, bind, Except.bind, hz, if_true, pure, Except.pure, Nat.add_sub_cancel]
    rw [List.set_eq_take_append_cons_drop, if_pos (by omega)]
    simp
  | succ fuel ih =>
    intro x j tmp hx hj hl
    by_cases hu : 10 ≤ x
    · have hF : formatBits (fuel + 1) x [] = formatBits fuel (x / 10) [] ++ [48 + x % 10] := by
        rw [formatBits, if_pos hu, formatBits_acc]
      rw [hF] at hj ⊢
      simp only [List.length_append, List.length_singleton] at hj ⊢
      obtain ⟨j1, rfl⟩ : ∃ j1, j = j1 + 1 := ⟨j - 1, by omega⟩
      have s1 := storeAt_ok tmp j1 (48 + x % 10) (by omega)
      have hdiv : x / 10 < 10 ^ (fuel + 1) := by
        rw [Nat.div_lt_iff_lt_mul (by decide)]
        calc x < 10 ^ (fuel + 1 + 1) := hx
          _ = 10 ^ (fuel + 1) * 10 := by rw [pow_succ]
      have hnz : ¬ (((x / 10 : Nat) : Int) = 0) := by
        have : 0 < x / 10 := by omega
        omega
      have key := ih (x / 10) j1 (tmp.set j1 (48 + x % 10)) hdiv (by omega)
        (by rw [List.length_set]; omega)
      rw [someDigitsLoop, tmod_ten, tdiv_ten, digitAt_ok _ (Nat.mod_lt _ (by decide : 0 < 10))]
      simp only [s1, bind, Except.bind, hnz, if_false]
      rw [key]
      have e1 : j1 + 1 - ((formatBits fuel (x / 10) []).length + 1)
          = j1 - (formatBits fuel (x / 10) []).length := by omega
      rw [e1]
      congr 2
      rw [List.set_eq_take_append_cons_drop, if_pos (by omega)]
      rw [List.take_append_of_le_length (by rw [List.length_take]; omega), List.take_take,
        Nat.min_eq_left (by omega)]
      rw [List.drop_append_of_le_length (by rw [List.length_take]; omega),
        List.drop_eq_nil_of_le (by rw [List.length_take]; omega)]
      simp
    · have hF : formatBits (fuel + 1) x [] = [48 + x % 10] := by
        rw [formatBits, if_neg hu]
        congr 2
        omega
      rw [hF] at hj ⊢
      simp only [List.length_singleton] at hj ⊢
      obtain ⟨j1, rfl⟩ : ∃ j1, j = j1 + 1 := ⟨j - 1, by omega⟩
      have s1 := storeAt_ok tmp j1 (48 + x % 10) (by omega)
      have hz : ((x / 10 : Nat) : Int) = 0 := by
        have : x / 10 = 0 := by omega
        rw [this]; rfl
      rw [someDigitsLoop, tmod_ten, tdiv_ten, digitAt_ok _ (Nat.mod_lt _ (by decide : 0 < 10))]
      simp only [s1, bind, Except.bind, hz, if_true, pure, Except.pure, Nat.add_sub_cancel]
      rw [List.set_eq_take_append_cons_drop, if_pos (by omega)]
      simp

theorem formatUint_length (x : Nat) :
    1 ≤ (formatUint x).length ∧ (formatUint x).length ≤ 21 :=
  ⟨formatBits_length_pos 20 x, formatBits_length_le 20 x⟩

/-- The call `someDigits(tmp, 1, x)` on the 64-byte array: it returns the number of
decimal digits of `x` and leaves them in `tmp[1:]`, after the byte `tmp[0]`. -/
theorem someDigits_ok (tmp : List Nat) (x : Nat) (hx : x < 2 ^ 63) (hl : tmp.length = 64) :
    ∃ T : List Nat, someDigits tmp 1 (x : Int) = .ok (((formatUint x).length : Int), T) ∧
      T.length = 64 ∧ T.take ((formatUint x).length + 1) = tmp.take 1 ++ formatUint x := by
  obtain ⟨hL1, hL2⟩ := formatUint_length x
  have hx10 : x < 10 ^ (20 + 1) := by
    calc x < 2 ^ 63 := hx
      _ ≤ 10 ^ (20 + 1) := by norm_num
  have hloop := someDigitsLoop_ok 20 x tmp.length tmp hx10
    (by show (formatUint x).length ≤ tmp.length; omega) (le_refl _)
  change someDigitsLoop tmp.length (x : Int) tmp
    = .ok (tmp.length - (formatUint x).length,
        tmp.take (tmp.length - (formatUint x).length) ++ formatUint x ++ tmp.drop tmp.length)
    at hloop
  rw [List.drop_length, List.append_nil, hl] at hloop
  generalize hF : formatUint x = F at hloop hL1 hL2 ⊢
  have hT1 : (tmp.take (64 - F.length) ++ F).length = 64 := by
    rw [List.length_append, List.length_take]; omega
  have hsrc : (tmp.take (64 - F.length) ++ F).drop (64 - F.length) = F := by
    rw [List.drop_append_of_le_length (by rw [List.length_take]; omega),
      List.drop_eq_nil_of_le (by rw [List.length_take]; omega), List.nil_append]
  have hdl : ((tmp.take (64 - F.length) ++ F).drop 1).length = 63 := by
    rw [List.length_drop, hT1]
  have hcond : (0 : Int) ≤ 1 ∧ (1 : Int) ≤ ((tmp.take (64 - F.length) ++ F).length : Int) := by
    rw [hT1]; decide
  have hmin : min 63 F.length = F.length := by omega
  refine ⟨(tmp.take (64 - F.length) ++ F).take 1
    ++ copyInto ((tmp.take (64 - F.length) ++ F).drop 1) F, ?_, ?_, ?_⟩
  · rw [← hl] at hloop
    simp only [someDigits, hloop, bind, Except.bind]
    rw [hl]
    have e0 : Int.toNat 1 = 1 := rfl
    simp only [hcond, and_self, if_true, e0, hsrc, hdl, hmin, pure, Except.pure]
  · rw [List.length_append, JBuffer.copyInto_length, hdl, List.length_take, hT1]
    rfl
  · rw [JBuffer.copyInto_of_le _ _ (by rw [hdl]; omega)]
    rw [List.take_append_eq_append_take, List.length_take, hT1]
    have e1 : min 1 64 = 1 := rfl
    rw [e1, List.take_take, Nat.add_sub_cancel]
    have e2 : min (F.length + 1) 1 = 1 := by omega
    rw [e2, List.take_append_of_le_length (by rw [List.length_take]; omega), List.take_take]
    have e3 : min 1 (64 - F.length) = 1 := by omega
    rw [e3, List.take_append_of_le_length (le_refl _), List.take_length]

/-- The two stores after the digits of the line and the slice `tmp[:n+3]`. -/
theorem tail_take (T : List Nat) (L a b : Nat) (h : L + 3 ≤ T.length) :
    ((T.set (L + 1) a).set (L + 2) b).take (L + 3) = T.take (L + 1) ++ [a, b] := by
  apply List.ext_getElem?
  intro n
  by_cases h1 : n < L + 1
  · rw [List.getElem?_take_of_lt (by omega), List.getElem?_set, if_neg (by omega),
      List.getElem?_set, if_neg (by omega),
      List.getElem?_append_left (by rw [List.length_take]; omega),
      List.getElem?_take_of_lt h1]
  · by_cases h2 : n = L + 1
    · subst h2
      rw [List.getElem?_take_of_lt (by omega), List.getElem?_set, if_neg (by omega),
        List.getElem?_set, if_pos rfl, if_pos (by omega),
        List.getElem?_append_right (by rw [List.length_take]; omega), List.length_take]
      have : L + 1 - min (L + 1) T.length = 0 := by omega
      rw [this]; rfl
    · by_cases h3 : n = L + 2
      · subst h3
        rw [List.getElem?_take_of_lt (by omega), List.getElem?_set, if_pos rfl,
          if_pos (by rw [List.length_set]; omega),
          List.getElem?_append_right (by rw [List.length_take]; omega), List.length_take]
        have : L + 2 - min (L + 1) T.length = 1 := by omega
        rw [this]; rfl
      · rw [List.getElem?_eq_none (by rw [List.length_take, List.length_set, List.length_set]; omega),
          List.getElem?_eq_none (by
            rw [List.length_append, List.length_take]
            simp only [List.length_cons, List.length_nil]
            omega)]

namespace Pool

/-- The call `Get` always returns, with a buffer that holds no bytes and has read offset
0. -/
theorem Get_ok (p : Pool) (pick : Option Nat) :
    ∃ (b : JBuffer) (p1 : Pool), p.Get pick = .ok (b, p1) ∧ b.off = 0 ∧ b.buf = [] := by
  cases hp : pick.bind (fun k => (p.items[k]?).map (fun b => (b, k))) with
  | none =>
    refine ⟨(JBuffer.mk [] (List.replicate _size 0) 0 false).Reset, p, ?_, rfl,
      JBuffer.Reset_buf _⟩
    simp only [Pool.Get, hp, NewBuffer_eq, bind, Except.bind, pure, Except.pure]
  | some r =>
    obtain ⟨b, k⟩ := r
    refine ⟨b.Reset, { items := p.items.eraseIdx k }, ?_, rfl, JBuffer.Reset_buf _⟩
    simp only [Pool.Get, hp, pure, Except.pure]

end Pool

namespace JBuffer

theorem Write_zero_ok (j : JBuffer) (p : List Nat) (h0 : j.off = 0)
    (hs : 3 * ((j.buf.length + p.length : Nat) : Int) ≤ maxInt) :
    ∃ j1 : JBuffer, j.Write p = .ok (j1, (p.length : Int), none) ∧ j1.off = 0 ∧
      j1.buf = j.buf ++ p := by
  rcases Write_zero j p h0 with h | ⟨_, h2⟩
  · exact h
  · exfalso
    have : j.len = j.buf.length := rfl
    rw [this] at h2
    omega

theorem WriteByte_zero_ok (j : JBuffer) (c : Nat) (h0 : j.off = 0)
    (hs : 3 * ((j.buf.length + 1 : Nat) : Int) ≤ maxInt) :
    ∃ j1 : JBuffer, j.WriteByte c = .ok (j1, none) ∧ j1.off = 0 ∧ j1.buf = j.buf ++ [c] := by
  rcases Alloc_zero j 1 h0 with ⟨j1, h1, h2, h3, h4⟩ | ⟨_, h2⟩
  · have hd : (j1.buf.drop j.len).length = 1 := by rw [List.length_drop, h3]; omega
    obtain ⟨a, ha⟩ : ∃ a, j1.buf.drop j.len = [a] := List.length_eq_one.mp hd
    refine ⟨j1.setView j.len [c], ?_, h2, ?_⟩
    · simp only [WriteByte, BSize, h1, bind, Except.bind, pure, Except.pure, ha,
        List.length_singleton, one_ne_zero, if_false, List.set_cons_zero]
    · simp only [setView, h4]
  · exfalso
    have : j.len = j.buf.length := rfl
    rw [this] at h2
    omega

end JBuffer

theorem headerArr_length (y mo d h mi s us flag : Nat) :
    (headerArr y mo d h mi s us flag).length = 64 := by
  simp only [headerArr, List.length_set, length_setDigits, List.length_replicate]

theorem headerArr_explicit (y mo d h mi s us flag : Nat) :
    (headerArr y mo d h mi s us flag).take 29
      = [48 + y / 10 / 10 / 10 % 10, 48 + y / 10 / 10 % 10, 48 + y / 10 % 10, 48 + y % 10,
         48 + mo / 10 % 10, 48 + mo % 10, 48 + d / 10 % 10, 48 + d % 10, 32,
         48 + h / 10 % 10, 48 + h % 10, 58, 48 + mi / 10 % 10, 48 + mi % 10, 58,
         48 + s / 10 % 10, 48 + s % 10, 46,
         48 + us / 10 / 10 / 10 / 10 / 10 % 10, 48 + us / 10 / 10 / 10 / 10 % 10,
         48 + us / 10 / 10 / 10 % 10, 48 + us / 10 / 10 % 10, 48 + us / 10 % 10, 48 + us % 10,
         32, 91, flag, 93, 58] := by
  simp only [headerArr, setDigits, List.replicate_succ, List.replicate_zero,
    List.set_cons_succ, List.set_cons_zero, Nat.reduceAdd, List.take_succ_cons, List.take_zero]

/-- The first 29 bytes of the array after the header stores are the header text. -/
theorem headerArr_take (y mo d h mi s us flag : Nat) :
    (headerArr y mo d h mi s us flag).take 29 = headerText y mo d h mi s us flag := by
  rw [headerArr_explicit]
  simp only [headerText, zeroPadded, List.range_succ, List.range_zero, List.nil_append,
    List.map_append, List.map_cons, List.map_nil, List.cons_append, List.append_assoc,
    Nat.div_div_eq_div_mul]
  norm_num

theorem headerText_length (y mo d h mi s us flag : Nat) :
    (headerText y mo d h mi s us flag).length = 29 := by
  simp [headerText, zeroPadded]

theorem levelFlag_ok (lv : Int) (h0 : 0 ≤ lv) (h3 : lv ≤ 3) :
    levelFlag (if lv > MaxLevel then INFO else lv) = .ok (LevelFlags.getD lv.toNat 0) := by
  have hM : MaxLevel = (4 : Int) := rfl
  have h1 : ¬ (lv > MaxLevel) := by rw [hM]; omega
  have h2 : (0 : Int) ≤ lv ∧ lv < MaxLevel := by rw [hM]; omega
  rw [if_neg h1]
  simp only [levelFlag, h2, and_self, if_true, pure, Except.pure]

/-- The guard `lv > MaxLevel` followed by the index expression `LevelFlags[lv]` panics
exactly for `lv = MaxLevel` and for negative levels. -/
theorem levelFlag_guard (lv : Int) :
    levelFlag (if lv > MaxLevel then INFO else lv) = .error Panic.indexOutOfRange ↔
      (lv = MaxLevel ∨ lv < 0) := by
  have hM : MaxLevel = (4 : Int) := rfl
  have hI : INFO = (1 : Int) := rfl
  by_cases h1 : lv > MaxLevel
  · rw [if_pos h1]
    constructor
    · intro h; cases h
    · rw [hM] at h1 ⊢; intro h; omega
  · rw [if_neg h1]
    by_cases h2 : (0 : Int) ≤ lv ∧ lv < MaxLevel
    · constructor
      · intro h
        simp only [levelFlag, h2, and_self, if_true, pure, Except.pure] at h
        cases h
      · rw [hM] at h2 ⊢; intro h; omega
    · constructor
      · intro _; rw [hM] at h1 h2 ⊢; omega
      · intro _
        simp only [levelFlag, h2, if_false]
        rfl

theorem sliceArr_ok (tmp : List Nat) (k : Nat) (h : k ≤ tmp.length) :
    sliceArr tmp (k : Int) = .ok (tmp.take k) := by
  have h1 : (0 : Int) ≤ (k : Int) ∧ (k : Int) ≤ (tmp.length : Int) := by omega
  simp only [sliceArr, h1, and_self, if_true, Int.toNat_ofNat, pure, Except.pure]

theorem decimalValue_zeroPadded_two (d : Nat) (h : d < 100) :
    decimalValue (zeroPadded 2 d) = d := by
  simp only [zeroPadded, decimalValue, List.range_succ, List.range_zero, List.nil_append,
    List.map_append, List.map_cons, List.map_nil, List.cons_append, List.foldl_cons,
    List.foldl_nil]
  norm_num
  omega

theorem decimalValue_zeroPadded_four (d : Nat) (h : d < 10000) :
    decimalValue (zeroPadded 4 d) = d := by
  simp only [zeroPadded, decimalValue, List.range_succ, List.range_zero, List.nil_append,
    List.map_append, List.map_cons, List.map_nil, List.cons_append, List.foldl_cons,
    List.foldl_nil]
  norm_num
  omega

theorem decimalValue_zeroPadded_six (d : Nat) (h : d < 1000000) :
    decimalValue (zeroPadded 6 d) = d := by
  simp only [zeroPadded, decimalValue, List.range_succ, List.range_zero, List.nil_append,
    List.map_append, List.map_cons, List.map_nil, List.cons_append, List.foldl_cons,
    List.foldl_nil]
  norm_num
  omega

/-- The header stores of `formatHeaderWithBodyFunction` for time fields that are not
negative and a level in `DEBUG..ERROR`, the body and the tail: the buffer returned holds
the header text, the bytes of the body function and the tail. -/
theorem formatHeader_spec (p : Pool) (pick : Option Nat)
    (year month day hour minute second nano : Nat) (lv : Int) (file body : List Nat)
    (line : Int) (bodyFn : JBuffer → Except Panic JBuffer) (dev : Bool)
    (hlv : 0 ≤ lv ∧ lv ≤ 3) (hline : line < 2 ^ 63)
    (hsize : 3 * ((body.length + file.length + 55 : Nat) : Int) ≤ maxInt)
    (hbody : ∀ b : JBuffer, b.off = 0 → b.len = 29 →
      ∃ b2 : JBuffer, bodyFn b = .ok b2 ∧ b2.off = 0 ∧ b2.buf = b.buf ++ body) :
    ∃ (b : JBuffer) (p1 : Pool),
      formatHeaderWithBodyFunction p pick
        (Clock.mk year month day hour minute second nano) lv file line bodyFn dev
        = .ok (b, p1) ∧ b.off = 0 ∧
      b.buf = headerText year month day hour minute second (nano / 1000)
          (LevelFlags.getD lv.toNat 0) ++ body ++ tailText file line dev := by
  obtain ⟨b0, p1, hget, hoff0, hbuf0⟩ := Pool.Get_ok p pick
  have hnano : ((nano : Int)).tdiv 1000 = ((nano / 1000 : Nat) : Int) := by
    rw [Int.ofNat_tdiv]; rfl
  have hflag := levelFlag_ok lv hlv.1 hlv.2
  generalize LevelFlags.getD lv.toNat 0 = flag at hflag ⊢
  -- the header stores
  obtain ⟨T1, hT1⟩ : ∃ T, T = setDigits (List.replicate 64 0) 0 4 year := ⟨_, rfl⟩
  have l1 : T1.length = 64 := by rw [hT1, length_setDigits, List.length_replicate]
  have e1 : nDigits (List.replicate 64 0) 4 0 (year : Int) 48 = .ok T1 := by
    rw [hT1]; exact nDigits_ok (List.replicate 64 0) 4 0 year (by simp)
  obtain ⟨T2, hT2⟩ : ∃ T, T = (T1.set 5 (48 + month % 10)).set 4 (48 + month / 10 % 10) :=
    ⟨_, rfl⟩
  have l2 : T2.length = 64 := by rw [hT2, List.length_set, List.length_set, l1]
  have e2 : twoDigits T1 4 (month : Int) = .ok T2 := by
    rw [hT2]; exact twoDigits_ok T1 4 month (by omega)
  obtain ⟨T3, hT3⟩ : ∃ T, T = (T2.set 7 (48 + day % 10)).set 6 (48 + day / 10 % 10) :=
    ⟨_, rfl⟩
  have l3 : T3.length = 64 := by rw [hT3, List.length_set, List.length_set, l2]
  have e3 : twoDigits T2 6 (day : Int) = .ok T3 := by
    rw [hT3]; exact twoDigits_ok T2 6 day (by omega)
  obtain ⟨T4, hT4⟩ : ∃ T, T = T3.set 8 32 := ⟨_, rfl⟩
  have l4 : T4.length = 64 := by rw [hT4, List.length_set, l3]
  have e4 : storeAt T3 8 32 = .ok T4 := by
    rw [hT4]; exact storeAt_ok T3 8 32 (by omega)
  obtain ⟨T5, hT5⟩ : ∃ T, T = (T4.set 10 (48 + hour % 10)).set 9 (48 + hour / 10 % 10) :=
    ⟨_, rfl⟩
  have l5 : T5.length = 64 := by rw [hT5, List.length_set, List.length_set, l4]
  have e5 : twoDigits T4 9 (hour : Int) = .ok T5 := by
    rw [hT5]; exact twoDigits_ok T4 9 hour (by omega)
  obtain ⟨T6, hT6⟩ : ∃ T, T = T5.set 11 58 := ⟨_, rfl⟩
  have l6 : T6.length = 64 := by rw [hT6, List.length_set, l5]
  have e6 : storeAt T5 11 58 = .ok T6 := by
    rw [hT6]; exact storeAt_ok T5 11 58 (by omega)
  obtain ⟨T7, hT7⟩ : ∃ T, T = (T6.set 13 (48 + minute % 10)).set 12 (48 + minute / 10 % 10) :=
    ⟨_, rfl⟩
  have l7 : T7.length = 64 := by rw [hT7, List.length_set, List.length_set, l6]
  have e7 : twoDigits T6 12 (minute : Int) = .ok T7 := by
    rw [hT7]; exact twoDigits_ok T6 12 minute (by omega)
  obtain ⟨T8, hT8⟩ : ∃ T, T = T7.set 14 58 := ⟨_, rfl⟩
  have l8 : T8.length = 64 := by rw [hT8, List.length_set, l7]
  have e8 : storeAt T7 14 58 = .ok T8 := by
    rw [hT8]; exact storeAt_ok T7 14 58 (by omega)
  obtain ⟨T9, hT9⟩ : ∃ T, T = (T8.set 16 (48 + second % 10)).set 15 (48 + second / 10 % 10) :=
    ⟨_, rfl⟩
  have l9 : T9.length = 64 := by rw [hT9, List.length_set, List.length_set, l8]
  have e9 : twoDigits T8 15 (second : Int) = .ok T9 := by
    rw [hT9]; exact twoDigits_ok T8 15 second (by omega)
  obtain ⟨T10, hT10⟩ : ∃ T, T = T9.set 17 46 := ⟨_, rfl⟩
  have l10 : T10.length = 64 := by rw [hT10, List.length_set, l9]
  have e10 : storeAt T9 17 46 = .ok T10 := by
    rw [hT10]; exact storeAt_ok T9 17 46 (by omega)
  obtain ⟨T11, hT11⟩ : ∃ T, T = setDigits T10 18 6 (nano / 1000) := ⟨_, rfl⟩
  have l11 : T11.length = 64 := by rw [hT11, length_setDigits, l10]
  have e11 : nDigits T10 6 18 ((nano / 1000 : Nat) : Int) 48 = .ok T11 := by
    rw [hT11]; exact nDigits_ok T10 6 18 (nano / 1000) (by omega)
  obtain ⟨T12, hT12⟩ : ∃ T, T = T11.set 24 32 := ⟨_, rfl⟩
  have l12 : T12.length = 64 := by rw [hT12, List.length_set, l11]
  have e12 : storeAt T11 24 32 = .ok T12 := by
    rw [hT12]; exact storeAt_ok T11 24 32 (by omega)
  obtain ⟨T13, hT13⟩ : ∃ T, T = T12.set 25 91 := ⟨_, rfl⟩
  have l13 : T13.length = 64 := by rw [hT13, List.length_set, l12]
  have e13 : storeAt T12 25 91 = .ok T13 := by
    rw [hT13]; exact storeAt_ok T12 25 91 (by omega)
  obtain ⟨T14, hT14⟩ : ∃ T, T = T13.set 26 flag := ⟨_, rfl⟩
  have l14 : T14.length = 64 := by rw [hT14, List.length_set, l13]
  have e14 : storeAt T13 26 flag = .ok T14 := by
    rw [hT14]; exact storeAt_ok T13 26 flag (by omega)
  obtain ⟨T15, hT15⟩ : ∃ T, T = T14.set 27 93 := ⟨_, rfl⟩
  have l15 : T15.length = 64 := by rw [hT15, List.length_set, l14]
  have e15 : storeAt T14 27 93 = .ok T15 := by
    rw [hT15]; exact storeAt_ok T14 27 93 (by omega)
  obtain ⟨T16, hT16⟩ : ∃ T, T = T15.set 28 58 := ⟨_, rfl⟩
  have l16 : T16.length = 64 := by rw [hT16, List.length_set, l15]
  have e16 : storeAt T15 28 58 = .ok T16 := by
    rw [hT16]; exact storeAt_ok T15 28 58 (by omega)
  have hArr : T16 = headerArr year month day hour minute second (nano / 1000) flag := by
    rw [hT16, hT15, hT14, hT13, hT12, hT11, hT10, hT9, hT8, hT7, hT6, hT5, hT4, hT3, hT2, hT1]
    rfl
  have e17 : sliceArr T16 29 = .ok (headerText year month day hour minute second
      (nano / 1000) flag) := by
    rw [← headerArr_take, ← hArr]
    exact sliceArr_ok T16 29 (by omega)
  generalize hH : headerText year month day hour minute second (nano / 1000) flag = H at e17 ⊢
  have lH : H.length = 29 := by rw [← hH]; exact headerText_length _ _ _ _ _ _ _ _
  -- the header, the body
  have hmax : maxInt = 2 ^ 63 - 1 := rfl
  obtain ⟨b1, w1, o1, u1⟩ := JBuffer.Write_zero_ok b0 H hoff0 (by
    rw [hbuf0, lH]; simp only [List.length_nil]; omega)
  rw [hbuf0, List.nil_append] at u1
  obtain ⟨b2, w2, o2, u2⟩ := hbody b1 o1 (by show b1.buf.length = 29; rw [u1, lH])
  rw [u1] at u2
  have lb2 : b2.buf.length = 29 + body.length := by rw [u2, List.length_append, lH]
  cases dev with
  | false =>
    obtain ⟨b3, w3, o3, u3⟩ := JBuffer.WriteByte_zero_ok b2 10 o2 (by rw [lb2]; omega)
    refine ⟨b3, p1, ?_, o3, ?_⟩
    · simp only [formatHeaderWithBodyFunction, hget, hnano, hflag, e1, e2, e3, e4, e5, e6, e7,
        e8, e9, e10, e11, e12, e13, e14, e15, e16, e17, w1, w2, w3, bind, Except.bind, pure,
        Except.pure, Bool.false_eq_true, if_false]
    · rw [u3, u2]
      rfl
  | true =>
    obtain ⟨b3, w3, o3, u3⟩ := JBuffer.Write_zero_ok b2 [32, 91] o2 (by
      rw [lb2]; simp only [List.length_cons, List.length_nil]; omega)
    have lb3 : b3.buf.length = 31 + body.length := by
      rw [u3, List.length_append, lb2]; simp only [List.length_cons, List.length_nil]; omega
    obtain ⟨b4, w4, o4, u4⟩ := JBuffer.Write_zero_ok b3 file o3 (by rw [lb3]; omega)
    have lb4 : b4.buf.length = 31 + body.length + file.length := by
      rw [u4, List.length_append, lb3]
    -- the tail
    obtain ⟨T17, hT17⟩ : ∃ T, T = T16.set 0 58 := ⟨_, rfl⟩
    have l17 : T17.length = 64 := by rw [hT17, List.length_set, l16]
    have e18 : storeAt T16 0 58 = .ok T17 := by
      rw [hT17]; exact storeAt_ok T16 0 58 (by omega)
    have t17 : T17.take 1 = [58] := by
      rw [hT17]
      cases T16 with
      | nil => simp at l16
      | cons a t => rfl
    obtain ⟨x, hx⟩ : ∃ x : Nat, (if line < 0 then 0 else line) = (x : Int) := by
      by_cases hl : line < 0
      · exact ⟨0, by rw [if_pos hl]; rfl⟩
      · exact ⟨line.toNat, by rw [if_neg hl]; omega⟩
    have hx63 : x < 2 ^ 63 := by
      by_cases hl : line < 0
      · rw [if_pos hl] at hx; omega
      · rw [if_neg hl] at hx; omega
    have hfmt : formatInt (if line < 0 then 0 else line) = formatUint x := by
      rw [hx]
      simp only [formatInt, Int.toNat_ofNat]
      rw [if_neg (by omega)]
    obtain ⟨T18, e19, l18, t18⟩ := someDigits_ok T17 x hx63 l17
    obtain ⟨hL1, hL2⟩ := formatUint_length x
    generalize hF : formatUint x = F at e19 t18 hL1 hL2 hfmt
    have c1 : ((F.length : Int) + 1) = ((F.length + 1 : Nat) : Int) := by omega
    have c2 : ((F.length : Int) + 2) = ((F.length + 2 : Nat) : Int) := by omega
    have c3 : ((F.length : Int) + 3) = ((F.length + 3 : Nat) : Int) := by omega
    have e20 : storeAt T18 ((F.length + 1 : Nat) : Int) 93 = .ok (T18.set (F.length + 1) 93) :=
      storeAt_ok T18 (F.length + 1) 93 (by omega)
    have e21 : storeAt (T18.set (F.length + 1) 93) ((F.length + 2 : Nat) : Int) 10
        = .ok ((T18.set (F.length + 1) 93).set (F.length + 2) 10) :=
      storeAt_ok _ (F.length + 2) 10 (by rw [List.length_set]; omega)
    have e22 : sliceArr ((T18.set (F.length + 1) 93).set (F.length + 2) 10)
        ((F.length + 3 : Nat) : Int) = .ok ([58] ++ F ++ [93, 10]) := by
      rw [sliceArr_ok _ _ (by rw [List.length_set, List.length_set]; omega),
        tail_take _ _ _ _ (by omega), t18, t17]
    obtain ⟨b5, w5, o5, u5⟩ := JBuffer.Write_zero_ok b4 ([58] ++ F ++ [93, 10]) o4 (by
      rw [lb4]
      simp only [List.length_append, List.length_cons, List.length_nil]
      omega)
    refine ⟨b5, p1, ?_, o5, ?_⟩
    · simp only [formatHeaderWithBodyFunction, hget, hnano, hflag, e1, e2, e3, e4, e5, e6, e7,
        e8, e9, e10, e11, e12, e13, e14, e15, e16, e17, w1, w2, JBuffer.WriteString_eq_Write,
        w3, w4, e18, hx, e19, c1, c2, c3, e20, e21, e22, w5, bind, Except.bind, pure,
        Except.pure, if_true]
    · rw [u5, u4, u3, u2]
      simp only [tailText, if_true, hfmt, List.append_assoc]

/-- For `lv = MaxLevel` and for negative levels `formatHeaderWithBodyFunction` does not
return, whatever the pool, the time, the location and the body function are. -/
theorem formatHeader_level_panics (p : Pool) (pick : Option Nat) (now : Clock) (lv : Int)
    (file : List Nat) (line : Int) (bodyFn : JBuffer → Except Panic JBuffer) (dev : Bool)
    (hlv : lv = MaxLevel ∨ lv < 0) (r : JBuffer × Pool) :
    formatHeaderWithBodyFunction p pick now lv file line bodyFn dev ≠ .ok r := by
  intro h
  have hf := (levelFlag_guard lv).mpr hlv
  unfold formatHeaderWithBodyFunction at h
  simp only at h
  obtain ⟨⟨b0, p0⟩, _, h⟩ := bind_ok _ _ _ h
  obtain ⟨t1, _, h⟩ := bind_ok _ _ _ h
  obtain ⟨t2, _, h⟩ := bind_ok _ _ _ h
  obtain ⟨t3, _, h⟩ := bind_ok _ _ _ h
  obtain ⟨t4, _, h⟩ := bind_ok _ _ _ h
  obtain ⟨t5, _, h⟩ := bind_ok _ _ _ h
  obtain ⟨t6, _, h⟩ := bind_ok _ _ _ h
  obtain ⟨t7, _, h⟩ := bind_ok _ _ _ h
  obtain ⟨t8, _, h⟩ := bind_ok _ _ _ h
  obtain ⟨t9, _, h⟩ := bind_ok _ _ _ h
  obtain ⟨t10, _, h⟩ := bind_ok _ _ _ h
  obtain ⟨t11, _, h⟩ := bind_ok _ _ _ h
  obtain ⟨t12, _, h⟩ := bind_ok _ _ _ h
  obtain ⟨t13, _, h⟩ := bind_ok _ _ _ h
  obtain ⟨flag, hflag, _⟩ := bind_ok _ _ _ h
  rw [hf] at hflag
  cases hflag

/-- C31: for a time with year in `0..9999` (and month, day, hour, minute, second and
nanosecond in their ranges), a level in `DEBUG..ERROR`, any file name and line, and a body
function that appends the bytes `body`, `formatHeaderWithBodyFunction` returns a buffer
whose bytes are the 29-byte header `YYYYMMDD hh:mm:ss.uuuuuu [F]:`, then `body`, then the
tail: a newline when location capture is off, ` [file:line]` and a newline when it is on,
a negative line rendered as `0`.  Each numeric field of the header is the zero-padded
number (its digits have the value of the field) and `F` is `D`, `I`, `W` or `E` for the
level.  The sizes are taken small enough for `grow` not to raise `ErrTooLarge`. -/
theorem record_layout (p : Pool) (pick : Option Nat)
    (year month day hour minute second nano : Nat) (lv : Int) (file body : List Nat)
    (line : Int) (bodyFn : JBuffer → Except Panic JBuffer) (dev : Bool)
    (hy : year ≤ 9999) (hmo : month ≤ 12) (hd : day ≤ 31) (hh : hour ≤ 23)
    (hmi : minute ≤ 59) (hs : second ≤ 59) (hn : nano ≤ 999999999)
    (hlv : DEBUG ≤ lv ∧ lv ≤ ERROR) (hline : line < 2 ^ 63)
    (hsize : 3 * ((body.length + file.length + 55 : Nat) : Int) ≤ maxInt)
    (hbody : ∀ b : JBuffer, b.off = 0 → b.len = 29 →
      ∃ b2 : JBuffer, bodyFn b = .ok b2 ∧ b2.off = 0 ∧ b2.buf = b.buf ++ body) :
    ∃ (b : JBuffer) (p1 : Pool),
      formatHeaderWithBodyFunction p pick
        (Clock.mk year month day hour minute second nano) lv file line bodyFn dev
        = .ok (b, p1) ∧
      b.Bytes = .ok (headerText year month day hour minute second (nano / 1000)
          (LevelFlags.getD lv.toNat 0) ++ body ++ tailText file line dev) ∧
      (headerText year month day hour minute second (nano / 1000)
          (LevelFlags.getD lv.toNat 0)).length = 29 ∧
      decimalValue (zeroPadded 4 year) = year ∧ decimalValue (zeroPadded 2 month) = month ∧
      decimalValue (zeroPadded 2 day) = day ∧ decimalValue (zeroPadded 2 hour) = hour ∧
      decimalValue (zeroPadded 2 minute) = minute ∧
      decimalValue (zeroPadded 2 second) = second ∧
      decimalValue (zeroPadded 6 (nano / 1000)) = nano / 1000 ∧
      (lv = DEBUG → LevelFlags.getD lv.toNat 0 = 68) ∧
      (lv = INFO → LevelFlags.getD lv.toNat 0 = 73) ∧
      (lv = WARN → LevelFlags.getD lv.toNat 0 = 87) ∧
      (lv = ERROR → LevelFlags.getD lv.toNat 0 = 69) ∧
      tailText file line dev = (if dev then [32, 91] ++ file ++ [58]
        ++ formatInt (if line < 0 then 0 else line) ++ [93, 10] else [10]) := by
  have hD : DEBUG = (0 : Int) := rfl
  have hE : ERROR = (3 : Int) := rfl
  rw [hD, hE] at hlv
  obtain ⟨b, p1, h1, h2, h3⟩ := formatHeader_spec p pick year month day hour minute second nano
    lv file body line bodyFn dev hlv hline hsize hbody
  refine ⟨b, p1, h1, ?_, headerText_length _ _ _ _ _ _ _ _,
    decimalValue_zeroPadded_four _ (by omega), decimalValue_zeroPadded_two _ (by omega),
    decimalValue_zeroPadded_two _ (by omega), decimalValue_zeroPadded_two _ (by omega),
    decimalValue_zeroPadded_two _ (by omega), decimalValue_zeroPadded_two _ (by omega),
    decimalValue_zeroPadded_six _ (by omega), ?_, ?_, ?_, ?_, rfl⟩
  · rw [Bytes_ok b (by rw [h2]; exact Nat.zero_le _), h2, List.drop_zero, h3]
  · intro h; rw [h]; rfl
  · intro h; rw [h]; rfl
  · intro h; rw [h]; rfl
  · intro h; rw [h]; rfl

/-- Witness of C31: a WARN record at 2024-03-09 07:05:01.123456 with the body `hi`,
written from line 12 of the file `a`. -/
theorem record_layout_witness :
    (2024 : Nat) ≤ 9999 ∧ DEBUG ≤ (2 : Int) ∧ (2 : Int) ≤ ERROR ∧
    ∃ (b : JBuffer) (p1 : Pool),
      formatHeaderWithBodyFunction (Pool.mk []) none
        (Clock.mk (2024 : Nat) (3 : Nat) (9 : Nat) (7 : Nat) (5 : Nat) (1 : Nat)
          (123456789 : Nat)) 2 [97] 12
        (fun b => Prod.fst <$> b.Write [104, 105]) true = .ok (b, p1) ∧
      b.Bytes = .ok (headerText 2024 3 9 7 5 1 (123456789 / 1000)
          (LevelFlags.getD (2 : Int).toNat 0) ++ [104, 105] ++ tailText [97] 12 true) ∧
      headerText 2024 3 9 7 5 1 (123456789 / 1000) (LevelFlags.getD (2 : Int).toNat 0)
          ++ [104, 105] ++ tailText [97] 12 true
        = [50, 48, 50, 52, 48, 51, 48, 57, 32, 48, 55, 58, 48, 53, 58, 48, 49, 46,
          49, 50, 51, 52, 53, 54, 32, 91, 87, 93, 58, 104, 105, 32, 91, 97, 58, 49, 50, 93, 10] := by
  have key := record_layout (Pool.mk []) none 2024 3 9 7 5 1 123456789 2 [97] [104, 105] 12
    (fun b => Prod.fst <$> b.Write [104, 105]) true (by decide) (by decide) (by decide)
    (by decide) (by decide) (by decide) (by decide) (by decide) (by decide) (by decide)
    (by
      intro b h0 hl
      obtain ⟨j1, h1, h2, h3⟩ := JBuffer.Write_zero_ok b [104, 105] h0 (by
        have : b.buf.length = 29 := hl
        rw [this]; decide)
      exact ⟨j1, by show Prod.fst <$> b.Write [104, 105] = _; rw [h1]; rfl, h2, h3⟩)
  obtain ⟨b, p1, h1, h2, _⟩ := key
  exact ⟨by decide, by decide, by decide, b, p1, h1, h2, by decide⟩

/-- C38: the guard of `formatHeaderWithBodyFunction` is `lv > MaxLevel`, so the index
expression `LevelFlags[lv]` panics exactly for `lv = MaxLevel` and for negative levels:
with `lv = MaxLevel` and with `lv = -1` the call panics with an index out of range
instead of rendering the INFO flag; only levels above `MaxLevel` (here 5) are rendered
with `I`.  The level `-1` passes `_Check` of a log file at the default level and so
reaches the formatter. -/
theorem header_level_guard_misses_levels :
    (∀ lv : Int, levelFlag (if lv > MaxLevel then INFO else lv)
        = .error Panic.indexOutOfRange ↔ (lv = MaxLevel ∨ lv < 0)) ∧
    formatHeaderWithBodyFunction (Pool.mk [JBuffer.zero]) (some 0)
      (Clock.mk 2024 3 9 7 5 1 123456789) MaxLevel [97] 12 (fun b => pure b) false
      = .error Panic.indexOutOfRange ∧
    formatHeaderWithBodyFunction (Pool.mk [JBuffer.zero]) (some 0)
      (Clock.mk 2024 3 9 7 5 1 123456789) (-1) [97] 12 (fun b => pure b) false
      = .error Panic.indexOutOfRange ∧
    (formatHeaderWithBodyFunction (Pool.mk [JBuffer.zero]) (some 0)
      (Clock.mk 2024 3 9 7 5 1 123456789) 5 [97] 12 (fun b => pure b) false).map
        (fun r => r.1.buf)
      = .ok [50, 48, 50, 52, 48, 51, 48, 57, 32, 48, 55, 58, 48, 53, 58, 48, 49, 46,
          49, 50, 51, 52, 53, 54, 32, 91, 73, 93, 58, 10] ∧
    logFile.zero.SetDefaultLevel._Check (-1) = true :=
  ⟨levelFlag_guard, rfl, rfl, rfl, rfl⟩

/-! ## Rendering one argument of a record -/

theorem appendBytes_AppendsBytes (buf : JBuffer) (bs : List Nat) (extra : Nat)
    (hinv : buf.off ≤ buf.len) :
    AppendsBytes buf (.ok (buf.appendBytes bs extra)) bs :=
  Or.inl ⟨_, buf.buf.drop buf.off, rfl, Bytes_ok buf hinv,
    (JBuffer.appendBytes_Bytes buf bs extra hinv).2,
    (JBuffer.appendBytes_Bytes buf bs extra hinv).1⟩

theorem Write_AppendsBytes (buf : JBuffer) (p : List Nat) (hinv : buf.off ≤ buf.len) :
    AppendsBytes buf (Prod.fst <$> buf.Write p) p := by
  apply AppendsBytes_of_Appended buf _ p p.length rfl hinv
  rcases JBuffer.Write_spec buf p hinv with ⟨j2, h1, h2⟩ | ⟨h1, h2⟩
  · exact Or.inl ⟨j2, by rw [h1]; rfl, h2⟩
  · exact Or.inr ⟨by rw [h1]; rfl, h2⟩

theorem WriteByte_AppendsBytes (buf : JBuffer) (c : Nat) (hinv : buf.off ≤ buf.len) :
    AppendsBytes buf (Prod.fst <$> buf.WriteByte c) [c] := by
  apply AppendsBytes_of_Appended buf _ [c] 1 rfl hinv
  rcases JBuffer.WriteByte_spec buf c hinv with ⟨j2, h1, h2⟩ | ⟨h1, h2⟩
  · exact Or.inl ⟨j2, by rw [h1]; rfl, h2⟩
  · exact Or.inr ⟨by rw [h1]; rfl, h2⟩

/-- Every case of `appendArg2Buffer` but `byte` appends the direct text of the
argument. -/
theorem appendArg2Buffer_spec (buf : JBuffer) (extra : Nat) (arg : LogArg)
    (hinv : buf.off ≤ buf.len) (hne : ∀ v, arg ≠ LogArg.uint8 v) :
    AppendsBytes buf (appendArg2Buffer buf extra arg) (directText arg) := by
  cases arg with
  | bool v => exact appendBytes_AppendsBytes buf _ extra hinv
  | int v => exact appendBytes_AppendsBytes buf _ extra hinv
  | int8 v => exact appendBytes_AppendsBytes buf _ extra hinv
  | int16 v => exact appendBytes_AppendsBytes buf _ extra hinv
  | int32 v => exact appendBytes_AppendsBytes buf _ extra hinv
  | int64 v => exact appendBytes_AppendsBytes buf _ extra hinv
  | uint v => exact appendBytes_AppendsBytes buf _ extra hinv
  | uint8 v => exact absurd rfl (hne v)
  | uint16 v => exact appendBytes_AppendsBytes buf _ extra hinv
  | uint32 v => exact appendBytes_AppendsBytes buf _ extra hinv
  | uint64 v => exact appendBytes_AppendsBytes buf _ extra hinv
  | bytes v => exact Write_AppendsBytes buf v hinv
  | string v => exact Write_AppendsBytes buf v hinv
  | error msg => exact Write_AppendsBytes buf msg hinv

/-- C32, counterexample: the `byte` (`uint8`) argument 65 is appended as the single raw
byte 65 (the letter `A`), not as its base-10 digits `65`. -/
theorem appendArg2Buffer_byte_is_raw :
    appendArg2Buffer (JBuffer.mk [] [0, 0, 0, 0] 0 false) 0 (LogArg.uint8 65)
      = .ok (JBuffer.mk [65] [0, 0, 0] 0 false) ∧
    (JBuffer.mk [65] [0, 0, 0] 0 false).Bytes = .ok [65] ∧
    directText (LogArg.uint8 65) = [54, 53] ∧
    ¬ AppendsBytes (JBuffer.mk [] [0, 0, 0, 0] 0 false)
      (appendArg2Buffer (JBuffer.mk [] [0, 0, 0, 0] 0 false) 0 (LogArg.uint8 65))
      (directText (LogArg.uint8 65)) := by
  have e : appendArg2Buffer (JBuffer.mk [] [0, 0, 0, 0] 0 false) 0 (LogArg.uint8 65)
      = .ok (JBuffer.mk [65] [0, 0, 0] 0 false) := rfl
  refine ⟨e, rfl, rfl, ?_⟩
  rw [e]
  rintro (⟨j2, old, h1, h2, h3, _⟩ | ⟨h1, _⟩)
  · simp only [Except.ok.injEq] at h1
    subst h1
    have h4 : (JBuffer.mk [] [0, 0, 0, 0] 0 false).Bytes = .ok [] := rfl
    have h5 : (JBuffer.mk [65] [0, 0, 0] 0 false).Bytes = .ok [65] := rfl
    rw [h4] at h2
    simp only [Except.ok.injEq] at h2
    subst h2
    rw [h5] at h3
    simp only [Except.ok.injEq] at h3
    revert h3
    decide
  · cases h1

/-- C32: for every buffer with `off ≤ len(buf)` and every argument that is a `bool`, an
`int`, `int8`, `int16`, `int32`, `int64`, a `uint`, `uint16`, `uint32`, `uint64`, a
string, a byte slice or an error, `appendArg2Buffer` (`DebugBufferAppend`) appends the
direct text of the argument: `true`/`false`, the base-10 text of the integer, the bytes
of the string; a `byte` (`uint8`) argument is appended as the one raw byte.  The only
other outcome is the panic `ErrTooLarge` of `grow`. -/
theorem appendArg2Buffer_renders (buf : JBuffer) (extra : Nat) (arg : LogArg)
    (hinv : buf.off ≤ buf.len) :
    ((∀ v, arg ≠ LogArg.uint8 v) →
      AppendsBytes buf (appendArg2Buffer buf extra arg) (directText arg)) ∧
    (∀ v, arg = LogArg.uint8 v → AppendsBytes buf (appendArg2Buffer buf extra arg) [v]) ∧
    DebugBufferAppend buf extra arg = appendArg2Buffer buf extra arg := by
  refine ⟨appendArg2Buffer_spec buf extra arg hinv, ?_, rfl⟩
  intro v hv
  subst hv
  exact WriteByte_AppendsBytes buf v hinv

/-- Witness of C32: the `int` argument -45 on a buffer with one consumed byte and no
spare capacity. -/
theorem appendArg2Buffer_renders_witness :
    (JBuffer.mk [1, 2, 3] [] 1 false).off ≤ (JBuffer.mk [1, 2, 3] [] 1 false).len ∧
    directText (LogArg.int (-45)) = [45, 52, 53] ∧
    (appendArg2Buffer (JBuffer.mk [1, 2, 3] [] 1 false) 0 (LogArg.int (-45))).map
      JBuffer.Bytes = .ok (.ok [2, 3, 45, 52, 53]) ∧
    AppendsBytes (JBuffer.mk [1, 2, 3] [] 1 false)
      (appendArg2Buffer (JBuffer.mk [1, 2, 3] [] 1 false) 0 (LogArg.int (-45)))
      (directText (LogArg.int (-45))) :=
  ⟨by decide, by decide, rfl,
    (appendArg2Buffer_renders (JBuffer.mk [1, 2, 3] [] 1 false) 0 (LogArg.int (-45))
      (by decide)).1 (by intro v h; cases h)⟩

/-! ## Submitting a record while the pipeline is closed -/

theorem selectCase_closed (env : CallEnv) (hfull : 64 ≤ env.queued) (hc : env.closed = true) :
    selectCase env = Ready.closed := by
  have h1 : ¬ env.queued < 64 := by omega
  simp only [selectCase, h1, if_false, hc, if_true]

/-- For a standard-stream logger, `Output` returns without any output when the queue is
full and the pipeline is closed. -/
theorem Output_std_closed (l : logger) (env : CallEnv) (lv : Int) (pfx : List Nat)
    (args : List LogArg) (hstd : l.std = true) (hchk : l.file._Check lv = true)
    (hargs : args ≠ []) (hfull : 64 ≤ env.queued) (hc : env.closed = true) :
    l.Output env lv pfx args = .ok Outcome.dropped := by
  have h1 : ¬ (l.file._Check lv = false ∨ args.length = 0) := by
    rintro (h | h)
    · rw [hchk] at h; cases h
    · exact hargs (List.length_eq_zero.mp h)
  simp only [logger.Output, h1, if_false, selectCase_closed env hfull hc, hstd, if_true]
  rfl

/-- C33: with the queue full and the pipeline closed, `Output` on a standard-stream
logger returns without rendering and without writing anything (its `if l.std { return }`
comes before the rendering), for an enabled record with arguments; `Outputf` on the same
logger writes `logger discard: ` and the record to standard error, and `Output` on a
directory-backed logger hands it to the standard logger. -/
theorem Output_discards_silently_for_std :
    (logger.mk logFile.zero.SetDefaultLevel true).file._Check INFO = true ∧
    selectCase (CallEnv.mk 64 true false [] 0 false (Pool.mk [JBuffer.zero]) (some 0)
      (Clock.mk 2024 3 9 7 5 1 123456789) 0) = Ready.closed ∧
    (logger.mk logFile.zero.SetDefaultLevel true).Output
      (CallEnv.mk 64 true false [] 0 false (Pool.mk [JBuffer.zero]) (some 0)
        (Clock.mk 2024 3 9 7 5 1 123456789) 0) INFO [] [LogArg.string [104, 105]]
      = .ok Outcome.dropped ∧
    (logger.mk logFile.zero.SetDefaultLevel true).Outputf
      (CallEnv.mk 64 true false [] 0 false (Pool.mk [JBuffer.zero]) (some 0)
        (Clock.mk 2024 3 9 7 5 1 123456789) 0) INFO [] [104, 105]
      = .ok (Outcome.discard Sink.stderr (discardLabel
          ++ [50, 48, 50, 52, 48, 51, 48, 57, 32, 48, 55, 58, 48, 53, 58, 48, 49, 46,
            49, 50, 51, 52, 53, 54, 32, 91, 73, 93, 58, 104, 105, 10])) ∧
    (logger.mk logFile.zero.SetDefaultLevel false).Output
      (CallEnv.mk 64 true false [] 0 false (Pool.mk [JBuffer.zero]) (some 0)
        (Clock.mk 2024 3 9 7 5 1 123456789) 0) INFO [] [LogArg.string [104, 105]]
      = .ok (Outcome.discard Sink.stdLog (discardLabel
          ++ [50, 48, 50, 52, 48, 51, 48, 57, 32, 48, 55, 58, 48, 53, 58, 48, 49, 46,
            49, 50, 51, 52, 53, 54, 32, 91, 73, 93, 58, 104, 105, 32, 10])) :=
  ⟨rfl, rfl, rfl, rfl, rfl⟩

/-! ## The worker -/

theorem writtenOf_append (a b : List WorkerEvent) :
    writtenOf (a ++ b) = writtenOf a ++ writtenOf b := by
  induction a with
  | nil => rfl
  | cons e t ih =>
    rw [List.cons_append]
    cases e with
    | write d err =>
      cases err with
      | none =>
        show d :: writtenOf (t ++ b) = d :: writtenOf t ++ writtenOf b
        rw [ih]; rfl
      | some x => exact ih
    | flush => exact ih
    | report x => exact ih
    | reportBlocked x => exact ih
    | closed => exact ih
    | closeFiles => exact ih
    | waitClose => exact ih

theorem writtenOf_tail (std : Bool) :
    writtenOf ([WorkerEvent.closed] ++ (if std then [] else [WorkerEvent.closeFiles])
      ++ [WorkerEvent.waitClose]) = [] := by
  cases std <;> rfl

namespace Pipeline

theorem GoLogger_exit (res : Nat → Option GoError) (rep : Nat → Bool) (s : Pipeline)
    (c : Select) (h : s.closeWriteNil = true ∧ s.logCh.length = 0) :
    s._GoLogger res rep c
      = { s with logCh := [], events := s.events ++ [WorkerEvent.flush], ret := some none } := by
  unfold _GoLogger
  rw [if_pos h]

theorem GoLogger_tick (res : Nat → Option GoError) (rep : Nat → Bool) (s : Pipeline)
    (h : ¬ (s.closeWriteNil = true ∧ s.logCh.length = 0)) :
    s._GoLogger res rep Select.tick
      = { s with events := s.events ++ [WorkerEvent.flush] } := by
  unfold _GoLogger
  rw [if_neg h]

theorem GoLogger_close (res : Nat → Option GoError) (rep : Nat → Bool) (s : Pipeline)
    (h : ¬ (s.closeWriteNil = true ∧ s.logCh.length = 0)) :
    s._GoLogger res rep Select.close
      = if s.closeCalled = true ∧ s.closeWriteNil = false then { s with closeWriteNil := true }
        else s := by
  unfold _GoLogger
  rw [if_neg h]

theorem GoLogger_data_empty (res : Nat → Option GoError) (rep : Nat → Bool) (s : Pipeline)
    (h : ¬ (s.closeWriteNil = true ∧ s.logCh.length = 0)) (hq : s.logCh = []) :
    s._GoLogger res rep Select.data = s := by
  unfold _GoLogger
  rw [if_neg h]
  simp only [hq]

theorem GoLogger_data_ok (res : Nat → Option GoError) (rep : Nat → Bool) (s : Pipeline)
    (d : logData) (rest : List logData) (hq : s.logCh = d :: rest)
    (hr : res s.writes = none) :
    s._GoLogger res rep Select.data
      = { s with logCh := rest, writes := s.writes + 1,
                 events := s.events ++ [WorkerEvent.write d none] } := by
  have h : ¬ (s.closeWriteNil = true ∧ s.logCh.length = 0) := by
    rw [hq]; simp
  unfold _GoLogger
  rw [if_neg h]
  simp only [hq, hr]

theorem GoLogger_data_err (res : Nat → Option GoError) (rep : Nat → Bool) (s : Pipeline)
    (d : logData) (rest : List logData) (e : GoError) (hq : s.logCh = d :: rest)
    (hr : res s.writes = some e) :
    s._GoLogger res rep Select.data
      = { s with logCh := rest, writes := s.writes + 1,
                 events := s.events ++ [WorkerEvent.write d (some e)]
                   ++ [if rep 0 then WorkerEvent.report e else WorkerEvent.reportBlocked e],
                 ret := some (some e) } := by
  have h : ¬ (s.closeWriteNil = true ∧ s.logCh.length = 0) := by
    rw [hq]; simp
  unfold _GoLogger
  rw [if_neg h]
  simp only [hq, hr]

theorem finish_ret (std : Bool) (rep : Nat → Bool) (s : Pipeline) :
    (s.finish std rep).ret = s.ret := by
  unfold finish
  split
  · rfl
  · rfl
  · split
    · split <;> rfl
    · rfl

theorem finish_accepted (std : Bool) (rep : Nat → Bool) (s : Pipeline) :
    (s.finish std rep).accepted = s.accepted := by
  unfold finish
  split
  · rfl
  · rfl
  · split
    · split <;> rfl
    · rfl

theorem finish_running (std : Bool) (rep : Nat → Bool) (s : Pipeline) (h : s.ret = none) :
    s.finish std rep = s := by
  simp only [finish, h]

theorem step_worker (std : Bool) (res : Nat → Option GoError) (rep : Nat → Bool)
    (s : Pipeline) (c : Select) (hrun : s.ret = none) :
    s.step std res rep (Action.worker c) = (s._GoLogger res rep c).finish std rep := by
  simp only [step, hrun]

theorem step_returned (std : Bool) (res : Nat → Option GoError) (rep : Nat → Bool)
    (s : Pipeline) (a : Action) (r : Option GoError) (h : s.ret = some r) :
    (s.step std res rep a).ret = some r ∧ (s.step std res rep a).events = s.events ∧
    (s.step std res rep a).writes = s.writes ∧
    (r = none → (s.step std res rep a).logCh = s.logCh ∧
      (s.step std res rep a).accepted = s.accepted) := by
  cases a with
  | worker c => simp only [step, h, and_self, implies_true]
  | Close => simp only [step, h, and_self, implies_true]
  | send d =>
    cases r with
    | none => simp only [step, h, and_self, implies_true]
    | some e =>
      by_cases hl : s.logCh.length < 64
      · simp only [step, h, hl, if_true, true_and, reduceCtorEq, false_implies]
      · simp only [step, h, hl, if_false, true_and, reduceCtorEq, false_implies]

/-- The normal return of the worker is taken exactly from a state with the shutdown
signal received and the queue empty; it flushes, publishes CLOSED, closes the files
unless the logger is in standard-stream mode, and releases `Close`. -/
theorem step_exit (std : Bool) (res : Nat → Option GoError) (rep : Nat → Bool)
    (s : Pipeline) (c : Select) (hrun : s.ret = none)
    (h : s.closeWriteNil = true ∧ s.logCh = []) :
    s.step std res rep (Action.worker c) = { s with
      logCh := [],
      events := s.events ++ [WorkerEvent.flush] ++ [WorkerEvent.closed]
        ++ (if std then [] else [WorkerEvent.closeFiles]) ++ [WorkerEvent.waitClose],
      ret := some none } := by
  have hx : s.closeWriteNil = true ∧ s.logCh.length = 0 := ⟨h.1, by rw [h.2]; rfl⟩
  rw [step_worker std res rep s c hrun, GoLogger_exit res rep s c hx]
  simp only [finish]

/-- A pass of the worker from a state in which the shutdown signal has not been received
or records are queued does not take the normal return. -/
theorem step_no_exit (std : Bool) (res : Nat → Option GoError) (rep : Nat → Bool)
    (s : Pipeline) (c : Select) (hrun : s.ret = none)
    (h : ¬ (s.closeWriteNil = true ∧ s.logCh = [])) :
    (s.step std res rep (Action.worker c)).ret ≠ some none := by
  have hx : ¬ (s.closeWriteNil = true ∧ s.logCh.length = 0) := by
    intro hh
    exact h ⟨hh.1, List.length_eq_zero.mp hh.2⟩
  rw [step_worker std res rep s c hrun, finish_ret]
  cases c with
  | tick =>
    rw [GoLogger_tick res rep s hx]
    simp only [hrun, ne_eq, reduceCtorEq, not_false_eq_true]
  | close =>
    rw [GoLogger_close res rep s hx]
    split <;> simp only [hrun, ne_eq, reduceCtorEq, not_false_eq_true]
  | data =>
    cases hq : s.logCh with
    | nil =>
      rw [GoLogger_data_empty res rep s hx hq]
      simp only [hrun, ne_eq, reduceCtorEq, not_false_eq_true]
    | cons d rest =>
      cases hr : res s.writes with
      | none =>
        rw [GoLogger_data_ok res rep s d rest hq hr]
        simp only [hrun, ne_eq, reduceCtorEq, not_false_eq_true]
      | some e =>
        rw [GoLogger_data_err res rep s d rest e hq hr]
        simp only [ne_eq, Option.some.injEq, reduceCtorEq, not_false_eq_true]

/-- Receiving the shutdown signal: the worker goes on, the queue is kept. -/
theorem step_signal (std : Bool) (res : Nat → Option GoError) (rep : Nat → Bool)
    (s : Pipeline) (hrun : s.ret = none) (hn : s.closeWriteNil = false) :
    (s.step std res rep (Action.worker Select.close)).ret = none ∧
    (s.step std res rep (Action.worker Select.close)).logCh = s.logCh ∧
    (s.step std res rep (Action.worker Select.close)).events = s.events ∧
    (s.step std res rep (Action.worker Select.close)).closeWriteNil = s.closeCalled := by
  have hx : ¬ (s.closeWriteNil = true ∧ s.logCh.length = 0) := by
    rw [hn]; simp
  rw [step_worker std res rep s _ hrun, GoLogger_close res rep s hx]
  by_cases hc : s.closeCalled = true
  · rw [if_pos ⟨hc, hn⟩]
    simp only [finish, hrun, hc, and_self]
  · have hc2 : s.closeCalled = false := by simpa using hc
    rw [if_neg (by rw [hc2]; simp)]
    simp only [finish, hrun, hn, hc2, and_self]

/-- Without write errors, what has been written followed by what is queued is what has
been accepted, and once the worker has returned it has returned normally, with the queue
empty, after a final flush, CLOSED, the closing of the files unless the logger is in
standard-stream mode, and the release of `Close`. -/
theorem step_drain (std : Bool) (res : Nat → Option GoError) (rep : Nat → Bool)
    (hres : ∀ k, res k = none)
    (s : Pipeline) (a : Action)
    (h1 : writtenOf s.events ++ s.logCh = s.accepted)
    (h2 : s.ret = none ∨ (s.ret = some none ∧ s.logCh = [] ∧
      ∃ pre, s.events = pre ++ [WorkerEvent.flush] ++ [WorkerEvent.closed]
        ++ (if std then [] else [WorkerEvent.closeFiles]) ++ [WorkerEvent.waitClose])) :
    writtenOf (s.step std res rep a).events ++ (s.step std res rep a).logCh
      = (s.step std res rep a).accepted ∧
    ((s.step std res rep a).ret = none ∨ ((s.step std res rep a).ret = some none ∧
      (s.step std res rep a).logCh = [] ∧
      ∃ pre, (s.step std res rep a).events = pre ++ [WorkerEvent.flush] ++ [WorkerEvent.closed]
        ++ (if std then [] else [WorkerEvent.closeFiles]) ++ [WorkerEvent.waitClose])) := by
  rcases h2 with hrun | ⟨hret, hq, pre, hpre⟩
  · cases a with
    | Close => exact ⟨h1, Or.inl (by trivial)⟩
    | send d =>
      by_cases hl : s.logCh.length < 64
      · simp only [step, hrun, hl, if_true]
        refine ⟨?_, Or.inl (by trivial)⟩
        rw [← List.append_assoc, h1]
      · simp only [step, hrun, hl, if_false]
        exact ⟨h1, Or.inl (by trivial)⟩
    | worker c =>
      by_cases hx : s.closeWriteNil = true ∧ s.logCh = []
      · rw [step_exit std res rep s c hrun hx]
        refine ⟨?_, Or.inr ⟨rfl, rfl, s.events, rfl⟩⟩
        show writtenOf (s.events ++ [WorkerEvent.flush] ++ [WorkerEvent.closed]
          ++ (if std then [] else [WorkerEvent.closeFiles]) ++ [WorkerEvent.waitClose]) ++ []
          = s.accepted
        rw [List.append_nil, List.append_assoc, List.append_assoc, List.append_assoc,
          writtenOf_append, writtenOf_append]
        rw [← List.append_assoc [WorkerEvent.closed], writtenOf_tail, ← h1, hx.2]
        rfl
      · have hx2 : ¬ (s.closeWriteNil = true ∧ s.logCh.length = 0) := by
          intro hh
          exact hx ⟨hh.1, List.length_eq_zero.mp hh.2⟩
        rw [step_worker std res rep s c hrun]
        cases c with
        | tick =>
          rw [GoLogger_tick res rep s hx2]
          simp only [finish, hrun]
          refine ⟨?_, Or.inl (by trivial)⟩
          rw [writtenOf_append]
          exact (by simpa [writtenOf] using h1)
        | close =>
          rw [GoLogger_close res rep s hx2]
          split
          · simp only [finish, hrun]
            exact ⟨h1, Or.inl (by trivial)⟩
          · simp only [finish, hrun]
            exact ⟨h1, Or.inl (by trivial)⟩
        | data =>
          cases hq : s.logCh with
          | nil =>
            rw [GoLogger_data_empty res rep s hx2 hq]
            simp only [finish, hrun]
            exact ⟨by rw [← h1, hq], Or.inl (by trivial)⟩
          | cons d rest =>
            rw [GoLogger_data_ok res rep s d rest hq (hres _)]
            simp only [finish, hrun]
            refine ⟨?_, Or.inl (by trivial)⟩
            rw [writtenOf_append, ← h1, hq]
            simp [writtenOf]
  · obtain ⟨e1, e2, _, e4⟩ := step_returned std res rep s a none hret
    obtain ⟨e5, e6⟩ := e4 rfl
    rw [e2, e5, e6, e1]
    exact ⟨h1, Or.inr ⟨rfl, hq, pre, hpre⟩⟩

theorem run_drain (std : Bool) (res : Nat → Option GoError) (rep : Nat → Bool)
    (hres : ∀ k, res k = none)
    (acts : List Action) : ∀ (s : Pipeline),
    writtenOf s.events ++ s.logCh = s.accepted →
    (s.ret = none ∨ (s.ret = some none ∧ s.logCh = [] ∧
      ∃ pre, s.events = pre ++ [WorkerEvent.flush] ++ [WorkerEvent.closed]
        ++ (if std then [] else [WorkerEvent.closeFiles]) ++ [WorkerEvent.waitClose])) →
    writtenOf (s.run std res rep acts).events ++ (s.run std res rep acts).logCh
      = (s.run std res rep acts).accepted ∧
    ((s.run std res rep acts).ret = none ∨ ((s.run std res rep acts).ret = some none ∧
      (s.run std res rep acts).logCh = [] ∧
      ∃ pre, (s.run std res rep acts).events = pre ++ [WorkerEvent.flush]
        ++ [WorkerEvent.closed] ++ (if std then [] else [WorkerEvent.closeFiles])
        ++ [WorkerEvent.waitClose])) := by
  induction acts with
  | nil => intro s h1 h2; exact ⟨h1, h2⟩
  | cons a t ih =>
    intro s h1 h2
    obtain ⟨k1, k2⟩ := step_drain std res rep hres s a h1 h2
    exact ih (s.step std res rep a) k1 k2

/-- While the worker runs, `waitClose` has not been closed. -/
theorem step_not_released (std : Bool) (res : Nat → Option GoError) (rep : Nat → Bool)
    (s : Pipeline) (a : Action) (h : s.ret = none → WorkerEvent.waitClose ∉ s.events) :
    (s.step std res rep a).ret = none → WorkerEvent.waitClose ∉ (s.step std res rep a).events := by
  cases hr : s.ret with
  | some r =>
    intro h2
    rw [(step_returned std res rep s a r hr).1] at h2
    cases h2
  | none =>
    have hw := h hr
    cases a with
    | Close => intro _; exact hw
    | send d =>
      by_cases hl : s.logCh.length < 64
      · simp only [step, hr, hl, if_true]
        intro _; exact hw
      · simp only [step, hr, hl, if_false]
        intro _; exact hw
    | worker c =>
      rw [step_worker std res rep s c hr]
      intro h2
      rw [finish_ret] at h2
      rw [finish_running std rep _ h2]
      by_cases hx : s.closeWriteNil = true ∧ s.logCh.length = 0
      · rw [GoLogger_exit res rep s c hx] at h2
        cases h2
      · cases c with
        | tick =>
          rw [GoLogger_tick res rep s hx]
          simp only [List.mem_append, List.mem_singleton, reduceCtorEq, or_false]
          exact hw
        | close =>
          rw [GoLogger_close res rep s hx]
          split
          · exact hw
          · exact hw
        | data =>
          cases hq : s.logCh with
          | nil =>
            rw [GoLogger_data_empty res rep s hx hq]
            exact hw
          | cons d rest =>
            cases hres : res s.writes with
            | none =>
              rw [GoLogger_data_ok res rep s d rest hq hres]
              simp only [List.mem_append, List.mem_singleton, reduceCtorEq, or_false]
              exact hw
            | some e =>
              rw [GoLogger_data_err res rep s d rest e hq hres] at h2
              cases h2

theorem run_not_released (std : Bool) (res : Nat → Option GoError) (rep : Nat → Bool)
    (acts : List Action) : ∀ (s : Pipeline),
    (s.ret = none → WorkerEvent.waitClose ∉ s.events) →
    (s.run std res rep acts).ret = none →
    WorkerEvent.waitClose ∉ (s.run std res rep acts).events := by
  induction acts with
  | nil => intro s h; exact h
  | cons a t ih =>
    intro s h
    exact ih (s.step std res rep a) (step_not_released std res rep s a h)

/-- A step consults the write oracle only in the pass that takes a record from the
queue. -/
theorem step_res_none (std : Bool) (res : Nat → Option GoError) (rep : Nat → Bool)
    (s : Pipeline) (a : Action)
    (h : ∀ d rest, a = Action.worker Select.data → s.ret = none → s.logCh = d :: rest →
      res s.writes = none) :
    s.step std res rep a = s.step std (fun _ => none) rep a := by
  cases a with
  | Close => rfl
  | send d => rfl
  | worker c =>
    cases hr : s.ret with
    | some r => simp only [step, hr]
    | none =>
      rw [step_worker std res rep s c hr, step_worker std _ rep s c hr]
      cases c with
      | tick => rfl
      | close => rfl
      | data =>
        cases hq : s.logCh with
        | nil => simp only [_GoLogger, hq]
        | cons d rest =>
          have hn := h d rest rfl hr hq
          simp only [_GoLogger, hq, hn]

theorem finish_events_mono (std : Bool) (rep : Nat → Bool) (s : Pipeline) (x : WorkerEvent)
    (hx : x ∈ s.events) : x ∈ (s.finish std rep).events := by
  unfold finish
  split
  · exact hx
  · simp only [List.mem_append]
    exact Or.inl (Or.inl (Or.inl hx))
  · split
    · split
      · simp only [List.mem_append]
        exact Or.inl (Or.inl (Or.inl (Or.inl hx)))
      · simp only [List.mem_append]
        exact Or.inl hx
    · exact hx

/-- What the goroutine has done stays done. -/
theorem step_events_mono (std : Bool) (res : Nat → Option GoError) (rep : Nat → Bool)
    (s : Pipeline) (a : Action) (x : WorkerEvent) (hx : x ∈ s.events) :
    x ∈ (s.step std res rep a).events := by
  cases a with
  | Close => exact hx
  | send d =>
    by_cases hl : s.logCh.length < 64
    · cases hr : s.ret with
      | none => simp only [step, hr, hl, if_true]; exact hx
      | some r =>
        cases r with
        | none => simp only [step, hr]; exact hx
        | some e => simp only [step, hr, hl, if_true]; exact hx
    · cases hr : s.ret with
      | none => simp only [step, hr, hl, if_false]; exact hx
      | some r =>
        cases r with
        | none => simp only [step, hr]; exact hx
        | some e => simp only [step, hr, hl, if_false]; exact hx
  | worker c =>
    cases hr : s.ret with
    | some r => simp only [step, hr]; exact hx
    | none =>
      rw [step_worker std res rep s c hr]
      apply finish_events_mono
      by_cases hx2 : s.closeWriteNil = true ∧ s.logCh.length = 0
      · rw [GoLogger_exit res rep s c hx2]
        exact List.mem_append_left _ hx
      · cases c with
        | tick =>
          rw [GoLogger_tick res rep s hx2]
          exact List.mem_append_left _ hx
        | close =>
          rw [GoLogger_close res rep s hx2]
          split
          · exact hx
          · exact hx
        | data =>
          cases hq : s.logCh with
          | nil =>
            rw [GoLogger_data_empty res rep s hx2 hq]
            exact hx
          | cons d rest =>
            cases hw : res s.writes with
            | none =>
              rw [GoLogger_data_ok res rep s d rest hq hw]
              exact List.mem_append_left _ hx
            | some e =>
              rw [GoLogger_data_err res rep s d rest e hq hw]
              exact List.mem_append_left _ (List.mem_append_left _ hx)

/-- A step keeps the account of the records (what has been written followed by what is
queued is what has been accepted, and a worker that has returned has returned normally
after the final flush, CLOSED and the release of `Close`), unless a write fails in
it. -/
theorem step_drain_or_failed (std : Bool) (res : Nat → Option GoError) (rep : Nat → Bool)
    (s : Pipeline) (a : Action)
    (h1 : writtenOf s.events ++ s.logCh = s.accepted)
    (h2 : s.ret = none ∨ (s.ret = some none ∧ s.logCh = [] ∧
      ∃ pre, s.events = pre ++ [WorkerEvent.flush] ++ [WorkerEvent.closed]
        ++ (if std then [] else [WorkerEvent.closeFiles]) ++ [WorkerEvent.waitClose])) :
    (writtenOf (s.step std res rep a).events ++ (s.step std res rep a).logCh
        = (s.step std res rep a).accepted ∧
      ((s.step std res rep a).ret = none ∨ ((s.step std res rep a).ret = some none ∧
        (s.step std res rep a).logCh = [] ∧
        ∃ pre, (s.step std res rep a).events = pre ++ [WorkerEvent.flush]
          ++ [WorkerEvent.closed] ++ (if std then [] else [WorkerEvent.closeFiles])
          ++ [WorkerEvent.waitClose]))) ∨
    (∃ d e, WorkerEvent.write d (some e) ∈ (s.step std res rep a).events) := by
  by_cases hc : ∃ d rest e, a = Action.worker Select.data ∧ s.ret = none ∧
      s.logCh = d :: rest ∧ res s.writes = some e
  · obtain ⟨d, rest, e, ha, hr, hq, hw⟩ := hc
    refine Or.inr ⟨d, e, ?_⟩
    rw [ha, step_worker std res rep s _ hr, GoLogger_data_err res rep s d rest e hq hw]
    apply finish_events_mono
    exact List.mem_append_left _ (List.mem_append_right _ (List.mem_singleton.mpr rfl))
  · refine Or.inl ?_
    have hn : ∀ d rest, a = Action.worker Select.data → s.ret = none → s.logCh = d :: rest →
        res s.writes = none := by
      intro d rest ha hr hq
      cases hw : res s.writes with
      | none => rfl
      | some e => exact absurd ⟨d, rest, e, ha, hr, hq, hw⟩ hc
    rw [step_res_none std res rep s a hn]
    exact step_drain std (fun _ => none) rep (fun _ => rfl) s a h1 h2

theorem run_drain_or_failed (std : Bool) (res : Nat → Option GoError) (rep : Nat → Bool)
    (acts : List Action) : ∀ (s : Pipeline),
    ((writtenOf s.events ++ s.logCh = s.accepted ∧
      (s.ret = none ∨ (s.ret = some none ∧ s.logCh = [] ∧
        ∃ pre, s.events = pre ++ [WorkerEvent.flush] ++ [WorkerEvent.closed]
          ++ (if std then [] else [WorkerEvent.closeFiles]) ++ [WorkerEvent.waitClose]))) ∨
      (∃ d e, WorkerEvent.write d (some e) ∈ s.events)) →
    ((writtenOf (s.run std res rep acts).events ++ (s.run std res rep acts).logCh
        = (s.run std res rep acts).accepted ∧
      ((s.run std res rep acts).ret = none ∨ ((s.run std res rep acts).ret = some none ∧
        (s.run std res rep acts).logCh = [] ∧
        ∃ pre, (s.run std res rep acts).events = pre ++ [WorkerEvent.flush]
          ++ [WorkerEvent.closed] ++ (if std then [] else [WorkerEvent.closeFiles])
          ++ [WorkerEvent.waitClose]))) ∨
      (∃ d e, WorkerEvent.write d (some e) ∈ (s.run std res rep acts).events)) := by
  induction acts with
  | nil => intro s h; exact h
  | cons a t ih =>
    intro s h
    apply ih (s.step std res rep a)
    rcases h with ⟨h1, h2⟩ | ⟨d, e, hf⟩
    · exact step_drain_or_failed std res rep s a h1 h2
    · exact Or.inr ⟨d, e, step_events_mono std res rep s a _ hf⟩

/-- What has been accepted stays accepted, in its order. -/
theorem run_accepted (std : Bool) (res : Nat → Option GoError) (rep : Nat → Bool)
    (acts : List Action) :
    ∀ (s : Pipeline), ∃ more, (s.run std res rep acts).accepted = s.accepted ++ more := by
  induction acts with
  | nil => intro s; exact ⟨[], (List.append_nil _).symm⟩
  | cons a t ih =>
    intro s
    obtain ⟨more, hm⟩ := ih (s.step std res rep a)
    have hs : ∃ m1, (s.step std res rep a).accepted = s.accepted ++ m1 := by
      cases a with
      | Close => exact ⟨[], (List.append_nil _).symm⟩
      | worker c =>
        cases hr : s.ret with
        | some r => exact ⟨[], by simp only [step, hr, List.append_nil]⟩
        | none =>
          refine ⟨[], ?_⟩
          rw [List.append_nil, step_worker std res rep s c hr, finish_accepted]
          by_cases hx : s.closeWriteNil = true ∧ s.logCh.length = 0
          · rw [GoLogger_exit res rep s c hx]
          · cases c with
            | tick => rw [GoLogger_tick res rep s hx]
            | close =>
              rw [GoLogger_close res rep s hx]
              split <;> rfl
            | data =>
              cases hq : s.logCh with
              | nil => rw [GoLogger_data_empty res rep s hx hq]
              | cons d rest =>
                cases hw : res s.writes with
                | none => rw [GoLogger_data_ok res rep s d rest hq hw]
                | some e => rw [GoLogger_data_err res rep s d rest e hq hw]
      | send d =>
        by_cases hl : s.logCh.length < 64
        · cases hr : s.ret with
          | none => exact ⟨[d], by simp only [step, hr, hl, if_true]⟩
          | some r =>
            cases r with
            | none => exact ⟨[], by simp only [step, hr, List.append_nil]⟩
            | some e => exact ⟨[d], by simp only [step, hr, hl, if_true]⟩
        · cases hr : s.ret with
          | none => exact ⟨[], by simp only [step, hr, hl, if_false, List.append_nil]⟩
          | some r =>
            cases r with
            | none => exact ⟨[], by simp only [step, hr, List.append_nil]⟩
            | some e => exact ⟨[], by simp only [step, hr, hl, if_false, List.append_nil]⟩
    obtain ⟨m1, hm1⟩ := hs
    refine ⟨m1 ++ more, ?_⟩
    show ((s.step std res rep a).run std res rep t).accepted = _
    rw [hm, hm1, List.append_assoc]

end Pipeline

/-- A write error whose report never returns: the goroutine stays inside
`_StdLog().Errorf`, and neither `l.closed` nor `l.waitClose` is closed. -/
theorem report_blocked_keeps_Close_waiting :
    (Pipeline.start.run false (fun k => if k = 0 then some GoError.writeFailed else none)
      (fun _ => false)
      [Action.send (logData.mk INFO [97] 1 false pure), Action.Close,
        Action.worker Select.close, Action.worker Select.data, Action.worker Select.tick])
      = Pipeline.mk true true [] [logData.mk INFO [97] 1 false pure] 1
          [WorkerEvent.write (logData.mk INFO [97] 1 false pure) (some GoError.writeFailed),
            WorkerEvent.reportBlocked GoError.writeFailed]
          (some (some GoError.writeFailed)) :=
  rfl

/-- C36: in the model of the worker loop as steps on the state of the pipeline, from a
running state: a step ends in the normal return only if it is a pass of the worker from
a state with the shutdown signal received and the queue empty, and that pass flushes,
publishes CLOSED (and closes the files unless the logger is in standard-stream mode)
before it releases `Close`; the pass that receives the shutdown signal keeps the worker
running and the queue as it is; while records are queued no pass takes the normal
return; and in a run without write errors, once the worker has returned normally the
queue is empty and the records written are the records accepted, in their order. -/
theorem worker_state_machine (std : Bool) (res : Nat → Option GoError) (rep : Nat → Bool)
    (s : Pipeline) (a : Action) (acts : List Action) (hrun : s.ret = none)
    (hinv : writtenOf s.events ++ s.logCh = s.accepted) :
    ((s.step std res rep a).ret = some none →
      s.closeWriteNil = true ∧ s.logCh = [] ∧ (∃ c, a = Action.worker c) ∧
      (s.step std res rep a).events = s.events ++ [WorkerEvent.flush] ++ [WorkerEvent.closed]
        ++ (if std then [] else [WorkerEvent.closeFiles]) ++ [WorkerEvent.waitClose]) ∧
    (s.closeWriteNil = false →
      (s.step std res rep (Action.worker Select.close)).ret = none ∧
      (s.step std res rep (Action.worker Select.close)).logCh = s.logCh ∧
      (s.step std res rep (Action.worker Select.close)).closeWriteNil = s.closeCalled) ∧
    (s.logCh ≠ [] → ∀ c, (s.step std res rep (Action.worker c)).ret ≠ some none) ∧
    ((∀ k, res k = none) → (s.run std res rep acts).ret = some none →
      (s.run std res rep acts).logCh = [] ∧
      writtenOf (s.run std res rep acts).events = (s.run std res rep acts).accepted ∧
      ∃ more, (s.run std res rep acts).accepted = s.accepted ++ more) := by
  refine ⟨?_, ?_, ?_, ?_⟩
  · intro h
    cases a with
    | Close => simp only [Pipeline.step, hrun, reduceCtorEq] at h
    | send d =>
      by_cases hl : s.logCh.length < 64
      · simp only [Pipeline.step, hrun, hl, if_true, reduceCtorEq] at h
      · simp only [Pipeline.step, hrun, hl, if_false, reduceCtorEq] at h
    | worker c =>
      by_cases hx : s.closeWriteNil = true ∧ s.logCh = []
      · refine ⟨hx.1, hx.2, ⟨c, rfl⟩, ?_⟩
        rw [Pipeline.step_exit std res rep s c hrun hx]
      · exact absurd h (Pipeline.step_no_exit std res rep s c hrun hx)
  · intro hn
    obtain ⟨k1, k2, _, k4⟩ := Pipeline.step_signal std res rep s hrun hn
    exact ⟨k1, k2, k4⟩
  · intro hq c
    exact Pipeline.step_no_exit std res rep s c hrun (fun hh => hq hh.2)
  · intro hres hret
    obtain ⟨k1, k2⟩ := Pipeline.run_drain std res rep hres acts s hinv (Or.inl hrun)
    rcases k2 with k2 | ⟨_, k3, _⟩
    · rw [k2] at hret; cases hret
    · refine ⟨k3, ?_, Pipeline.run_accepted std res rep acts s⟩
      rw [← k1, k3, List.append_nil]

/-- Witness of C36: one record queued and `Close` called; the worker receives the
signal, writes the record and returns on its next pass. -/
theorem worker_state_machine_witness :
    (Pipeline.mk false true [logData.mk INFO [] 0 false pure]
      [logData.mk INFO [] 0 false pure] 0 [] none).ret = none ∧
    ((Pipeline.mk false true [logData.mk INFO [] 0 false pure]
        [logData.mk INFO [] 0 false pure] 0 [] none).run false (fun _ => none)
        (fun _ => true)
        [Action.worker Select.close, Action.worker Select.data,
          Action.worker Select.tick]).ret = some none ∧
    writtenOf ((Pipeline.mk false true [logData.mk INFO [] 0 false pure]
        [logData.mk INFO [] 0 false pure] 0 [] none).run false (fun _ => none)
        (fun _ => true)
        [Action.worker Select.close, Action.worker Select.data,
          Action.worker Select.tick]).events
      = ((Pipeline.mk false true [logData.mk INFO [] 0 false pure]
        [logData.mk INFO [] 0 false pure] 0 [] none).run false (fun _ => none)
        (fun _ => true)
        [Action.worker Select.close, Action.worker Select.data,
          Action.worker Select.tick]).accepted :=
  ⟨rfl, rfl,
    ((worker_state_machine false (fun _ => none) (fun _ => true)
      (Pipeline.mk false true [logData.mk INFO [] 0 false pure]
        [logData.mk INFO [] 0 false pure] 0 [] none)
      (Action.worker Select.close)
      [Action.worker Select.close, Action.worker Select.data, Action.worker Select.tick]
      rfl rfl).2.2.2 (fun _ => rfl) rfl).2.1⟩

/-- C34, counterexample: two records are accepted, then `Close` is called; the first
call of `l.file.Write` fails, both reports of the error return, the worker returns with
the error and `Close` is released while the second record is still queued and no record
has been written.  And on a standard-stream logger without write errors the streams are
flushed but `l.file.Close()` is not called. -/
theorem Close_returns_with_records_unwritten :
    (Pipeline.start.run false (fun k => if k = 0 then some GoError.writeFailed else none)
      (fun _ => true)
      [Action.send (logData.mk INFO [97] 1 false pure),
        Action.send (logData.mk WARN [98] 2 false pure), Action.Close,
        Action.worker Select.close, Action.worker Select.data])
      = Pipeline.mk true true [logData.mk WARN [98] 2 false pure]
          [logData.mk INFO [97] 1 false pure, logData.mk WARN [98] 2 false pure] 1
          [WorkerEvent.write (logData.mk INFO [97] 1 false pure) (some GoError.writeFailed),
            WorkerEvent.report GoError.writeFailed, WorkerEvent.report GoError.writeFailed,
            WorkerEvent.closed, WorkerEvent.closeFiles, WorkerEvent.waitClose]
          (some (some GoError.writeFailed)) ∧
    writtenOf
      [WorkerEvent.write (logData.mk INFO [97] 1 false pure) (some GoError.writeFailed),
        WorkerEvent.report GoError.writeFailed, WorkerEvent.report GoError.writeFailed,
        WorkerEvent.closed, WorkerEvent.closeFiles, WorkerEvent.waitClose] = [] ∧
    (Pipeline.start.run true (fun _ => none) (fun _ => true)
      [Action.send (logData.mk INFO [97] 1 false pure), Action.Close,
        Action.worker Select.close, Action.worker Select.data, Action.worker Select.tick])
      = Pipeline.mk true true [] [logData.mk INFO [97] 1 false pure] 1
          [WorkerEvent.write (logData.mk INFO [97] 1 false pure) none, WorkerEvent.flush,
            WorkerEvent.closed, WorkerEvent.waitClose]
          (some none) :=
  ⟨rfl, rfl, rfl⟩

/-- C34: in a run from the start of the pipeline in which `Close` has been called and has
returned (the goroutine has closed `waitClose`) and no call of `l.file.Write` has
failed, the worker has returned normally, the queue is empty, the records written are
the records accepted, each once and in the order of acceptance, the records accepted
before the call of `Close` among them; the last events are the final flush, CLOSED, the
closing of the files unless the logger is in standard-stream mode, and the release. -/
theorem Close_drains (std : Bool) (res : Nat → Option GoError) (rep : Nat → Bool)
    (acts1 acts2 : List Action)
    (hok : ∀ d e, WorkerEvent.write d (some e) ∉
      ((Pipeline.start.run std res rep acts1).run std res rep (Action.Close :: acts2)).events)
    (hret : WorkerEvent.waitClose ∈
      ((Pipeline.start.run std res rep acts1).run std res rep (Action.Close :: acts2)).events) :
    ((Pipeline.start.run std res rep acts1).run std res rep (Action.Close :: acts2)).ret
      = some none ∧
    ((Pipeline.start.run std res rep acts1).run std res rep (Action.Close :: acts2)).logCh
      = [] ∧
    writtenOf
        ((Pipeline.start.run std res rep acts1).run std res rep (Action.Close :: acts2)).events
      = ((Pipeline.start.run std res rep acts1).run std res rep
          (Action.Close :: acts2)).accepted ∧
    (∃ more,
      ((Pipeline.start.run std res rep acts1).run std res rep (Action.Close :: acts2)).accepted
        = (Pipeline.start.run std res rep acts1).accepted ++ more) ∧
    (∃ pre,
      ((Pipeline.start.run std res rep acts1).run std res rep (Action.Close :: acts2)).events
        = pre ++ [WorkerEvent.flush] ++ [WorkerEvent.closed]
          ++ (if std then [] else [WorkerEvent.closeFiles]) ++ [WorkerEvent.waitClose]) := by
  have m := Pipeline.run_drain_or_failed std res rep acts1 Pipeline.start
    (Or.inl ⟨rfl, Or.inl rfl⟩)
  have k := Pipeline.run_drain_or_failed std res rep (Action.Close :: acts2)
    (Pipeline.start.run std res rep acts1) m
  have m3 := Pipeline.run_not_released std res rep acts1 Pipeline.start
    (fun _ => List.not_mem_nil _)
  rcases k with ⟨k1, k2⟩ | ⟨d, e, hf⟩
  · rcases k2 with k2 | ⟨k2, k3, k4⟩
    · exact absurd hret
        (Pipeline.run_not_released std res rep (Action.Close :: acts2) _ m3 k2)
    · refine ⟨k2, k3, ?_, Pipeline.run_accepted std res rep _ _, k4⟩
      rw [← k1, k3, List.append_nil]
  · exact absurd hf (hok d e)

/-- Witness of C34: two records accepted before `Close`, written in their order. -/
theorem Close_drains_witness :
    ((Pipeline.start.run false (fun _ => none) (fun _ => true)
        [Action.send (logData.mk INFO [97] 1 false pure),
          Action.send (logData.mk WARN [98] 2 false pure)]).run false (fun _ => none)
        (fun _ => true)
        (Action.Close :: [Action.worker Select.data, Action.worker Select.close,
          Action.worker Select.data, Action.worker Select.tick])).events
      = [WorkerEvent.write (logData.mk INFO [97] 1 false pure) none,
          WorkerEvent.write (logData.mk WARN [98] 2 false pure) none, WorkerEvent.flush,
          WorkerEvent.closed, WorkerEvent.closeFiles, WorkerEvent.waitClose] ∧
    writtenOf ((Pipeline.start.run false (fun _ => none) (fun _ => true)
        [Action.send (logData.mk INFO [97] 1 false pure),
          Action.send (logData.mk WARN [98] 2 false pure)]).run false (fun _ => none)
        (fun _ => true)
        (Action.Close :: [Action.worker Select.data, Action.worker Select.close,
          Action.worker Select.data, Action.worker Select.tick])).events
      = ((Pipeline.start.run false (fun _ => none) (fun _ => true)
        [Action.send (logData.mk INFO [97] 1 false pure),
          Action.send (logData.mk WARN [98] 2 false pure)]).run false (fun _ => none)
        (fun _ => true)
        (Action.Close :: [Action.worker Select.data, Action.worker Select.close,
          Action.worker Select.data, Action.worker Select.tick])).accepted :=
  ⟨rfl,
    (Close_drains false (fun _ => none) (fun _ => true)
      [Action.send (logData.mk INFO [97] 1 false pure),
        Action.send (logData.mk WARN [98] 2 false pure)]
      [Action.worker Select.data, Action.worker Select.close, Action.worker Select.data,
        Action.worker Select.tick]
      (fun d e h => by
        have h2 : WorkerEvent.write d (some e) ∈
            [WorkerEvent.write (logData.mk INFO [97] 1 false pure) none,
              WorkerEvent.write (logData.mk WARN [98] 2 false pure) none, WorkerEvent.flush,
              WorkerEvent.closed, WorkerEvent.closeFiles, WorkerEvent.waitClose] := h
        simp at h2)
      (List.mem_append_right
        [WorkerEvent.write (logData.mk INFO [97] 1 false pure) none,
          WorkerEvent.write (logData.mk WARN [98] 2 false pure) none, WorkerEvent.flush,
          WorkerEvent.closed, WorkerEvent.closeFiles]
        (List.mem_singleton.mpr rfl))).2.2.1⟩

end Jbuff
